import Mathlib

/-!
# txt2qti: a shallow embedding of `strbuf.c` and `txt2qti.c`

Conventions of the embedding.

* A C string (`char *` pointing to NUL-terminated bytes) is the list of its
  bytes before the terminator (`CStr`); a nullable pointer is an `Option`.
* `size_t` is 64 bits, `int` 32 bits, `short` 16 bits.  Where the code converts
  or may wrap, the model does so explicitly.
* A function whose C execution would leave defined behaviour (a write outside
  the storage obtained, a read through `NULL`, a read past the terminator) or
  would stop the process (`exit(1)` after a failed allocation) returns `none`.
* Diagnostics written to `stderr` and the `G_debug` / `G_verbose` traces are
  not part of the state.
-/



namespace Txt2qti

/-- A C string: the bytes before the terminating NUL. -/
abbrev CStr := List Char

/-! ## `<ctype.h>` and `<string.h>` in the "C" locale -/

/-- The `isspace` of the C locale: space, `\t`, `\n`, `\v`, `\f`, `\r`. -/
def isspace (c : Char) : Bool :=
  c = ' ' || (9 ≤ c.toNat && c.toNat ≤ 13)

/-- The `ispunct` of the C locale: printable, neither alphanumeric nor space. -/
def ispunct (c : Char) : Bool :=
  (33 ≤ c.toNat && c.toNat ≤ 47) || (58 ≤ c.toNat && c.toNat ≤ 64)
    || (91 ≤ c.toNat && c.toNat ≤ 96) || (123 ≤ c.toNat && c.toNat ≤ 126)

/-- The `tolower` of the C locale. -/
def tolower (c : Char) : Char :=
  if 65 ≤ c.toNat && c.toNat ≤ 90 then Char.ofNat (c.toNat + 32) else c

/-- The loop `while (isspace(*p)) p++;`. -/
def skip_spaces : CStr → CStr
  | [] => []
  | c :: cs => if isspace c then skip_spaces cs else c :: cs

/-- Whether `strncmp(a, b, n) == 0`. -/
def strncmp_eq (a b : CStr) (n : Nat) : Bool :=
  a.take n == b.take n

/-- Whether `strcasecmp(a, b) == 0`. -/
def strcasecmp_eq (a b : CStr) : Bool :=
  a.map tolower == b.map tolower

/-- Whether `strncasecmp(a, b, n) == 0`. -/
def strncasecmp_eq (a b : CStr) (n : Nat) : Bool :=
  (a.take n).map tolower == (b.take n).map tolower

/-- The offset of the first occurrence of `needle` in `hay` (`strstr`), `none` for
a `NULL` result. -/
def strstr : CStr → CStr → Option Nat
  | [], needle => if needle.isEmpty then some 0 else none
  | c :: cs, needle =>
    if strncmp_eq (c :: cs) needle needle.length then some 0
    else (strstr cs needle).map (· + 1)

/-- The offset of the first occurrence of `needle` in `hay`, case ignored
(`strcasestr`). -/
def strcasestr : CStr → CStr → Option Nat
  | [], needle => if needle.isEmpty then some 0 else none
  | c :: cs, needle =>
    if strncasecmp_eq (c :: cs) needle needle.length then some 0
    else (strcasestr cs needle).map (· + 1)

/-- The conversion `%d` of `printf`. -/
def fmt_d (n : Int) : CStr :=
  if n < 0 then '-' :: Nat.toDigits 10 n.natAbs else Nat.toDigits 10 n.toNat

/-- The conversion `%c` of `printf` applied to an `int`: the value is converted
to `unsigned char`. -/
def fmt_c (n : Int) : Char :=
  Char.ofNat (n % 256).toNat

/-- The C string held by a buffer into which `printf` wrote the bytes `bs`: it
stops at the first NUL byte. -/
def c_str (bs : List Char) : CStr :=
  bs.takeWhile (· ≠ '\x00')

/-! ## strbuf.c -/

def CHUNK : Nat := 256

/-- The modulus of `size_t`. -/
def SIZE_MOD : Nat := 2 ^ 64

/-- The largest size an allocation can have (`PTRDIFF_MAX`); `malloc` and
`realloc` fail above it and the code then calls `exit(1)`. -/
def ALLOC_MAX : Nat := 2 ^ 63 - 1

/-- The `STRBUF` of strbuf.h.  `s` is the C string stored at the pointer, `none`
for `NULL`. -/
structure STRBUF where
  len : Nat
  curlen : Nat
  s : Option CStr
deriving DecidableEq, Repr

/-- The state after `strbuf_init`. -/
def strbuf_init : STRBUF := { len := 0, curlen := 0, s := none }

/-- The function `strbuf_clear`: the content is emptied, the storage is kept. -/
def strbuf_clear (sb : STRBUF) : STRBUF :=
  if sb.len ≠ 0 then { sb with s := sb.s.map (fun _ => []), curlen := 0 } else sb

/-- The conversion `(int)required` of a `size_t`. -/
def to_int (n : Nat) : Int :=
  if n % 2 ^ 32 < 2 ^ 31 then ((n % 2 ^ 32 : Nat) : Int)
  else ((n % 2 ^ 32 : Nat) : Int) - 2 ^ 32

/-- Lines 94-95 and 124-125 of strbuf.c: `required` rounded to a multiple of
`CHUNK`.  The division and the product are `int` operations (a product outside
`int` is undefined), the result is converted back to `size_t`. -/
def round_required (required : Nat) : Option Nat :=
  if required % CHUNK = 0 then some required
  else
    let r : Int := (CHUNK : Int) * (1 + (to_int required).tdiv (CHUNK : Int))
    if r < -(2 ^ 31) ∨ 2 ^ 31 ≤ r then none
    else some (r % (SIZE_MOD : Int)).toNat

/-- The function `strbuf_add` for a non-NULL `s`. -/
def strbuf_add (sb : STRBUF) (s : CStr) : Option STRBUF :=
  match round_required ((sb.curlen + s.length + 1) % SIZE_MOD) with
  | none => none
  | some required =>
    if sb.len = 0 then
      -- malloc(required); strcpy(sb->s, s)
      if required ≤ ALLOC_MAX ∧ s.length + 1 ≤ required then
        some { len := required, curlen := s.length, s := some s }
      else none
    else
      match sb.s with
      | none => none
      | some t =>
        if required > sb.len then
          -- realloc(sb->s, required); strcat(sb->s, s)
          if required ≤ ALLOC_MAX ∧ t.length + s.length + 1 ≤ required then
            some { len := required, curlen := (t ++ s).length, s := some (t ++ s) }
          else none
        else
          -- strcat(sb->s, s)
          if t.length + s.length + 1 ≤ sb.len then
            some { len := sb.len, curlen := (t ++ s).length, s := some (t ++ s) }
          else none

/-- The function `strbuf_addc` for a byte `c` of a C string (never NUL).  The test
`sb->curlen >= (sb->len - 1)` is evaluated in `size_t` arithmetic, where `0 - 1`
is `SIZE_MAX`; the two stores need `curlen + 1 < len`. -/
def strbuf_addc (sb : STRBUF) (c : Char) : Option STRBUF :=
  let grown : Option STRBUF :=
    if sb.curlen ≥ (if sb.len = 0 then SIZE_MOD - 1 else sb.len - 1) then
      let required := (sb.len + CHUNK) % SIZE_MOD
      if required ≤ ALLOC_MAX then
        some { sb with len := required, s := if sb.len = 0 then some [] else sb.s }
      else none
    else some sb
  match grown with
  | none => none
  | some sb1 =>
    match sb1.s with
    | none => none
    | some t =>
      if sb1.curlen + 1 < sb1.len then
        -- sb->s[curlen] = c; sb->s[curlen + 1] = 0: bytes after an earlier NUL stay hidden
        some { sb1 with curlen := sb1.curlen + 1,
                        s := some (if sb1.curlen ≤ t.length then t.take sb1.curlen ++ [c]
                                   else t) }
      else none

/-! ## txt2qti.c: constants and types -/

def CHOICE_ID_LEN : Nat := 10
def CHOICE_ALLOC : Nat := 5
def MAX_ROMAN : Nat := 20
def LINE_LEN : Nat := 4000

/-- The largest `int`. -/
def INT_MAX : Int := 2147483647

def QTYPE_MULTCHOICE : Nat := 1
def QTYPE_MULTANSW : Nat := 4

def START_CODE : CStr := "<pre>".toList
def END_CODE : CStr := "</pre>".toList

/-- The parser states `STATE_NONE` .. `STATE_ANSWER`. -/
inductive STATE where
  | STATE_NONE | STATE_QUESTION | STATE_CHOICE | STATE_ANSWER
deriving DecidableEq, Repr

/-- The numbering styles `FMT_NONE` .. `FMT_LROMAN`. -/
inductive FMT where
  | FMT_NONE | FMT_UNKNOWN | FMT_NUMERICAL | FMT_ULETTER | FMT_LLETTER | FMT_UROMAN | FMT_LROMAN
deriving DecidableEq, Repr

open STATE FMT

/-- The struct `num_fmt`. -/
structure NUM_FMT_T where
  style : FMT
  sep : Char
deriving DecidableEq, Repr

/-- The struct `choice`; `feedback` is only ever set to `NULL` and is left out.
`correct` only ever holds 0 or 1. -/
structure CHOICE_T where
  id : Option CStr
  correct : Bool
  text : Option CStr
deriving DecidableEq, Repr

/-- The table `G_roman`, as it is in the source. -/
def G_roman : List CStr :=
  ["I", "II", "III", "IV", "V",
   "V", "VII", "VIII", "IX", "X",
   "XI", "XII", "XIII", "XIV", "XV",
   "XVI", "XVII", "XVIII", "XIX", "XX"].map String.toList

/-- The function `trimstr`: trailing whitespace is cut. -/
def trimstr (p : CStr) : CStr :=
  (p.reverse.dropWhile isspace).reverse

/-- The function `trimstr2`: trailing whitespace and punctuation are cut. -/
def trimstr2 (p : CStr) : CStr :=
  (p.reverse.dropWhile (fun c => isspace c || ispunct c)).reverse

/-! ## html_safe_stradd -/

/-- The loop of `html_safe_stradd` (lines 130-152). -/
def html_safe_stradd_loop (sp : STRBUF) : CStr → Option STRBUF
  | [] => some sp
  | c :: p =>
    (if c = '<' then strbuf_add sp "&lt;".toList
     else if c = '>' then strbuf_add sp "&gt;".toList
     else if c = '"' then strbuf_add sp "&quot;".toList
     else if c = '#' then strbuf_add sp "&#35;".toList
     else if c = '&' then strbuf_add sp "&amp;".toList
     else strbuf_addc sp c).bind (fun sp1 => html_safe_stradd_loop sp1 p)

/-- The function `html_safe_stradd`; a `NULL` string leaves the buffer alone. -/
def html_safe_stradd (sp : STRBUF) (s : Option CStr) : Option STRBUF :=
  match s with
  | none => some sp
  | some s => html_safe_stradd_loop sp s

/-! ## next_fmt -/

/-- The function `next_fmt`.  `next` is the content of the caller's buffer before
the call.  The outer `none` is a read outside `G_roman` (negative index) or an
`int` sum above `INT_MAX`; the inner result is `none` for a `NULL` return (buffer untouched) and otherwise the
content of the buffer after the call.  For a roman style and `num >= MAX_ROMAN`
nothing is written and the buffer is returned as it was. -/
def next_fmt (num : Int) (next : CStr) (format : NUM_FMT_T) : Option (Option CStr) :=
  match format.style with
  | FMT_NONE => some none
  | FMT_UNKNOWN => some none
  | FMT_NUMERICAL =>
    if num + 1 ≤ INT_MAX then some (some (c_str (fmt_d (num + 1) ++ [format.sep]))) else none
  | FMT_ULETTER =>
    if 65 + num ≤ INT_MAX then some (some (c_str [fmt_c (65 + num), format.sep])) else none
  | FMT_LLETTER =>
    if 97 + num ≤ INT_MAX then some (some (c_str [fmt_c (97 + num), format.sep])) else none
  | FMT_UROMAN =>
    if num < MAX_ROMAN then
      if 0 ≤ num then
        (G_roman.get? num.toNat).map (fun r => some (c_str (r ++ [format.sep])))
      else none
    else some (some next)
  | FMT_LROMAN =>
    if num < MAX_ROMAN then
      if 0 ≤ num then
        (G_roman.get? num.toNat).map (fun r => some (c_str (r.map tolower ++ [format.sep])))
      else none
    else some (some next)

/-! ## qti_1_2 and process_question -/

/-- A run of consecutive calls `strbuf_add(&s, x)`, one per element of the list,
in order. -/
def strbuf_adds (s : STRBUF) : List CStr → Option STRBUF
  | [] => some s
  | x :: xs => (strbuf_add s x).bind (fun s1 => strbuf_adds s1 xs)

/-- Lines 336-348 of `qti_1_2`: one `<response_label>` per slot that has an id. -/
def qti_1_2_labels (numstr : CStr) : STRBUF → List CHOICE_T → Option STRBUF
  | s, [] => some s
  | s, ch :: rest =>
    match ch.id with
    | some id =>
      (strbuf_adds s
        ["    <response_label ident=\"q".toList, numstr, "_".toList, id, "\">\n".toList,
         "     <material><mattext texttype=\"text/plain\">".toList]).bind fun s1 =>
      (html_safe_stradd s1 ch.text).bind fun s2 =>
      (strbuf_adds s2
        ["</mattext></material>\n".toList, "    </response_label>\n".toList]).bind fun s3 =>
      qti_1_2_labels numstr s3 rest
    | none => qti_1_2_labels numstr s rest

/-- Lines 360-365 of `qti_1_2`: the slot at which the search loop stops, if it
stops inside the array (`i < qchoicecnt`). -/
def qti_1_2_first : List CHOICE_T → Option CHOICE_T
  | [] => none
  | ch :: rest =>
    if ch.id.isSome && !ch.correct then qti_1_2_first rest else some ch

/-- Lines 366-374 of `qti_1_2`: the condition of a `QTYPE_MULTCHOICE` item. -/
def qti_1_2_single (numstr : CStr) (s : STRBUF) (qchoices : List CHOICE_T) : Option STRBUF :=
  match qti_1_2_first qchoices with
  | none => some s
  | some ch =>
    match ch.id with
    | none => some s
    | some id =>
      strbuf_adds s
        ["    <varequal respident=\"r".toList, numstr, "\">q".toList, numstr, "_".toList, id,
         "</varequal>\n".toList]

/-- Lines 379-405 of `qti_1_2`: the loop of the other item types; it stops at the
first slot without an id. -/
def qti_1_2_multi (numstr : CStr) : STRBUF → List CHOICE_T → Option STRBUF
  | s, [] => some s
  | s, ch :: rest =>
    match ch.id with
    | none => some s
    | some id =>
      (if !ch.correct then
        strbuf_adds s
          ["     <not>\n".toList, "      <varequal respident=\"r".toList, numstr, "_".toList, id,
           "\">q".toList, numstr, "_".toList, id, "</varequal>\n".toList, "     </not>\n".toList]
      else
        strbuf_adds s
          ["     <varequal respident=\"r".toList, numstr, "_".toList, id,
           "\">q".toList, numstr, "_".toList, id, "</varequal>\n".toList]).bind fun s1 =>
      qti_1_2_multi numstr s1 rest

/-- Lines 359-407 of `qti_1_2`: what is written between `<conditionvar>` and
`</conditionvar>`. -/
def qti_1_2_condition (numstr : CStr) (qtype : Nat) (s : STRBUF) (qchoices : List CHOICE_T) :
    Option STRBUF :=
  if QTYPE_MULTCHOICE = qtype then qti_1_2_single numstr s qchoices
  else
    (strbuf_add s "    <and>\n".toList).bind fun s1 =>
    (qti_1_2_multi numstr s1 qchoices).bind fun s2 =>
    strbuf_add s2 "    </and>\n".toList

/-- The function `qti_1_2`.  `qchoices` is the array and `qchoicecnt` the number
of its slots the loops may visit; the result is the pointer `s.s`. -/
def qti_1_2 (qnum : Int) (qtype : Nat) (qtext : Option CStr) (qchoices : List CHOICE_T)
    (qchoicecnt : Nat) (ident : CStr) : Option (Option CStr) :=
  if qchoicecnt > qchoices.length then none else
  let numstr := fmt_d qnum
  (strbuf_adds strbuf_init
    ["<item title=\"Question ".toList, numstr, "\" ident=\"txt2qti_".toList, ident, "_q".toList,
     numstr, "\">\n".toList, " <presentation>\n".toList, "  <material>\n".toList,
     "   <mattext texttype=\"text/html\">\n".toList, "    ".toList]).bind fun s1 =>
  (html_safe_stradd s1 qtext).bind fun s2 =>
  (strbuf_adds s2
    ["   </mattext>\n".toList, "  </material>\n".toList, "  <response_lid ident=\"rq".toList,
     numstr, "\"".toList,
     if QTYPE_MULTCHOICE = qtype then " rcardinality=\"Single\">\n".toList
     else " rcardinality=\"Multiple\">\n".toList,
     "   <render_choice shuffle=\"No\">\n".toList]).bind fun s3 =>
  (qti_1_2_labels numstr s3 (qchoices.take qchoicecnt)).bind fun s4 =>
  (strbuf_adds s4
    ["   </render_choice>\n".toList, "  </response_lid>\n".toList, " </presentation>\n".toList,
     " <resprocessing>\n".toList, "  <outcomes>\n".toList,
     "   <decvar maxvalue=\"100\" minvalue=\"0\" ".toList,
     "varname=\"SCORE\" vartype=\"Integer\" defaultval=\"0\"/>\n".toList,
     "  </outcomes>\n".toList, "  <respcondition continue=\"No\">\n".toList,
     "   <conditionvar>\n".toList]).bind fun s5 =>
  (qti_1_2_condition numstr qtype s5 (qchoices.take qchoicecnt)).bind fun s6 =>
  (strbuf_adds s6
    ["   </conditionvar>\n".toList,
     "   <setvar action=\"Set\" varname=\"SCORE\">100</setvar>\n".toList,
     "  </respcondition>\n".toList, " </resprocessing>\n".toList,
     "</item>\n".toList]).bind fun s7 =>
  some s7.s

/-- The conversion of an `int` value to `short`. -/
def to_short (n : Int) : Int :=
  (n + 2 ^ 15) % 2 ^ 16 - 2 ^ 15

/-- Lines 435-439 of `process_question`: the count of correct slots that have an
id, kept in a `short`. -/
def count_correct (acc : Int) : List CHOICE_T → Int
  | [] => acc
  | ch :: rest =>
    count_correct (if ch.id.isSome then to_short (acc + (if ch.correct then 1 else 0)) else acc) rest

/-- Lines 440-444 of `process_question`: the item type. -/
def question_type (qchoices : List CHOICE_T) (qchoicecnt : Nat) : Nat :=
  if count_correct 0 (qchoices.take qchoicecnt) = 1 then QTYPE_MULTCHOICE else QTYPE_MULTANSW

/-- The function `process_question`. -/
def process_question (qnum : Int) (qtext : Option CStr) (qchoices : List CHOICE_T)
    (qchoicecnt : Nat) (ident : CStr) : Option (Option CStr) :=
  if qchoicecnt > qchoices.length then none
  else qti_1_2 qnum (question_type qchoices qchoicecnt) qtext qchoices qchoicecnt ident

/-! ## Buffers in their regular states -/

/-- A buffer as `strbuf.c` keeps it: fresh, or allocated with `curlen` the length
of the stored string and room for its terminator. -/
def STRBUF.Ok (sb : STRBUF) : Prop :=
  sb.len < 2 ^ 62 ∧
  ((sb.len = 0 ∧ sb.curlen = 0 ∧ sb.s = none) ∨
   (∃ t, sb.s = some t ∧ sb.curlen = t.length ∧ t.length < sb.len))

/-- The stored string, empty for a fresh buffer. -/
def STRBUF.content (sb : STRBUF) : CStr := sb.s.getD []

/-- `required` rounded up to a multiple of `CHUNK`, without wrap. -/
def round_up (required : Nat) : Nat :=
  if required % CHUNK = 0 then required else CHUNK * (1 + required / CHUNK)

/-- The buffer after a successful `strbuf_add(sb, s)`. -/
def STRBUF.app (sb : STRBUF) (s : CStr) : STRBUF :=
  { len := if sb.len = 0 ∨ round_up (sb.curlen + s.length + 1) > sb.len
           then round_up (sb.curlen + s.length + 1) else sb.len
    curlen := (sb.content ++ s).length
    s := some (sb.content ++ s) }


/-- The buffer after a successful `strbuf_addc(sb, c)`. -/
def STRBUF.appc (sb : STRBUF) (c : Char) : STRBUF :=
  { len := if sb.curlen + 1 ≥ sb.len then sb.len + CHUNK else sb.len
    curlen := sb.curlen + 1
    s := some (sb.content ++ [c]) }

/-- The buffer after a run of successful `strbuf_add` calls. -/
def STRBUF.apps (sb : STRBUF) : List CStr → STRBUF
  | [] => sb
  | x :: xs => STRBUF.apps (sb.app x) xs

/-- The text of a run of appended strings. -/
def concat_all : List CStr → CStr
  | [] => []
  | x :: xs => x ++ concat_all xs

/-- The entity `html_safe_stradd` writes for one character (its `switch`). -/
def html_entity (c : Char) : CStr :=
  if c = '<' then "&lt;".toList
  else if c = '>' then "&gt;".toList
  else if c = '"' then "&quot;".toList
  else if c = '#' then "&#35;".toList
  else if c = '&' then "&amp;".toList
  else [c]

/-- The escaping of the specification: every character replaced by its entity,
in order. -/
def Escape : CStr → CStr
  | [] => []
  | c :: p => html_entity c ++ Escape p

/-! ## The text written by the serializer -/

/-- The text `html_safe_stradd` appends for a nullable string. -/
def escape_opt : Option CStr → CStr
  | none => []
  | some t => Escape t

/-- The `<varequal>` line of a `QTYPE_MULTCHOICE` item (lines 367-373). -/
def varequal_single (numstr id : CStr) : CStr :=
  concat_all ["    <varequal respident=\"r".toList, numstr, "\">q".toList, numstr, "_".toList, id,
    "</varequal>\n".toList]

/-- The `<varequal>` line of a correct choice in the `<and>` block (lines 394-402). -/
def varequal_pos (numstr id : CStr) : CStr :=
  concat_all ["     <varequal respident=\"r".toList, numstr, "_".toList, id,
    "\">q".toList, numstr, "_".toList, id, "</varequal>\n".toList]

/-- The `<not>` element of an incorrect choice in the `<and>` block (lines 382-392). -/
def varequal_neg (numstr id : CStr) : CStr :=
  concat_all ["     <not>\n".toList, "      <varequal respident=\"r".toList, numstr, "_".toList, id,
    "\">q".toList, numstr, "_".toList, id, "</varequal>\n".toList, "     </not>\n".toList]

/-- The `<response_label>` element of one choice (lines 338-346). -/
def response_label (numstr id : CStr) (text : Option CStr) : CStr :=
  concat_all ["    <response_label ident=\"q".toList, numstr, "_".toList, id, "\">\n".toList,
    "     <material><mattext texttype=\"text/plain\">".toList] ++ escape_opt text ++
  concat_all ["</mattext></material>\n".toList, "    </response_label>\n".toList]

/-- The text written by the loop of lines 336-348. -/
def labels_text (numstr : CStr) : List CHOICE_T → CStr
  | [] => []
  | ch :: rest =>
    match ch.id with
    | some id => response_label numstr id ch.text ++ labels_text numstr rest
    | none => labels_text numstr rest

/-- The text written by the loop of lines 379-405. -/
def multi_text (numstr : CStr) : List CHOICE_T → CStr
  | [] => []
  | ch :: rest =>
    match ch.id with
    | none => []
    | some id =>
      (if !ch.correct then varequal_neg numstr id else varequal_pos numstr id) ++
        multi_text numstr rest

/-- The text written by lines 359-407, between `<conditionvar>` and
`</conditionvar>`. -/
def condition_text (numstr : CStr) (qtype : Nat) (qchoices : List CHOICE_T) : CStr :=
  if QTYPE_MULTCHOICE = qtype then
    match qti_1_2_first qchoices with
    | none => []
    | some ch =>
      match ch.id with
      | none => []
      | some id => varequal_single numstr id
  else "    <and>\n".toList ++ multi_text numstr qchoices ++ "    </and>\n".toList

/-- The text written by lines 312-335, up to `<render_choice>`. -/
def item_open (numstr : CStr) (qtype : Nat) (qtext : Option CStr) (ident : CStr) : CStr :=
  concat_all ["<item title=\"Question ".toList, numstr, "\" ident=\"txt2qti_".toList, ident,
     "_q".toList, numstr, "\">\n".toList, " <presentation>\n".toList, "  <material>\n".toList,
     "   <mattext texttype=\"text/html\">\n".toList, "    ".toList] ++ escape_opt qtext ++
  concat_all ["   </mattext>\n".toList, "  </material>\n".toList,
     "  <response_lid ident=\"rq".toList, numstr, "\"".toList,
     if QTYPE_MULTCHOICE = qtype then " rcardinality=\"Single\">\n".toList
     else " rcardinality=\"Multiple\">\n".toList,
     "   <render_choice shuffle=\"No\">\n".toList]

/-- The text written by lines 349-358, from `</render_choice>` to `<conditionvar>`. -/
def item_middle : CStr :=
  concat_all ["   </render_choice>\n".toList, "  </response_lid>\n".toList,
     " </presentation>\n".toList, " <resprocessing>\n".toList, "  <outcomes>\n".toList,
     "   <decvar maxvalue=\"100\" minvalue=\"0\" ".toList,
     "varname=\"SCORE\" vartype=\"Integer\" defaultval=\"0\"/>\n".toList,
     "  </outcomes>\n".toList, "  <respcondition continue=\"No\">\n".toList,
     "   <conditionvar>\n".toList]

/-- The text written by lines 408-412, from `</conditionvar>` on. -/
def item_close : CStr :=
  concat_all ["   </conditionvar>\n".toList,
     "   <setvar action=\"Set\" varname=\"SCORE\">100</setvar>\n".toList,
     "  </respcondition>\n".toList, " </resprocessing>\n".toList, "</item>\n".toList]

/-- The whole item fragment: the text `qti_1_2` builds. -/
def item_text (qnum : Int) (qtype : Nat) (qtext : Option CStr) (qchoices : List CHOICE_T)
    (ident : CStr) : CStr :=
  item_open (fmt_d qnum) qtype qtext ident ++ labels_text (fmt_d qnum) qchoices ++ item_middle ++
    condition_text (fmt_d qnum) qtype qchoices ++ item_close

/-- The number of correct choices among the slots that have an id, as a natural
number. -/
def correct_count (L : List CHOICE_T) : Nat :=
  L.countP (fun ch => ch.id.isSome && ch.correct)

/-- The condition `qti_1_2` writes for one labelled choice inside `<and>`: the
positive line when the choice is correct, the `<not>` element otherwise. -/
def cond_line (numstr : CStr) (ch : CHOICE_T) : CStr :=
  if ch.correct then varequal_pos numstr (ch.id.getD []) else varequal_neg numstr (ch.id.getD [])

/-- Whether the character `a` is somewhere immediately followed by `b`. -/
def has_pair (a b : Char) : List Char → Bool
  | [] => false
  | x :: rest =>
    match rest with
    | [] => false
    | y :: _ => (x == a && y == b) || has_pair a b rest

/-! ## process_file: state -/

/-- The file-scope variables that `process_file` reads or writes. -/
structure GLOBALS where
  G_mixed_format : Bool
  G_no_answers : Bool
  G_qformat : NUM_FMT_T
  G_cformat : NUM_FMT_T
  G_first_choice : CStr
deriving DecidableEq, Repr

/-- The static initialisers of lines 75-85, with the two option flags as `main`
set them. -/
def GLOBALS.start (mixed no_answers : Bool) : GLOBALS :=
  { G_mixed_format := mixed, G_no_answers := no_answers,
    G_qformat := { style := FMT_UNKNOWN, sep := '.' },
    G_cformat := { style := FMT_UNKNOWN, sep := '.' },
    G_first_choice := [] }

/-- The variables of `process_file` (lines 575-601) together with the file-scope
variables.  `code` and `roman` are never used and are left out; the array
`choices` is the list of its slots, empty for `NULL`.  The two `int` counters
hold values of the `int` range. -/
structure PF where
  g : GLOBALS
  state : STATE
  after_empty_line : Bool
  in_code : Bool
  in_block : Bool
  answer_known : Bool
  qnum : Int
  question : STRBUF
  choice : STRBUF
  choices : List CHOICE_T
  choice_cnt : Nat
  correct : Bool
  maybe_correct : Bool
  choice_num : Int
  curr_choice : CStr
  next_choice : CStr
  next_question : CStr
  xml : STRBUF
deriving DecidableEq, Repr

/-- The variables at the first iteration of the loop (lines 576-607).  The
buffers `curr_choice`, `next_choice`, `next_question` and `choice_num` are not
initialised by the code; they are written before they are read. -/
def PF.start (g : GLOBALS) (qnump : Int) : PF :=
  { g := g, state := STATE_NONE, after_empty_line := true, in_code := false, in_block := false,
    answer_known := false, qnum := qnump, question := strbuf_init, choice := strbuf_init,
    choices := [], choice_cnt := 0, correct := false, maybe_correct := false, choice_num := 0,
    curr_choice := [], next_choice := [], next_question := [], xml := strbuf_init }

/-- What one iteration of the loop of `process_file` leads to. -/
inductive STEP where
  | next (st : PF)
  | returned (g : GLOBALS)
deriving DecidableEq, Repr

/-! ## process_file: helpers -/

/-- The successive results of `fgets(line, size, fp)` on a file: a line ends
after a newline or after `size - 1` bytes.  `cur` holds, reversed, the bytes of
the line being read. -/
def fgets_lines (size : Nat) : CStr → CStr → List CStr
  | [], cur => if cur.isEmpty then [] else [cur.reverse]
  | c :: rest, cur =>
    if c = '\n' ∨ cur.length + 2 ≥ size then (c :: cur).reverse :: fgets_lines size rest []
    else fgets_lines size rest (c :: cur)

/-- An array slot as `add_choice` initialises it. -/
def empty_slot : CHOICE_T := { id := none, correct := false, text := none }

/-- The loop of lines 482-485: the first slot without an id. -/
def first_free : List CHOICE_T → Nat
  | [] => 0
  | ch :: rest => if ch.id.isSome then first_free rest + 1 else 0

/-- The function `add_choice`, on the array and its slot count; the result is the
new array and count.  Reading a slot the array does not have, and a count that
no longer fits a `short`, give `none`.  A `NULL` text changes nothing. -/
def add_choice (choices : List CHOICE_T) (choice_cnt : Nat) (id : CStr) (text : Option CStr)
    (correct : Bool) : Option (List CHOICE_T × Nat) :=
  match text with
  | none => some (choices, choice_cnt)
  | some text =>
    if choice_cnt > choices.length then none else
    let i := if choices.isEmpty then 0 else first_free (choices.take choice_cnt)
    let grown : Option (List CHOICE_T × Nat) :=
      if choices.isEmpty then some (List.replicate CHOICE_ALLOC empty_slot, CHOICE_ALLOC)
      else if i = choice_cnt then
        if choice_cnt + CHOICE_ALLOC ≤ 32767 then
          some (choices.take choice_cnt ++ List.replicate CHOICE_ALLOC empty_slot,
                choice_cnt + CHOICE_ALLOC)
        else none
      else some (choices, choice_cnt)
    grown.map fun (arr, cnt) =>
      (arr.modify (fun ch =>
          { id := if (trimstr2 id).length ≠ 0 then some (trimstr2 id) else ch.id,
            correct := correct,
            text := some (trimstr text) }) i, cnt)

/-- The function `clear_choices`: ids and texts are freed, `correct` is kept. -/
def clear_choices (choices : List CHOICE_T) (choice_cnt : Nat) : Option (List CHOICE_T) :=
  if choice_cnt > choices.length then none
  else some ((choices.take choice_cnt).map (fun ch => { ch with id := none, text := none })
    ++ choices.drop choice_cnt)

/-- The loop of `encode_question` (lines 545-569); `fuel` bounds the number of
`<pre>` openers. -/
def encode_question_loop : Nat → STRBUF → CStr → Option STRBUF
  | 0, mod_q, _ => some mod_q
  | fuel + 1, mod_q, p1 =>
    if p1.isEmpty then some mod_q else
    match strstr p1 START_CODE with
    | some k =>
      (strbuf_adds mod_q [p1.take k, START_CODE]).bind fun m1 =>
      let p1 := p1.drop (k + START_CODE.length)
      match strstr p1 END_CODE with
      | some j =>
        (html_safe_stradd m1 (some (p1.take j))).bind fun m2 =>
        (strbuf_add m2 END_CODE).bind fun m3 =>
        encode_question_loop fuel m3 (p1.drop (j + END_CODE.length))
      | none =>
        (html_safe_stradd m1 (some p1)).bind fun m2 =>
        strbuf_add m2 END_CODE
    | none => strbuf_add mod_q p1

/-- The function `encode_question`; the result is the pointer `mod_q.s`. -/
def encode_question (q : Option CStr) : Option (Option CStr) :=
  match q with
  | none => some none
  | some q => (encode_question_loop (q.length + 1) strbuf_init q).map (fun m => m.s)

/-- The loop of lines 630-639: every `</pre>` found clears `in_code` and the scan
resumes 7 bytes after its start; a resumption past the terminator is `none`.
The result is the flag and the rest of the line to scan. -/
def scan_end_code : Nat → Bool → CStr → Option (Bool × CStr)
  | 0, in_code, s2 => some (in_code, s2)
  | fuel + 1, in_code, s2 =>
    match strcasestr s2 END_CODE with
    | none => some (in_code, s2)
    | some k => if k + 7 ≤ s2.length then scan_end_code fuel false (s2.drop (k + 7)) else none

/-- Lines 627-647: the value of `in_code` after the scan of the line. -/
def scan_code (in_code : Bool) (p : CStr) : Option Bool :=
  (scan_end_code (p.length + 1) in_code p).map fun (ic, s2) =>
    if (strcasestr s2 START_CODE).isSome then true else ic

/-- The inner `switch (*p)` of lines 668-686 and 783-801: the style a leading
character stands for. -/
def style_of (c : Char) (old : FMT) : FMT :=
  if c = 'A' then FMT_ULETTER
  else if c = 'a' then FMT_LLETTER
  else if c = '1' then FMT_NUMERICAL
  else if c = 'i' then FMT_LROMAN
  else if c = 'I' then FMT_UROMAN
  else old

/-- Whether a character is one of the five `case` labels `A a 1 i I`. -/
def is_first_label (c : Char) : Bool :=
  c = 'A' || c = 'a' || c = '1' || c = 'i' || c = 'I'

/-- Lines 657-698: the detection of the question numbering; the result is the
new `G_qformat` and the new `p`. -/
def detect_qformat (q : NUM_FMT_T) (p : CStr) : NUM_FMT_T × CStr :=
  match p with
  | c :: d :: rest =>
    if is_first_label c then
      if d = '.' ∨ d = ')' ∨ d = '-' then ({ style := style_of c q.style, sep := d }, rest)
      else ({ q with style := FMT_NONE }, p)
    else ({ q with style := FMT_NONE }, p)
  | _ => ({ q with style := FMT_NONE }, p)

/-- A call `next_fmt(num, buf, format)` on one of the `CHOICE_ID_LEN` byte arrays
of `process_file`: the new content of the array (unchanged on a `NULL`
result); `none` when `sprintf` writes past the array. -/
def next_label (num : Int) (buf : CStr) (format : NUM_FMT_T) : Option CStr :=
  match next_fmt num buf format with
  | none => none
  | some none => some buf
  | some (some b) => if b.length < CHOICE_ID_LEN then some b else none

/-! ## process_file: one line -/

/-- Lines 710-724, after the numbering of the question line has been dealt with:
`p` is the rest of the line.  `qnum++` at `INT_MAX` is undefined. -/
def begin_question (st : PF) (p : CStr) : Option STEP :=
  let blk := strncasecmp_eq p "<block>".toList 7
  if st.qnum + 1 > INT_MAX then none else
  (strbuf_add st.question (if blk then p.drop 7 else p)).map fun q =>
    STEP.next { st with state := STATE_QUESTION, in_block := blk || st.in_block,
                        qnum := st.qnum + 1, question := q, answer_known := false,
                        correct := false, maybe_correct := false }

/-- The case `STATE_NONE` (lines 651-725). -/
def case_STATE_NONE (st : PF) (p : CStr) : Option STEP :=
  if st.g.G_qformat.style = FMT_UNKNOWN then
    begin_question { st with g := { st.g with G_qformat := (detect_qformat st.g.G_qformat p).1 } }
      (detect_qformat st.g.G_qformat p).2
  else if st.g.G_qformat.style ≠ FMT_NONE then
    if st.qnum + 1 > INT_MAX then none else
    match next_fmt (st.qnum + 1) st.next_question st.g.G_qformat with
    | none => none
    | some none => some (STEP.returned st.g)
    | some (some b) =>
      if b.length < CHOICE_ID_LEN then begin_question { st with next_question := b } p else none
  else
    begin_question
      { st with g := { st.g with G_qformat := { st.g.G_qformat with style := FMT_NONE } } } p

/-- The test of lines 763-776 on `s`, the line after an optional `*`: one of
`A a 1 i I` followed by `.`, `)`, `-`, or by whitespace when the character is
`1` or `i`. -/
def is_first_choice (s : CStr) : Bool :=
  match s with
  | c :: d :: _ =>
    is_first_label c &&
      (d = '.' || d = ')' || d = '-' || (isspace d && c ≠ 'I' && c ≠ 'a' && c ≠ 'A'))
  | _ => false

/-- Lines 822-839: the line stays in the question. -/
def still_question (st : PF) (p : CStr) : Option PF :=
  match strcasestr p "</block>".toList with
  | some k =>
    (strbuf_add st.question (p.take k)).bind fun q1 =>
    (if (p.drop (k + 8)).isEmpty then some q1 else strbuf_add q1 (p.drop (k + 8))).map fun q2 =>
      { st with maybe_correct := false, in_block := false, question := q2 }
  | none =>
    (if p.isEmpty then some st.question else strbuf_add st.question p).map fun q1 =>
      { st with maybe_correct := false, question := q1 }

/-- Lines 841-851: the line starts the first choice; `p` is its text. -/
def first_choice_text (st : PF) (maybe_correct : Bool) (p : CStr) : Option PF :=
  (strbuf_add st.choice p).map fun ch =>
    { st with correct := if maybe_correct then true else st.correct,
              answer_known := if maybe_correct then true else st.answer_known,
              maybe_correct := false, choice := ch }

/-- The case `STATE_QUESTION` (lines 726-852). -/
def case_STATE_QUESTION (st : PF) (p : CStr) : Option PF :=
  let maybe_correct : Bool := p.head? = some '*'
  let s := if maybe_correct then p.drop 1 else p
  if !st.g.G_mixed_format && st.g.G_first_choice.length ≠ 0
      && strncmp_eq s st.g.G_first_choice st.g.G_first_choice.length then
    (next_label 1 st.next_choice st.g.G_cformat).bind fun nc =>
    first_choice_text
      { st with state := STATE_CHOICE, curr_choice := st.g.G_first_choice, choice_num := 1,
                correct := false, in_code := false, in_block := false, next_choice := nc }
      maybe_correct p
  else if (st.g.G_mixed_format || st.g.G_first_choice.length = 0) && is_first_choice s then
    match s with
    | c :: d :: rest =>
      (next_label 1 st.next_choice { style := style_of c st.g.G_cformat.style, sep := d }).bind
        fun nc =>
      first_choice_text
        { st with choice_num := 1, correct := false, in_code := false, in_block := false,
                  choice := strbuf_clear st.choice,
                  g := { st.g with G_cformat := { style := style_of c st.g.G_cformat.style, sep := d } },
                  state := STATE_CHOICE, curr_choice := c_str [c, d], next_choice := nc }
        maybe_correct (skip_spaces rest)
    | _ => none
  else still_question st p

/-- The function `strtok` on the text still to be cut: the token and the text
left after it, `none` when no token is left. -/
def strtok (delims : CStr) (p : CStr) : Option (CStr × CStr) :=
  let q := p.dropWhile (fun c => delims.contains c)
  if q.isEmpty then none
  else some (q.takeWhile (fun c => !delims.contains c),
             (q.dropWhile (fun c => !delims.contains c)).drop 1)

/-- Lines 914-927: the search of the token `a` among the ids; the slot found gets
`correct = 1`.  The result is `none` when the search stops without a match. -/
def mark_answer (a : CStr) : List CHOICE_T → Option (List CHOICE_T)
  | [] => none
  | ch :: rest =>
    match ch.id with
    | none => none
    | some id =>
      if strcasecmp_eq a id then some ({ ch with correct := true } :: rest)
      else (mark_answer a rest).map (fun l => ch :: l)

/-- The loop of lines 911-930 from the token `tok` on; later tokens are cut with
the delimiters of line 929. -/
def answer_loop : Nat → Option (CStr × CStr) → List CHOICE_T → Nat → Bool →
    List CHOICE_T × Bool
  | 0, _, choices, _, answer_known => (choices, answer_known)
  | _ + 1, none, choices, _, answer_known => (choices, answer_known)
  | fuel + 1, some (a, rest), choices, choice_cnt, answer_known =>
    match mark_answer a (choices.take choice_cnt) with
    | some l =>
      answer_loop fuel (strtok " \t,)-;.".toList rest) (l ++ choices.drop choice_cnt) choice_cnt true
    | none => answer_loop fuel (strtok " \t,)-;.".toList rest) choices choice_cnt answer_known

/-- Lines 897-931: the line starts with `answer`. -/
def answer_line (st : PF) (p : CStr) : Option PF :=
  (add_choice st.choices st.choice_cnt st.curr_choice st.choice.s st.correct).bind
    fun (arr, cnt) =>
  if cnt > arr.length then none else
  let p1 := (p.drop 6).dropWhile (fun c => isspace c || ispunct c)
  let r := if p1.isEmpty then (arr, st.answer_known)
           else answer_loop (p1.length + 1) (strtok " \t,)-;.\n".toList p1) arr cnt st.answer_known
  some { st with maybe_correct := false, choices := r.1, choice_cnt := cnt,
                 choice := strbuf_clear st.choice, state := STATE_ANSWER,
                 curr_choice := if st.choice.s.isSome then trimstr2 st.curr_choice
                                else st.curr_choice,
                 answer_known := r.2 }

/-- Lines 865-892: the line starts with the expected label. `s` is the line after
an optional `*`.  `choice_num++` at `INT_MAX` is undefined. -/
def next_choice_line (st : PF) (maybe_correct : Bool) (s : CStr) : Option PF :=
  if st.choice_num + 1 > INT_MAX then none else
  (add_choice st.choices st.choice_cnt st.curr_choice st.choice.s st.correct).bind
    fun (arr, cnt) =>
  (next_label (st.choice_num + 1) st.next_choice st.g.G_cformat).bind fun nc =>
  (strbuf_add (strbuf_clear st.choice) (skip_spaces (s.drop st.next_choice.length))).map fun ch =>
    { st with choices := arr, choice_cnt := cnt, choice := ch, curr_choice := st.next_choice,
              choice_num := st.choice_num + 1, correct := maybe_correct,
              answer_known := maybe_correct || st.answer_known, maybe_correct := false,
              next_choice := nc }

/-- The case `STATE_CHOICE` (lines 853-937). -/
def case_STATE_CHOICE (st : PF) (p : CStr) : Option PF :=
  let star : Bool := p.head? = some '*'
  let s := if star then p.drop 1 else p
  if strncmp_eq s st.next_choice st.next_choice.length then
    next_choice_line st (star || st.maybe_correct) s
  else if strncasecmp_eq p "answer".toList 6 then answer_line st p
  else (strbuf_add st.choice p).map fun ch => { st with maybe_correct := false, choice := ch }

/-- Lines 941-979: a line that is empty once its leading whitespace is skipped. -/
def empty_line (ident : CStr) (st : PF) : Option PF :=
  if !st.in_code && !st.in_block then
    if st.state = STATE_ANSWER ∨
        (st.state = STATE_CHOICE ∧ (st.answer_known = true ∨ st.g.G_no_answers = true)) then
      (if st.state ≠ STATE_ANSWER then
         add_choice st.choices st.choice_cnt st.curr_choice st.choice.s st.correct
       else some (st.choices, st.choice_cnt)).bind fun (arr, cnt) =>
      (encode_question st.question.s).bind fun eq =>
      (process_question st.qnum eq arr cnt ident).bind fun q =>
      (match q with
       | some q => strbuf_add st.xml q
       | none => some st.xml).bind fun xml =>
      (clear_choices arr cnt).map fun arr2 =>
        { st with after_empty_line := true, choices := arr2, choice_cnt := cnt, xml := xml,
                  choice := strbuf_clear st.choice, question := strbuf_clear st.question,
                  state := STATE_NONE,
                  curr_choice := if st.state ≠ STATE_ANSWER ∧ st.choice.s.isSome
                                 then trimstr2 st.curr_choice else st.curr_choice }
    else some { st with after_empty_line := true }
  else (strbuf_add st.question "\n".toList).map fun q => { st with question := q }

/-- One iteration of the loop of `process_file` (lines 609-979) on the line
`fgets` returned. -/
def process_line (ident : CStr) (st : PF) (line : CStr) : Option STEP :=
  let p := if st.in_code || st.in_block then line else skip_spaces line
  if (skip_spaces line).length ≠ 0 then
    (scan_code st.in_code p).bind fun ic =>
    match st.state with
    | STATE_NONE => case_STATE_NONE { st with in_code := ic, after_empty_line := false } p
    | STATE_QUESTION =>
      (case_STATE_QUESTION { st with in_code := ic, after_empty_line := false } p).map STEP.next
    | STATE_CHOICE =>
      (case_STATE_CHOICE { st with in_code := ic, after_empty_line := false } p).map STEP.next
    | STATE_ANSWER => some (STEP.next { st with in_code := ic, after_empty_line := false })
  else (empty_line ident st).map STEP.next

/-- The loop of `process_file` over the lines of the file. -/
def process_lines (ident : CStr) : PF → List CStr → Option STEP
  | st, [] => some (STEP.next st)
  | st, line :: rest =>
    match process_line ident st line with
    | none => none
    | some (STEP.returned g) => some (STEP.returned g)
    | some (STEP.next st1) => process_lines ident st1 rest

/-- What a call of `process_file` leaves: the file-scope variables, the value of
`*qnump` and the pointer returned. -/
structure PF_RESULT where
  g : GLOBALS
  qnump : Int
  xml : Option CStr
deriving DecidableEq, Repr

/-- The function `process_file` on an open file with content `file`.  The counter
`*qnump` is read at line 588 and never written. -/
def process_file (g : GLOBALS) (file : CStr) (qnump : Int) (ident : CStr) : Option PF_RESULT :=
  match process_lines ident (PF.start g qnump) (fgets_lines LINE_LEN file []) with
  | none => none
  | some (STEP.returned g1) => some { g := g1, qnump := qnump, xml := none }
  | some (STEP.next st) => some { g := st.g, qnump := qnump, xml := st.xml.s }

/-! ## Lines and states in their regular form -/

/-- A line as `fgets` returns it before the end of the file: empty or ended by a
newline. -/
def nl_end (s : CStr) : Prop := s = [] ∨ s.getLast? = some '\n'

/-- The text `encode_question` builds (lines 545-569), `fuel` as in
`encode_question_loop`. -/
def encode_text : Nat → CStr → CStr
  | 0, _ => []
  | fuel + 1, p1 =>
    if p1.isEmpty then [] else
    match strstr p1 START_CODE with
    | some k =>
      p1.take k ++ START_CODE ++
        (match strstr (p1.drop (k + START_CODE.length)) END_CODE with
         | some j =>
           Escape ((p1.drop (k + START_CODE.length)).take j) ++ END_CODE ++
             encode_text fuel ((p1.drop (k + START_CODE.length)).drop (j + END_CODE.length))
         | none => Escape (p1.drop (k + START_CODE.length)) ++ END_CODE)
    | none => p1

/-- The pointer `encode_question` returns for the question text `q`: `NULL` for
an empty or missing text. -/
def encoded_question (q : Option CStr) : Option CStr :=
  match q with
  | none => none
  | some q => if q.isEmpty then none else some (encode_text (q.length + 1) q)

/-- The array handed to `process_question` on a closing blank line (lines
948-952): the pending choice is added unless the state is `STATE_ANSWER`. -/
def closing_choices (st : PF) : Option (List CHOICE_T × Nat) :=
  if st.state ≠ STATE_ANSWER then
    add_choice st.choices st.choice_cnt st.curr_choice st.choice.s st.correct
  else some (st.choices, st.choice_cnt)

/-- The condition of lines 945-947 under which a blank line closes the item. -/
def closes_item (st : PF) : Prop :=
  st.state = STATE_ANSWER ∨
    (st.state = STATE_CHOICE ∧ (st.answer_known = true ∨ st.g.G_no_answers = true))

/-- The variables of `process_file` after the lines `1. Q`, `A. x`, `*B. y` of a
first file (default flags). -/
def sample_choice_state : PF :=
  { PF.start (GLOBALS.start false false) 0 with
    g := { GLOBALS.start false false with
           G_qformat := { style := FMT_NUMERICAL, sep := '.' },
           G_cformat := { style := FMT_ULETTER, sep := '.' } },
    state := STATE_CHOICE, after_empty_line := false, answer_known := true, qnum := 1,
    question := strbuf_init.app " Q\n".toList,
    choice := (strbuf_clear (strbuf_init.app "x\n".toList)).app "y\n".toList,
    choices := [{ id := some ['A'], correct := false, text := some ['x'] },
                empty_slot, empty_slot, empty_slot, empty_slot],
    choice_cnt := 5, correct := true, choice_num := 2,
    curr_choice := "B.".toList, next_choice := "C.".toList }

/-! ## The two-question document of the end-to-end example -/

/-- A text of the example: one line, without markup, of moderate length. -/
def plain_text (t : CStr) : Prop := '\n' ∉ t ∧ '<' ∉ t ∧ t.length ≤ 1000

/-- The document: question `1.` with the choices `A.`, `*B.`, `C.`, a blank line,
then the question `2.`. -/
def two_question_doc (t x y z t2 : CStr) : CStr :=
  "1. ".toList ++ t ++ "\n".toList ++ ("A. ".toList ++ x ++ "\n".toList ++
    ("*B. ".toList ++ y ++ "\n".toList ++ ("C. ".toList ++ z ++ "\n".toList ++
      ("\n".toList ++ ("2. ".toList ++ t2 ++ "\n".toList)))))

/-- The text `add_choice` records for a choice line whose text after the label
and one space is `x`. -/
def choice_text (x : CStr) : CStr := trimstr (skip_spaces (x ++ ['\n']))

/-- The fragment the example document produces. -/
def doc_fragment (t x y z ident : CStr) : CStr :=
  item_open ['1'] QTYPE_MULTCHOICE (some (' ' :: t ++ ['\n'])) ident ++
    (response_label ['1'] ['A'] (some (choice_text x)) ++
     (response_label ['1'] ['B'] (some (choice_text y)) ++
      response_label ['1'] ['C'] (some (choice_text z)))) ++
    item_middle ++ "    <varequal respident=\"r1\">q1_B</varequal>\n".toList ++ item_close

/-- The variables after the line `1. <t>`. -/
def doc_state1 (t : CStr) : PF :=
  { PF.start (GLOBALS.start false false) 0 with
    g := { GLOBALS.start false false with G_qformat := { style := FMT_NUMERICAL, sep := '.' } },
    state := STATE_QUESTION, after_empty_line := false, qnum := 1,
    question := strbuf_init.app (' ' :: t ++ ['\n']) }

/-- The variables after the line `A. <x>`. -/
def doc_state2 (t x : CStr) : PF :=
  { doc_state1 t with
    g := { (doc_state1 t).g with G_cformat := { style := FMT_ULETTER, sep := '.' } },
    state := STATE_CHOICE, choice_num := 1,
    choice := strbuf_init.app (skip_spaces (x ++ ['\n'])),
    curr_choice := ['A', '.'], next_choice := ['B', '.'] }

/-- The variables after the line `*B. <y>`. -/
def doc_state3 (t x y : CStr) : PF :=
  { doc_state2 t x with
    choices := [{ id := some ['A'], correct := false, text := some (choice_text x) },
                empty_slot, empty_slot, empty_slot, empty_slot],
    choice_cnt := 5,
    choice := (strbuf_clear (doc_state2 t x).choice).app (skip_spaces (y ++ ['\n'])),
    curr_choice := ['B', '.'], next_choice := ['C', '.'], choice_num := 2,
    correct := true, answer_known := true }

/-- The variables after the line `C. <z>`. -/
def doc_state4 (t x y z : CStr) : PF :=
  { doc_state3 t x y with
    choices := [{ id := some ['A'], correct := false, text := some (choice_text x) },
                { id := some ['B'], correct := true, text := some (choice_text y) },
                empty_slot, empty_slot, empty_slot],
    choice := (strbuf_clear (doc_state3 t x y).choice).app (skip_spaces (z ++ ['\n'])),
    curr_choice := ['C', '.'], next_choice := ['D', '.'], choice_num := 3,
    correct := false }

/-- The variables after the blank line. -/
def doc_state5 (t x y z ident : CStr) : PF :=
  { doc_state4 t x y z with
    after_empty_line := true,
    choices := [{ id := none, correct := false, text := none },
                { id := none, correct := true, text := none },
                { id := none, correct := false, text := none }, empty_slot, empty_slot],
    xml := strbuf_init.app (doc_fragment t x y z ident),
    choice := strbuf_clear (doc_state4 t x y z).choice,
    question := strbuf_clear (doc_state4 t x y z).question,
    state := STATE_NONE, curr_choice := ['C'] }

/-- The variables after the line `2. <t2>`. -/
def doc_state6 (t x y z t2 ident : CStr) : PF :=
  { doc_state5 t x y z ident with
    next_question := ['3', '.'], state := STATE_QUESTION, after_empty_line := false, qnum := 2,
    question := (doc_state5 t x y z ident).question.app ('2' :: '.' :: ' ' :: t2 ++ ['\n']),
    answer_known := false, correct := false }


/-! ## The standard roman numerals -/

/-- The standard roman numeral of `n`, for `n` from 1 to 39: one `X` per ten, then
the numeral of the units.  This is written from the usual rule, independently of
the table `G_roman`. -/
def standard_roman (n : Nat) : CStr :=
  List.replicate (n / 10) 'X' ++
    (match n % 10 with
     | 1 => "I" | 2 => "II" | 3 => "III" | 4 => "IV" | 5 => "V"
     | 6 => "VI" | 7 => "VII" | 8 => "VIII" | 9 => "IX" | _ => "").toList

/-- The file-scope variables after one iteration of the loop. -/
def STEP.globals : STEP → GLOBALS
  | STEP.next st => st.g
  | STEP.returned g => g

/-! ## strbuf.c: the other functions -/

/-- The function `strbuf_dispose`. -/
def strbuf_dispose (sb : STRBUF) : STRBUF :=
  if sb.len ≠ 0 then { len := 0, curlen := 0, s := none } else sb

/-- The function `strbuf_unquote`.  The bytes after the terminator are not part of
the state, so a `curlen` that is not the length of the stored string gives
`none`, and so does a loop index past `INT_MAX`. -/
def strbuf_unquote (sb : STRBUF) : Option STRBUF :=
  if sb.len ≠ 0 ∧ sb.curlen > 1 then
    match sb.s with
    | none => none
    | some t =>
      if sb.curlen ≠ t.length then none
      else if (t.head? = some '\'' ∨ t.head? = some '"') ∧ t.getLast? = t.head? then
        -- for (i = 1; i < curlen - 1; i++) s[i - 1] = s[i]; curlen -= 2; s[curlen] = 0
        if ((sb.curlen - 1 : Nat) : Int) > INT_MAX then none
        else some { sb with curlen := sb.curlen - 2, s := some ((t.drop 1).take (sb.curlen - 2)) }
      else some sb
  else some sb

/-- The function `strbuf_trim`: the trailing whitespace is cut first (lines 67-71),
then the leading whitespace is counted and the rest shifted (lines 72-84).  A
`curlen` that is not the length of the stored string gives `none`, and so does a
loop index past `INT_MAX`. -/
def strbuf_trim (sb : STRBUF) : Option STRBUF :=
  if sb.len ≠ 0 ∧ sb.curlen ≠ 0 then
    match sb.s with
    | none => none
    | some t =>
      if sb.curlen ≠ t.length then none
      else
        let t1 := (t.reverse.dropWhile isspace).reverse
        let start := (t1.takeWhile isspace).length
        if start ≠ 0 ∧ (t1.length : Int) > INT_MAX then none
        else some { sb with curlen := t1.length - start, s := some (t1.drop start) }
  else some sb

/-- The function `strbuf_nadd` for a non-NULL `s`.  On a fresh buffer `strncpy`
writes `len` bytes and line 134 one more.  Otherwise `strncat` is called with the
bound `sb->curlen + len`: it writes the stored string's end, up to that many bytes
of `s` and a terminator, and line 144 writes at `curlen + len`; every write has to
lie inside the storage. -/
def strbuf_nadd (sb : STRBUF) (s : CStr) (len : Nat) : Option STRBUF :=
  match round_required ((sb.curlen + len + 1) % SIZE_MOD) with
  | none => none
  | some required =>
    if sb.len = 0 then
      if required ≤ ALLOC_MAX ∧ len + 1 ≤ required then
        some { len := required, curlen := (s.take len).length, s := some (s.take len) }
      else none
    else
      match sb.s with
      | none => none
      | some t =>
        let cap := if required > sb.len then required else sb.len
        if (required > sb.len → required ≤ ALLOC_MAX) ∧
            t.length + (s.take (sb.curlen + len)).length + 1 ≤ cap ∧
            sb.curlen + len + 1 ≤ cap then
          some { len := cap,
                 curlen := ((t ++ s.take (sb.curlen + len)).take (sb.curlen + len)).length,
                 s := some ((t ++ s.take (sb.curlen + len)).take (sb.curlen + len)) }
        else none

/-- The buffers the functions of strbuf.c lead to from `strbuf_init`. -/
inductive STRBUF.Reachable : STRBUF → Prop
  | init : STRBUF.Reachable strbuf_init
  | dispose {sb : STRBUF} : STRBUF.Reachable sb → STRBUF.Reachable (strbuf_dispose sb)
  | clear {sb : STRBUF} : STRBUF.Reachable sb → STRBUF.Reachable (strbuf_clear sb)
  | unquote {sb sb1 : STRBUF} :
      STRBUF.Reachable sb → strbuf_unquote sb = some sb1 → STRBUF.Reachable sb1
  | trim {sb sb1 : STRBUF} :
      STRBUF.Reachable sb → strbuf_trim sb = some sb1 → STRBUF.Reachable sb1
  | add {sb sb1 : STRBUF} (s : CStr) :
      STRBUF.Reachable sb → strbuf_add sb s = some sb1 → STRBUF.Reachable sb1
  | nadd {sb sb1 : STRBUF} (s : CStr) (len : Nat) :
      STRBUF.Reachable sb → len < SIZE_MOD → strbuf_nadd sb s len = some sb1 →
      STRBUF.Reachable sb1
  | addc {sb sb1 : STRBUF} (c : Char) :
      STRBUF.Reachable sb → c ≠ '\x00' → strbuf_addc sb c = some sb1 → STRBUF.Reachable sb1

/-- What holds of every reachable buffer: it is fresh, or it stores a string whose
length is `curlen`, below a capacity that is a multiple of `CHUNK`. -/
def STRBUF.Regular (sb : STRBUF) : Prop :=
  (sb.len = 0 ∧ sb.curlen = 0 ∧ sb.s = none) ∨
  (∃ t, sb.s = some t ∧ sb.curlen = t.length ∧ t.length < sb.len ∧ sb.len % CHUNK = 0 ∧
    sb.len ≤ ALLOC_MAX)

/-- The text left when the longest whitespace-only prefix and the longest
whitespace-only suffix of `t` are removed, as the specification words it. -/
def trim_both (t : CStr) : CStr :=
  ((t.dropWhile isspace).reverse.dropWhile isspace).reverse

/-- The text left by the removal of one pair of matching quotes, as the
specification words it. -/
def unquote_text (t : CStr) : CStr :=
  if 2 ≤ t.length ∧ (t.head? = some '\'' ∨ t.head? = some '"') ∧ t.getLast? = t.head? then
    (t.drop 1).dropLast
  else t

/-! ## A decoder for the escaping -/

/-- The character an escaped text starts with and the number of bytes that stand
for it: one of the five entities of `html_safe_stradd`, or the first byte. -/
def decode_entity (s : CStr) : Option (Char × Nat) :=
  if "&lt;".toList.isPrefixOf s then some ('<', 4)
  else if "&gt;".toList.isPrefixOf s then some ('>', 4)
  else if "&quot;".toList.isPrefixOf s then some ('"', 6)
  else if "&#35;".toList.isPrefixOf s then some ('#', 5)
  else if "&amp;".toList.isPrefixOf s then some ('&', 5)
  else match s with
    | [] => none
    | c :: _ => some (c, 1)

/-- The decoding of at most `fuel` characters of an escaped text. -/
def Unescape_loop : Nat → CStr → CStr
  | 0, _ => []
  | fuel + 1, s =>
    match decode_entity s with
    | none => []
    | some (c, k) => c :: Unescape_loop fuel (s.drop k)

/-- The decoder: entities are replaced by their characters, from left to right. -/
def Unescape (s : CStr) : CStr := Unescape_loop s.length s

/-! ## The choice lines of one item -/

/-- The lines of one choice in a document: the label its first line starts with,
whether that line bears the `*`, the rest of that line after the label, and the
lines that follow it up to the next choice. -/
structure CHOICE_LINES where
  label : CStr
  star : Bool
  first : CStr
  more : List CStr

/-- The lines of a choice as they stand in the file. -/
def CHOICE_LINES.lines (b : CHOICE_LINES) : List CStr :=
  (if b.star then '*' :: (b.label ++ b.first) else b.label ++ b.first) :: b.more

/-- The text gathered for a choice: the rest of its label line and its other
lines, each without its leading whitespace. -/
def CHOICE_LINES.body (b : CHOICE_LINES) : CStr :=
  skip_spaces b.first ++ (b.more.map skip_spaces).join

/-- The choice expected in the item for the lines of one choice. -/
def CHOICE_LINES.record (b : CHOICE_LINES) : CHOICE_T :=
  { id := some (trimstr2 b.label), correct := b.star, text := some (trimstr b.body) }

/-- The number of bytes of the lines of a choice. -/
def CHOICE_LINES.size (b : CHOICE_LINES) : Nat :=
  b.label.length + b.first.length + (b.more.map List.length).sum

/-- A line after an optional leading `*` (lines 856-859). -/
def unstar (p : CStr) : CStr := if p.head? = some '*' then p.drop 1 else p

/-- A line that continues the current choice, `next` being the label expected for
the next one: it is not blank, holds no `<`, does not start with `next` and does
not start with `answer`. -/
def continues_choice (next : CStr) (l : CStr) : Prop :=
  (skip_spaces l).length ≠ 0 ∧ '<' ∉ l ∧
    strncmp_eq (unstar (skip_spaces l)) next next.length = false ∧
    strncasecmp_eq (skip_spaces l) "answer".toList 6 = false

/-- A label that a line can start with and that `add_choice` records: it starts
with neither whitespace nor `*`, holds no `<`, and keeps at least one character
when its trailing whitespace and punctuation are cut. -/
def recordable_label (l : CStr) : Prop :=
  (∃ h t, l = h :: t ∧ isspace h = false ∧ h ≠ '*') ∧ '<' ∉ l ∧ trimstr2 l ≠ []

/-- The choices that follow the current one: `more` are the remaining lines of the
current choice, `next` the label expected next and `num` the value of
`choice_num`.  Each further choice starts with the label expected and the label
after it is the one `next_fmt` writes. -/
def choices_follow (fmt : NUM_FMT_T) : Int → CStr → List CStr → List CHOICE_LINES → Prop
  | _, next, more, [] => ∀ l ∈ more, continues_choice next l
  | num, next, more, b :: bs =>
    (∀ l ∈ more, continues_choice next l) ∧ b.label = next ∧ recordable_label next ∧
      '<' ∉ b.first ∧
      ∃ next1, next_label (num + 1) next fmt = some next1 ∧
        choices_follow fmt (num + 1) next1 b.more bs

/-- The variables of `process_file` while the lines of a choice are read: the
array holds the choices recorded so far followed by free slots, and `txt` is the
text gathered for the current choice. -/
def choice_phase (st : PF) (recorded free : List CHOICE_T) (txt : CStr) : Prop :=
  st.state = STATE_CHOICE ∧ st.in_code = false ∧ st.in_block = false ∧
  st.after_empty_line = false ∧ st.maybe_correct = false ∧
  st.choice.Ok ∧ st.choice.s = some txt ∧
  st.choices = recorded ++ free ∧ st.choice_cnt = (recorded ++ free).length ∧
  (∀ ch ∈ recorded, ch.id.isSome) ∧ (∀ ch ∈ free, ch.id = none) ∧
  trimstr2 st.curr_choice ≠ []

/-! ## The idents of the response and of its conditions -/

/-- The value of the attribute `ident` of `<response_lid>` (lines 327-328). -/
def response_lid_ident (numstr : CStr) : CStr := "rq".toList ++ numstr

/-- The value of the attribute `respident` in the condition of a
`QTYPE_MULTCHOICE` item (lines 367-368). -/
def respident_single (numstr : CStr) : CStr := "r".toList ++ numstr

/-- The value of the attribute `respident` for the choice `id` in the `<and>`
block (lines 383-386 and 394-397). -/
def respident_multi (numstr id : CStr) : CStr := "r".toList ++ numstr ++ "_".toList ++ id

/-! ## The fragments of a run -/

/-- The test of lines 941-947 on a line read in `st`: the line is blank, no region
is open, and the state is `STATE_ANSWER`, or `STATE_CHOICE` with an answer known
or answers not asked for. -/
def closing_blank (st : PF) (line : CStr) : Bool :=
  (skip_spaces line).length = 0 && !st.in_code && !st.in_block &&
    (st.state = STATE_ANSWER ||
      (st.state = STATE_CHOICE && (st.answer_known || st.g.G_no_answers)))

/-- The fragment of the item that a closing blank line read in `st` hands to
`strbuf_add(&xml, q)` (lines 948-962). -/
def closing_fragment (ident : CStr) (st : PF) : CStr :=
  match closing_choices st with
  | some (arr, cnt) =>
    item_text st.qnum (question_type arr cnt) (encoded_question st.question.s) (arr.take cnt) ident
  | none => []

/-- The states in which the closing blank lines of a run are read, in the order of
the lines. -/
def closing_states (ident : CStr) : PF → List CStr → List PF
  | _, [] => []
  | st, line :: rest =>
    (if closing_blank st line then [st] else []) ++
      (match process_line ident st line with
       | some (STEP.next st1) => closing_states ident st1 rest
       | _ => [])
/-! # Theorems

## strbuf.c below the `int` range -/

theorem to_int_small (n : Nat) (h : n < 2 ^ 31) : to_int n = (n : Int) := by
  unfold to_int
  have h1 : n % 2 ^ 32 = n := Nat.mod_eq_of_lt (by omega)
  rw [h1, if_pos h]

theorem round_up_ge (n : Nat) : n ≤ round_up n ∧ round_up n < n + 256 ∧ round_up n % 256 = 0 := by
  unfold round_up CHUNK
  split <;> omega

theorem round_required_small (n : Nat) (h : n + 256 ≤ 2 ^ 31) :
    round_required n = some (round_up n) := by
  unfold round_required round_up
  by_cases h0 : n % CHUNK = 0
  · simp [h0]
  · simp only [h0, if_false]
    rw [to_int_small n (by omega)]
    have e : ((n : Int).tdiv (CHUNK : Int)) = ((n / CHUNK : Nat) : Int) := by
      exact (Int.ofNat_tdiv n CHUNK).symm
    rw [e]
    unfold CHUNK SIZE_MOD at *
    have h2 : ((256 : Nat) : Int) * (1 + ((n / 256 : Nat) : Int)) = ((256 * (1 + n / 256) : Nat) : Int) := by
      push_cast; ring
    rw [h2]
    have h3 : 256 * (1 + n / 256) < 2 ^ 31 := by omega
    have h4 : ¬ ((((256 * (1 + n / 256) : Nat) : Int) < -(2 ^ 31)) ∨ (2 : Int) ^ 31 ≤ ((256 * (1 + n / 256) : Nat) : Int)) := by
      omega
    simp only [h4, if_false]
    congr 1
    omega
theorem STRBUF.Ok.curlen_eq {sb : STRBUF} (h : sb.Ok) : sb.curlen = sb.content.length := by
  rcases h with ⟨_, ⟨_, h2, h3⟩ | ⟨t, h1, h2, _⟩⟩
  · simp [STRBUF.content, h2, h3]
  · simp [STRBUF.content, h1, h2]

theorem STRBUF.Ok.lt_len {sb : STRBUF} (h : sb.Ok) (h0 : sb.len ≠ 0) :
    sb.s = some sb.content ∧ sb.content.length < sb.len := by
  rcases h with ⟨_, ⟨h1, _, _⟩ | ⟨t, h1, _, h3⟩⟩
  · exact absurd h1 h0
  · simp [STRBUF.content, h1, h3]

theorem strbuf_init_ok : strbuf_init.Ok := by
  refine ⟨by simp [strbuf_init], Or.inl ⟨rfl, rfl, rfl⟩⟩

@[simp] theorem content_init : strbuf_init.content = [] := rfl

@[simp] theorem content_app (sb : STRBUF) (s : CStr) : (sb.app s).content = sb.content ++ s := rfl

@[simp] theorem content_appc (sb : STRBUF) (c : Char) : (sb.appc c).content = sb.content ++ [c] := rfl

theorem len_app_ne (sb : STRBUF) (s : CStr) : (sb.app s).len ≠ 0 := by
  have := round_up_ge (sb.curlen + s.length + 1)
  unfold STRBUF.app
  simp only
  split <;> omega

theorem ok_app {sb : STRBUF} (s : CStr) (h : sb.Ok)
    (hb : sb.content.length + s.length + 257 ≤ 2 ^ 31) : (sb.app s).Ok := by
  have hc := h.curlen_eq
  have hr := round_up_ge (sb.curlen + s.length + 1)
  have hl := h.1
  refine ⟨?_, Or.inr ⟨sb.content ++ s, rfl, rfl, ?_⟩⟩
  · unfold STRBUF.app; simp only; split <;> omega
  · by_cases h0 : sb.len = 0
    · unfold STRBUF.app; simp only [h0, true_or, if_true, List.length_append]; omega
    · have := (h.lt_len h0).2
      unfold STRBUF.app; simp only [List.length_append]; split <;> omega

theorem strbuf_add_app {sb : STRBUF} (s : CStr) (h : sb.Ok)
    (hb : sb.content.length + s.length + 257 ≤ 2 ^ 31) : strbuf_add sb s = some (sb.app s) := by
  have hc := h.curlen_eq
  have hr := round_up_ge (sb.curlen + s.length + 1)
  have hm : (sb.curlen + s.length + 1) % SIZE_MOD = sb.curlen + s.length + 1 :=
    Nat.mod_eq_of_lt (by unfold SIZE_MOD; omega)
  unfold strbuf_add
  rw [hm, round_required_small _ (by omega)]
  by_cases h0 : sb.len = 0
  · rcases h with ⟨_, ⟨_, h2, h3⟩ | ⟨t, h1, h2, h4⟩⟩
    · have hA : round_up (sb.curlen + s.length + 1) ≤ ALLOC_MAX := by unfold ALLOC_MAX; omega
      have hB : s.length + 1 ≤ round_up (sb.curlen + s.length + 1) := by omega
      simp only [h0, if_true, hA, hB, and_self, STRBUF.app, STRBUF.content, h3, true_or,
        Option.getD_none, List.nil_append]
    · omega
  · obtain ⟨hs, hlt⟩ := h.lt_len h0
    have hl := h.1
    simp only [h0, if_false, hs]
    by_cases hg : round_up (sb.curlen + s.length + 1) > sb.len
    · have hA : round_up (sb.curlen + s.length + 1) ≤ ALLOC_MAX := by unfold ALLOC_MAX; omega
      have hB : sb.content.length + s.length + 1 ≤ round_up (sb.curlen + s.length + 1) := by omega
      simp [hg, hA, hB, STRBUF.app, h0]
    · have hB : sb.content.length + s.length + 1 ≤ sb.len := by omega
      simp [hg, hB, STRBUF.app, h0]

theorem ok_appc {sb : STRBUF} (c : Char) (h : sb.Ok) (h0 : sb.len ≠ 0)
    (hb : sb.content.length + 257 ≤ 2 ^ 31) : (sb.appc c).Ok := by
  have hc := h.curlen_eq
  obtain ⟨hs, hlt⟩ := h.lt_len h0
  have hl := h.1
  refine ⟨?_, Or.inr ⟨sb.content ++ [c], rfl, ?_, ?_⟩⟩
  · unfold STRBUF.appc CHUNK; simp only; split <;> omega
  · simp [STRBUF.appc, hc]
  · unfold STRBUF.appc CHUNK; simp only [List.length_append, List.length_singleton]; split <;> omega

theorem len_appc_ne (sb : STRBUF) (c : Char) (h0 : sb.len ≠ 0) : (sb.appc c).len ≠ 0 := by
  unfold STRBUF.appc CHUNK; simp only; split <;> omega

theorem strbuf_addc_appc {sb : STRBUF} (c : Char) (h : sb.Ok) (h0 : sb.len ≠ 0)
    (hb : sb.content.length + 257 ≤ 2 ^ 31) : strbuf_addc sb c = some (sb.appc c) := by
  have hc := h.curlen_eq
  obtain ⟨hs, hlt⟩ := h.lt_len h0
  have hl := h.1
  have hm2 : (sb.len + CHUNK) % SIZE_MOD = sb.len + CHUNK := by
    unfold SIZE_MOD CHUNK; omega
  unfold strbuf_addc
  rw [hm2, if_neg h0]
  by_cases hg : sb.curlen ≥ sb.len - 1
  · have hA : sb.len + CHUNK ≤ ALLOC_MAX := by unfold ALLOC_MAX CHUNK; omega
    have hB : sb.curlen + 1 < sb.len + CHUNK := by unfold CHUNK; omega
    have hC : sb.curlen + 1 ≥ sb.len := by omega
    rw [if_pos hg, if_pos hA]
    simp only [if_neg h0, hs]
    rw [if_pos hB, if_pos (by omega)]
    rw [hc] at hC
    simp only [STRBUF.appc, if_pos hC, hc, List.take_length]
  · have hB : sb.curlen + 1 < sb.len := by omega
    have hC : ¬ sb.curlen + 1 ≥ sb.len := by omega
    rw [if_neg hg]
    simp only [hs]
    rw [if_pos hB, if_pos (by omega)]
    rw [hc] at hC
    simp only [STRBUF.appc, if_neg hC, hc, List.take_length]

theorem ok_apps {sb : STRBUF} (xs : List CStr) (h : sb.Ok)
    (hb : sb.content.length + (concat_all xs).length + 257 ≤ 2 ^ 31) : (sb.apps xs).Ok := by
  induction xs generalizing sb with
  | nil => exact h
  | cons x xs ih =>
    simp only [concat_all, List.length_append] at hb
    exact ih (ok_app x h (by omega)) (by simp only [content_app, List.length_append]; omega)

@[simp] theorem content_apps (sb : STRBUF) (xs : List CStr) :
    (sb.apps xs).content = sb.content ++ concat_all xs := by
  induction xs generalizing sb with
  | nil => simp [STRBUF.apps, concat_all]
  | cons x xs ih => simp [STRBUF.apps, concat_all, ih]

theorem len_apps_ne (sb : STRBUF) (xs : List CStr) (h : sb.len ≠ 0 ∨ xs ≠ []) :
    (sb.apps xs).len ≠ 0 := by
  induction xs generalizing sb with
  | nil => simpa [STRBUF.apps] using h
  | cons x xs ih => exact ih _ (Or.inl (len_app_ne sb x))

theorem strbuf_adds_apps {sb : STRBUF} (xs : List CStr) (h : sb.Ok)
    (hb : sb.content.length + (concat_all xs).length + 257 ≤ 2 ^ 31) :
    strbuf_adds sb xs = some (sb.apps xs) := by
  induction xs generalizing sb with
  | nil => rfl
  | cons x xs ih =>
    simp only [concat_all, List.length_append] at hb
    rw [strbuf_adds, strbuf_add_app x h (by omega), Option.some_bind, STRBUF.apps]
    exact ih (ok_app x h (by omega)) (by simp only [content_app, List.length_append]; omega)

theorem html_entity_step (c : Char) {sp : STRBUF} (h : sp.Ok) (h0 : sp.len ≠ 0)
    (hb : sp.content.length + (html_entity c).length + 257 ≤ 2 ^ 31) :
    ∃ sp1, (if c = '<' then strbuf_add sp "&lt;".toList
        else if c = '>' then strbuf_add sp "&gt;".toList
        else if c = '"' then strbuf_add sp "&quot;".toList
        else if c = '#' then strbuf_add sp "&#35;".toList
        else if c = '&' then strbuf_add sp "&amp;".toList
        else strbuf_addc sp c) = some sp1 ∧ sp1.Ok ∧ sp1.len ≠ 0 ∧
        sp1.content = sp.content ++ html_entity c := by
  unfold html_entity at hb
  by_cases h1 : c = '<'
  · rw [if_pos h1] at hb ⊢
    exact ⟨_, strbuf_add_app _ h hb, ok_app _ h hb, len_app_ne _ _, by simp [html_entity, h1]⟩
  rw [if_neg h1] at hb ⊢
  by_cases h2 : c = '>'
  · rw [if_pos h2] at hb ⊢
    exact ⟨_, strbuf_add_app _ h hb, ok_app _ h hb, len_app_ne _ _, by simp [html_entity, h2]⟩
  rw [if_neg h2] at hb ⊢
  by_cases h3 : c = '"'
  · rw [if_pos h3] at hb ⊢
    exact ⟨_, strbuf_add_app _ h hb, ok_app _ h hb, len_app_ne _ _, by simp [html_entity, h3]⟩
  rw [if_neg h3] at hb ⊢
  by_cases h4 : c = '#'
  · rw [if_pos h4] at hb ⊢
    exact ⟨_, strbuf_add_app _ h hb, ok_app _ h hb, len_app_ne _ _, by simp [html_entity, h4]⟩
  rw [if_neg h4] at hb ⊢
  by_cases h5 : c = '&'
  · rw [if_pos h5] at hb ⊢
    exact ⟨_, strbuf_add_app _ h hb, ok_app _ h hb, len_app_ne _ _, by simp [html_entity, h5]⟩
  rw [if_neg h5] at hb ⊢
  exact ⟨_, strbuf_addc_appc c h h0 (by omega), ok_appc c h h0 (by omega),
    len_appc_ne _ c h0, by simp [html_entity, h1, h2, h3, h4, h5]⟩

/-- On an allocated buffer with room below the `int` range, `html_safe_stradd`
succeeds and appends the escaped text. -/
theorem html_safe_stradd_loop_ok (s : CStr) {sp : STRBUF} (h : sp.Ok) (h0 : sp.len ≠ 0)
    (hb : sp.content.length + (Escape s).length + 257 ≤ 2 ^ 31) :
    ∃ sp1, html_safe_stradd_loop sp s = some sp1 ∧ sp1.Ok ∧ sp1.len ≠ 0 ∧
      sp1.content = sp.content ++ Escape s := by
  induction s generalizing sp with
  | nil => exact ⟨sp, rfl, h, h0, by simp [Escape]⟩
  | cons c p ih =>
    simp only [Escape, List.length_append] at hb
    obtain ⟨sp1, e1, ok1, ne1, c1⟩ := html_entity_step c h h0 (by omega)
    obtain ⟨sp2, e2, ok2, ne2, c2⟩ := ih ok1 ne1 (by rw [c1, List.length_append]; omega)
    refine ⟨sp2, ?_, ok2, ne2, ?_⟩
    · rw [html_safe_stradd_loop, e1, Option.some_bind, e2]
    · rw [c2, c1, Escape, List.append_assoc]
theorem html_safe_stradd_ok (t : Option CStr) {sp : STRBUF} (h : sp.Ok) (h0 : sp.len ≠ 0)
    (hb : sp.content.length + (escape_opt t).length + 257 ≤ 2 ^ 31) :
    ∃ sp1, html_safe_stradd sp t = some sp1 ∧ sp1.Ok ∧ sp1.len ≠ 0 ∧
      sp1.content = sp.content ++ escape_opt t := by
  cases t with
  | none => exact ⟨sp, rfl, h, h0, by simp [escape_opt]⟩
  | some s => exact html_safe_stradd_loop_ok s h h0 hb

theorem strbuf_adds_ok (xs : List CStr) {sb : STRBUF} (h : sb.Ok) (h0 : sb.len ≠ 0 ∨ xs ≠ [])
    (hb : sb.content.length + (concat_all xs).length + 257 ≤ 2 ^ 31) :
    ∃ sb1, strbuf_adds sb xs = some sb1 ∧ sb1.Ok ∧ sb1.len ≠ 0 ∧
      sb1.content = sb.content ++ concat_all xs :=
  ⟨_, strbuf_adds_apps xs h hb, ok_apps xs h hb, len_apps_ne sb xs h0, content_apps sb xs⟩

theorem qti_1_2_labels_ok (numstr : CStr) (L : List CHOICE_T) {s : STRBUF} (h : s.Ok)
    (h0 : s.len ≠ 0) (hb : s.content.length + (labels_text numstr L).length + 257 ≤ 2 ^ 31) :
    ∃ s1, qti_1_2_labels numstr s L = some s1 ∧ s1.Ok ∧ s1.len ≠ 0 ∧
      s1.content = s.content ++ labels_text numstr L := by
  induction L generalizing s with
  | nil => exact ⟨s, rfl, h, h0, by simp [labels_text]⟩
  | cons ch rest ih =>
    cases hid : ch.id with
    | none =>
      simp only [labels_text, hid] at hb
      obtain ⟨s1, e1, r1⟩ := ih h h0 hb
      exact ⟨s1, by simp only [qti_1_2_labels, hid, e1], by simpa [labels_text, hid] using r1⟩
    | some id =>
      simp only [labels_text, hid, response_label, List.length_append] at hb
      obtain ⟨a, ea, oka, nea, ca⟩ := strbuf_adds_ok
        ["    <response_label ident=\"q".toList, numstr, "_".toList, id, "\">\n".toList,
         "     <material><mattext texttype=\"text/plain\">".toList] h (Or.inl h0) (by omega)
      obtain ⟨b, eb, okb, neb, cb⟩ := html_safe_stradd_ok ch.text oka nea
        (by rw [ca, List.length_append]; omega)
      obtain ⟨c, ec, okc, nec, cc⟩ := strbuf_adds_ok
        ["</mattext></material>\n".toList, "    </response_label>\n".toList] okb (Or.inl neb)
        (by rw [cb, ca]; simp only [List.length_append]; omega)
      obtain ⟨d, ed, okd, ned, cd⟩ := ih okc nec
        (by rw [cc, cb, ca]; simp only [List.length_append]; omega)
      refine ⟨d, ?_, okd, ned, ?_⟩
      · simp only [qti_1_2_labels, hid, ea, Option.some_bind, eb, ec, ed]
      · rw [cd, cc, cb, ca]
        simp only [labels_text, hid, response_label, List.append_assoc]

theorem qti_1_2_multi_ok (numstr : CStr) (L : List CHOICE_T) {s : STRBUF} (h : s.Ok)
    (h0 : s.len ≠ 0) (hb : s.content.length + (multi_text numstr L).length + 257 ≤ 2 ^ 31) :
    ∃ s1, qti_1_2_multi numstr s L = some s1 ∧ s1.Ok ∧ s1.len ≠ 0 ∧
      s1.content = s.content ++ multi_text numstr L := by
  induction L generalizing s with
  | nil => exact ⟨s, rfl, h, h0, by simp [multi_text]⟩
  | cons ch rest ih =>
    cases hid : ch.id with
    | none => exact ⟨s, by simp only [qti_1_2_multi, hid], h, h0, by simp [multi_text, hid]⟩
    | some id =>
      simp only [multi_text, hid, List.length_append] at hb
      have step : ∃ a, (if (!ch.correct) = true then
          strbuf_adds s
            ["     <not>\n".toList, "      <varequal respident=\"r".toList, numstr, "_".toList, id,
             "\">q".toList, numstr, "_".toList, id, "</varequal>\n".toList, "     </not>\n".toList]
        else
          strbuf_adds s
            ["     <varequal respident=\"r".toList, numstr, "_".toList, id,
             "\">q".toList, numstr, "_".toList, id, "</varequal>\n".toList]) = some a ∧
          a.Ok ∧ a.len ≠ 0 ∧ a.content = s.content ++
            (if (!ch.correct) = true then varequal_neg numstr id else varequal_pos numstr id) := by
        cases hc : ch.correct with
        | false =>
          simp only [hc, Bool.not_false, if_true, varequal_neg] at hb ⊢
          exact strbuf_adds_ok _ h (Or.inl h0) (by omega)
        | true =>
          simp only [hc, Bool.not_true, Bool.false_eq_true, if_false, varequal_pos] at hb ⊢
          exact strbuf_adds_ok _ h (Or.inl h0) (by omega)
      obtain ⟨a, ea, oka, nea, ca⟩ := step
      obtain ⟨d, ed, okd, ned, cd⟩ := ih oka nea (by rw [ca, List.length_append]; omega)
      refine ⟨d, ?_, okd, ned, ?_⟩
      · simp only [qti_1_2_multi, hid, ea, Option.some_bind, ed]
      · rw [cd, ca]; simp only [multi_text, hid, List.append_assoc]

theorem qti_1_2_condition_ok (numstr : CStr) (qtype : Nat) (L : List CHOICE_T) {s : STRBUF}
    (h : s.Ok) (h0 : s.len ≠ 0)
    (hb : s.content.length + (condition_text numstr qtype L).length + 257 ≤ 2 ^ 31) :
    ∃ s1, qti_1_2_condition numstr qtype s L = some s1 ∧ s1.Ok ∧ s1.len ≠ 0 ∧
      s1.content = s.content ++ condition_text numstr qtype L := by
  unfold qti_1_2_condition condition_text at *
  by_cases hq : QTYPE_MULTCHOICE = qtype
  · simp only [hq, if_true, qti_1_2_single] at hb ⊢
    cases hf : qti_1_2_first L with
    | none => exact ⟨s, rfl, h, h0, by simp⟩
    | some ch =>
      cases hid : ch.id with
      | none => exact ⟨s, by simp only [hid], h, h0, by simp [hid]⟩
      | some id =>
        simp only [hf, hid, varequal_single] at hb ⊢
        exact strbuf_adds_ok _ h (Or.inl h0) hb
  · simp only [hq, if_false, List.length_append] at hb ⊢
    have ha := strbuf_add_app "    <and>\n".toList h (by omega)
    have oka := ok_app "    <and>\n".toList h (by omega)
    obtain ⟨b, eb, okb, neb, cb⟩ := qti_1_2_multi_ok numstr L oka (len_app_ne _ _)
      (by rw [content_app, List.length_append]; omega)
    have hc := strbuf_add_app "    </and>\n".toList okb
      (by rw [cb, content_app]; simp only [List.length_append]; omega)
    have okc := ok_app "    </and>\n".toList okb
      (by rw [cb, content_app]; simp only [List.length_append]; omega)
    refine ⟨_, ?_, okc, len_app_ne _ _, ?_⟩
    · rw [ha, Option.some_bind, eb, Option.some_bind, hc]
    · rw [content_app, cb, content_app]; simp only [List.append_assoc]

/-- The function `qti_1_2` returns the item text whenever the slots exist and the
text stays below the `int` range of `strbuf_add`. -/
theorem qti_1_2_eq (qnum : Int) (qtype : Nat) (qtext : Option CStr) (qchoices : List CHOICE_T)
    (qchoicecnt : Nat) (ident : CStr) (hcnt : qchoicecnt ≤ qchoices.length)
    (hb : (item_text qnum qtype qtext (qchoices.take qchoicecnt) ident).length + 257 ≤ 2 ^ 31) :
    qti_1_2 qnum qtype qtext qchoices qchoicecnt ident =
      some (some (item_text qnum qtype qtext (qchoices.take qchoicecnt) ident)) := by
  unfold qti_1_2
  rw [if_neg (by omega)]
  simp only [item_text, item_open, List.length_append] at hb
  obtain ⟨s1, e1, ok1, ne1, c1⟩ := strbuf_adds_ok
    ["<item title=\"Question ".toList, fmt_d qnum, "\" ident=\"txt2qti_".toList, ident, "_q".toList,
     fmt_d qnum, "\">\n".toList, " <presentation>\n".toList, "  <material>\n".toList,
     "   <mattext texttype=\"text/html\">\n".toList, "    ".toList] strbuf_init_ok
    (Or.inr (by simp)) (by rw [content_init, List.length_nil]; omega)
  obtain ⟨s2, e2, ok2, ne2, c2⟩ := html_safe_stradd_ok qtext ok1 ne1
    (by rw [c1, content_init]; simp only [List.nil_append, List.length_append]; omega)
  obtain ⟨s3, e3, ok3, ne3, c3⟩ := strbuf_adds_ok
    ["   </mattext>\n".toList, "  </material>\n".toList, "  <response_lid ident=\"rq".toList,
     fmt_d qnum, "\"".toList,
     if QTYPE_MULTCHOICE = qtype then " rcardinality=\"Single\">\n".toList
     else " rcardinality=\"Multiple\">\n".toList,
     "   <render_choice shuffle=\"No\">\n".toList] ok2 (Or.inl ne2)
    (by rw [c2, c1, content_init]; simp only [List.nil_append, List.length_append]; omega)
  obtain ⟨s4, e4, ok4, ne4, c4⟩ := qti_1_2_labels_ok (fmt_d qnum) (qchoices.take qchoicecnt) ok3 ne3
    (by rw [c3, c2, c1, content_init]; simp only [List.nil_append, List.length_append]; omega)
  obtain ⟨s5, e5, ok5, ne5, c5⟩ := strbuf_adds_ok
    ["   </render_choice>\n".toList, "  </response_lid>\n".toList, " </presentation>\n".toList,
     " <resprocessing>\n".toList, "  <outcomes>\n".toList,
     "   <decvar maxvalue=\"100\" minvalue=\"0\" ".toList,
     "varname=\"SCORE\" vartype=\"Integer\" defaultval=\"0\"/>\n".toList,
     "  </outcomes>\n".toList, "  <respcondition continue=\"No\">\n".toList,
     "   <conditionvar>\n".toList] ok4 (Or.inl ne4)
    (by rw [c4, c3, c2, c1, content_init]
        simp only [item_middle, List.nil_append, List.length_append] at hb ⊢; omega)
  obtain ⟨s6, e6, ok6, ne6, c6⟩ := qti_1_2_condition_ok (fmt_d qnum) qtype
    (qchoices.take qchoicecnt) ok5 ne5
    (by rw [c5, c4, c3, c2, c1, content_init]
        simp only [item_middle, List.nil_append, List.length_append] at hb ⊢; omega)
  obtain ⟨s7, e7, ok7, ne7, c7⟩ := strbuf_adds_ok
    ["   </conditionvar>\n".toList,
     "   <setvar action=\"Set\" varname=\"SCORE\">100</setvar>\n".toList,
     "  </respcondition>\n".toList, " </resprocessing>\n".toList,
     "</item>\n".toList] ok6 (Or.inl ne6)
    (by rw [c6, c5, c4, c3, c2, c1, content_init]
        simp only [item_middle, item_close, List.nil_append, List.length_append] at hb ⊢; omega)
  simp only [e1, e2, e3, e4, e5, e6, e7, Option.some_bind]
  rw [(ok7.lt_len ne7).1, c7, c6, c5, c4, c3, c2, c1, content_init]
  simp only [item_text, item_open, item_middle, item_close, List.nil_append, List.append_assoc]
/-! ## The escaping of `html_safe_stradd` -/

theorem escape_no_markup (s : CStr) : ∀ c ∈ Escape s, c ≠ '<' ∧ c ≠ '>' ∧ c ≠ '"' := by
  induction s with
  | nil => simp [Escape]
  | cons a p ih =>
    intro c hc
    simp only [Escape, List.mem_append] at hc
    rcases hc with hc | hc
    · unfold html_entity at hc
      split_ifs at hc with h1 h2 h3 h4 h5
      all_goals first
        | (simp at hc; rcases hc with rfl | rfl | rfl | rfl | rfl | rfl <;> decide)
        | (simp at hc; rcases hc with rfl | rfl | rfl | rfl | rfl <;> decide)
        | (simp at hc; rcases hc with rfl | rfl | rfl | rfl <;> decide)
        | (simp at hc; subst hc; exact ⟨h1, h2, h3⟩)
    · exact ih c hc

theorem escape_units (s : CStr) :
    Escape s = concat_all (s.map html_entity) := by
  induction s with
  | nil => rfl
  | cons a p ih => simp [Escape, concat_all, ih]

theorem html_entity_cases (c : Char) :
    html_entity c ∈ ["&lt;".toList, "&gt;".toList, "&quot;".toList, "&#35;".toList, "&amp;".toList]
      ∨ (html_entity c = [c] ∧ c ≠ '<' ∧ c ≠ '>' ∧ c ≠ '"' ∧ c ≠ '#' ∧ c ≠ '&') := by
  unfold html_entity
  split_ifs with h1 h2 h3 h4 h5
  · left; simp
  · left; simp
  · left; simp
  · left; simp
  · left; simp
  · right; exact ⟨rfl, h1, h2, h3, h4, h5⟩

/-- C5: on an allocated buffer, `html_safe_stradd` appends exactly the
character-by-character concatenation of the entities (`&lt;` for `<`, `&gt;`
for `>`, `&quot;` for `"`, `&#35;` for `#`, `&amp;` for `&`, the character
itself otherwise); the escaping of `<a>&"#` is `&lt;a&gt;&amp;&quot;&#35;`, the
appended text has no `<`, `>` or `"`, and it is a sequence of units each of
which is one of the five entities or a single character other than the five
reserved ones. -/
theorem html_safe_stradd_appends_escape (sp : STRBUF) (s : CStr) (h : sp.Ok) (h0 : sp.len ≠ 0)
    (hb : sp.content.length + (Escape s).length + 257 ≤ 2 ^ 31) :
    (∃ sp1, html_safe_stradd sp (some s) = some sp1 ∧ sp1.content = sp.content ++ Escape s ∧
       sp1.curlen = sp.curlen + (Escape s).length) ∧
    Escape s = concat_all (s.map html_entity) ∧
    Escape "<a>&\"#".toList = "&lt;a&gt;&amp;&quot;&#35;".toList ∧
    (∀ c ∈ Escape s, c ≠ '<' ∧ c ≠ '>' ∧ c ≠ '"') ∧
    (∀ u ∈ s.map html_entity,
       u ∈ ["&lt;".toList, "&gt;".toList, "&quot;".toList, "&#35;".toList, "&amp;".toList]
       ∨ ∃ c, u = [c] ∧ c ≠ '<' ∧ c ≠ '>' ∧ c ≠ '"' ∧ c ≠ '#' ∧ c ≠ '&') := by
  refine ⟨?_, escape_units s, by decide, escape_no_markup s, ?_⟩
  · obtain ⟨sp1, e1, ok1, _, c1⟩ := html_safe_stradd_loop_ok s h h0 hb
    refine ⟨sp1, e1, c1, ?_⟩
    rw [ok1.curlen_eq, h.curlen_eq, c1, List.length_append]
  · intro u hu
    obtain ⟨c, _, rfl⟩ := List.mem_map.1 hu
    rcases html_entity_cases c with hc | hc
    · exact Or.inl hc
    · exact Or.inr ⟨c, hc⟩

theorem html_safe_stradd_appends_escape_witness :
    (∃ sp1, html_safe_stradd { len := 256, curlen := 1, s := some ['x'] } (some "<a>&\"#".toList)
        = some sp1 ∧ sp1.content = 'x' :: "&lt;a&gt;&amp;&quot;&#35;".toList ∧ sp1.curlen = 26) := by
  have hok : STRBUF.Ok { len := 256, curlen := 1, s := some ['x'] } :=
    ⟨by norm_num, Or.inr ⟨['x'], rfl, rfl, by decide⟩⟩
  have h := (html_safe_stradd_appends_escape { len := 256, curlen := 1, s := some ['x'] }
    "<a>&\"#".toList hok (by decide) (by decide)).1
  simpa [Escape, html_entity, STRBUF.content] using h
/-! ## The serializer: item type and condition block -/

theorem to_short_small (n : Int) (h1 : -(2 ^ 15) ≤ n) (h2 : n < 2 ^ 15) : to_short n = n := by
  unfold to_short; omega

theorem count_correct_eq (L : List CHOICE_T) (acc : Nat) (h : acc + L.length ≤ 32767) :
    count_correct (acc : Int) L = ((acc + correct_count L : Nat) : Int) := by
  induction L generalizing acc with
  | nil => simp [count_correct, correct_count]
  | cons ch rest ih =>
    simp only [List.length_cons] at h
    unfold count_correct correct_count
    cases hid : ch.id.isSome with
    | false =>
      simp only [Bool.false_eq_true, if_false, List.countP_cons, hid, Bool.false_and]
      rw [ih acc (by omega)]; simp [correct_count]
    | true =>
      cases hc : ch.correct with
      | false =>
        simp only [if_true, hc, Bool.false_eq_true, if_false, add_zero, List.countP_cons, hid,
          Bool.and_false]
        rw [to_short_small _ (by omega) (by omega), ih acc (by omega)]; simp [correct_count]
      | true =>
        simp only [if_true, hc, List.countP_cons, hid, Bool.and_self]
        rw [to_short_small _ (by omega) (by omega)]
        have := ih (acc + 1) (by omega)
        rw [show ((acc : Int) + 1) = ((acc + 1 : Nat) : Int) by push_cast; rfl, this]
        simp only [correct_count]; congr 1; omega

theorem question_type_eq (qchoices : List CHOICE_T) (qchoicecnt : Nat) (hs : qchoicecnt ≤ 32767) :
    question_type qchoices qchoicecnt =
      if correct_count (qchoices.take qchoicecnt) = 1 then QTYPE_MULTCHOICE else QTYPE_MULTANSW := by
  unfold question_type
  have := count_correct_eq (qchoices.take qchoicecnt) 0
    (by simp only [List.length_take]; omega)
  simp only [Nat.cast_zero, zero_add] at this
  rw [this]
  by_cases h : correct_count (qchoices.take qchoicecnt) = 1
  · simp [h]
  · have : ¬ ((correct_count (qchoices.take qchoicecnt) : Int) = 1) := by omega
    simp [h, this]

theorem correct_count_append (L U : List CHOICE_T) (hL : ∀ ch ∈ L, ch.id.isSome)
    (hU : ∀ ch ∈ U, ch.id = none) :
    correct_count (L ++ U) = L.countP (fun ch => ch.correct) := by
  unfold correct_count
  rw [List.countP_append]
  have h1 : U.countP (fun ch => ch.id.isSome && ch.correct) = 0 := by
    rw [List.countP_eq_zero]; intro ch hch; simp [hU ch hch]
  have h2 : L.countP (fun ch => ch.id.isSome && ch.correct) = L.countP (fun ch => ch.correct) := by
    apply List.countP_congr; intro ch hch; simp [hL ch hch]
  omega

theorem labels_text_append (numstr : CStr) (L U : List CHOICE_T) (hU : ∀ ch ∈ U, ch.id = none) :
    labels_text numstr (L ++ U) = labels_text numstr L := by
  induction L with
  | nil =>
    induction U with
    | nil => rfl
    | cons u U ih =>
      simp only [List.nil_append, labels_text, hU u (List.mem_cons_self _ _)] at ih ⊢
      exact ih (fun ch hch => hU ch (List.mem_cons_of_mem _ hch))
  | cons ch rest ih =>
    show labels_text numstr (ch :: (rest ++ U)) = _
    simp only [labels_text, ih]

theorem multi_text_append (numstr : CStr) (L U : List CHOICE_T) (hL : ∀ ch ∈ L, ch.id.isSome)
    (hU : ∀ ch ∈ U, ch.id = none) :
    multi_text numstr (L ++ U) = concat_all (L.map (cond_line numstr)) := by
  induction L with
  | nil =>
    cases U with
    | nil => rfl
    | cons u U => simp [multi_text, hU u (List.mem_cons_self _ _), concat_all]
  | cons ch rest ih =>
    have hch := hL ch (List.mem_cons_self _ _)
    obtain ⟨id, hid⟩ := Option.isSome_iff_exists.1 hch
    have ih2 := ih (fun c hc => hL c (List.mem_cons_of_mem _ hc))
    show multi_text numstr (ch :: (rest ++ U)) = _
    simp only [multi_text, hid, List.map_cons, concat_all, cond_line, Option.getD_some, ih2]
    cases ch.correct <;> simp

theorem qti_1_2_first_append (L U : List CHOICE_T) (hL : ∀ ch ∈ L, ch.id.isSome) (ch : CHOICE_T)
    (hf : L.find? (fun c => c.correct) = some ch) : qti_1_2_first (L ++ U) = some ch := by
  induction L with
  | nil => simp at hf
  | cons a rest ih =>
    have ha := hL a (List.mem_cons_self _ _)
    simp only [List.cons_append, qti_1_2_first, ha, Bool.true_and]
    cases hc : a.correct with
    | false =>
      simp only [List.find?_cons, hc] at hf
      simpa using ih (fun c hc => hL c (List.mem_cons_of_mem _ hc)) hf
    | true =>
      simp only [List.find?_cons, hc, Option.some.injEq] at hf
      simp [hf]

theorem has_pair_cons_of_ne (a b x : Char) (l : List Char) (h : x ≠ a) :
    has_pair a b (x :: l) = has_pair a b l := by
  cases l with
  | nil => rfl
  | cons y r => simp [has_pair, h]

theorem has_pair_append_free (a b : Char) (u v : List Char) (h : a ∉ u) :
    has_pair a b (u ++ v) = has_pair a b v := by
  induction u with
  | nil => rfl
  | cons x u ih =>
    simp only [List.mem_cons, not_or] at h
    rw [List.cons_append, has_pair_cons_of_ne a b x _ (fun e => h.1 e.symm), ih h.2]

theorem has_pair_of_infix (a b : Char) (r xs : List Char) (h : (a :: b :: r) <:+: xs) :
    has_pair a b xs = true := by
  obtain ⟨s, t, rfl⟩ := h
  induction s with
  | nil => simp [has_pair]
  | cons x s ih =>
    cases hs : s ++ (a :: b :: r) ++ t with
    | nil => simp at hs
    | cons y l =>
      simp only [List.cons_append, List.append_assoc] at hs ih ⊢
      rw [hs] at ih
      simp only [hs, has_pair, ih, Bool.or_true]

theorem has_pair_cons_cons (a b x y : Char) (r : List Char) :
    has_pair a b (x :: y :: r) = ((x == a && y == b) || has_pair a b (y :: r)) := rfl

theorem has_pair_const_free (a b : Char) (u : List Char) (h : a ∉ u) : has_pair a b u = false := by
  have := has_pair_append_free a b u [] h
  rw [List.append_nil] at this
  rw [this]; rfl

theorem varequal_single_free (numstr id : CStr) (hn : '<' ∉ numstr) (hi : '<' ∉ id) (b : Char)
    (hb1 : b ≠ 'v') (hb2 : b ≠ '/') : has_pair '<' b (varequal_single numstr id) = false := by
  have e : varequal_single numstr id =
      "    ".toList ++ ('<' :: 'v' :: ("arequal respident=\"r".toList ++ (numstr ++ ("\">q".toList ++
        (numstr ++ ("_".toList ++ (id ++ ('<' :: '/' :: "varequal>\n".toList)))))))) := by
    simp [varequal_single, concat_all]
  rw [e, has_pair_append_free _ _ _ _ (by decide), has_pair_cons_cons,
    has_pair_cons_of_ne _ _ _ _ (by decide), has_pair_append_free _ _ _ _ (by decide),
    has_pair_append_free _ _ _ _ hn, has_pair_append_free _ _ _ _ (by decide),
    has_pair_append_free _ _ _ _ hn, has_pair_append_free _ _ _ _ (by decide),
    has_pair_append_free _ _ _ _ hi, has_pair_cons_cons,
    has_pair_cons_of_ne _ _ _ _ (by decide), has_pair_const_free _ _ _ (by decide)]
  simp [hb1.symm, hb2.symm]

theorem toDigitsCore_free (fuel n : Nat) (ds : List Char) (h : '<' ∉ ds) :
    '<' ∉ Nat.toDigitsCore 10 fuel n ds := by
  induction fuel generalizing n ds with
  | zero => simpa [Nat.toDigitsCore] using h
  | succ f ih =>
    have hd : (n % 10).digitChar ≠ '<' := by
      have hlt : n % 10 < 10 := Nat.mod_lt _ (by decide)
      interval_cases (n % 10) <;> decide
    have h2 : '<' ∉ (n % 10).digitChar :: ds := by
      simp only [List.mem_cons, not_or]; exact ⟨fun e => hd e.symm, h⟩
    unfold Nat.toDigitsCore
    simp only
    split
    · exact h2
    · exact ih _ _ h2

theorem fmt_d_free (n : Int) : '<' ∉ fmt_d n := by
  unfold fmt_d
  split
  · simp only [List.mem_cons, not_or]
    exact ⟨by decide, toDigitsCore_free _ _ _ (by simp)⟩
  · exact toDigitsCore_free _ _ _ (by simp)

theorem process_question_eq (qnum : Int) (qtext : Option CStr) (qchoices : List CHOICE_T)
    (qchoicecnt : Nat) (ident : CStr) (hcnt : qchoicecnt ≤ qchoices.length)
    (hshort : qchoicecnt ≤ 32767)
    (hb : (item_text qnum (if correct_count (qchoices.take qchoicecnt) = 1 then QTYPE_MULTCHOICE
        else QTYPE_MULTANSW) qtext (qchoices.take qchoicecnt) ident).length + 257 ≤ 2 ^ 31) :
    process_question qnum qtext qchoices qchoicecnt ident =
      some (some (item_text qnum (if correct_count (qchoices.take qchoicecnt) = 1
        then QTYPE_MULTCHOICE else QTYPE_MULTANSW) qtext (qchoices.take qchoicecnt) ident)) := by
  unfold process_question
  rw [if_neg (by omega), question_type_eq _ _ hshort]
  exact qti_1_2_eq _ _ _ _ _ _ hcnt hb

/-- C1: when exactly one labelled choice is correct, the fragment of
`process_question` has between `<conditionvar>` and `</conditionvar>` exactly
one line, the positive `<varequal>` whose value is `q<index>_<label>` for the
first correct choice in stored order; that block has no `<not>` and no `<and>`. -/
theorem single_answer_condition (qnum : Int) (qtext : Option CStr) (qchoices : List CHOICE_T)
    (qchoicecnt : Nat) (ident : CStr) (L U : List CHOICE_T)
    (hcnt : qchoicecnt ≤ qchoices.length) (hshort : qchoicecnt ≤ 32767)
    (hLU : qchoices.take qchoicecnt = L ++ U)
    (hL : ∀ ch ∈ L, ch.id.isSome) (hU : ∀ ch ∈ U, ch.id = none)
    (hone : L.countP (fun ch => ch.correct) = 1)
    (hb : (item_text qnum QTYPE_MULTCHOICE qtext (L ++ U) ident).length + 257 ≤ 2 ^ 31) :
    ∃ ch id block, L.find? (fun c => c.correct) = some ch ∧ ch.id = some id ∧
      block = "    <varequal respident=\"r".toList ++ fmt_d qnum ++ "\">q".toList ++ fmt_d qnum ++
        "_".toList ++ id ++ "</varequal>\n".toList ∧
      process_question qnum qtext qchoices qchoicecnt ident =
        some (some (item_open (fmt_d qnum) QTYPE_MULTCHOICE qtext ident ++
          labels_text (fmt_d qnum) L ++ item_middle ++ block ++ item_close)) ∧
      ('<' ∉ id → ¬ ("<not>".toList <:+: block) ∧ ¬ ("<and>".toList <:+: block)) := by
  have hcc : correct_count (qchoices.take qchoicecnt) = 1 := by
    rw [hLU, correct_count_append L U hL hU, hone]
  have hsome : (L.find? (fun c => c.correct)).isSome := by
    rw [List.find?_isSome]
    have : 0 < L.countP (fun ch => ch.correct) := by omega
    obtain ⟨x, hx, hx2⟩ := List.countP_pos.1 this
    exact ⟨x, hx, hx2⟩
  obtain ⟨ch, hch⟩ := Option.isSome_iff_exists.1 hsome
  have hmem : ch ∈ L := List.mem_of_find?_eq_some hch
  obtain ⟨id, hid⟩ := Option.isSome_iff_exists.1 (hL ch hmem)
  have hfirst := qti_1_2_first_append L U hL ch hch
  have hblock : varequal_single (fmt_d qnum) id =
      "    <varequal respident=\"r".toList ++ fmt_d qnum ++ "\">q".toList ++ fmt_d qnum ++
        "_".toList ++ id ++ "</varequal>\n".toList := by
    simp [varequal_single, concat_all]
  refine ⟨ch, id, _, hch, hid, rfl, ?_, ?_⟩
  · have := process_question_eq qnum qtext qchoices qchoicecnt ident hcnt hshort
      (by rw [hcc, if_pos rfl, hLU]; exact hb)
    rw [this, hcc, if_pos rfl, hLU]
    simp only [item_text, condition_text, if_true, hfirst, hid, labels_text_append _ L U hU, hblock]
  · intro hfree
    rw [← hblock]
    constructor
    · intro hinf
      have := has_pair_of_infix '<' 'n' _ _ hinf
      rw [varequal_single_free _ _ (fmt_d_free qnum) hfree 'n' (by decide) (by decide)] at this
      exact absurd this (by decide)
    · intro hinf
      have := has_pair_of_infix '<' 'a' _ _ hinf
      rw [varequal_single_free _ _ (fmt_d_free qnum) hfree 'a' (by decide) (by decide)] at this
      exact absurd this (by decide)

theorem single_answer_condition_witness :
    ∃ ch id block,
      List.find? (fun c => c.correct)
        [(⟨some ['A'], false, some ['x']⟩ : CHOICE_T), ⟨some ['B'], true, some ['y']⟩,
         ⟨some ['C'], false, some ['z']⟩] = some ch ∧ ch.id = some id ∧
      block = "    <varequal respident=\"r".toList ++ fmt_d 1 ++ "\">q".toList ++ fmt_d 1 ++
        "_".toList ++ id ++ "</varequal>\n".toList ∧
      process_question 1 (some [' ', 'Q', '\n'])
        [⟨some ['A'], false, some ['x']⟩, ⟨some ['B'], true, some ['y']⟩,
         ⟨some ['C'], false, some ['z']⟩, ⟨none, false, none⟩, ⟨none, true, none⟩] 5 ['d'] =
        some (some (item_open (fmt_d 1) QTYPE_MULTCHOICE (some [' ', 'Q', '\n']) ['d'] ++
          labels_text (fmt_d 1)
            [⟨some ['A'], false, some ['x']⟩, ⟨some ['B'], true, some ['y']⟩,
             ⟨some ['C'], false, some ['z']⟩] ++ item_middle ++ block ++ item_close)) ∧
      ('<' ∉ id → ¬ ("<not>".toList <:+: block) ∧ ¬ ("<and>".toList <:+: block)) :=
  single_answer_condition 1 (some [' ', 'Q', '\n'])
    [⟨some ['A'], false, some ['x']⟩, ⟨some ['B'], true, some ['y']⟩,
     ⟨some ['C'], false, some ['z']⟩, ⟨none, false, none⟩, ⟨none, true, none⟩] 5 ['d']
    [⟨some ['A'], false, some ['x']⟩, ⟨some ['B'], true, some ['y']⟩, ⟨some ['C'], false, some ['z']⟩]
    [⟨none, false, none⟩, ⟨none, true, none⟩]
    (by decide) (by decide) (by decide) (by decide) (by decide) (by decide) (by decide!)

/-- C2: when the number of correct labelled choices is not 1 (zero included), the
fragment of `process_question` has between `<conditionvar>` and
`</conditionvar>` one `<and>` element holding one condition per labelled
choice, in stored order: the positive `<varequal>` with value
`q<index>_<label>` for a correct choice, the same `<varequal>` inside `<not>`
for an incorrect one; so `c` positive and `k - c` negated conditions. -/
theorem multi_answer_condition (qnum : Int) (qtext : Option CStr) (qchoices : List CHOICE_T)
    (qchoicecnt : Nat) (ident : CStr) (L U : List CHOICE_T)
    (hcnt : qchoicecnt ≤ qchoices.length) (hshort : qchoicecnt ≤ 32767)
    (hLU : qchoices.take qchoicecnt = L ++ U)
    (hL : ∀ ch ∈ L, ch.id.isSome) (hU : ∀ ch ∈ U, ch.id = none)
    (hne : L.countP (fun ch => ch.correct) ≠ 1)
    (hb : (item_text qnum QTYPE_MULTANSW qtext (L ++ U) ident).length + 257 ≤ 2 ^ 31) :
    process_question qnum qtext qchoices qchoicecnt ident =
      some (some (item_open (fmt_d qnum) QTYPE_MULTANSW qtext ident ++
        labels_text (fmt_d qnum) L ++ item_middle ++
        ("    <and>\n".toList ++ concat_all (L.map (cond_line (fmt_d qnum))) ++
          "    </and>\n".toList) ++ item_close)) ∧
    (∀ ch ∈ L, ∀ id, ch.id = some id →
      cond_line (fmt_d qnum) ch =
        if ch.correct then
          "     <varequal respident=\"r".toList ++ fmt_d qnum ++ "_".toList ++ id ++ "\">q".toList ++
            fmt_d qnum ++ "_".toList ++ id ++ "</varequal>\n".toList
        else
          "     <not>\n".toList ++ "      <varequal respident=\"r".toList ++ fmt_d qnum ++
            "_".toList ++ id ++ "\">q".toList ++ fmt_d qnum ++ "_".toList ++ id ++
            "</varequal>\n".toList ++ "     </not>\n".toList) ∧
    (L.map (cond_line (fmt_d qnum))).length = L.length ∧
    L.countP (fun ch => !ch.correct) = L.length - L.countP (fun ch => ch.correct) := by
  have hcc : correct_count (qchoices.take qchoicecnt) ≠ 1 := by
    rw [hLU, correct_count_append L U hL hU]; exact hne
  refine ⟨?_, ?_, by simp, ?_⟩
  · have := process_question_eq qnum qtext qchoices qchoicecnt ident hcnt hshort
      (by rw [if_neg hcc, hLU]; exact hb)
    rw [this, if_neg hcc, hLU]
    have hq : ¬ (QTYPE_MULTCHOICE = QTYPE_MULTANSW) := by decide
    simp only [item_text, condition_text, if_neg hq, labels_text_append _ L U hU,
      multi_text_append _ L U hL hU, List.append_assoc]
  · intro ch _ id hid
    cases hc : ch.correct <;>
      simp [cond_line, hc, hid, varequal_pos, varequal_neg, concat_all]
  · have := List.length_eq_countP_add_countP (fun ch : CHOICE_T => ch.correct) L
    have e : L.countP (fun ch => !ch.correct) = L.countP (fun a => ¬ (a.correct = true)) := by
      apply List.countP_congr; intro ch _; simp
    omega

theorem multi_answer_condition_witness :
    process_question 1 (some [' ', 'Q', '\n'])
      [⟨some ['A'], true, some ['x']⟩, ⟨some ['B'], true, some ['y']⟩,
       ⟨some ['C'], false, some ['z']⟩, ⟨none, false, none⟩, ⟨none, true, none⟩] 5 ['d'] =
      some (some (item_open (fmt_d 1) QTYPE_MULTANSW (some [' ', 'Q', '\n']) ['d'] ++
        labels_text (fmt_d 1)
          [⟨some ['A'], true, some ['x']⟩, ⟨some ['B'], true, some ['y']⟩,
           ⟨some ['C'], false, some ['z']⟩] ++ item_middle ++
        ("    <and>\n".toList ++
          ("     <varequal respident=\"r1_A\">q1_A</varequal>\n".toList ++
           "     <varequal respident=\"r1_B\">q1_B</varequal>\n".toList ++
           "     <not>\n      <varequal respident=\"r1_C\">q1_C</varequal>\n     </not>\n".toList) ++
          "    </and>\n".toList) ++ item_close)) := by
  have h := (multi_answer_condition 1 (some [' ', 'Q', '\n'])
    [⟨some ['A'], true, some ['x']⟩, ⟨some ['B'], true, some ['y']⟩,
     ⟨some ['C'], false, some ['z']⟩, ⟨none, false, none⟩, ⟨none, true, none⟩] 5 ['d']
    [⟨some ['A'], true, some ['x']⟩, ⟨some ['B'], true, some ['y']⟩, ⟨some ['C'], false, some ['z']⟩]
    [⟨none, false, none⟩, ⟨none, true, none⟩]
    (by decide) (by decide) (by decide) (by decide) (by decide) (by decide) (by decide!)).1
  rw [h]
  decide!

/-- C3: `process_question` passes `QTYPE_MULTCHOICE` to `qti_1_2` (which then
writes `rcardinality="Single"`) exactly when one labelled choice is correct,
and `QTYPE_MULTANSW` (`rcardinality="Multiple"`) for every other count, zero
included. -/
theorem item_type_by_correct_count (qnum : Int) (qtext : Option CStr)
    (qchoices : List CHOICE_T) (qchoicecnt : Nat) (ident : CStr)
    (hcnt : qchoicecnt ≤ qchoices.length) (hshort : qchoicecnt ≤ 32767) :
    (question_type qchoices qchoicecnt = QTYPE_MULTCHOICE ↔
      correct_count (qchoices.take qchoicecnt) = 1) ∧
    (correct_count (qchoices.take qchoicecnt) ≠ 1 →
      question_type qchoices qchoicecnt = QTYPE_MULTANSW) ∧
    process_question qnum qtext qchoices qchoicecnt ident =
      qti_1_2 qnum (question_type qchoices qchoicecnt) qtext qchoices qchoicecnt ident ∧
    (∀ qtype, (item_text qnum qtype qtext (qchoices.take qchoicecnt) ident).length + 257 ≤ 2 ^ 31 →
      ∃ pre post,
        qti_1_2 qnum qtype qtext qchoices qchoicecnt ident =
          some (some (pre ++ "  <response_lid ident=\"rq".toList ++ fmt_d qnum ++ "\"".toList ++
            (if qtype = QTYPE_MULTCHOICE then " rcardinality=\"Single\">\n".toList
             else " rcardinality=\"Multiple\">\n".toList) ++ post))) := by
  have hq := question_type_eq qchoices qchoicecnt hshort
  refine ⟨?_, ?_, ?_, ?_⟩
  · rw [hq]; constructor
    · intro h; by_contra hne; rw [if_neg hne] at h; exact absurd h (by decide)
    · intro h; rw [if_pos h]
  · intro h; rw [hq, if_neg h]
  · unfold process_question; rw [if_neg (by omega)]
  · intro qtype hb
    refine ⟨concat_all ["<item title=\"Question ".toList, fmt_d qnum,
        "\" ident=\"txt2qti_".toList, ident, "_q".toList, fmt_d qnum, "\">\n".toList,
        " <presentation>\n".toList, "  <material>\n".toList,
        "   <mattext texttype=\"text/html\">\n".toList, "    ".toList] ++ escape_opt qtext ++
        concat_all ["   </mattext>\n".toList, "  </material>\n".toList],
      "   <render_choice shuffle=\"No\">\n".toList ++
        labels_text (fmt_d qnum) (qchoices.take qchoicecnt) ++ item_middle ++
        condition_text (fmt_d qnum) qtype (qchoices.take qchoicecnt) ++ item_close, ?_⟩
    rw [qti_1_2_eq _ _ _ _ _ _ hcnt hb]
    have e : (QTYPE_MULTCHOICE = qtype) = (qtype = QTYPE_MULTCHOICE) := by
      apply propext; exact eq_comm
    simp only [item_text, item_open, concat_all, e, List.append_assoc, List.append_nil]

theorem item_type_by_correct_count_witness :
    (question_type [⟨some ['A'], false, some ['x']⟩, ⟨some ['B'], true, some ['y']⟩,
        ⟨none, true, none⟩] 3 = QTYPE_MULTCHOICE ↔
      correct_count (List.take 3 [(⟨some ['A'], false, some ['x']⟩ : CHOICE_T),
        ⟨some ['B'], true, some ['y']⟩, ⟨none, true, none⟩]) = 1) ∧
    question_type [⟨some ['A'], false, some ['x']⟩, ⟨some ['B'], true, some ['y']⟩,
        ⟨none, true, none⟩] 3 = QTYPE_MULTCHOICE ∧
    question_type [⟨some ['A'], false, some ['x']⟩, ⟨some ['B'], false, some ['y']⟩] 2
      = QTYPE_MULTANSW :=
  ⟨(item_type_by_correct_count 1 none [⟨some ['A'], false, some ['x']⟩,
      ⟨some ['B'], true, some ['y']⟩, ⟨none, true, none⟩] 3 [] (by decide) (by decide)).1,
   by decide, by decide⟩
/-! ## String helpers -/

theorem skip_spaces_cons (c : Char) (r : CStr) (h : isspace c = false) :
    skip_spaces (c :: r) = c :: r := by
  simp [skip_spaces, h]

theorem tolower_eq_gt (c : Char) (h : tolower c = '>') : c = '>' := by
  unfold tolower at h
  split at h
  · rename_i hc
    simp only [Bool.and_eq_true, decide_eq_true_eq] at hc
    exfalso
    obtain ⟨h1, h3⟩ := hc
    generalize c.toNat = n at *
    interval_cases n <;> revert h <;> decide
  · exact h

theorem strcasestr_some (needle : CStr) (s : CStr) (k : Nat) (h : strcasestr s needle = some k) :
    ((s.drop k).take needle.length).map tolower = needle.map tolower := by
  induction s generalizing k with
  | nil =>
    unfold strcasestr at h
    split at h
    · rename_i hn
      have : needle = [] := by simpa using hn
      subst this; simp
    · simp at h
  | cons c cs ih =>
    unfold strcasestr at h
    split at h
    · rename_i hm
      have hk : k = 0 := by simpa using h.symm
      subst hk
      simpa [strncasecmp_eq] using hm
    · cases hr : strcasestr cs needle with
      | none => simp [hr] at h
      | some j =>
        simp only [hr, Option.map_some', Option.some.injEq] at h
        subst h
        simpa using ih j hr

theorem strcasestr_bound (needle : CStr) (s : CStr) (k : Nat) (hn : 0 < needle.length)
    (h : strcasestr s needle = some k) : k + needle.length ≤ s.length := by
  have := congrArg List.length (strcasestr_some needle s k h)
  simp only [List.length_map, List.length_take, List.length_drop] at this
  omega
theorem nl_end_drop (s : CStr) (n : Nat) (h : nl_end s) : nl_end (s.drop n) := by
  rcases h with h | h
  · left; simp [h]
  · by_cases hn : s.length ≤ n
    · left; simp [hn]
    · right; rw [List.getLast?_drop, if_neg hn, h]

theorem end_code_not_last (s : CStr) (k : Nat) (h : nl_end s)
    (hk : strcasestr s END_CODE = some k) : k + 7 ≤ s.length := by
  have hb := strcasestr_bound END_CODE s k (by decide) hk
  have hl : END_CODE.length = 6 := by decide
  rw [hl] at hb
  by_contra hcon
  have hlen : s.length = k + 6 := by omega
  have hs := strcasestr_some END_CODE s k hk
  have h5 := congrArg (fun l => l[5]?) hs
  simp only [hl, List.getElem?_map] at h5
  rw [List.getElem?_take, if_pos (by decide), List.getElem?_drop] at h5
  rcases h with h | h
  · rw [h] at hlen; simp at hlen
  · rw [List.getLast?_eq_getElem?, hlen] at h
    have e : k + 6 - 1 = k + 5 := by omega
    rw [e] at h
    rw [h] at h5
    revert h5
    decide

theorem scan_end_code_ok (fuel : Nat) (ic : Bool) (s2 : CStr) (h : nl_end s2) :
    ∃ r, scan_end_code fuel ic s2 = some r := by
  induction fuel generalizing ic s2 with
  | zero => exact ⟨_, rfl⟩
  | succ f ih =>
    unfold scan_end_code
    cases hk : strcasestr s2 END_CODE with
    | none => exact ⟨_, rfl⟩
    | some k =>
      simp only
      rw [if_pos (end_code_not_last s2 k h hk)]
      exact ih false _ (nl_end_drop s2 _ h)

theorem scan_code_ok (ic : Bool) (p : CStr) (h : nl_end p) : ∃ r, scan_code ic p = some r := by
  obtain ⟨r, hr⟩ := scan_end_code_ok (p.length + 1) ic p h
  exact ⟨_, by rw [scan_code, hr]; rfl⟩
/-! ## The first question line -/

theorem skip_spaces_append (ws p : CStr) (hws : ∀ x ∈ ws, isspace x = true) :
    skip_spaces (ws ++ p) = skip_spaces p := by
  induction ws with
  | nil => rfl
  | cons w ws ih =>
    have hw := hws w (List.mem_cons_self _ _)
    simp only [List.cons_append, skip_spaces, hw, if_true]
    exact ih (fun x hx => hws x (List.mem_cons_of_mem _ hx))

theorem nl_end_cons (c : Char) (r : CStr) (h : r.getLast? = some '\n') : nl_end (c :: r) := by
  right
  cases r with
  | nil => simp at h
  | cons d r => rw [List.getLast?_cons_cons]; exact h

/-- C10: with the question format still unknown, a first question line that
starts with `A.`, `1.`, `I.`, `a.` or `i.` locks the style (upper letter,
numeric, upper roman, lower letter, lower roman) with separator `.`, appends
the line without its two-character label to the question text, and
`next_fmt(1, format)` is then `B.`, `2.`, `II.`, `b.`, `ii.`. -/
theorem question_format_detected (ident : CStr) (st : PF) (ws rest nxt buf : CStr) (c : Char)
    (sty : FMT)
    (hrow : (c, sty, nxt) ∈ [('A', FMT_ULETTER, "B.".toList), ('1', FMT_NUMERICAL, "2.".toList),
      ('I', FMT_UROMAN, "II.".toList), ('a', FMT_LLETTER, "b.".toList),
      ('i', FMT_LROMAN, "ii.".toList)])
    (hstate : st.state = STATE_NONE) (hfmt : st.g.G_qformat.style = FMT_UNKNOWN)
    (hcode : st.in_code = false) (hblk : st.in_block = false)
    (hws : ∀ x ∈ ws, isspace x = true) (hnl : rest.getLast? = some '\n')
    (hq : st.question.Ok) (hsz : st.question.content.length + rest.length + 257 ≤ 2 ^ 31)
    (hqn : st.qnum + 1 ≤ INT_MAX) :
    ∃ ic, scan_code false (c :: '.' :: rest) = some ic ∧
      process_line ident st (ws ++ c :: '.' :: rest) =
        some (STEP.next { st with
          g := { st.g with G_qformat := { style := sty, sep := '.' } },
          state := STATE_QUESTION, in_code := ic, after_empty_line := false,
          in_block := strncasecmp_eq rest "<block>".toList 7,
          qnum := st.qnum + 1,
          question := st.question.app
            (if strncasecmp_eq rest "<block>".toList 7 then rest.drop 7 else rest),
          answer_known := false, correct := false, maybe_correct := false }) ∧
      next_fmt 1 buf { style := sty, sep := '.' } = some (some nxt) := by
  have hcs : isspace c = false ∧ is_first_label c = true ∧ style_of c FMT_UNKNOWN = sty ∧
      next_fmt 1 buf { style := sty, sep := '.' } = some (some nxt) := by
    simp only [List.mem_cons, Prod.mk.injEq, List.mem_singleton, List.not_mem_nil, or_false] at hrow
    rcases hrow with ⟨rfl, rfl, rfl⟩ | ⟨rfl, rfl, rfl⟩ | ⟨rfl, rfl, rfl⟩ | ⟨rfl, rfl, rfl⟩ |
      ⟨rfl, rfl, rfl⟩ <;> exact ⟨by decide, by decide, by decide, rfl⟩
  obtain ⟨hsp, hlab, hsty, hnext⟩ := hcs
  obtain ⟨ic, hic⟩ := scan_code_ok false (c :: '.' :: rest) (nl_end_cons _ _ (by
    cases rest with
    | nil => simp at hnl
    | cons d r => rw [List.getLast?_cons_cons]; exact hnl))
  refine ⟨ic, hic, ?_, hnext⟩
  have hp : skip_spaces (ws ++ c :: '.' :: rest) = c :: '.' :: rest := by
    rw [skip_spaces_append _ _ hws, skip_spaces_cons _ _ hsp]
  have hdet : detect_qformat st.g.G_qformat (c :: '.' :: rest) = ({ style := sty, sep := '.' }, rest) := by
    simp [detect_qformat, hlab, hfmt, hsty]
  have hlen : (if strncasecmp_eq rest "<block>".toList 7 = true then rest.drop 7 else rest).length
      ≤ rest.length := by
    split
    · simp
    · exact le_refl _
  unfold process_line
  simp only [hcode, hblk, Bool.or_self, Bool.false_eq_true, if_false, hp, List.length_cons, ne_eq,
    Nat.add_one_ne_zero, not_false_eq_true, if_true, hic, Option.some_bind, hstate]
  unfold case_STATE_NONE
  simp only [hfmt, if_true, hdet]
  unfold begin_question
  have hq2 : ¬ (st.qnum + 1 > INT_MAX) := by omega
  simp only [hq2, if_false, strbuf_add_app _ hq (by omega : st.question.content.length +
    (if strncasecmp_eq rest "<block>".toList 7 = true then rest.drop 7 else rest).length + 257
      ≤ 2 ^ 31), Option.map_some', hblk, Bool.or_false]

theorem question_format_detected_witness :
    ∃ ic, scan_code false ('1' :: '.' :: " What?\n".toList) = some ic ∧
      process_line ['d'] (PF.start (GLOBALS.start false false) 0)
          ([' ', ' '] ++ '1' :: '.' :: " What?\n".toList) =
        some (STEP.next { PF.start (GLOBALS.start false false) 0 with
          g := { GLOBALS.start false false with G_qformat := { style := FMT_NUMERICAL, sep := '.' } },
          state := STATE_QUESTION, in_code := ic, after_empty_line := false,
          in_block := strncasecmp_eq " What?\n".toList "<block>".toList 7,
          qnum := 0 + 1,
          question := strbuf_init.app
            (if strncasecmp_eq " What?\n".toList "<block>".toList 7 then " What?\n".toList.drop 7
             else " What?\n".toList),
          answer_known := false, correct := false, maybe_correct := false }) ∧
      next_fmt 1 [] { style := FMT_NUMERICAL, sep := '.' } = some (some "2.".toList) :=
  question_format_detected ['d'] (PF.start (GLOBALS.start false false) 0) [' ', ' ']
    " What?\n".toList "2.".toList [] '1' FMT_NUMERICAL (by decide) rfl rfl rfl rfl (by decide)
    (by decide) strbuf_init_ok (by decide) (by decide)
/-! ## Blank lines inside a block region -/

/-- C9, as stated, fails: in this document the first question line opens a block
region that no `</block>` ever closes, a blank line is met inside it, and the
item is nevertheless closed and emitted by the last blank line, because the
line that starts the first choice has cleared `in_block`. -/
theorem block_region_closed_without_closer :
    strcasestr "<block>Q\n\nA. x\n*B. y\n\n".toList "</block>".toList = none ∧
    (process_lines ['d'] (PF.start (GLOBALS.start false false) 0)
        (fgets_lines LINE_LEN "<block>Q\n\n".toList [])).map
      (fun r => match r with
        | STEP.next st => (st.state, st.in_block, st.question.s, st.xml.s)
        | STEP.returned _ => (STATE_NONE, false, none, none))
      = some (STATE_QUESTION, true, some "Q\n\n".toList, none) ∧
    (process_lines ['d'] (PF.start (GLOBALS.start false false) 0)
        (fgets_lines LINE_LEN "<block>Q\n\nA. x\n*B. y\n\n".toList [])).map
      (fun r => match r with
        | STEP.next st => (st.state, st.xml.s.isSome)
        | STEP.returned _ => (STATE_NONE, false))
      = some (STATE_NONE, true) := by
  refine ⟨by decide!, by decide!, by decide!⟩

/-- C9, amended: a question line that starts with `<block>` opens the region;
a blank line met while the region is open emits nothing, leaves the state
unchanged and appends exactly one newline to the question text; and a blank
line changes the state or the output only when no code or block region is
open (the region is closed by `</block>` or by the line that starts the first
choice). -/
theorem blank_line_in_block (ident : CStr) (st : PF) (line r : CStr)
    (hblank : skip_spaces line = [])
    (hq : st.question.Ok) (hsz : st.question.content.length + r.length + 258 ≤ 2 ^ 31)
    (hqn : st.qnum + 1 ≤ INT_MAX) :
    begin_question st ("<block>".toList ++ r) =
      some (STEP.next { st with state := STATE_QUESTION, in_block := true, qnum := st.qnum + 1,
                                question := st.question.app r, answer_known := false,
                                correct := false, maybe_correct := false }) ∧
    (st.in_block = true →
      process_line ident st line =
        some (STEP.next { st with question := st.question.app ['\n'] }) ∧
      (st.question.app ['\n']).content = st.question.content ++ ['\n']) ∧
    (∀ st1, process_line ident st line = some (STEP.next st1) →
      (st1.state ≠ st.state ∨ st1.xml ≠ st.xml) → st.in_code = false ∧ st.in_block = false) := by
  refine ⟨?_, ?_, ?_⟩
  · have hb : strncasecmp_eq ("<block>".toList ++ r) "<block>".toList 7 = true := by
      simp [strncasecmp_eq]
    have hd : ("<block>".toList ++ r).drop 7 = r := by simp
    unfold begin_question
    simp only [hb, if_true, hd, Bool.true_or]
    rw [if_neg (by omega), strbuf_add_app r hq (by omega)]
    rfl
  · intro hin
    refine ⟨?_, rfl⟩
    unfold process_line
    simp only [hblank, List.length_nil, ne_eq, not_true_eq_false, if_false]
    unfold empty_line
    simp only [hin, Bool.not_true, Bool.and_false, Bool.false_eq_true, if_false]
    rw [strbuf_add_app _ hq (by simp only [String.toList, List.length_cons, List.length_nil]; omega)]
    rfl
  · intro st1 h1 hchg
    unfold process_line at h1
    simp only [hblank, List.length_nil, ne_eq, not_true_eq_false, if_false] at h1
    unfold empty_line at h1
    by_contra hcon
    have hreg : (!st.in_code && !st.in_block) = false := by
      cases hc : st.in_code <;> cases hb : st.in_block <;> simp_all
    simp only [hreg, Bool.false_eq_true, if_false] at h1
    simp only [Option.map_map, Option.map_eq_some', Function.comp_apply, STEP.next.injEq] at h1
    obtain ⟨a, _, ha⟩ := h1
    subst ha
    simp at hchg

theorem blank_line_in_block_witness :
    process_line ['d']
      { PF.start (GLOBALS.start false false) 0 with state := STATE_QUESTION, in_block := true }
      [' ', '\n'] =
      some (STEP.next
        { PF.start (GLOBALS.start false false) 0 with
            state := STATE_QUESTION, in_block := true, question := strbuf_init.app ['\n'] }) :=
  ((blank_line_in_block ['d']
      { PF.start (GLOBALS.start false false) 0 with state := STATE_QUESTION, in_block := true }
      [' ', '\n'] ['Q'] (by decide) strbuf_init_ok (by decide) (by decide)).2.1 rfl).1
/-! ## The answer line -/

/-- C6 fails on the code: with the choices A, B, C recorded, the line
`Answer: A, C` followed by its newline marks A only.  The first `strtok` call
(line 908) counts the newline as a delimiter, the following ones (line 929)
do not, so the last token is `C` with the newline attached and matches no
label; with a delimiter after it (`Answer: A, C.`) both A and C are marked. -/
theorem answer_line_last_token_keeps_newline :
    strtok " \t,)-;.\n".toList "A, C\n".toList = some (['A'], " C\n".toList) ∧
    strtok " \t,)-;.".toList " C\n".toList = some ("C\n".toList, []) ∧
    (process_lines ['d'] (PF.start (GLOBALS.start false false) 0)
        (fgets_lines LINE_LEN "1. Q\nA. x\nB. y\nC. z\nAnswer: A, C\n".toList [])).map
      (fun r => match r with
        | STEP.next st => (st.state, (st.choices.take 3).map (fun ch => (ch.id, ch.correct)))
        | STEP.returned _ => (STATE_NONE, []))
      = some (STATE_ANSWER, [(some ['A'], true), (some ['B'], false), (some ['C'], false)]) ∧
    (process_lines ['d'] (PF.start (GLOBALS.start false false) 0)
        (fgets_lines LINE_LEN "1. Q\nA. x\nB. y\nC. z\nAnswer: A, C.\n".toList [])).map
      (fun r => match r with
        | STEP.next st => (st.state, (st.choices.take 3).map (fun ch => (ch.id, ch.correct)))
        | STEP.returned _ => (STATE_NONE, []))
      = some (STATE_ANSWER, [(some ['A'], true), (some ['B'], false), (some ['C'], true)]) := by
  refine ⟨by decide!, by decide!, by decide!, by decide!⟩
/-! ## encode_question -/

theorem encode_question_loop_ok (fuel : Nat) (p1 : CStr) {m : STRBUF} (h : m.Ok)
    (hb : m.content.length + (encode_text fuel p1).length + 257 ≤ 2 ^ 31) :
    ∃ m1, encode_question_loop fuel m p1 = some m1 ∧ m1.Ok ∧
      m1.content = m.content ++ encode_text fuel p1 ∧
      (m1.len = 0 ↔ (m.len = 0 ∧ (fuel = 0 ∨ p1 = []))) := by
  induction fuel generalizing m p1 with
  | zero => exact ⟨m, rfl, h, by simp [encode_text], by simp⟩
  | succ f ih =>
    unfold encode_question_loop
    unfold encode_text at hb ⊢
    by_cases hp : p1.isEmpty = true
    · have : p1 = [] := by simpa using hp
      simp only [hp, if_true]
      exact ⟨m, rfl, h, by simp, by simp [this]⟩
    · have hne : p1 ≠ [] := by simpa using hp
      simp only [hp, Bool.false_eq_true, if_false] at hb ⊢
      cases hk : strstr p1 START_CODE with
      | none =>
        simp only [hk] at hb ⊢
        exact ⟨_, strbuf_add_app p1 h hb, ok_app p1 h hb, rfl,
          by simp [len_app_ne, hne]⟩
      | some k =>
        simp only [hk, List.length_append] at hb ⊢
        obtain ⟨m1, e1, ok1, ne1, c1⟩ := strbuf_adds_ok [p1.take k, START_CODE] h
          (Or.inr (by simp)) (by simp only [concat_all, List.length_append, List.length_nil]; omega)
        simp only [concat_all, List.append_nil] at c1
        rw [e1, Option.some_bind]
        cases hj : strstr (p1.drop (k + START_CODE.length)) END_CODE with
        | none =>
          simp only [hj, List.length_append] at hb ⊢
          obtain ⟨m2, e2, ok2, ne2, c2⟩ := html_safe_stradd_loop_ok
            (p1.drop (k + START_CODE.length)) ok1 ne1
            (by rw [c1]; simp only [List.length_append]; omega)
          have hb3 : m2.content.length + END_CODE.length + 257 ≤ 2 ^ 31 := by
            rw [c2, c1]; simp only [List.length_append]; omega
          refine ⟨_, ?_, ok_app END_CODE ok2 hb3, ?_, ?_⟩
          · simp only [html_safe_stradd, e2, Option.some_bind]
            exact strbuf_add_app END_CODE ok2 hb3
          · rw [content_app, c2, c1]; simp only [List.append_assoc]
          · simp [len_app_ne, hne]
        | some j =>
          simp only [hj, List.length_append] at hb ⊢
          obtain ⟨m2, e2, ok2, ne2, c2⟩ := html_safe_stradd_loop_ok
            ((p1.drop (k + START_CODE.length)).take j) ok1 ne1
            (by rw [c1]; simp only [List.length_append]; omega)
          have hb3 : m2.content.length + END_CODE.length + 257 ≤ 2 ^ 31 := by
            rw [c2, c1]; simp only [List.length_append]; omega
          have ok3 := ok_app END_CODE ok2 hb3
          obtain ⟨m4, e4, ok4, c4, l4⟩ := ih
            ((p1.drop (k + START_CODE.length)).drop (j + END_CODE.length)) ok3
            (by rw [content_app, c2, c1]; simp only [List.length_append]; omega)
          refine ⟨m4, ?_, ok4, ?_, ?_⟩
          · simp only [html_safe_stradd, e2, Option.some_bind, strbuf_add_app END_CODE ok2 hb3, e4]
          · rw [c4, content_app, c2, c1]; simp only [List.append_assoc]
          · rw [l4]; simp [len_app_ne, hne]

theorem encode_question_eq (q : Option CStr)
    (hb : ((encoded_question q).getD []).length + 257 ≤ 2 ^ 31) :
    encode_question q = some (encoded_question q) := by
  cases q with
  | none => rfl
  | some q =>
    unfold encode_question encoded_question at *
    by_cases hq : q.isEmpty = true
    · have : q = [] := by simpa using hq
      subst this
      rfl
    · have hne : q ≠ [] := by simpa using hq
      simp only [hq, Bool.false_eq_true, if_false, Option.getD_some] at hb ⊢
      obtain ⟨m1, e1, ok1, c1, l1⟩ := encode_question_loop_ok (q.length + 1) q strbuf_init_ok
        (by rw [content_init, List.length_nil]; omega)
      have hl : m1.len ≠ 0 := by
        intro h0; have := l1.1 h0; simp [hne] at this
      rw [e1, Option.map_some', (ok1.lt_len hl).1, c1, content_init, List.nil_append]
/-! ## The blank line -/

theorem add_choice_ok (choices : List CHOICE_T) (cnt : Nat) (id : CStr) (text : Option CStr)
    (correct : Bool) (hcnt : cnt = choices.length) (hshort : choices.length + 5 ≤ 32767) :
    ∃ arr cnt1, add_choice choices cnt id text correct = some (arr, cnt1) ∧ cnt1 = arr.length := by
  subst hcnt
  cases text with
  | none => exact ⟨choices, _, rfl, rfl⟩
  | some t =>
    unfold add_choice
    simp only [gt_iff_lt, lt_self_iff_false, if_false, List.take_length]
    by_cases he : choices.isEmpty = true
    · simp only [he, if_true, Option.map_some']
      exact ⟨_, _, rfl, by simp [CHOICE_ALLOC]⟩
    · simp only [he, Bool.false_eq_true, if_false]
      by_cases hi : first_free choices = choices.length
      · have : choices.length + CHOICE_ALLOC ≤ 32767 := by unfold CHOICE_ALLOC; omega
        simp only [hi, if_true, this, Option.map_some']
        exact ⟨_, _, rfl, by simp [CHOICE_ALLOC]⟩
      · simp only [hi, if_false, Option.map_some']
        exact ⟨_, _, rfl, by simp⟩

theorem item_text_ne_nil (qnum : Int) (qtype : Nat) (qtext : Option CStr) (L : List CHOICE_T)
    (ident : CStr) : item_text qnum qtype qtext L ident ≠ [] := by
  intro h
  unfold item_text at h
  have h2 := (List.append_eq_nil.1 h).2
  revert h2
  decide

/-- C8: with no code or block region open, a blank line closes the item (the
fragment of `process_question` is appended to the output and the state goes
back to `STATE_NONE`) exactly when the state is `STATE_ANSWER`, or
`STATE_CHOICE` with an answer known or the no-answers mode on; in every
other case only `after_empty_line` is set. -/
theorem blank_line_boundary (ident : CStr) (st : PF) (line : CStr)
    (hblank : skip_spaces line = []) (hcode : st.in_code = false) (hblk : st.in_block = false)
    (hcnt : st.choice_cnt = st.choices.length) (hshort : st.choices.length + 5 ≤ 32767)
    (hxml : st.xml.Ok)
    (henc : ((encoded_question st.question.s).getD []).length + 257 ≤ 2 ^ 31)
    (hfit : ∀ arr cnt, closing_choices st = some (arr, cnt) →
      (item_text st.qnum (question_type arr cnt) (encoded_question st.question.s) (arr.take cnt)
        ident).length + st.xml.content.length + 257 ≤ 2 ^ 31) :
    (¬ closes_item st →
      process_line ident st line = some (STEP.next { st with after_empty_line := true })) ∧
    (closes_item st →
      ∃ arr cnt arr2 frag, closing_choices st = some (arr, cnt) ∧
        process_question st.qnum (encoded_question st.question.s) arr cnt ident = some (some frag) ∧
        frag ≠ [] ∧ clear_choices arr cnt = some arr2 ∧
        process_line ident st line =
          some (STEP.next { st with
            after_empty_line := true, choices := arr2, choice_cnt := cnt,
            xml := st.xml.app frag, choice := strbuf_clear st.choice,
            question := strbuf_clear st.question, state := STATE_NONE,
            curr_choice := if st.state ≠ STATE_ANSWER ∧ st.choice.s.isSome
                           then trimstr2 st.curr_choice else st.curr_choice }) ∧
        (st.xml.app frag).content = st.xml.content ++ frag) ∧
    (∃ st1, process_line ident st line = some (STEP.next st1) ∧
      ((st1.xml.content ≠ st.xml.content ∧ st1.state = STATE_NONE) ↔ closes_item st)) := by
  have hA : ¬ closes_item st →
      process_line ident st line = some (STEP.next { st with after_empty_line := true }) := by
    intro hno
    unfold closes_item at hno
    unfold process_line
    simp only [hblank, List.length_nil, ne_eq, not_true_eq_false, if_false]
    unfold empty_line
    simp only [hcode, hblk, Bool.not_false, Bool.and_self, if_true, hno, if_false, Option.map_some']
  have hB : closes_item st →
      ∃ arr cnt arr2 frag, closing_choices st = some (arr, cnt) ∧
        process_question st.qnum (encoded_question st.question.s) arr cnt ident = some (some frag) ∧
        frag ≠ [] ∧ clear_choices arr cnt = some arr2 ∧
        process_line ident st line =
          some (STEP.next { st with
            after_empty_line := true, choices := arr2, choice_cnt := cnt,
            xml := st.xml.app frag, choice := strbuf_clear st.choice,
            question := strbuf_clear st.question, state := STATE_NONE,
            curr_choice := if st.state ≠ STATE_ANSWER ∧ st.choice.s.isSome
                           then trimstr2 st.curr_choice else st.curr_choice }) ∧
        (st.xml.app frag).content = st.xml.content ++ frag := by
    intro hyes
    have hcl : ∃ arr cnt, closing_choices st = some (arr, cnt) ∧ cnt = arr.length := by
      unfold closing_choices
      by_cases hs : st.state = STATE_ANSWER
      · simp only [hs, ne_eq, not_true_eq_false, if_false]
        exact ⟨_, _, rfl, hcnt⟩
      · simp only [ne_eq, hs, not_false_eq_true, if_true]
        exact add_choice_ok _ _ _ _ _ hcnt hshort
    obtain ⟨arr, cnt, harr, hlen⟩ := hcl
    have hfit2 := hfit arr cnt harr
    have hq : process_question st.qnum (encoded_question st.question.s) arr cnt ident =
        some (some (item_text st.qnum (question_type arr cnt) (encoded_question st.question.s)
          (arr.take cnt) ident)) := by
      unfold process_question
      rw [if_neg (by omega)]
      exact qti_1_2_eq _ _ _ _ _ _ (by omega) (by omega)
    have hclr : clear_choices arr cnt = some ((arr.take cnt).map
        (fun ch => { ch with id := none, text := none }) ++ arr.drop cnt) := by
      unfold clear_choices; rw [if_neg (by omega)]
    have hx := strbuf_add_app (item_text st.qnum (question_type arr cnt)
      (encoded_question st.question.s) (arr.take cnt) ident) hxml (by omega)
    refine ⟨arr, cnt, _, _, harr, hq, item_text_ne_nil _ _ _ _ _, hclr, ?_, rfl⟩
    unfold closes_item at hyes
    unfold closing_choices at harr
    unfold process_line
    simp only [hblank, List.length_nil, ne_eq, not_true_eq_false, if_false]
    unfold empty_line
    simp only [hcode, hblk, Bool.not_false, Bool.and_self, if_true, hyes, harr, Option.some_bind,
      encode_question_eq _ henc, hq, hx, hclr, Option.map_some']
  refine ⟨hA, hB, ?_⟩
  by_cases hc : closes_item st
  · obtain ⟨arr, cnt, arr2, frag, _, _, hne, _, hpl, hcont⟩ := hB hc
    refine ⟨_, hpl, ?_⟩
    simp only [hcont, hc, iff_true, and_true]
    intro h
    have := congrArg List.length h
    simp only [List.length_append] at this
    have : frag.length = 0 := by omega
    exact hne (List.length_eq_zero.1 this)
  · refine ⟨_, hA hc, ?_⟩
    simp [hc]

theorem sample_choice_state_reached :
    process_lines ['d'] (PF.start (GLOBALS.start false false) 0)
      (fgets_lines LINE_LEN "1. Q\nA. x\n*B. y\n".toList []) =
      some (STEP.next sample_choice_state) := by
  decide!

theorem blank_line_boundary_witness :
    ∃ st1, process_line ['d'] sample_choice_state ['\n'] = some (STEP.next st1) ∧
      ((st1.xml.content ≠ sample_choice_state.xml.content ∧ st1.state = STATE_NONE) ↔
        closes_item sample_choice_state) :=
  (blank_line_boundary ['d'] sample_choice_state ['\n'] (by decide) rfl rfl rfl (by decide)
    strbuf_init_ok (by decide!)
    (fun arr cnt h => by
      have e : closing_choices sample_choice_state =
          some ([{ id := some ['A'], correct := false, text := some ['x'] },
                 { id := some ['B'], correct := true, text := some ['y'] },
                 empty_slot, empty_slot, empty_slot], 5) := by decide!
      rw [e] at h
      cases h
      decide!)).2.2
/-! ## The `*` shorthand -/

theorem strcasestr_star (s needle : CStr) (hn : needle.head? = some '<') :
    strcasestr ('*' :: s) needle = (strcasestr s needle).map (· + 1) := by
  cases needle with
  | nil => simp at hn
  | cons a r =>
    simp only [List.head?_cons, Option.some.injEq] at hn
    subst hn
    have : strncasecmp_eq ('*' :: s) ('<' :: r) ('<' :: r).length = false := by
      simp only [strncasecmp_eq, List.length_cons, List.take_succ_cons, List.map_cons]
      have : tolower '*' ≠ tolower '<' := by decide
      simp [this]
    rw [strcasestr, this]
    rfl

theorem scan_end_code_fuel (f1 f2 : Nat) (ic : Bool) (s : CStr) (h1 : s.length < f1)
    (h2 : s.length < f2) : scan_end_code f1 ic s = scan_end_code f2 ic s := by
  induction f1 generalizing f2 ic s with
  | zero => omega
  | succ f1 ih =>
    cases f2 with
    | zero => omega
    | succ f2 =>
      unfold scan_end_code
      cases hk : strcasestr s END_CODE with
      | none => rfl
      | some k =>
        simp only
        by_cases hb : k + 7 ≤ s.length
        · rw [if_pos hb, if_pos hb]
          apply ih
          · simp only [List.length_drop]; omega
          · simp only [List.length_drop]; omega
        · rw [if_neg hb, if_neg hb]

theorem scan_code_star (ic : Bool) (s : CStr) : scan_code ic ('*' :: s) = scan_code ic s := by
  unfold scan_code
  have key : scan_end_code (('*' :: s).length + 1) ic ('*' :: s) =
      (scan_end_code (s.length + 1) ic s).map
        (fun r => if (strcasestr s END_CODE).isSome then r else (r.1, '*' :: r.2)) := by
    rw [show ('*' :: s).length + 1 = (s.length + 1) + 1 from rfl]
    conv_lhs => unfold scan_end_code
    rw [strcasestr_star s END_CODE rfl]
    conv_rhs => unfold scan_end_code
    cases hk : strcasestr s END_CODE with
    | none => simp
    | some k =>
      simp only [Option.map_some', List.length_cons, Option.isSome_some, if_true]
      by_cases hb : k + 7 ≤ s.length
      · rw [if_pos hb, if_pos (by omega)]
        rw [show k + 1 + 7 = (k + 7) + 1 from by omega, List.drop_succ_cons]
        rw [scan_end_code_fuel (s.length + 1) s.length false _
          (by simp only [List.length_drop]; omega) (by simp only [List.length_drop]; omega)]
        simp
      · rw [if_neg hb, if_neg (by omega)]; rfl
  rw [key]
  cases hr : scan_end_code (s.length + 1) ic s with
  | none => rfl
  | some r =>
    simp only [Option.map_some']
    by_cases he : (strcasestr s END_CODE).isSome = true
    · simp [he]
    · simp only [he, Bool.false_eq_true, if_false, strcasestr_star r.2 START_CODE rfl,
        Option.isSome_map']

theorem strbuf_clear_ok {sb : STRBUF} (h : sb.Ok) :
    (strbuf_clear sb).Ok ∧ (strbuf_clear sb).content = [] := by
  unfold strbuf_clear
  by_cases h0 : sb.len = 0
  · rcases h with ⟨hl, ⟨_, h2, h3⟩ | ⟨t, h1, h2, h4⟩⟩
    · simp only [h0, ne_eq, not_true_eq_false, if_false]
      exact ⟨⟨hl, Or.inl ⟨h0, h2, h3⟩⟩, by simp [STRBUF.content, h3]⟩
    · omega
  · obtain ⟨hs, hlt⟩ := h.lt_len h0
    simp only [ne_eq, h0, not_false_eq_true, if_true, hs, Option.map_some']
    exact ⟨⟨h.1, Or.inr ⟨[], rfl, rfl, by simp only [List.length_nil]; omega⟩⟩, rfl⟩

theorem skip_spaces_length (p : CStr) : (skip_spaces p).length ≤ p.length := by
  induction p with
  | nil => simp [skip_spaces]
  | cons c r ih =>
    unfold skip_spaces
    split
    · simp only [List.length_cons]; omega
    · exact le_refl _

theorem add_choice_records (choices : List CHOICE_T) (cnt : Nat) (id t : CStr) (c : Bool)
    (arr : List CHOICE_T) (cnt1 : Nat) (hcnt : cnt = choices.length)
    (h : add_choice choices cnt id (some t) c = some (arr, cnt1)) :
    ∃ (i : Nat) (old : CHOICE_T), arr[i]? = some
      ({ id := if (trimstr2 id).length ≠ 0 then some (trimstr2 id) else old.id,
         correct := c, text := some (trimstr t) } : CHOICE_T) := by
  subst hcnt
  unfold add_choice at h
  simp only [gt_iff_lt, lt_self_iff_false, if_false, List.take_length] at h
  by_cases he : choices.isEmpty = true
  · simp only [he, if_true, Option.map_some', Option.some.injEq, Prod.mk.injEq] at h
    refine ⟨0, empty_slot, ?_⟩
    rw [← h.1]; rfl
  · simp only [he, Bool.false_eq_true, if_false] at h
    have hff : ∀ L : List CHOICE_T, first_free L ≤ L.length ∧
        (first_free L < L.length → ∃ o, L[first_free L]? = some o) := by
      intro L
      induction L with
      | nil => simp [first_free]
      | cons a L ih =>
        unfold first_free
        split
        · simp only [List.length_cons, Nat.add_lt_add_iff_right, List.getElem?_cons_succ]
          exact ⟨by omega, ih.2⟩
        · simp
    by_cases hi : first_free choices = choices.length
    · by_cases hs : choices.length + CHOICE_ALLOC ≤ 32767
      · simp only [hi, if_true, hs, Option.map_some', Option.some.injEq, Prod.mk.injEq] at h
        refine ⟨choices.length, empty_slot, ?_⟩
        have e : (choices ++ List.replicate CHOICE_ALLOC empty_slot)[choices.length]? =
            some empty_slot := by
          rw [List.getElem?_append_right (le_refl _)]; simp [CHOICE_ALLOC]
        rw [← h.1, List.getElem?_modify_eq, e]
        rfl
      · simp [hi, hs] at h
    · simp only [hi, if_false, Option.map_some', Option.some.injEq, Prod.mk.injEq] at h
      have hlt : first_free choices < choices.length := by
        have := (hff choices).1; omega
      obtain ⟨o, ho⟩ := (hff choices).2 hlt
      refine ⟨first_free choices, o, ?_⟩
      rw [← h.1, List.getElem?_modify_eq, ho]
      rfl

theorem first_choice_label (c d : Char) (rest : CStr)
    (h : is_first_choice (c :: d :: rest) = true) : c_str [c, d] = [c, d] := by
  have hc : c ≠ '\x00' := by
    intro e; subst e
    have : is_first_label '\x00' = false := by decide
    simp [is_first_choice, this] at h
  have hd : d ≠ '\x00' := by
    intro e; subst e
    simp only [is_first_choice, Bool.and_eq_true, Bool.or_eq_true, decide_eq_true_eq] at h
    rcases h.2 with ((h1 | h1) | h1) | h1
    · revert h1; decide
    · revert h1; decide
    · revert h1; decide
    · have : isspace '\x00' = false := by decide
      rw [this] at h1; simp at h1
  simp [c_str, List.takeWhile, hc, hd]

theorem star_line_forms (st : PF) (body : CStr) (ic : Bool)
    (hbody : body ≠ []) (hsp : skip_spaces body = body) (hns : body.head? ≠ some '*')
    (hic : scan_code st.in_code body = some ic) (star : Bool) :
    skip_spaces (if star then '*' :: body else body) = (if star then '*' :: body else body) ∧
    (if star then '*' :: body else body).length ≠ 0 ∧
    scan_code st.in_code (if star then '*' :: body else body) = some ic ∧
    ((if star then '*' :: body else body).head? = some '*') = (star = true) ∧
    (if star then (if star then '*' :: body else body).drop 1
     else (if star then '*' :: body else body)) = body := by
  cases star with
  | false =>
    have : body.length ≠ 0 := fun h => hbody (List.length_eq_zero.1 h)
    simp [hsp, this, hic, hns]
  | true => simp [skip_spaces_cons '*' body (by decide), scan_code_star, hic]

/-- A line of `STATE_CHOICE` that starts with the expected label, with or without
a leading `*`. -/
theorem next_choice_step (ident : CStr) (st : PF) (body nc : CStr) (ic : Bool)
    (arr : List CHOICE_T) (cnt : Nat)
    (hbody : body ≠ []) (hsp : skip_spaces body = body) (hns : body.head? ≠ some '*')
    (hic : scan_code st.in_code body = some ic) (hmc : st.maybe_correct = false)
    (hch : st.choice.Ok) (hsz : body.length + 257 ≤ 2 ^ 31)
    (hst : st.state = STATE_CHOICE)
    (hmatch : strncmp_eq body st.next_choice st.next_choice.length = true)
    (harr : add_choice st.choices st.choice_cnt st.curr_choice st.choice.s st.correct
      = some (arr, cnt))
    (hnum : st.choice_num + 1 ≤ INT_MAX)
    (hnext : next_label (st.choice_num + 1) st.next_choice st.g.G_cformat = some nc)
    (star : Bool) :
    process_line ident st (if star then '*' :: body else body) =
      some (STEP.next { st with
        in_code := ic, after_empty_line := false, choices := arr, choice_cnt := cnt,
        choice := (strbuf_clear st.choice).app
          (skip_spaces (body.drop st.next_choice.length)),
        curr_choice := st.next_choice, choice_num := st.choice_num + 1,
        correct := star, answer_known := star || st.answer_known,
        maybe_correct := false, next_choice := nc }) := by
  obtain ⟨hcok, hcc⟩ := strbuf_clear_ok hch
  obtain ⟨h1, hlen, h3, h4, h5⟩ := star_line_forms st body ic hbody hsp hns hic star
  have hadd := strbuf_add_app (skip_spaces (body.drop st.next_choice.length)) hcok (by
    have := skip_spaces_length (body.drop st.next_choice.length)
    rw [hcc]; simp only [List.length_nil, List.length_drop] at this ⊢; omega)
  have hno : ¬ (st.choice_num + 1 > INT_MAX) := by omega
  unfold process_line
  simp only [h1, ite_self, hlen, ne_eq, not_false_eq_true, if_true, h3, Option.some_bind, hst]
  unfold case_STATE_CHOICE
  simp only [h4, decide_eq_true_eq]
  cases star with
  | false =>
    simp only [Bool.false_eq_true, if_false, hmatch, if_true, decide_False, Bool.false_or] at h5 ⊢
    unfold next_choice_line
    simp only [hno, if_false, harr, Option.some_bind, hnext, hadd, Option.map_some', hmc]
    rfl
  | true =>
    simp only [if_true, List.drop_succ_cons, List.drop_zero, hmatch, decide_True,
      Bool.true_or] at h5 ⊢
    unfold next_choice_line
    simp only [hno, if_false, harr, Option.some_bind, hnext, hadd, Option.map_some']
    rfl

/-- A line of `STATE_QUESTION` that passes the first-choice test, with or without
a leading `*`. -/
theorem first_choice_step (ident : CStr) (st : PF) (nc rest : CStr) (c d : Char) (ic : Bool)
    (hsp : skip_spaces (c :: d :: rest) = c :: d :: rest)
    (hns : (c :: d :: rest).head? ≠ some '*')
    (hic : scan_code st.in_code (c :: d :: rest) = some ic)
    (hch : st.choice.Ok) (hsz : (c :: d :: rest).length + 257 ≤ 2 ^ 31)
    (hst : st.state = STATE_QUESTION) (hfc : st.g.G_first_choice = [])
    (hfirst : is_first_choice (c :: d :: rest) = true)
    (hnext : next_label 1 st.next_choice
      { style := style_of c st.g.G_cformat.style, sep := d } = some nc)
    (star : Bool) :
    process_line ident st (if star then '*' :: c :: d :: rest else c :: d :: rest) =
      some (STEP.next { st with
        after_empty_line := false, in_code := false, in_block := false,
        choice_num := 1, correct := star, answer_known := star || st.answer_known,
        maybe_correct := false,
        choice := (strbuf_clear st.choice).app (skip_spaces rest),
        g := { st.g with
               G_cformat := { style := style_of c st.g.G_cformat.style, sep := d } },
        state := STATE_CHOICE, curr_choice := [c, d], next_choice := nc }) := by
  obtain ⟨hcok, hcc⟩ := strbuf_clear_ok hch
  obtain ⟨h1, hlen, h3, h4, h5⟩ :=
    star_line_forms st (c :: d :: rest) ic (by simp) hsp hns hic star
  have hadd := strbuf_add_app (skip_spaces rest) hcok (by
    have := skip_spaces_length rest
    simp only [List.length_cons] at hsz
    rw [hcc]; simp only [List.length_nil]; omega)
  have hlab := first_choice_label c d rest hfirst
  unfold process_line
  simp only [h1, ite_self, hlen, ne_eq, not_false_eq_true, if_true, h3, Option.some_bind, hst]
  unfold case_STATE_QUESTION
  simp only [h4, decide_eq_true_eq, hfc, List.length_nil, ne_eq, not_true_eq_false,
    decide_False, Bool.and_false, Bool.false_and, Bool.false_eq_true, if_false, decide_True,
    Bool.or_true, Bool.true_and]
  cases star with
  | false =>
    simp only [Bool.false_eq_true, if_false, hfirst, if_true] at h5 ⊢
    simp only [hnext, Option.some_bind, first_choice_text, hadd, Option.map_some', hlab,
      Bool.false_eq_true, if_false, Bool.false_or]
    rfl
  | true =>
    simp only [if_true, List.drop_succ_cons, List.drop_zero, hfirst] at h5 ⊢
    simp only [hnext, Option.some_bind, first_choice_text, hadd, Option.map_some', hlab,
      if_true, Bool.true_or]
    rfl

/-- C7: a line recognised as the start of a choice (the next expected label in
`STATE_CHOICE`, the first choice in `STATE_QUESTION`) is processed in the same
way with and without a leading `*`, except that `correct` is 1 with the `*`
and 0 without it (and `answer_known` is set by the `*`): the label kept in
`curr_choice` and the text put in the `choice` buffer are the same in both
cases, so the `*` is in neither; `add_choice` later records exactly these
three variables. -/
theorem star_marks_choice_correct (ident : CStr) (st : PF) (body nc : CStr)
    (hbody : body ≠ []) (hsp : skip_spaces body = body) (hns : body.head? ≠ some '*')
    (hnl : nl_end body) (hmc : st.maybe_correct = false)
    (hch : st.choice.Ok) (hsz : body.length + 257 ≤ 2 ^ 31) :
    (st.state = STATE_CHOICE →
      strncmp_eq body st.next_choice st.next_choice.length = true →
      st.choice_cnt = st.choices.length → st.choices.length + 5 ≤ 32767 →
      st.choice_num + 1 ≤ INT_MAX →
      next_label (st.choice_num + 1) st.next_choice st.g.G_cformat = some nc →
      ∃ ic arr cnt, scan_code st.in_code body = some ic ∧
        add_choice st.choices st.choice_cnt st.curr_choice st.choice.s st.correct
          = some (arr, cnt) ∧
        ∀ star : Bool,
          process_line ident st (if star then '*' :: body else body) =
            some (STEP.next { st with
              in_code := ic, after_empty_line := false, choices := arr, choice_cnt := cnt,
              choice := (strbuf_clear st.choice).app
                (skip_spaces (body.drop st.next_choice.length)),
              curr_choice := st.next_choice, choice_num := st.choice_num + 1,
              correct := star, answer_known := star || st.answer_known,
              maybe_correct := false, next_choice := nc })) ∧
    (st.state = STATE_QUESTION → st.g.G_first_choice = [] →
      ∀ c d rest, body = c :: d :: rest → is_first_choice body = true →
      next_label 1 st.next_choice { style := style_of c st.g.G_cformat.style, sep := d } = some nc →
      ∃ ic, scan_code st.in_code body = some ic ∧
        ∀ star : Bool,
          process_line ident st (if star then '*' :: body else body) =
            some (STEP.next { st with
              after_empty_line := false, in_code := false, in_block := false,
              choice_num := 1, correct := star, answer_known := star || st.answer_known,
              maybe_correct := false,
              choice := (strbuf_clear st.choice).app (skip_spaces rest),
              g := { st.g with
                     G_cformat := { style := style_of c st.g.G_cformat.style, sep := d } },
              state := STATE_CHOICE, curr_choice := [c, d], next_choice := nc })) ∧
    (∀ (choices : List CHOICE_T) (cnt : Nat) (label text : CStr) (flag : Bool)
        (arr : List CHOICE_T) (cnt1 : Nat), cnt = choices.length →
      add_choice choices cnt label (some text) flag = some (arr, cnt1) →
      ∃ (i : Nat) (old : CHOICE_T), arr[i]? = some
        ({ id := if (trimstr2 label).length ≠ 0 then some (trimstr2 label) else old.id,
           correct := flag, text := some (trimstr text) } : CHOICE_T)) := by
  obtain ⟨ic, hic⟩ := scan_code_ok st.in_code body hnl
  refine ⟨?_, ?_, add_choice_records⟩
  · intro hst hmatch hcnt hshort hnum hnext
    obtain ⟨arr, cnt, harr, _⟩ := add_choice_ok st.choices st.choice_cnt st.curr_choice
      st.choice.s st.correct hcnt hshort
    exact ⟨ic, arr, cnt, hic, harr, fun star =>
      next_choice_step ident st body nc ic arr cnt hbody hsp hns hic hmc hch hsz hst hmatch harr
        hnum hnext star⟩
  · intro hst hfc c d rest hb hfirst hnext
    subst hb
    exact ⟨ic, hic, fun star =>
      first_choice_step ident st nc rest c d ic hsp hns hic hch hsz hst hfc hfirst hnext star⟩


theorem sample_choice_ok : sample_choice_state.choice.Ok :=
  ok_app _ (strbuf_clear_ok (ok_app "x\n".toList strbuf_init_ok (by decide))).1
    (by rw [(strbuf_clear_ok (ok_app "x\n".toList strbuf_init_ok (by decide))).2]; decide)

theorem star_marks_choice_correct_witness :
    ∃ ic arr cnt, scan_code sample_choice_state.in_code "C. z\n".toList = some ic ∧
      add_choice sample_choice_state.choices sample_choice_state.choice_cnt
        sample_choice_state.curr_choice sample_choice_state.choice.s sample_choice_state.correct
        = some (arr, cnt) ∧
      ∀ star : Bool,
        process_line ['d'] sample_choice_state
            (if star then '*' :: "C. z\n".toList else "C. z\n".toList) =
          some (STEP.next { sample_choice_state with
            in_code := ic, after_empty_line := false, choices := arr, choice_cnt := cnt,
            choice := (strbuf_clear sample_choice_state.choice).app
              (skip_spaces ("C. z\n".toList.drop sample_choice_state.next_choice.length)),
            curr_choice := sample_choice_state.next_choice,
            choice_num := sample_choice_state.choice_num + 1,
            correct := star, answer_known := star || sample_choice_state.answer_known,
            maybe_correct := false, next_choice := "D.".toList }) :=
  (star_marks_choice_correct ['d'] sample_choice_state "C. z\n".toList "D.".toList
    (by decide) (by decide) (by decide) (Or.inr (by decide)) rfl sample_choice_ok
    (by decide)).1 rfl (by decide) rfl (by decide) (by decide) (by decide)
/-! ## Lines without markup -/

theorem tolower_eq_lt (c : Char) (h : tolower c = '<') : c = '<' := by
  unfold tolower at h
  split at h
  · rename_i hc
    simp only [Bool.and_eq_true, decide_eq_true_eq] at hc
    exfalso
    obtain ⟨h1, h3⟩ := hc
    generalize c.toNat = n at *
    interval_cases n <;> revert h <;> decide
  · exact h

theorem strcasestr_free (p needle : CStr) (hp : '<' ∉ p) (hn : needle.head? = some '<') :
    strcasestr p needle = none := by
  cases needle with
  | nil => simp at hn
  | cons a r =>
    simp only [List.head?_cons, Option.some.injEq] at hn
    subst hn
    induction p with
    | nil => rfl
    | cons c cs ih =>
      simp only [List.mem_cons, not_or] at hp
      have hc : tolower c ≠ tolower '<' := by
        intro e
        have : tolower '<' = '<' := by decide
        rw [this] at e
        exact hp.1 (tolower_eq_lt c e).symm
      have : strncasecmp_eq (c :: cs) ('<' :: r) ('<' :: r).length = false := by
        simp only [strncasecmp_eq, List.length_cons, List.take_succ_cons, List.map_cons]
        simp [hc]
      rw [strcasestr, this, ih hp.2]
      rfl

theorem strstr_free (p needle : CStr) (hp : '<' ∉ p) (hn : needle.head? = some '<') :
    strstr p needle = none := by
  cases needle with
  | nil => simp at hn
  | cons a r =>
    simp only [List.head?_cons, Option.some.injEq] at hn
    subst hn
    induction p with
    | nil => rfl
    | cons c cs ih =>
      simp only [List.mem_cons, not_or] at hp
      have hc : c ≠ '<' := fun e => hp.1 e.symm
      have : strncmp_eq (c :: cs) ('<' :: r) ('<' :: r).length = false := by
        simp only [strncmp_eq, List.length_cons, List.take_succ_cons]
        simp [hc]
      rw [strstr, this, ih hp.2]
      rfl

theorem scan_code_free (ic : Bool) (p : CStr) (hp : '<' ∉ p) : scan_code ic p = some ic := by
  have h1 : strcasestr p END_CODE = none := strcasestr_free p _ hp rfl
  have h2 : strcasestr p START_CODE = none := strcasestr_free p _ hp rfl
  simp [scan_code, scan_end_code, h1, h2]

theorem encoded_question_free (p : CStr) (hp : '<' ∉ p) (hne : p ≠ []) :
    encoded_question (some p) = some p := by
  have h1 : strstr p START_CODE = none := strstr_free p _ hp rfl
  have : p.isEmpty = false := by cases p <;> simp_all
  simp [encoded_question, encode_text, this, h1]

theorem escape_length (s : CStr) : (Escape s).length ≤ 6 * s.length := by
  induction s with
  | nil => simp [Escape]
  | cons c p ih =>
    have : (html_entity c).length ≤ 6 := by
      unfold html_entity
      split_ifs <;> simp
    simp only [Escape, List.length_append, List.length_cons]
    omega

theorem trimstr_length (p : CStr) : (trimstr p).length ≤ p.length := by
  unfold trimstr
  rw [List.length_reverse]
  have := (List.dropWhile_sublist (p := isspace) (l := p.reverse)).length_le
  simpa using this

/-! ## Steps of the parser on well-formed lines -/

/-- A question line in `STATE_NONE` when the numbering is still unknown and the
line starts with a label and a separator. -/
theorem none_detect_step (ident : CStr) (st : PF) (rest : CStr) (c d : Char) (ic : Bool)
    (hstate : st.state = STATE_NONE) (hfmt : st.g.G_qformat.style = FMT_UNKNOWN)
    (hcode : st.in_code = false) (hblk : st.in_block = false)
    (hc : is_first_label c = true) (hd : d = '.' ∨ d = ')' ∨ d = '-')
    (hic : scan_code false (c :: d :: rest) = some ic)
    (hq : st.question.Ok) (hsz : st.question.content.length + rest.length + 257 ≤ 2 ^ 31)
    (hqn : st.qnum + 1 ≤ INT_MAX) :
    process_line ident st (c :: d :: rest) =
      some (STEP.next { st with
        g := { st.g with G_qformat := { style := style_of c FMT_UNKNOWN, sep := d } },
        state := STATE_QUESTION, in_code := ic, after_empty_line := false,
        in_block := strncasecmp_eq rest "<block>".toList 7,
        qnum := st.qnum + 1,
        question := st.question.app
          (if strncasecmp_eq rest "<block>".toList 7 then rest.drop 7 else rest),
        answer_known := false, correct := false, maybe_correct := false }) := by
  have hsp : isspace c = false := by
    simp only [is_first_label, Bool.or_eq_true, decide_eq_true_eq] at hc
    rcases hc with (((rfl | rfl) | rfl) | rfl) | rfl <;> decide
  have hp : skip_spaces (c :: d :: rest) = c :: d :: rest := skip_spaces_cons _ _ hsp
  have hdet : detect_qformat st.g.G_qformat (c :: d :: rest) =
      ({ style := style_of c FMT_UNKNOWN, sep := d }, rest) := by
    simp [detect_qformat, hc, hfmt, hd]
  have hlen : (if strncasecmp_eq rest "<block>".toList 7 = true then rest.drop 7 else rest).length
      ≤ rest.length := by
    split
    · simp
    · exact le_refl _
  have hq2 : ¬ (st.qnum + 1 > INT_MAX) := by omega
  unfold process_line
  simp only [hcode, hblk, Bool.or_self, Bool.false_eq_true, if_false, hp, List.length_cons, ne_eq,
    Nat.add_one_ne_zero, not_false_eq_true, if_true, hic, Option.some_bind, hstate]
  unfold case_STATE_NONE
  simp only [hfmt, if_true, hdet]
  unfold begin_question
  simp only [hq2, if_false, strbuf_add_app _ hq (by omega : st.question.content.length +
    (if strncasecmp_eq rest "<block>".toList 7 = true then rest.drop 7 else rest).length + 257
      ≤ 2 ^ 31), Option.map_some', hblk, Bool.or_false]

/-- A question line in `STATE_NONE` when a numbering style is already locked: the
whole line goes to the question text. -/
theorem none_numbered_step (ident : CStr) (st : PF) (p b : CStr) (ic : Bool)
    (hstate : st.state = STATE_NONE) (hf1 : st.g.G_qformat.style ≠ FMT_UNKNOWN)
    (hf2 : st.g.G_qformat.style ≠ FMT_NONE)
    (hcode : st.in_code = false) (hblk : st.in_block = false)
    (hp : skip_spaces p = p) (hne : p ≠ [])
    (hic : scan_code false p = some ic)
    (hnext : next_fmt (st.qnum + 1) st.next_question st.g.G_qformat = some (some b))
    (hb : b.length < CHOICE_ID_LEN)
    (hq : st.question.Ok) (hsz : st.question.content.length + p.length + 257 ≤ 2 ^ 31)
    (hqn : st.qnum + 1 ≤ INT_MAX) :
    process_line ident st p =
      some (STEP.next { st with
        next_question := b,
        state := STATE_QUESTION, in_code := ic, after_empty_line := false,
        in_block := strncasecmp_eq p "<block>".toList 7,
        qnum := st.qnum + 1,
        question := st.question.app
          (if strncasecmp_eq p "<block>".toList 7 then p.drop 7 else p),
        answer_known := false, correct := false, maybe_correct := false }) := by
  have hlen : (if strncasecmp_eq p "<block>".toList 7 = true then p.drop 7 else p).length
      ≤ p.length := by
    split
    · simp
    · exact le_refl _
  have hq2 : ¬ (st.qnum + 1 > INT_MAX) := by omega
  have hl : p.length ≠ 0 := fun h => hne (List.length_eq_zero.1 h)
  unfold process_line
  simp only [hcode, hblk, Bool.or_self, Bool.false_eq_true, if_false, hp, hl, ne_eq,
    not_false_eq_true, if_true, hic, Option.some_bind, hstate]
  unfold case_STATE_NONE
  simp only [hf1, if_false, hf2, ne_eq, not_false_eq_true, if_true, hq2, hnext, hb]
  unfold begin_question
  simp only [hq2, if_false, strbuf_add_app _ hq (by omega : st.question.content.length +
    (if strncasecmp_eq p "<block>".toList 7 = true then p.drop 7 else p).length + 257
      ≤ 2 ^ 31), Option.map_some', hblk, Bool.or_false]

/-- A blank line that closes the item, given the array handed to
`process_question`. -/
theorem closing_step (ident : CStr) (st : PF) (line : CStr) (arr : List CHOICE_T) (cnt : Nat)
    (hblank : skip_spaces line = []) (hcode : st.in_code = false) (hblk : st.in_block = false)
    (hyes : closes_item st) (harr : closing_choices st = some (arr, cnt))
    (hlen : cnt = arr.length) (hxml : st.xml.Ok)
    (henc : ((encoded_question st.question.s).getD []).length + 257 ≤ 2 ^ 31)
    (hfit : (item_text st.qnum (question_type arr cnt) (encoded_question st.question.s)
        (arr.take cnt) ident).length + st.xml.content.length + 257 ≤ 2 ^ 31) :
    process_line ident st line =
      some (STEP.next { st with
        after_empty_line := true,
        choices := (arr.take cnt).map (fun ch => { ch with id := none, text := none })
          ++ arr.drop cnt,
        choice_cnt := cnt,
        xml := st.xml.app (item_text st.qnum (question_type arr cnt)
          (encoded_question st.question.s) (arr.take cnt) ident),
        choice := strbuf_clear st.choice,
        question := strbuf_clear st.question, state := STATE_NONE,
        curr_choice := if st.state ≠ STATE_ANSWER ∧ st.choice.s.isSome
                       then trimstr2 st.curr_choice else st.curr_choice }) := by
  have hq : process_question st.qnum (encoded_question st.question.s) arr cnt ident =
      some (some (item_text st.qnum (question_type arr cnt) (encoded_question st.question.s)
        (arr.take cnt) ident)) := by
    unfold process_question
    rw [if_neg (by omega)]
    exact qti_1_2_eq _ _ _ _ _ _ (by omega) (by omega)
  have hclr : clear_choices arr cnt = some ((arr.take cnt).map
      (fun ch => { ch with id := none, text := none }) ++ arr.drop cnt) := by
    unfold clear_choices; rw [if_neg (by omega)]
  have hx := strbuf_add_app (item_text st.qnum (question_type arr cnt)
    (encoded_question st.question.s) (arr.take cnt) ident) hxml (by omega)
  unfold closes_item at hyes
  unfold closing_choices at harr
  unfold process_line
  simp only [hblank, List.length_nil, ne_eq, not_true_eq_false, if_false]
  unfold empty_line
  simp only [hcode, hblk, Bool.not_false, Bool.and_self, if_true, hyes, harr, Option.some_bind,
    encode_question_eq _ henc, hq, hx, hclr, Option.map_some']
/-! ## The end-to-end example -/

theorem fgets_lines_line (size : Nat) (l rest cur : CStr) (hl : '\n' ∉ l)
    (hs : cur.length + l.length + 2 < size) :
    fgets_lines size (l ++ '\n' :: rest) cur =
      (cur.reverse ++ l ++ ['\n']) :: fgets_lines size rest [] := by
  induction l generalizing cur with
  | nil =>
    simp [fgets_lines]
  | cons c l ih =>
    simp only [List.mem_cons, not_or] at hl
    simp only [List.length_cons] at hs
    have hc : c ≠ '\n' := fun e => hl.1 e.symm
    have h2 : ¬ (cur.length + 2 ≥ size) := by omega
    have ih2 := ih (c :: cur) hl.2 (by simp only [List.length_cons]; omega)
    show fgets_lines size (c :: (l ++ '\n' :: rest)) cur = _
    simp only [fgets_lines, hc, h2, or_self, if_false]
    rw [ih2]
    simp

theorem two_question_doc_lines (t x y z t2 : CStr) (ht : plain_text t) (hx : plain_text x)
    (hy : plain_text y) (hz : plain_text z) (ht2 : plain_text t2) :
    fgets_lines LINE_LEN (two_question_doc t x y z t2) [] =
      ['1' :: '.' :: ' ' :: t ++ ['\n'], 'A' :: '.' :: ' ' :: x ++ ['\n'],
       '*' :: 'B' :: '.' :: ' ' :: y ++ ['\n'], 'C' :: '.' :: ' ' :: z ++ ['\n'], ['\n'],
       '2' :: '.' :: ' ' :: t2 ++ ['\n']] := by
  obtain ⟨t1, _, t3⟩ := ht
  obtain ⟨x1, _, x3⟩ := hx
  obtain ⟨y1, _, y3⟩ := hy
  obtain ⟨z1, _, z3⟩ := hz
  obtain ⟨u1, _, u3⟩ := ht2
  have e : ∀ (pre l rest : CStr), '\n' ∉ pre → '\n' ∉ l → pre.length + l.length + 2 < LINE_LEN →
      fgets_lines LINE_LEN (pre ++ l ++ "\n".toList ++ rest) [] =
        (pre ++ l ++ ['\n']) :: fgets_lines LINE_LEN rest [] := by
    intro pre l rest h1 h2 h3
    have := fgets_lines_line LINE_LEN (pre ++ l) rest [] (by simp [h1, h2])
      (by simp only [List.length_nil, List.length_append]; omega)
    simpa using this
  unfold two_question_doc
  rw [e _ t _ (by decide) t1 (by unfold LINE_LEN; simp; omega),
    e _ x _ (by decide) x1 (by unfold LINE_LEN; simp; omega),
    e _ y _ (by decide) y1 (by unfold LINE_LEN; simp; omega),
    e _ z _ (by decide) z1 (by unfold LINE_LEN; simp; omega)]
  have e5 := e [] [] ("2. ".toList ++ t2 ++ "\n".toList) (by simp) (by simp)
    (by unfold LINE_LEN; simp)
  simp only [List.append_nil, List.nil_append] at e5
  rw [e5]
  have e6 := e "2. ".toList t2 [] (by decide) u1 (by unfold LINE_LEN; simp; omega)
  simp only [List.append_nil] at e6
  rw [e6]
  simp [fgets_lines]

theorem not_block_space (r : CStr) : strncasecmp_eq (' ' :: r) "<block>".toList 7 = false := by
  simp only [strncasecmp_eq, String.toList, List.take_succ_cons, List.map_cons]
  have : tolower ' ' ≠ tolower '<' := by decide
  simp [this]

theorem not_block_digit (r : CStr) : strncasecmp_eq ('2' :: r) "<block>".toList 7 = false := by
  simp only [strncasecmp_eq, String.toList, List.take_succ_cons, List.map_cons]
  have : tolower '2' ≠ tolower '<' := by decide
  simp [this]

theorem doc_step1 (ident t : CStr) (ht : plain_text t) :
    process_line ident (PF.start (GLOBALS.start false false) 0)
      ('1' :: '.' :: ' ' :: t ++ ['\n']) = some (STEP.next (doc_state1 t)) := by
  have hfree : '<' ∉ '1' :: '.' :: ' ' :: t ++ ['\n'] := by
    simp [ht.2.1]
  have h := none_detect_step ident (PF.start (GLOBALS.start false false) 0) (' ' :: t ++ ['\n'])
    '1' '.' false rfl rfl rfl rfl (by decide) (Or.inl rfl) (scan_code_free _ _ hfree)
    strbuf_init_ok (by
      have := ht.2.2
      simp only [PF.start, content_init, List.length_nil, List.length_cons, List.length_append]
      omega) (by decide)
  rw [show ('1' :: '.' :: ' ' :: t ++ ['\n']) = '1' :: '.' :: (' ' :: t ++ ['\n']) from rfl, h]
  simp only [not_block_space, Bool.false_eq_true, if_false]
  rfl

theorem plain_line_free (pre t : CStr) (ht : plain_text t) (hp : '<' ∉ pre) :
    '<' ∉ pre ++ t ++ ['\n'] := by
  simp [ht.2.1, hp]

theorem doc_step2 (ident t x : CStr) (hx : plain_text x) :
    process_line ident (doc_state1 t) ('A' :: '.' :: ' ' :: x ++ ['\n'])
      = some (STEP.next (doc_state2 t x)) := by
  have hfree : '<' ∉ 'A' :: '.' :: (' ' :: x ++ ['\n']) :=
    plain_line_free ['A', '.', ' '] x hx (by decide)
  have h := first_choice_step ident (doc_state1 t) ['B', '.'] (' ' :: x ++ ['\n']) 'A' '.' false
    (skip_spaces_cons _ _ (by decide)) (by simp) (scan_code_free _ _ hfree) strbuf_init_ok
    (by have := hx.2.2
        simp only [List.length_cons, List.length_append, List.length_nil]; omega)
    rfl rfl rfl rfl false
  simp only [Bool.false_eq_true, if_false] at h
  rw [show ('A' :: '.' :: ' ' :: x ++ ['\n']) = 'A' :: '.' :: (' ' :: x ++ ['\n']) from rfl, h]
  have e1 : skip_spaces (' ' :: x ++ ['\n']) = skip_spaces (x ++ ['\n']) := by
    simp [skip_spaces, isspace]
  rw [e1]
  rfl

theorem add_choice_slot0 (label text : CStr) (c : Bool) (hl : (trimstr2 label).length ≠ 0) :
    add_choice [] 0 label (some text) c =
      some ([{ id := some (trimstr2 label), correct := c, text := some (trimstr text) },
             empty_slot, empty_slot, empty_slot, empty_slot], 5) := by
  simp [add_choice, CHOICE_ALLOC, List.replicate, List.modify, hl]

theorem add_choice_slot1 (a : CHOICE_T) (ida : CStr) (label text : CStr) (c : Bool)
    (ha : a.id = some ida) (hl : (trimstr2 label).length ≠ 0) :
    add_choice [a, empty_slot, empty_slot, empty_slot, empty_slot] 5 label (some text) c =
      some ([a, { id := some (trimstr2 label), correct := c, text := some (trimstr text) },
             empty_slot, empty_slot, empty_slot], 5) := by
  simp [add_choice, CHOICE_ALLOC, List.modify, hl, first_free, ha, empty_slot]

theorem add_choice_slot2 (a b : CHOICE_T) (ida idb : CStr) (label text : CStr) (c : Bool)
    (ha : a.id = some ida) (hb : b.id = some idb) (hl : (trimstr2 label).length ≠ 0) :
    add_choice [a, b, empty_slot, empty_slot, empty_slot] 5 label (some text) c =
      some ([a, b, { id := some (trimstr2 label), correct := c, text := some (trimstr text) },
             empty_slot, empty_slot], 5) := by
  simp [add_choice, CHOICE_ALLOC, List.modify, hl, first_free, ha, hb, empty_slot]

theorem doc_choice2_ok (t x : CStr) (hx : plain_text x) : (doc_state2 t x).choice.Ok :=
  ok_app _ strbuf_init_ok (by
    have := hx.2.2
    have := skip_spaces_length (x ++ ['\n'])
    simp only [content_init, List.length_nil, List.length_append, List.length_singleton] at *
    omega)

theorem doc_choice3_ok (t x y : CStr) (hx : plain_text x) (hy : plain_text y) :
    (doc_state3 t x y).choice.Ok :=
  ok_app _ (strbuf_clear_ok (doc_choice2_ok t x hx)).1 (by
    have := hy.2.2
    have := skip_spaces_length (y ++ ['\n'])
    rw [(strbuf_clear_ok (doc_choice2_ok t x hx)).2]
    simp only [List.length_nil, List.length_append, List.length_singleton] at *
    omega)

theorem doc_step3 (ident t x y : CStr) (hx : plain_text x) (hy : plain_text y) :
    process_line ident (doc_state2 t x) ('*' :: 'B' :: '.' :: ' ' :: y ++ ['\n'])
      = some (STEP.next (doc_state3 t x y)) := by
  have hfree : '<' ∉ 'B' :: '.' :: (' ' :: y ++ ['\n']) :=
    plain_line_free ['B', '.', ' '] y hy (by decide)
  have e : trimstr2 ['A', '.'] = ['A'] := by decide
  have harr := add_choice_slot0 ['A', '.'] (skip_spaces (x ++ ['\n'])) false (by decide)
  rw [e] at harr
  have h := next_choice_step ident (doc_state2 t x) ('B' :: '.' :: (' ' :: y ++ ['\n']))
    ['C', '.'] false _ 5 (by simp) (skip_spaces_cons _ _ (by decide)) (by simp)
    (scan_code_free _ _ hfree) rfl (doc_choice2_ok t x hx)
    (by have := hy.2.2
        simp only [List.length_cons, List.length_append, List.length_nil]; omega)
    rfl rfl harr (by show (1 : Int) + 1 ≤ INT_MAX; decide) rfl true
  simp only [if_true] at h
  rw [show ('*' :: 'B' :: '.' :: ' ' :: y ++ ['\n']) = '*' :: 'B' :: '.' :: (' ' :: y ++ ['\n'])
    from rfl, h]
  have e1 : skip_spaces (List.drop (doc_state2 t x).next_choice.length
      ('B' :: '.' :: (' ' :: y ++ ['\n']))) = skip_spaces (y ++ ['\n']) := by
    simp [doc_state2, skip_spaces, isspace]
  rw [e1]
  rfl

theorem doc_step4 (ident t x y z : CStr) (hx : plain_text x) (hy : plain_text y)
    (hz : plain_text z) :
    process_line ident (doc_state3 t x y) ('C' :: '.' :: ' ' :: z ++ ['\n'])
      = some (STEP.next (doc_state4 t x y z)) := by
  have hfree : '<' ∉ 'C' :: '.' :: (' ' :: z ++ ['\n']) :=
    plain_line_free ['C', '.', ' '] z hz (by decide)
  have e : trimstr2 ['B', '.'] = ['B'] := by decide
  have harr := add_choice_slot1
    { id := some ['A'], correct := false, text := some (choice_text x) } ['A'] ['B', '.']
    (skip_spaces (y ++ ['\n'])) true rfl (by decide)
  rw [e] at harr
  have hs : (doc_state3 t x y).choice.s = some (skip_spaces (y ++ ['\n'])) := by
    show some ((strbuf_clear (doc_state2 t x).choice).content ++ _) = _
    rw [(strbuf_clear_ok (doc_choice2_ok t x hx)).2]; rfl
  have harr2 : add_choice (doc_state3 t x y).choices (doc_state3 t x y).choice_cnt
      (doc_state3 t x y).curr_choice (doc_state3 t x y).choice.s (doc_state3 t x y).correct =
      some ([{ id := some ['A'], correct := false, text := some (choice_text x) },
             { id := some ['B'], correct := true, text := some (choice_text y) },
             empty_slot, empty_slot, empty_slot], 5) := by
    rw [hs]; exact harr
  have h := next_choice_step ident (doc_state3 t x y) ('C' :: '.' :: (' ' :: z ++ ['\n']))
    ['D', '.'] false _ 5 (by simp) (skip_spaces_cons _ _ (by decide)) (by simp)
    (scan_code_free _ _ hfree) rfl (doc_choice3_ok t x y hx hy)
    (by have := hz.2.2
        simp only [List.length_cons, List.length_append, List.length_nil]; omega)
    rfl rfl harr2 (by show (2 : Int) + 1 ≤ INT_MAX; decide) rfl false
  simp only [Bool.false_eq_true, if_false] at h
  rw [show ('C' :: '.' :: ' ' :: z ++ ['\n']) = 'C' :: '.' :: (' ' :: z ++ ['\n']) from rfl, h]
  have e1 : skip_spaces (List.drop (doc_state3 t x y).next_choice.length
      ('C' :: '.' :: (' ' :: z ++ ['\n']))) = skip_spaces (z ++ ['\n']) := by
    simp [doc_state3, skip_spaces, isspace]
  rw [e1]
  rfl
theorem choice_text_length (x : CStr) : (choice_text x).length ≤ x.length + 1 := by
  unfold choice_text
  have h1 := trimstr_length (skip_spaces (x ++ ['\n']))
  have h2 := skip_spaces_length (x ++ ['\n'])
  simp only [List.length_append, List.length_singleton] at h2
  omega

set_option maxRecDepth 8000 in
theorem doc_fragment_length (t x y z ident : CStr) :
    (doc_fragment t x y z ident).length ≤
      6 * t.length + 6 * (x.length + y.length + z.length) + ident.length + 3000 := by
  have h1 := escape_length (' ' :: t ++ ['\n'])
  have h2 := escape_length (choice_text x)
  have h3 := escape_length (choice_text y)
  have h4 := escape_length (choice_text z)
  have h5 := choice_text_length x
  have h6 := choice_text_length y
  have h7 := choice_text_length z
  simp only [List.length_cons, List.length_append, List.length_nil] at h1
  have e1 : item_middle.length ≤ 400 := by decide
  have e2 : item_close.length ≤ 200 := by decide
  simp only [doc_fragment, item_open, response_label, concat_all, escape_opt,
    List.length_append, List.length_cons, List.length_nil, String.toList, if_true]
  omega

theorem doc_item_text (t x y z ident : CStr) :
    item_text 1
      (question_type
        [{ id := some ['A'], correct := false, text := some (choice_text x) },
         { id := some ['B'], correct := true, text := some (choice_text y) },
         { id := some ['C'], correct := false, text := some (choice_text z) },
         empty_slot, empty_slot] 5)
      (some (' ' :: t ++ ['\n']))
      (List.take 5
        [{ id := some ['A'], correct := false, text := some (choice_text x) },
         { id := some ['B'], correct := true, text := some (choice_text y) },
         { id := some ['C'], correct := false, text := some (choice_text z) },
         empty_slot, empty_slot]) ident = doc_fragment t x y z ident := by
  have hq : question_type
        [{ id := some ['A'], correct := false, text := some (choice_text x) },
         { id := some ['B'], correct := true, text := some (choice_text y) },
         { id := some ['C'], correct := false, text := some (choice_text z) },
         empty_slot, empty_slot] 5 = QTYPE_MULTCHOICE := by
    rw [question_type_eq _ _ (by decide)]
    rfl
  have hd : fmt_d 1 = ['1'] := by decide
  rw [hq]
  unfold item_text
  rw [hd]
  simp only [doc_fragment, List.take, labels_text, empty_slot, condition_text,
    if_true, qti_1_2_first, Option.isSome_some, Bool.not_false, Bool.and_self, Bool.not_true,
    Bool.and_false, Bool.false_eq_true, if_false, varequal_single, concat_all, List.append_nil,
    List.append_assoc]
  rfl

theorem doc_step5 (ident t x y z : CStr) (ht : plain_text t) (hx : plain_text x)
    (hy : plain_text y) (hz : plain_text z) (hid : ident.length ≤ 1000) :
    process_line ident (doc_state4 t x y z) ['\n']
      = some (STEP.next (doc_state5 t x y z ident)) := by
  have e : trimstr2 ['C', '.'] = ['C'] := by decide
  have harr := add_choice_slot2
    { id := some ['A'], correct := false, text := some (choice_text x) }
    { id := some ['B'], correct := true, text := some (choice_text y) } ['A'] ['B'] ['C', '.']
    (skip_spaces (z ++ ['\n'])) false rfl rfl (by decide)
  rw [e] at harr
  have hs : (doc_state4 t x y z).choice.s = some (skip_spaces (z ++ ['\n'])) := by
    show some ((strbuf_clear (doc_state3 t x y).choice).content ++ _) = _
    rw [(strbuf_clear_ok (doc_choice3_ok t x y hx hy)).2]; rfl
  have harr2 : closing_choices (doc_state4 t x y z) =
      some ([{ id := some ['A'], correct := false, text := some (choice_text x) },
             { id := some ['B'], correct := true, text := some (choice_text y) },
             { id := some ['C'], correct := false, text := some (choice_text z) },
             empty_slot, empty_slot], 5) := by
    unfold closing_choices
    rw [if_pos (by show STATE_CHOICE ≠ STATE_ANSWER; decide), hs]
    exact harr
  have hq : (doc_state4 t x y z).question.s = some (' ' :: t ++ ['\n']) := rfl
  have hfree : '<' ∉ ' ' :: t ++ ['\n'] := by simp [ht.2.1]
  have henc : encoded_question (doc_state4 t x y z).question.s = some (' ' :: t ++ ['\n']) := by
    rw [hq]; exact encoded_question_free _ hfree (by simp)
  have hlen := doc_fragment_length t x y z ident
  have := ht.2.2
  have := hx.2.2
  have := hy.2.2
  have := hz.2.2
  have h := closing_step ident (doc_state4 t x y z) ['\n'] _ 5 (by decide) rfl rfl
    (Or.inr ⟨rfl, Or.inl rfl⟩) harr2 rfl strbuf_init_ok
    (by rw [henc]; simp only [Option.getD_some, List.length_cons, List.length_append,
          List.length_nil]; omega)
    (by rw [henc]
        show (item_text 1 _ _ _ ident).length + _ + 257 ≤ 2 ^ 31
        rw [doc_item_text]
        show _ + strbuf_init.content.length + 257 ≤ 2 ^ 31
        rw [content_init, List.length_nil]; omega)
  rw [h, henc]
  have hi : item_text (doc_state4 t x y z).qnum
      (question_type
        [{ id := some ['A'], correct := false, text := some (choice_text x) },
         { id := some ['B'], correct := true, text := some (choice_text y) },
         { id := some ['C'], correct := false, text := some (choice_text z) },
         empty_slot, empty_slot] 5)
      (some (' ' :: t ++ ['\n']))
      (List.take 5
        [{ id := some ['A'], correct := false, text := some (choice_text x) },
         { id := some ['B'], correct := true, text := some (choice_text y) },
         { id := some ['C'], correct := false, text := some (choice_text z) },
         empty_slot, empty_slot]) ident = doc_fragment t x y z ident := doc_item_text t x y z ident
  rw [hi]
  have hc : (if (doc_state4 t x y z).state ≠ STATE_ANSWER ∧
      (doc_state4 t x y z).choice.s.isSome = true
      then trimstr2 (doc_state4 t x y z).curr_choice else (doc_state4 t x y z).curr_choice)
      = ['C'] := by
    rw [hs]
    rw [if_pos ⟨by show STATE_CHOICE ≠ STATE_ANSWER; decide, rfl⟩]
    exact e
  rw [hc]
  rfl

theorem doc_question5_ok (t x y z ident : CStr) (ht : plain_text t) :
    (doc_state5 t x y z ident).question.Ok ∧ (doc_state5 t x y z ident).question.content = [] := by
  have h : (doc_state4 t x y z).question.Ok := by
    show (strbuf_init.app (' ' :: t ++ ['\n'])).Ok
    refine ok_app _ strbuf_init_ok ?_
    have := ht.2.2
    simp only [content_init, List.length_nil, List.length_append, List.length_singleton,
      List.length_cons] at *
    omega
  exact strbuf_clear_ok h

theorem doc_step6 (ident t x y z t2 : CStr) (ht : plain_text t) (ht2 : plain_text t2) :
    process_line ident (doc_state5 t x y z ident) ('2' :: '.' :: ' ' :: t2 ++ ['\n'])
      = some (STEP.next (doc_state6 t x y z t2 ident)) := by
  have hfree : '<' ∉ '2' :: '.' :: (' ' :: t2 ++ ['\n']) :=
    plain_line_free ['2', '.', ' '] t2 ht2 (by decide)
  have hq := doc_question5_ok t x y z ident ht
  have := ht2.2.2
  have h := none_numbered_step ident (doc_state5 t x y z ident)
    ('2' :: '.' :: ' ' :: t2 ++ ['\n']) ['3', '.'] false rfl
    (by show FMT_NUMERICAL ≠ FMT_UNKNOWN; decide) (by show FMT_NUMERICAL ≠ FMT_NONE; decide)
    rfl rfl (skip_spaces_cons _ _ (by decide)) (by simp) (scan_code_free _ _ hfree)
    (by show next_fmt ((1 : Int) + 1) [] { style := FMT_NUMERICAL, sep := '.' } = _; decide)
    (by decide) hq.1
    (by rw [hq.2]
        simp only [List.length_nil, List.length_append, List.length_singleton, List.length_cons]
        omega)
    (by show (1 : Int) + 1 ≤ INT_MAX; decide)
  have hb : strncasecmp_eq ('2' :: '.' :: ' ' :: t2 ++ ['\n']) "<block>".toList 7 = false :=
    not_block_digit ('.' :: ' ' :: t2 ++ ['\n'])
  rw [h, hb]
  rfl

/-- C4: for the document `1. <t>`, `A. <x>`, `*B. <y>`, `C. <z>`, a blank line and
`2. <t2>`, read with the default flags and fresh formats, the four lines before the
blank line emit nothing, the blank line emits the fragment `doc_fragment`, and this
fragment is all that `process_file` returns.  The fragment is the item of kind
`QTYPE_MULTCHOICE` (cardinality `Single`) with the response labels `A`, `B`, `C` in
this order and the one condition `<varequal respident="r1">q1_B</varequal>`. -/
theorem two_question_document (t x y z t2 ident : CStr) (ht : plain_text t)
    (hx : plain_text x) (hy : plain_text y) (hz : plain_text z) (ht2 : plain_text t2)
    (hid : ident.length ≤ 1000) :
    process_lines ident (PF.start (GLOBALS.start false false) 0)
        ['1' :: '.' :: ' ' :: t ++ ['\n'], 'A' :: '.' :: ' ' :: x ++ ['\n'],
         '*' :: 'B' :: '.' :: ' ' :: y ++ ['\n'], 'C' :: '.' :: ' ' :: z ++ ['\n']]
      = some (STEP.next (doc_state4 t x y z)) ∧
    (doc_state4 t x y z).xml.s = none ∧
    process_line ident (doc_state4 t x y z) ['\n']
      = some (STEP.next (doc_state5 t x y z ident)) ∧
    (doc_state5 t x y z ident).xml.s = some (doc_fragment t x y z ident) ∧
    process_file (GLOBALS.start false false) (two_question_doc t x y z t2) 0 ident =
      some { g := { GLOBALS.start false false with
                    G_qformat := { style := FMT_NUMERICAL, sep := '.' },
                    G_cformat := { style := FMT_ULETTER, sep := '.' } },
             qnump := 0,
             xml := some (doc_fragment t x y z ident) } ∧
    doc_fragment t x y z ident =
      item_open ['1'] QTYPE_MULTCHOICE (some (' ' :: t ++ ['\n'])) ident ++
        (response_label ['1'] ['A'] (some (choice_text x)) ++
         (response_label ['1'] ['B'] (some (choice_text y)) ++
          response_label ['1'] ['C'] (some (choice_text z)))) ++
        item_middle ++ "    <varequal respident=\"r1\">q1_B</varequal>\n".toList ++
        item_close := by
  have h1 := doc_step1 ident t ht
  have h2 := doc_step2 ident t x hx
  have h3 := doc_step3 ident t x y hx hy
  have h4 := doc_step4 ident t x y z hx hy hz
  have h5 := doc_step5 ident t x y z ht hx hy hz hid
  have h6 := doc_step6 ident t x y z t2 ht ht2
  refine ⟨?_, rfl, h5, rfl, ?_, rfl⟩
  · simp only [process_lines, h1, h2, h3, h4]
  · unfold process_file
    rw [two_question_doc_lines t x y z t2 ht hx hy hz ht2]
    simp only [process_lines, h1, h2, h3, h4, h5, h6]
    rfl

theorem two_question_document_witness :
    plain_text "What is 2 + 2?".toList ∧ plain_text "three".toList ∧
    plain_text "four".toList ∧ plain_text "five".toList ∧ plain_text "Next?".toList ∧
    process_file (GLOBALS.start false false)
        "1. What is 2 + 2?\nA. three\n*B. four\nC. five\n\n2. Next?\n".toList 0 "quiz".toList =
      some { g := { GLOBALS.start false false with
                    G_qformat := { style := FMT_NUMERICAL, sep := '.' },
                    G_cformat := { style := FMT_ULETTER, sep := '.' } },
             qnump := 0,
             xml := some (doc_fragment "What is 2 + 2?".toList "three".toList "four".toList
               "five".toList "quiz".toList) } :=
  have a : plain_text "What is 2 + 2?".toList := by unfold plain_text; decide
  have b : plain_text "three".toList := by unfold plain_text; decide
  have c : plain_text "four".toList := by unfold plain_text; decide
  have d : plain_text "five".toList := by unfold plain_text; decide
  have e : plain_text "Next?".toList := by unfold plain_text; decide
  ⟨a, b, c, d, e, (two_question_document "What is 2 + 2?".toList "three".toList "four".toList
    "five".toList "Next?".toList "quiz".toList a b c d e (by decide)).2.2.2.2.1⟩

/-! ## next_fmt -/

theorem toDigitsCore_nul (fuel n : Nat) (ds : List Char) (h : ∀ c ∈ ds, c ≠ '\x00') :
    ∀ c ∈ Nat.toDigitsCore 10 fuel n ds, c ≠ '\x00' := by
  induction fuel generalizing n ds with
  | zero => simpa [Nat.toDigitsCore] using h
  | succ f ih =>
    have hd : (n % 10).digitChar ≠ '\x00' := by
      have hlt : n % 10 < 10 := Nat.mod_lt _ (by decide)
      interval_cases (n % 10) <;> decide
    have h2 : ∀ c ∈ (n % 10).digitChar :: ds, c ≠ '\x00' := by
      intro c hc
      rcases List.mem_cons.1 hc with e | e
      · rw [e]; exact hd
      · exact h c e
    unfold Nat.toDigitsCore
    simp only
    split
    · exact h2
    · exact ih _ _ h2

theorem c_str_id (bs : List Char) (h : ∀ c ∈ bs, c ≠ '\x00') : c_str bs = bs := by
  unfold c_str
  rw [List.takeWhile_eq_self_iff]
  intro c hc
  simpa using h c hc

theorem letter_char (base n : Nat) (hb : base = 65 ∨ base = 97) (hn : n < 26) :
    fmt_c ((base : Int) + (n : Int)) = Char.ofNat (base + n) ∧
      Char.ofNat (base + n) ≠ '\x00' := by
  rcases hb with rfl | rfl <;> interval_cases n <;> decide

/-- C11: for every separator other than the NUL character, the numeric style gives
the decimal digits of `n + 1` followed by the separator, for every `n` from 0 up to
the last one whose successor is an `int`; the letter styles give the character of
code `'A' + n`, resp. `'a' + n`, followed by the separator, for `n` below 26. -/
theorem next_fmt_numeric_and_letters (sep : Char) (next : CStr) (n : Nat)
    (hs : sep ≠ '\x00') :
    ((n : Int) + 1 ≤ INT_MAX →
      next_fmt n next { style := FMT_NUMERICAL, sep := sep } =
        some (some ((Nat.repr (n + 1)).toList ++ [sep]))) ∧
    (n < 26 →
      next_fmt n next { style := FMT_ULETTER, sep := sep } =
        some (some [Char.ofNat ('A'.toNat + n), sep]) ∧
      next_fmt n next { style := FMT_LLETTER, sep := sep } =
        some (some [Char.ofNat ('a'.toNat + n), sep])) := by
  constructor
  · intro h
    have e : fmt_d ((n : Int) + 1) = Nat.toDigits 10 (n + 1) := by
      unfold fmt_d
      rw [if_neg (by omega)]
      rfl
    have hz : ∀ c ∈ Nat.toDigits 10 (n + 1) ++ [sep], c ≠ '\x00' := by
      intro c hc
      rcases List.mem_append.1 hc with hc | hc
      · exact toDigitsCore_nul _ _ _ (by simp) c hc
      · rw [List.mem_singleton.1 hc]; exact hs
    show (if (n : Int) + 1 ≤ INT_MAX then
      some (some (c_str (fmt_d ((n : Int) + 1) ++ [sep]))) else none) = _
    rw [if_pos h, e, c_str_id _ hz]
    rfl
  · intro h
    have hA := letter_char 65 n (Or.inl rfl) h
    have ha := letter_char 97 n (Or.inr rfl) h
    have i1 : (65 : Int) + (n : Int) ≤ INT_MAX := by unfold INT_MAX; omega
    have i2 : (97 : Int) + (n : Int) ≤ INT_MAX := by unfold INT_MAX; omega
    constructor
    · show (if (65 : Int) + (n : Int) ≤ INT_MAX then
        some (some (c_str [fmt_c (65 + (n : Int)), sep])) else none) = _
      rw [if_pos i1, c_str_id]
      · rw [show fmt_c (65 + (n : Int)) = Char.ofNat (65 + n) from hA.1]; rfl
      · intro c hc
        simp only [List.mem_cons, List.mem_singleton, List.not_mem_nil, or_false] at hc
        rcases hc with rfl | rfl
        · rw [show fmt_c (65 + (n : Int)) = Char.ofNat (65 + n) from hA.1]; exact hA.2
        · exact hs
    · show (if (97 : Int) + (n : Int) ≤ INT_MAX then
        some (some (c_str [fmt_c (97 + (n : Int)), sep])) else none) = _
      rw [if_pos i2, c_str_id]
      · rw [show fmt_c (97 + (n : Int)) = Char.ofNat (97 + n) from ha.1]; rfl
      · intro c hc
        simp only [List.mem_cons, List.mem_singleton, List.not_mem_nil, or_false] at hc
        rcases hc with rfl | rfl
        · rw [show fmt_c (97 + (n : Int)) = Char.ofNat (97 + n) from ha.1]; exact ha.2
        · exact hs

theorem next_fmt_numeric_and_letters_witness :
    next_fmt 41 [] { style := FMT_NUMERICAL, sep := ')' } = some (some "42)".toList) ∧
    next_fmt 25 [] { style := FMT_ULETTER, sep := '.' } = some (some "Z.".toList) ∧
    next_fmt 25 [] { style := FMT_LLETTER, sep := '.' } = some (some "z.".toList) :=
  ⟨(next_fmt_numeric_and_letters ')' [] 41 (by decide)).1 (by decide),
   ((next_fmt_numeric_and_letters '.' [] 25 (by decide)).2 (by decide)).1,
   ((next_fmt_numeric_and_letters '.' [] 25 (by decide)).2 (by decide)).2⟩

theorem roman_entry_nul (n : Nat) (hn : n < 20) :
    (∀ c ∈ G_roman.getD n [], c ≠ '\x00') ∧
      (∀ c ∈ (G_roman.getD n []).map tolower, c ≠ '\x00') ∧
      G_roman.get? n = some (G_roman.getD n []) := by
  interval_cases n <;> decide

theorem next_fmt_roman_entry (sep : Char) (next : CStr) (n : Nat) (hs : sep ≠ '\x00')
    (hn : n < 20) :
    next_fmt n next { style := FMT_UROMAN, sep := sep } =
        some (some (G_roman.getD n [] ++ [sep])) ∧
      next_fmt n next { style := FMT_LROMAN, sep := sep } =
        some (some ((G_roman.getD n []).map tolower ++ [sep])) := by
  obtain ⟨h1, h2, h3⟩ := roman_entry_nul n hn
  have hlt : (n : Int) < MAX_ROMAN := by unfold MAX_ROMAN; omega
  have h0 : (0 : Int) ≤ (n : Int) := by omega
  constructor
  · show (if (n : Int) < MAX_ROMAN then
        if 0 ≤ (n : Int) then
          (G_roman.get? (n : Int).toNat).map (fun r => some (c_str (r ++ [sep])))
        else none
      else some (some next)) = _
    rw [if_pos hlt, if_pos h0, Int.toNat_ofNat, h3, Option.map_some', c_str_id]
    intro c hc
    rcases List.mem_append.1 hc with hc | hc
    · exact h1 c hc
    · rw [List.mem_singleton.1 hc]; exact hs
  · show (if (n : Int) < MAX_ROMAN then
        if 0 ≤ (n : Int) then
          (G_roman.get? (n : Int).toNat).map (fun r => some (c_str (r.map tolower ++ [sep])))
        else none
      else some (some next)) = _
    rw [if_pos hlt, if_pos h0, Int.toNat_ofNat, h3, Option.map_some', c_str_id]
    intro c hc
    rcases List.mem_append.1 hc with hc | hc
    · exact h2 c hc
    · rw [List.mem_singleton.1 hc]; exact hs

theorem roman_entry_standard (n : Nat) (hn : n < 20) :
    (G_roman.getD n [] = standard_roman (n + 1) ↔ n ≠ 5) ∧
      ((G_roman.getD n []).map tolower = (standard_roman (n + 1)).map tolower ↔ n ≠ 5) := by
  interval_cases n <;> decide

/-- C12: for every index `n` below 20 and every separator other than NUL, the label
of the upper roman style is the standard numeral of `n + 1` followed by the
separator exactly when `n` is not 5, and likewise in lower case for the lower roman
style; at index 5 the table `G_roman` holds `V`, so the label of the sixth choice is
`V` (resp. `v`) followed by the separator, the same as the label of the fifth. -/
theorem roman_table_sixth_entry (sep : Char) (next : CStr) (n : Nat) (hs : sep ≠ '\x00')
    (hn : n < 20) :
    (next_fmt n next { style := FMT_UROMAN, sep := sep } =
        some (some (standard_roman (n + 1) ++ [sep])) ↔ n ≠ 5) ∧
    (next_fmt n next { style := FMT_LROMAN, sep := sep } =
        some (some ((standard_roman (n + 1)).map tolower ++ [sep])) ↔ n ≠ 5) ∧
    next_fmt 5 next { style := FMT_UROMAN, sep := sep } = some (some ['V', sep]) ∧
    next_fmt 5 next { style := FMT_LROMAN, sep := sep } = some (some ['v', sep]) ∧
    next_fmt 4 next { style := FMT_UROMAN, sep := sep } = some (some ['V', sep]) ∧
    standard_roman 6 = ['V', 'I'] := by
  obtain ⟨e1, e2⟩ := next_fmt_roman_entry sep next n hs hn
  obtain ⟨s1, s2⟩ := roman_entry_standard n hn
  refine ⟨?_, ?_, (next_fmt_roman_entry sep next 5 hs (by decide)).1,
    (next_fmt_roman_entry sep next 5 hs (by decide)).2,
    (next_fmt_roman_entry sep next 4 hs (by decide)).1, by decide⟩
  · rw [e1, ← s1]
    simp only [Option.some.injEq, List.append_left_inj]
  · rw [e2, ← s2]
    simp only [Option.some.injEq, List.append_left_inj]

theorem roman_table_sixth_entry_witness :
    next_fmt 5 [] { style := FMT_UROMAN, sep := '.' } = some (some "V.".toList) ∧
    next_fmt 5 [] { style := FMT_UROMAN, sep := '.' } ≠ some (some "VI.".toList) :=
  ⟨(roman_table_sixth_entry '.' [] 5 (by decide) (by decide)).2.2.1,
   fun h => (roman_table_sixth_entry '.' [] 5 (by decide) (by decide)).1.1 h rfl⟩

/-- C13: for every index `n` of at least 20 and either roman style, `next_fmt` does
not read `G_roman` and does not return `NULL`: it returns the caller's buffer with
the content it had before the call. -/
theorem roman_beyond_table_returns_buffer (n : Int) (next : CStr) (sep : Char)
    (hn : 20 ≤ n) :
    next_fmt n next { style := FMT_UROMAN, sep := sep } = some (some next) ∧
    next_fmt n next { style := FMT_LROMAN, sep := sep } = some (some next) ∧
    next_fmt n next { style := FMT_UROMAN, sep := sep } ≠ some none ∧
    next_fmt n next { style := FMT_LROMAN, sep := sep } ≠ some none := by
  have hlt : ¬ (n < (MAX_ROMAN : Int)) := by unfold MAX_ROMAN; push_cast; omega
  have h1 : next_fmt n next { style := FMT_UROMAN, sep := sep } = some (some next) := by
    show (if n < (MAX_ROMAN : Int) then _ else some (some next)) = _
    rw [if_neg hlt]
  have h2 : next_fmt n next { style := FMT_LROMAN, sep := sep } = some (some next) := by
    show (if n < (MAX_ROMAN : Int) then _ else some (some next)) = _
    rw [if_neg hlt]
  refine ⟨h1, h2, ?_, ?_⟩
  · rw [h1]; simp
  · rw [h2]; simp

theorem roman_beyond_table_returns_buffer_witness :
    next_fmt 20 "XX.".toList { style := FMT_UROMAN, sep := '.' } = some (some "XX.".toList) :=
  (roman_beyond_table_returns_buffer 20 "XX.".toList '.' (by decide)).1

/-! ## The file-scope variables along a run -/

theorem first_choice_text_g (st st1 : PF) (mc : Bool) (p : CStr)
    (h : first_choice_text st mc p = some st1) : st1.g = st.g := by
  unfold first_choice_text at h
  simp only [Option.map_eq_some'] at h
  obtain ⟨ch, _, rfl⟩ := h
  rfl

theorem still_question_g (st st1 : PF) (p : CStr)
    (h : still_question st p = some st1) : st1.g = st.g := by
  unfold still_question at h
  split at h
  · simp only [Option.bind_eq_some, Option.map_eq_some'] at h
    obtain ⟨q1, _, q2, _, rfl⟩ := h
    rfl
  · simp only [Option.map_eq_some'] at h
    obtain ⟨q1, _, rfl⟩ := h
    rfl

theorem case_STATE_QUESTION_g (st st1 : PF) (p : CStr)
    (h : case_STATE_QUESTION st p = some st1) :
    { st1.g with G_cformat := st.g.G_cformat } = st.g := by
  unfold case_STATE_QUESTION at h
  simp only at h
  split at h <;>
  · split at h
    · simp only [Option.bind_eq_some] at h
      obtain ⟨nc, _, h⟩ := h
      rw [first_choice_text_g _ _ _ _ h]
    · split at h
      · split at h
        · simp only [Option.bind_eq_some] at h
          obtain ⟨nc, _, h⟩ := h
          rw [first_choice_text_g _ _ _ _ h]
        · exact absurd h (by simp)
      · rw [still_question_g _ _ _ h]

theorem next_choice_line_g (st st1 : PF) (mc : Bool) (s : CStr)
    (h : next_choice_line st mc s = some st1) : st1.g = st.g := by
  unfold next_choice_line at h
  split at h
  · exact absurd h (by simp)
  · simp only [Option.bind_eq_some, Option.map_eq_some'] at h
    obtain ⟨a, _, nc, _, ch, _, rfl⟩ := h
    rfl

theorem answer_line_g (st st1 : PF) (p : CStr)
    (h : answer_line st p = some st1) : st1.g = st.g := by
  unfold answer_line at h
  simp only [Option.bind_eq_some] at h
  obtain ⟨a, _, h⟩ := h
  split at h
  · exact absurd h (by simp)
  · simp only [Option.some.injEq] at h
    rw [← h]

theorem case_STATE_CHOICE_g (st st1 : PF) (p : CStr)
    (h : case_STATE_CHOICE st p = some st1) : st1.g = st.g := by
  unfold case_STATE_CHOICE at h
  simp only at h
  split at h <;>
  · split at h
    · exact next_choice_line_g _ _ _ _ h
    · split at h
      · exact answer_line_g _ _ _ h
      · simp only [Option.map_eq_some'] at h
        obtain ⟨ch, _, rfl⟩ := h
        rfl

theorem empty_line_g (ident : CStr) (st st1 : PF)
    (h : empty_line ident st = some st1) : st1.g = st.g := by
  unfold empty_line at h
  split at h
  · split at h
    · simp only [Option.bind_eq_some, Option.map_eq_some'] at h
      obtain ⟨a, _, eq, _, q, _, xml, _, arr2, _, rfl⟩ := h
      rfl
    · simp only [Option.some.injEq] at h
      rw [← h]
  · simp only [Option.map_eq_some'] at h
    obtain ⟨q, _, rfl⟩ := h
    rfl

theorem begin_question_g (st : PF) (p : CStr) (s : STEP)
    (h : begin_question st p = some s) : s.globals = st.g := by
  unfold begin_question at h
  simp only at h
  split at h
  · exact absurd h (by simp)
  · simp only [Option.map_eq_some'] at h
    obtain ⟨q, _, rfl⟩ := h
    rfl

theorem case_STATE_NONE_g (st : PF) (p : CStr) (s : STEP)
    (h : case_STATE_NONE st p = some s) :
    { s.globals with G_qformat := st.g.G_qformat } = st.g ∧
      (st.g.G_qformat.style ≠ FMT_UNKNOWN → s.globals = st.g) ∧
      (st.g.G_qformat.style = FMT_UNKNOWN → s.globals.G_qformat.style ≠ FMT_UNKNOWN) := by
  unfold case_STATE_NONE at h
  split at h
  · rename_i hu
    have e := begin_question_g _ _ _ h
    rw [e]
    refine ⟨rfl, fun hne => absurd hu hne, fun _ => ?_⟩
    show (detect_qformat st.g.G_qformat p).1.style ≠ FMT_UNKNOWN
    unfold detect_qformat
    split
    · rename_i c d rest
      split
      · rename_i hc
        split
        · show style_of c st.g.G_qformat.style ≠ FMT_UNKNOWN
          unfold style_of
          simp only [is_first_label, Bool.or_eq_true, decide_eq_true_eq] at hc
          split_ifs <;> first | decide | tauto
        · show FMT_NONE ≠ FMT_UNKNOWN; decide
      · show FMT_NONE ≠ FMT_UNKNOWN; decide
    · show FMT_NONE ≠ FMT_UNKNOWN; decide
  · rename_i hu
    split at h
    · split at h
      · exact absurd h (by simp)
      · split at h
        · exact absurd h (by simp)
        · simp only [Option.some.injEq] at h
          rw [← h]
          exact ⟨rfl, fun _ => rfl, fun hh => absurd hh hu⟩
        · split at h
          · have e := begin_question_g _ _ _ h
            rw [e]
            exact ⟨rfl, fun _ => rfl, fun hh => absurd hh hu⟩
          · exact absurd h (by simp)
    · rename_i hn
      have hn2 : st.g.G_qformat.style = FMT_NONE := by simpa using hn
      have e := begin_question_g _ _ _ h
      rw [e]
      have e2 : ({ st.g.G_qformat with style := FMT_NONE } : NUM_FMT_T) = st.g.G_qformat := by
        cases hq : st.g.G_qformat with
        | mk style sep =>
          rw [hq] at hn2
          simp only at hn2
          rw [← hn2]
      refine ⟨rfl, fun _ => ?_, fun hh => absurd hh hu⟩
      show { st.g with G_qformat := { st.g.G_qformat with style := FMT_NONE } } = st.g
      rw [e2]

/-- What one line may change in the file-scope variables: the two formats only,
and the question format only while its style is `FMT_UNKNOWN`. -/
theorem process_line_g (ident : CStr) (st : PF) (line : CStr) (s : STEP)
    (h : process_line ident st line = some s) :
    { s.globals with G_qformat := st.g.G_qformat, G_cformat := st.g.G_cformat } = st.g ∧
      (st.g.G_qformat.style ≠ FMT_UNKNOWN → s.globals.G_qformat = st.g.G_qformat) := by
  unfold process_line at h
  simp only at h
  split at h
  · simp only [Option.bind_eq_some] at h
    obtain ⟨ic, _, h⟩ := h
    split at h
    · obtain ⟨h1, h2, _⟩ := case_STATE_NONE_g _ _ _ h
      refine ⟨?_, fun hne => ?_⟩
      · have h3 : { s.globals with G_qformat := st.g.G_qformat } = st.g := h1
        rw [← h3]
      · have h3 : s.globals = st.g := h2 hne
        rw [h3]
    · simp only [Option.map_eq_some'] at h
      obtain ⟨st1, h, rfl⟩ := h
      have h0 := case_STATE_QUESTION_g _ _ _ h
      have h1 : { st1.g with G_cformat := st.g.G_cformat } = st.g := h0
      refine ⟨?_, fun _ => ?_⟩
      · show { st1.g with G_qformat := st.g.G_qformat, G_cformat := st.g.G_cformat } = st.g
        rw [← h1]
      · show st1.g.G_qformat = st.g.G_qformat
        rw [← h1]
    · simp only [Option.map_eq_some'] at h
      obtain ⟨st1, h, rfl⟩ := h
      have h0 := case_STATE_CHOICE_g _ _ _ h
      have h1 : st1.g = st.g := h0
      refine ⟨?_, fun _ => ?_⟩
      · show { st1.g with G_qformat := st.g.G_qformat, G_cformat := st.g.G_cformat } = st.g
        rw [h1]
      · show st1.g.G_qformat = st.g.G_qformat
        rw [h1]
    · simp only [Option.some.injEq] at h
      rw [← h]
      exact ⟨rfl, fun _ => rfl⟩
  · simp only [Option.map_eq_some'] at h
    obtain ⟨st1, h, rfl⟩ := h
    have h0 := empty_line_g _ _ _ h
    have h1 : st1.g = st.g := h0
    refine ⟨?_, fun _ => ?_⟩
    · show { st1.g with G_qformat := st.g.G_qformat, G_cformat := st.g.G_cformat } = st.g
      rw [h1]
    · show st1.g.G_qformat = st.g.G_qformat
      rw [h1]

theorem process_lines_g (ident : CStr) (lines : List CStr) (st : PF) (s : STEP)
    (h : process_lines ident st lines = some s) :
    { s.globals with G_qformat := st.g.G_qformat, G_cformat := st.g.G_cformat } = st.g ∧
      (st.g.G_qformat.style ≠ FMT_UNKNOWN → s.globals.G_qformat = st.g.G_qformat) := by
  induction lines generalizing st with
  | nil =>
    simp only [process_lines, Option.some.injEq] at h
    rw [← h]
    exact ⟨rfl, fun _ => rfl⟩
  | cons line rest ih =>
    unfold process_lines at h
    split at h
    · exact absurd h (by simp)
    · rename_i g hl
      simp only [Option.some.injEq] at h
      rw [← h]
      exact process_line_g ident st line _ hl
    · rename_i st1 hl
      obtain ⟨a1, a2⟩ := process_line_g ident st line _ hl
      obtain ⟨b1, b2⟩ := ih st1 h
      have a1 : { st1.g with G_qformat := st.g.G_qformat, G_cformat := st.g.G_cformat } = st.g := a1
      have a2 : st.g.G_qformat.style ≠ FMT_UNKNOWN → st1.g.G_qformat = st.g.G_qformat := a2
      refine ⟨?_, fun hne => ?_⟩
      · rw [← a1, ← b1]
      · rw [b2 (by rw [a2 hne]; exact hne), a2 hne]

theorem process_file_g (g : GLOBALS) (file : CStr) (q : Int) (ident : CStr) (r : PF_RESULT)
    (h : process_file g file q ident = some r) :
    { r.g with G_qformat := g.G_qformat, G_cformat := g.G_cformat } = g ∧
      (g.G_qformat.style ≠ FMT_UNKNOWN → r.g.G_qformat = g.G_qformat) ∧ r.qnump = q := by
  unfold process_file at h
  split at h
  · exact absurd h (by simp)
  · rename_i g1 hl
    simp only [Option.some.injEq] at h
    rw [← h]
    obtain ⟨a1, a2⟩ := process_lines_g ident _ _ _ hl
    exact ⟨a1, a2, rfl⟩
  · rename_i st hl
    simp only [Option.some.injEq] at h
    rw [← h]
    obtain ⟨a1, a2⟩ := process_lines_g ident _ _ _ hl
    exact ⟨a1, a2, rfl⟩

/-- C16: once the style of `G_qformat` is no longer `FMT_UNKNOWN`, a line leaves
`G_qformat` (style and separator) as it was, and so does a whole call of
`process_file`, whose result is the value the next file starts from; and a
non-blank line read in `STATE_NONE` while the style is `FMT_UNKNOWN` takes it out
of `FMT_UNKNOWN`. -/
theorem question_format_locked (ident : CStr) (st : PF) (line : CStr) (s : STEP)
    (g : GLOBALS) (file : CStr) (q : Int) (r : PF_RESULT) :
    (st.g.G_qformat.style ≠ FMT_UNKNOWN → process_line ident st line = some s →
      s.globals.G_qformat = st.g.G_qformat) ∧
    (g.G_qformat.style ≠ FMT_UNKNOWN → process_file g file q ident = some r →
      r.g.G_qformat = g.G_qformat) ∧
    (st.g.G_qformat.style = FMT_UNKNOWN → st.state = STATE_NONE →
      (skip_spaces line).length ≠ 0 → process_line ident st line = some s →
      s.globals.G_qformat.style ≠ FMT_UNKNOWN) := by
  refine ⟨fun hne h => (process_line_g ident st line s h).2 hne,
    fun hne h => (process_file_g g file q ident r h).2.1 hne, fun hu hs hl h => ?_⟩
  unfold process_line at h
  simp only at h
  rw [if_pos hl] at h
  simp only [Option.bind_eq_some] at h
  obtain ⟨ic, _, h⟩ := h
  rw [hs] at h
  exact (case_STATE_NONE_g _ _ _ h).2.2 hu

theorem question_format_locked_witness :
    process_line ['d'] (doc_state5 ['Q'] ['x'] ['y'] ['z'] ['d']) "2. R\n".toList =
      some (STEP.next (doc_state6 ['Q'] ['x'] ['y'] ['z'] ['R'] ['d'])) ∧
    (doc_state6 ['Q'] ['x'] ['y'] ['z'] ['R'] ['d']).g.G_qformat =
      (doc_state5 ['Q'] ['x'] ['y'] ['z'] ['d']).g.G_qformat ∧
    (doc_state1 ['Q']).g.G_qformat.style ≠ FMT_UNKNOWN ∧
    process_file
        { GLOBALS.start false false with G_qformat := { style := FMT_NUMERICAL, sep := ')' } }
        "A. x\n1. y\n".toList 0 ['d'] =
      some { g := { GLOBALS.start false false with
                      G_qformat := { style := FMT_NUMERICAL, sep := ')' },
                      G_cformat := { style := FMT_NUMERICAL, sep := '.' } },
             qnump := 0, xml := none } ∧
    ({ g := { GLOBALS.start false false with
                G_qformat := { style := FMT_NUMERICAL, sep := ')' },
                G_cformat := { style := FMT_NUMERICAL, sep := '.' } },
       qnump := 0, xml := none } : PF_RESULT).g.G_qformat =
      { style := FMT_NUMERICAL, sep := ')' } :=
  have a : plain_text ['Q'] := by unfold plain_text; decide
  have b : plain_text ['R'] := by unfold plain_text; decide
  have hrun : process_file
        { GLOBALS.start false false with G_qformat := { style := FMT_NUMERICAL, sep := ')' } }
        "A. x\n1. y\n".toList 0 ['d'] =
      some { g := { GLOBALS.start false false with
                      G_qformat := { style := FMT_NUMERICAL, sep := ')' },
                      G_cformat := { style := FMT_NUMERICAL, sep := '.' } },
             qnump := 0, xml := none } := by decide!
  ⟨doc_step6 ['d'] ['Q'] ['x'] ['y'] ['z'] ['R'] a b,
   (question_format_locked ['d'] (doc_state5 ['Q'] ['x'] ['y'] ['z'] ['d'])
      "2. R\n".toList (STEP.next (doc_state6 ['Q'] ['x'] ['y'] ['z'] ['R'] ['d']))
      (GLOBALS.start false false) [] 0 { g := GLOBALS.start false false, qnump := 0, xml := none }).1
      (by decide) (doc_step6 ['d'] ['Q'] ['x'] ['y'] ['z'] ['R'] a b),
   (question_format_locked ['d'] (PF.start (GLOBALS.start false false) 0)
      "1. Q\n".toList (STEP.next (doc_state1 ['Q']))
      (GLOBALS.start false false) [] 0 { g := GLOBALS.start false false, qnump := 0, xml := none }).2.2
      rfl rfl (by decide) (doc_step1 ['d'] ['Q'] a),
   hrun,
   (question_format_locked ['d'] (PF.start (GLOBALS.start false false) 0) []
      (STEP.next (PF.start (GLOBALS.start false false) 0))
      { GLOBALS.start false false with G_qformat := { style := FMT_NUMERICAL, sep := ')' } }
      "A. x\n1. y\n".toList 0
      { g := { GLOBALS.start false false with
                G_qformat := { style := FMT_NUMERICAL, sep := ')' },
                G_cformat := { style := FMT_NUMERICAL, sep := '.' } },
        qnump := 0, xml := none }).2.1 (by decide) hrun⟩

/-! ## The counter of questions and the remembered first choice -/

/-- C14 fails on the code: `process_file` copies `*qnump` at line 588 and never
writes it back, so a call leaves the counter as it found it.  The first file below
starts one question and leaves the counter at 0; the second file, read with the
counter and the file-scope variables the first call left, numbers its first item 1
again, not 2. -/
theorem counter_not_written_back :
    (∀ (g : GLOBALS) (file : CStr) (q : Int) (ident : CStr),
      (process_file g file q ident).map PF_RESULT.qnump =
        (process_file g file q ident).map (fun _ => q)) ∧
    process_file (GLOBALS.start false false) "1. Q\nA. x\n*B. y\n\n".toList 0 "f1".toList =
      some { g := { GLOBALS.start false false with
                      G_qformat := { style := FMT_NUMERICAL, sep := '.' },
                      G_cformat := { style := FMT_ULETTER, sep := '.' } },
             qnump := 0,
             xml := some (item_text 1 QTYPE_MULTCHOICE (some " Q\n".toList)
               [{ id := some ['A'], correct := false, text := some ['x'] },
                { id := some ['B'], correct := true, text := some ['y'] }] "f1".toList) } ∧
    process_file
        { GLOBALS.start false false with
            G_qformat := { style := FMT_NUMERICAL, sep := '.' },
            G_cformat := { style := FMT_ULETTER, sep := '.' } }
        "2. R\nA. u\n*B. v\n\n".toList 0 "f2".toList =
      some { g := { GLOBALS.start false false with
                      G_qformat := { style := FMT_NUMERICAL, sep := '.' },
                      G_cformat := { style := FMT_ULETTER, sep := '.' } },
             qnump := 0,
             xml := some (item_text 1 QTYPE_MULTCHOICE (some "2. R\n".toList)
               [{ id := some ['A'], correct := false, text := some ['u'] },
                { id := some ['B'], correct := true, text := some ['v'] }] "f2".toList) } ∧
    (item_text 1 QTYPE_MULTCHOICE (some "2. R\n".toList)
        [{ id := some ['A'], correct := false, text := some ['u'] },
         { id := some ['B'], correct := true, text := some ['v'] }] "f2".toList).take 47 =
      "<item title=\"Question 1\" ident=\"txt2qti_f2_q1\">".toList := by
  refine ⟨fun g file q ident => ?_, by decide!, by decide!, by decide!⟩
  cases h : process_file g file q ident with
  | none => rfl
  | some r =>
    simp only [Option.map_some', Option.some.injEq]
    exact (process_file_g g file q ident r h).2.2

/-- C15 fails on the code: `G_first_choice` is never assigned, a call of
`process_file` returns it as it received it, so it stays empty, the test of lines
741-743 never holds and the detection of lines 761-815 runs for every item, with
the mixed mode off as well.  In the document below the first item locks the
choices on `A.`; in the second item the line `1) u` is nevertheless taken as a
first choice and changes `G_cformat` to the numeric style with separator `)`, and
the second item is emitted with the choices `1` and `2`. -/
theorem choice_format_redetected :
    (∀ (g : GLOBALS) (file : CStr) (q : Int) (ident : CStr),
      (process_file g file q ident).map (fun r => r.g.G_first_choice) =
        (process_file g file q ident).map (fun _ => g.G_first_choice)) ∧
    (GLOBALS.start false false).G_first_choice = [] ∧
    (process_lines ['d'] (PF.start (GLOBALS.start false false) 0)
        (fgets_lines LINE_LEN "1. Q\nA. x\n*B. y\n\n2. R\n".toList [])).map
      (fun r => match r with
        | STEP.next st => (st.state, st.g.G_mixed_format, st.g.G_cformat, st.question.s)
        | STEP.returned g => (STATE_NONE, false, g.G_cformat, none))
      = some (STATE_QUESTION, false, { style := FMT_ULETTER, sep := '.' },
              some "2. R\n".toList) ∧
    (process_lines ['d'] (PF.start (GLOBALS.start false false) 0)
        (fgets_lines LINE_LEN "1. Q\nA. x\n*B. y\n\n2. R\n1) u\n".toList [])).map
      (fun r => match r with
        | STEP.next st => (st.state, st.g.G_mixed_format, st.g.G_cformat, st.question.s)
        | STEP.returned g => (STATE_NONE, false, g.G_cformat, none))
      = some (STATE_CHOICE, false, { style := FMT_NUMERICAL, sep := ')' },
              some "2. R\n".toList) ∧
    process_file (GLOBALS.start false false)
        "1. Q\nA. x\n*B. y\n\n2. R\n1) u\n*2) v\n\n".toList 0 ['d'] =
      some { g := { GLOBALS.start false false with
                      G_qformat := { style := FMT_NUMERICAL, sep := '.' },
                      G_cformat := { style := FMT_NUMERICAL, sep := ')' } },
             qnump := 0,
             xml := some (
               item_text 1 QTYPE_MULTCHOICE (some " Q\n".toList)
                 [{ id := some ['A'], correct := false, text := some ['x'] },
                  { id := some ['B'], correct := true, text := some ['y'] }] ['d'] ++
               item_text 2 QTYPE_MULTCHOICE (some "2. R\n".toList)
                 [{ id := some ['1'], correct := false, text := some ['u'] },
                  { id := some ['2'], correct := true, text := some ['v'] }] ['d']) } := by
  refine ⟨fun g file q ident => ?_, rfl, by decide!, by decide!, by decide!⟩
  cases h : process_file g file q ident with
  | none => rfl
  | some r =>
    simp only [Option.map_some', Option.some.injEq]
    have e := (process_file_g g file q ident r h).1
    rw [← e]

/-! ## The labels of one item -/

/-- C17 fails on the code: with the upper roman choices the label expected after
`V.` is `V.` again, entry 5 of `G_roman` being `V`.  In the document below the two
lines that start with `V.` are both recorded as choices, and the item is emitted
with the labels I, II, III, IV, V, V, the last two equal; both response labels
carry the ident `q1_V`. -/
theorem roman_label_recorded_twice :
    (process_lines ['d'] (PF.start (GLOBALS.start false false) 0)
        (fgets_lines LINE_LEN "1. Q\nI. a\nII. b\nIII. c\nIV. d\n*V. e\n".toList [])).map
      (fun r => match r with
        | STEP.next st => (st.state, st.g.G_cformat, st.curr_choice, st.next_choice)
        | STEP.returned g => (STATE_NONE, g.G_cformat, [], []))
      = some (STATE_CHOICE, { style := FMT_UROMAN, sep := '.' }, "V.".toList, "V.".toList) ∧
    process_file (GLOBALS.start false false)
        "1. Q\nI. a\nII. b\nIII. c\nIV. d\n*V. e\nV. f\n\n".toList 0 ['d'] =
      some { g := { GLOBALS.start false false with
                      G_qformat := { style := FMT_NUMERICAL, sep := '.' },
                      G_cformat := { style := FMT_UROMAN, sep := '.' } },
             qnump := 0,
             xml := some (item_text 1 QTYPE_MULTCHOICE (some " Q\n".toList)
               [{ id := some "I".toList, correct := false, text := some ['a'] },
                { id := some "II".toList, correct := false, text := some ['b'] },
                { id := some "III".toList, correct := false, text := some ['c'] },
                { id := some "IV".toList, correct := false, text := some ['d'] },
                { id := some "V".toList, correct := true, text := some ['e'] },
                { id := some "V".toList, correct := false, text := some ['f'] }] ['d']) } ∧
    ¬ (["I".toList, "II".toList, "III".toList, "IV".toList, "V".toList, "V".toList]).Nodup ∧
    labels_text ['1']
        [{ id := some "V".toList, correct := true, text := some ['e'] },
         { id := some "V".toList, correct := false, text := some ['f'] }] =
      ("    <response_label ident=\"q1_V\">\n" ++
       "     <material><mattext texttype=\"text/plain\">e</mattext></material>\n" ++
       "    </response_label>\n" ++
       "    <response_label ident=\"q1_V\">\n" ++
       "     <material><mattext texttype=\"text/plain\">f</mattext></material>\n" ++
       "    </response_label>\n").toList := by
  refine ⟨by decide!, by decide!, by decide, by decide!⟩

/-! ## The response options -/

theorem labels_text_options (numstr : CStr) (L : List CHOICE_T) :
    labels_text numstr L =
      (L.filterMap (fun ch => ch.id.map (fun id => response_label numstr id ch.text))).join := by
  induction L with
  | nil => rfl
  | cons ch rest ih =>
    cases h : ch.id with
    | none => simp [labels_text, h, ih]
    | some id => simp [labels_text, h, ih]

/-- C18, as stated, fails: the ident of a response option does not hold the
document identifier.  The same choice `A` of item 1 gets the ident `q1_A` in the
fragments of two documents with different identifiers; the identifier only shows
in the ident of the item. -/
theorem option_ident_without_document :
    process_question 1 (some ['Q'])
        [{ id := some ['A'], correct := true, text := some ['x'] }] 1 "docA".toList =
      some (some (item_open ['1'] QTYPE_MULTCHOICE (some ['Q']) "docA".toList ++
        response_label ['1'] ['A'] (some ['x']) ++ item_middle ++
        varequal_single ['1'] ['A'] ++ item_close)) ∧
    process_question 1 (some ['Q'])
        [{ id := some ['A'], correct := true, text := some ['x'] }] 1 "docB".toList =
      some (some (item_open ['1'] QTYPE_MULTCHOICE (some ['Q']) "docB".toList ++
        response_label ['1'] ['A'] (some ['x']) ++ item_middle ++
        varequal_single ['1'] ['A'] ++ item_close)) ∧
    response_label ['1'] ['A'] (some ['x']) =
      ("    <response_label ident=\"q1_A\">\n" ++
       "     <material><mattext texttype=\"text/plain\">x</mattext></material>\n" ++
       "    </response_label>\n").toList ∧
    (item_open ['1'] QTYPE_MULTCHOICE (some ['Q']) "docA".toList).take 49 =
      "<item title=\"Question 1\" ident=\"txt2qti_docA_q1\">".toList ∧
    (item_open ['1'] QTYPE_MULTCHOICE (some ['Q']) "docB".toList).take 49 =
      "<item title=\"Question 1\" ident=\"txt2qti_docB_q1\">".toList := by
  refine ⟨by decide!, by decide!, by decide!, by decide!, by decide!⟩

/-- C18, amended: the fragment of `process_question` holds, between the opening
of `<render_choice>` and its end, exactly one `<response_label>` element per slot
that has a label, in stored order, and nothing else; the ident of each is `q`, the
item index, `_` and the label of the choice, whatever the document identifier,
which only enters the ident of the item. -/
theorem response_options (qnum : Int) (qtext : Option CStr) (qchoices : List CHOICE_T)
    (qchoicecnt : Nat) (ident : CStr) (hcnt : qchoicecnt ≤ qchoices.length)
    (hshort : qchoicecnt ≤ 32767)
    (hb : (item_text qnum (if correct_count (qchoices.take qchoicecnt) = 1 then QTYPE_MULTCHOICE
        else QTYPE_MULTANSW) qtext (qchoices.take qchoicecnt) ident).length + 257 ≤ 2 ^ 31) :
    process_question qnum qtext qchoices qchoicecnt ident =
      some (some (
        item_open (fmt_d qnum) (question_type qchoices qchoicecnt) qtext ident ++
        ((qchoices.take qchoicecnt).filterMap (fun ch =>
          ch.id.map (fun id => response_label (fmt_d qnum) id ch.text))).join ++
        item_middle ++
        condition_text (fmt_d qnum) (question_type qchoices qchoicecnt)
          (qchoices.take qchoicecnt) ++
        item_close)) ∧
    (∀ (id : CStr) (text : Option CStr),
      response_label (fmt_d qnum) id text =
        "    <response_label ident=\"".toList ++ ('q' :: fmt_d qnum ++ '_' :: id) ++
          "\">\n     <material><mattext texttype=\"text/plain\">".toList ++ escape_opt text ++
          "</mattext></material>\n    </response_label>\n".toList) ∧
    (∀ qtype : Nat, item_open (fmt_d qnum) qtype qtext ident =
        "<item title=\"Question ".toList ++ fmt_d qnum ++
          ("\" ident=\"".toList ++ ("txt2qti_".toList ++ ident ++ "_q".toList ++ fmt_d qnum) ++
            "\">\n".toList) ++
          (item_open (fmt_d qnum) qtype qtext ident).drop
            (("<item title=\"Question ".toList ++ fmt_d qnum ++
              ("\" ident=\"".toList ++ ("txt2qti_".toList ++ ident ++ "_q".toList ++ fmt_d qnum) ++
                "\">\n".toList)).length)) := by
  refine ⟨?_, fun id text => ?_, fun qtype => ?_⟩
  · rw [process_question_eq qnum qtext qchoices qchoicecnt ident hcnt hshort hb,
      question_type_eq _ _ hshort, ← labels_text_options]
    rfl
  · simp [response_label, concat_all]
  · have e : item_open (fmt_d qnum) qtype qtext ident =
        ("<item title=\"Question ".toList ++ fmt_d qnum ++
          ("\" ident=\"".toList ++ ("txt2qti_".toList ++ ident ++ "_q".toList ++ fmt_d qnum) ++
            "\">\n".toList)) ++
        (concat_all [" <presentation>\n".toList, "  <material>\n".toList,
          "   <mattext texttype=\"text/html\">\n".toList, "    ".toList] ++ escape_opt qtext ++
        concat_all ["   </mattext>\n".toList, "  </material>\n".toList,
          "  <response_lid ident=\"rq".toList, fmt_d qnum, "\"".toList,
          if QTYPE_MULTCHOICE = qtype then " rcardinality=\"Single\">\n".toList
          else " rcardinality=\"Multiple\">\n".toList,
          "   <render_choice shuffle=\"No\">\n".toList]) := by
      simp [item_open, concat_all]
    rw [e, List.drop_left]

theorem response_options_witness :
    process_question 1 (some ['Q'])
        [{ id := some ['A'], correct := false, text := some ['x'] },
         { id := none, correct := true, text := none },
         { id := some ['B'], correct := true, text := some ['y'] }] 3 ['d'] =
      some (some (
        item_open ['1'] QTYPE_MULTCHOICE (some ['Q']) ['d'] ++
        (response_label ['1'] ['A'] (some ['x']) ++ response_label ['1'] ['B'] (some ['y'])) ++
        item_middle ++
        condition_text ['1'] QTYPE_MULTCHOICE
          [{ id := some ['A'], correct := false, text := some ['x'] },
           { id := none, correct := true, text := none },
           { id := some ['B'], correct := true, text := some ['y'] }] ++
        item_close)) := by
  have h := (response_options 1 (some ['Q'])
        [{ id := some ['A'], correct := false, text := some ['x'] },
         { id := none, correct := true, text := none },
         { id := some ['B'], correct := true, text := some ['y'] }] 3 ['d']
        (by decide) (by decide) (by decide!)).1
  rw [h]
  decide!

/-! ## Code regions in the question text -/

theorem strstr_at (a needle rest : CStr) (ha : '<' ∉ a) (hn : needle.head? = some '<') :
    strstr (a ++ needle ++ rest) needle = some a.length := by
  induction a with
  | nil =>
    cases needle with
    | nil => simp at hn
    | cons x r =>
      simp [strstr, strncmp_eq]
  | cons c cs ih =>
    simp only [List.mem_cons, not_or] at ha
    cases needle with
    | nil => simp at hn
    | cons x r =>
      simp only [List.head?_cons, Option.some.injEq] at hn
      subst hn
      have hc : c ≠ '<' := fun e => ha.1 e.symm
      have hno : strncmp_eq (c :: (cs ++ '<' :: r ++ rest)) ('<' :: r) ('<' :: r).length
          = false := by
        simp only [strncmp_eq, List.length_cons, List.take_succ_cons]
        simp [hc]
      show strstr (c :: (cs ++ '<' :: r ++ rest)) ('<' :: r) = _
      rw [strstr, hno]
      simp only [Bool.false_eq_true, if_false]
      rw [ih ha.2]
      rfl

theorem escape_append (a b : CStr) : Escape (a ++ b) = Escape a ++ Escape b := by
  induction a with
  | nil => rfl
  | cons c p ih => simp [Escape, ih]

theorem escape_free (s : CStr) : '<' ∉ Escape s :=
  fun h => (escape_no_markup s '<' h).1 rfl

theorem encoded_code_region (a c b : CStr) (ha : '<' ∉ a) (hc : '<' ∉ c) (hb : '<' ∉ b) :
    encoded_question (some (a ++ START_CODE ++ c ++ END_CODE ++ b)) =
      some (a ++ START_CODE ++ Escape c ++ END_CODE ++ b) := by
  have hne : (a ++ START_CODE ++ c ++ END_CODE ++ b).isEmpty = false := by
    cases a <;> simp [START_CODE]
  have h1 : strstr (a ++ START_CODE ++ c ++ END_CODE ++ b) START_CODE = some a.length := by
    have := strstr_at a START_CODE (c ++ END_CODE ++ b) ha rfl
    simpa [List.append_assoc] using this
  have h2 : (a ++ START_CODE ++ c ++ END_CODE ++ b).drop (a.length + START_CODE.length) =
      c ++ END_CODE ++ b := by
    have : a ++ START_CODE ++ c ++ END_CODE ++ b = (a ++ START_CODE) ++ (c ++ END_CODE ++ b) := by
      simp [List.append_assoc]
    rw [this, ← List.length_append, List.drop_left]
  have h3 : strstr (c ++ END_CODE ++ b) END_CODE = some c.length :=
    strstr_at c END_CODE b hc rfl
  have h4 : (c ++ END_CODE ++ b).drop (c.length + END_CODE.length) = b := by
    rw [← List.length_append, List.drop_left]
  have h5 : (c ++ END_CODE ++ b).take c.length = c := by
    rw [List.append_assoc, List.take_left]
  have h6 : (a ++ START_CODE ++ c ++ END_CODE ++ b).take a.length = a := by
    have : a ++ START_CODE ++ c ++ END_CODE ++ b = a ++ (START_CODE ++ c ++ END_CODE ++ b) := by
      simp [List.append_assoc]
    rw [this, List.take_left]
  have h7 : encode_text (a ++ START_CODE ++ c ++ END_CODE ++ b).length b = b := by
    have hl : (a ++ START_CODE ++ c ++ END_CODE ++ b).length =
        (a.length + c.length + b.length + 10) + 1 := by
      simp [START_CODE, END_CODE]; omega
    rw [hl]
    cases b with
    | nil => simp [encode_text]
    | cons x r =>
      have : strstr (x :: r) START_CODE = none := strstr_free _ _ hb rfl
      simp [encode_text, this]
  unfold encoded_question
  simp only [hne, Bool.false_eq_true, if_false, Option.some.injEq]
  rw [encode_text]
  simp only [hne, Bool.false_eq_true, if_false, h1, h2, h3, h4, h5, h6, h7]
  simp only [List.append_assoc]


/-- C20, as stated, fails: in state Question with a block region open (first
document) or a code region open (second document), the line `A. x`, which holds
no region marker, is not appended to the question text; it starts the first
choice, the state becomes `STATE_CHOICE` and the region is closed. -/
theorem choice_line_closes_region :
    (process_lines ['d'] (PF.start (GLOBALS.start false false) 0)
        (fgets_lines LINE_LEN "<block>Q\n".toList [])).map
      (fun r => match r with
        | STEP.next st => (st.state, [st.in_code, st.in_block], st.question.s, st.choice.s)
        | STEP.returned _ => (STATE_NONE, [], none, none))
      = some (STATE_QUESTION, [false, true], some "Q\n".toList, none) ∧
    (process_lines ['d'] (PF.start (GLOBALS.start false false) 0)
        (fgets_lines LINE_LEN "<block>Q\nA. x\n".toList [])).map
      (fun r => match r with
        | STEP.next st => (st.state, [st.in_code, st.in_block], st.question.s, st.choice.s)
        | STEP.returned _ => (STATE_NONE, [], none, none))
      = some (STATE_CHOICE, [false, false], some "Q\n".toList, some "x\n".toList) ∧
    (process_lines ['d'] (PF.start (GLOBALS.start false false) 0)
        (fgets_lines LINE_LEN "Q <pre>\n".toList [])).map
      (fun r => match r with
        | STEP.next st => (st.state, [st.in_code, st.in_block], st.question.s, st.choice.s)
        | STEP.returned _ => (STATE_NONE, [], none, none))
      = some (STATE_QUESTION, [true, false], some "Q <pre>\n".toList, none) ∧
    (process_lines ['d'] (PF.start (GLOBALS.start false false) 0)
        (fgets_lines LINE_LEN "Q <pre>\n1) x\n".toList [])).map
      (fun r => match r with
        | STEP.next st => (st.state, [st.in_code, st.in_block], st.question.s, st.choice.s)
        | STEP.returned _ => (STATE_NONE, [], none, none))
      = some (STATE_CHOICE, [false, false], some "Q <pre>\n".toList, some "x\n".toList) := by
  refine ⟨by decide!, by decide!, by decide!, by decide!⟩

/-- C20, amended: in state Question with a code or block region open, a non-blank
line that holds no region marker and does not start, after an optional `*`, with a
first-choice pattern is appended unchanged to the question text, and the state
and the two regions stay as they were; a line that starts with a first-choice
pattern, with or without a leading `*`, starts the first choice instead: the
state becomes `STATE_CHOICE` and both regions are closed. -/
theorem region_line_in_question (ident : CStr) (st : PF) (line : CStr)
    (hst : st.state = STATE_QUESTION) (hreg : st.in_code = true ∨ st.in_block = true)
    (hfc : st.g.G_first_choice = [])
    (hnb : (skip_spaces line).length ≠ 0)
    (h1 : strcasestr line START_CODE = none) (h2 : strcasestr line END_CODE = none)
    (h3 : strcasestr line "</block>".toList = none)
    (hq : st.question.Ok) (hch : st.choice.Ok)
    (hsz : st.question.content.length + line.length + 257 ≤ 2 ^ 31) :
    (is_first_choice (if line.head? = some '*' then line.drop 1 else line) = false →
      process_line ident st line =
        some (STEP.next { st with after_empty_line := false, maybe_correct := false,
                                  question := st.question.app line })) ∧
    (∀ (c d : Char) (rest nc : CStr) (star : Bool),
      line = (if star then '*' :: c :: d :: rest else c :: d :: rest) →
      is_first_choice (c :: d :: rest) = true →
      next_label 1 st.next_choice { style := style_of c st.g.G_cformat.style, sep := d }
        = some nc →
      ∃ st1, process_line ident st line = some (STEP.next st1) ∧
        st1.state = STATE_CHOICE ∧ st1.in_code = false ∧ st1.in_block = false ∧
        st1.question = st.question ∧
        st1.choice = (strbuf_clear st.choice).app (skip_spaces rest)) := by
  have hor : (st.in_code || st.in_block) = true := by
    rcases hreg with h | h <;> simp [h]
  have hne : line ≠ [] := by
    intro e; rw [e] at hnb; exact hnb rfl
  have hic : scan_code st.in_code line = some st.in_code := by
    cases hl : line.length + 1 with
    | zero => omega
    | succ f => simp [scan_code, hl, scan_end_code, h1, h2]
  constructor
  · intro hno
    have hadd := strbuf_add_app line hq hsz
    have hemp : line.isEmpty = false := by cases line <;> simp_all
    unfold process_line
    simp only [hor, if_true, hnb, ne_eq, not_false_eq_true, hic, Option.some_bind, hst]
    unfold case_STATE_QUESTION
    simp only [hfc, List.length_nil, ne_eq, not_true_eq_false, decide_False, Bool.and_false,
      Bool.false_and, Bool.false_eq_true, if_false, decide_True, Bool.or_true, Bool.true_and,
      decide_eq_true_eq, hno]
    unfold still_question
    simp only [h3, hemp, Bool.false_eq_true, if_false, hadd, Option.map_some']
  · intro c d rest nc star hline hfirst hnext
    have hcd : ∀ r : CStr, is_first_choice (c :: d :: r) = true → isspace c = false ∧ c ≠ '*' := by
      intro r hr
      simp only [is_first_choice, is_first_label, Bool.and_eq_true, Bool.or_eq_true,
        decide_eq_true_eq] at hr
      rcases hr.1 with (((h | h) | h) | h) | h <;> subst h <;> exact ⟨by decide, by decide⟩
    obtain ⟨hsp, hns⟩ := hcd rest hfirst
    have hbody : strcasestr (c :: d :: rest) START_CODE = none ∧
        strcasestr (c :: d :: rest) END_CODE = none := by
      cases star with
      | false => simp only [Bool.false_eq_true, if_false] at hline; rw [← hline]; exact ⟨h1, h2⟩
      | true =>
        simp only [if_true] at hline
        rw [hline, strcasestr_star _ START_CODE rfl] at h1
        rw [hline, strcasestr_star _ END_CODE rfl] at h2
        constructor
        · cases h : strcasestr (c :: d :: rest) START_CODE with
          | none => rfl
          | some k => rw [h] at h1; simp at h1
        · cases h : strcasestr (c :: d :: rest) END_CODE with
          | none => rfl
          | some k => rw [h] at h2; simp at h2
    have hic2 : scan_code st.in_code (c :: d :: rest) = some st.in_code := by
      simp [scan_code, scan_end_code, hbody.1, hbody.2]
    have hlen : (c :: d :: rest).length + 257 ≤ 2 ^ 31 := by
      have : (c :: d :: rest).length ≤ line.length := by
        rw [hline]; cases star <;> simp
      omega
    have h := first_choice_step ident st nc rest c d st.in_code
      (by simp [skip_spaces, hsp]) (by simp [hns]) hic2 hch hlen hst hfc hfirst hnext star
    rw [hline, h]
    exact ⟨_, rfl, rfl, rfl, rfl, rfl, rfl⟩

theorem region_line_in_question_witness :
    process_line ['d']
        { PF.start (GLOBALS.start false false) 0 with
            state := STATE_QUESTION, in_block := true, question := strbuf_init.app "Q\n".toList }
        " B. x\n".toList =
      some (STEP.next
        { PF.start (GLOBALS.start false false) 0 with
            state := STATE_QUESTION, in_block := true, after_empty_line := false,
            question := (strbuf_init.app "Q\n".toList).app " B. x\n".toList }) :=
  (region_line_in_question ['d']
    { PF.start (GLOBALS.start false false) 0 with
        state := STATE_QUESTION, in_block := true, question := strbuf_init.app "Q\n".toList }
    " B. x\n".toList rfl (Or.inr rfl) rfl (by decide) (by decide) (by decide) (by decide)
    (ok_app _ strbuf_init_ok (by decide)) strbuf_init_ok (by decide)).1 (by decide)

/-! ## strbuf.c: the reachable buffers -/

theorem round_required_mult (n r : Nat) (h : round_required n = some r) : r % 256 = 0 := by
  unfold round_required at h
  split at h
  · rename_i h0
    simp only [Option.some.injEq] at h
    unfold CHUNK at h0
    omega
  · simp only at h
    split at h
    · exact absurd h (by simp)
    · simp only [Option.some.injEq] at h
      rw [← h]
      generalize (to_int n).tdiv (CHUNK : Int) = k
      have e : ((CHUNK : Nat) : Int) = 256 := by unfold CHUNK; rfl
      have e2 : ((SIZE_MOD : Nat) : Int) = 18446744073709551616 := by unfold SIZE_MOD; rfl
      rw [e, e2]
      have hnn : 0 ≤ (256 * (1 + k)) % (18446744073709551616 : Int) :=
        Int.emod_nonneg _ (by decide)
      have hc := Int.toNat_of_nonneg hnn
      omega

theorem regular_init : strbuf_init.Regular := Or.inl ⟨rfl, rfl, rfl⟩

theorem regular_add {sb sb1 : STRBUF} (s : CStr) (h : sb.Regular)
    (e : strbuf_add sb s = some sb1) : sb1.Regular := by
  unfold strbuf_add at e
  split at e
  · exact absurd e (by simp)
  · rename_i required hr
    have hm := round_required_mult _ _ hr
    split at e
    · split at e
      · rename_i hc
        simp only [Option.some.injEq] at e
        rw [← e]
        exact Or.inr ⟨s, rfl, rfl, by dsimp only; omega, by unfold CHUNK; exact hm, hc.1⟩
      · exact absurd e (by simp)
    · rename_i h0
      rcases h with ⟨h1, _, _⟩ | ⟨t, ht, hcur, hlt, hmul, hmax⟩
      · exact absurd h1 h0
      · rw [ht] at e
        simp only at e
        split at e
        · split at e
          · rename_i hc
            simp only [Option.some.injEq] at e
            rw [← e]
            exact Or.inr ⟨t ++ s, rfl, rfl, by simp only [List.length_append]; omega,
              by unfold CHUNK; exact hm, hc.1⟩
          · exact absurd e (by simp)
        · split at e
          · rename_i hc
            simp only [Option.some.injEq] at e
            rw [← e]
            exact Or.inr ⟨t ++ s, rfl, rfl, by simp only [List.length_append]; omega, hmul, hmax⟩
          · exact absurd e (by simp)

theorem regular_nadd {sb sb1 : STRBUF} (s : CStr) (len : Nat) (h : sb.Regular)
    (e : strbuf_nadd sb s len = some sb1) : sb1.Regular := by
  unfold strbuf_nadd at e
  split at e
  · exact absurd e (by simp)
  · rename_i required hr
    have hm := round_required_mult _ _ hr
    split at e
    · split at e
      · rename_i hc
        simp only [Option.some.injEq] at e
        rw [← e]
        refine Or.inr ⟨s.take len, rfl, rfl, ?_, by unfold CHUNK; exact hm, hc.1⟩
        have := List.length_take_le len s
        dsimp only
        omega
      · exact absurd e (by simp)
    · rename_i h0
      rcases h with ⟨h1, _, _⟩ | ⟨t, ht, hcur, hlt, hmul, hmax⟩
      · exact absurd h1 h0
      · rw [ht] at e
        have hl := List.length_take_le (sb.curlen + len) (t ++ s.take (sb.curlen + len))
        by_cases hg : required > sb.len
        · simp only [hg, if_true, true_implies] at e
          split at e
          · rename_i hc
            simp only [Option.some.injEq] at e
            rw [← e]
            refine Or.inr ⟨_, rfl, rfl, ?_, by unfold CHUNK; exact hm, hc.1⟩
            dsimp only
            omega
          · exact absurd e (by simp)
        · simp only [hg, if_false, false_implies, true_and] at e
          split at e
          · rename_i hc
            simp only [Option.some.injEq] at e
            rw [← e]
            refine Or.inr ⟨_, rfl, rfl, ?_, hmul, hmax⟩
            dsimp only
            omega
          · exact absurd e (by simp)

theorem regular_addc {sb sb1 : STRBUF} (c : Char) (h : sb.Regular)
    (e : strbuf_addc sb c = some sb1) : sb1.Regular := by
  rcases h with ⟨h1, h2, h3⟩ | ⟨t, ht, hcur, hlt, hmul, hmax⟩
  · exfalso
    unfold strbuf_addc at e
    have : ¬ (sb.curlen ≥ SIZE_MOD - 1) := by rw [h2]; unfold SIZE_MOD; omega
    simp only [h1, if_true, this, if_false, h3] at e
    exact absurd e (by simp)
  · have h0 : sb.len ≠ 0 := by omega
    unfold strbuf_addc at e
    simp only [if_neg h0] at e
    by_cases hg : sb.curlen ≥ sb.len - 1
    · simp only [hg, if_true] at e
      by_cases ha : (sb.len + CHUNK) % SIZE_MOD ≤ ALLOC_MAX
      · simp only [ha, if_true, ht] at e
        split at e
        · rename_i hlt2
          simp only [Option.some.injEq] at e
          rw [← e]
          have hw : (sb.len + CHUNK) % SIZE_MOD = sb.len + CHUNK := by
            unfold ALLOC_MAX at hmax; unfold SIZE_MOD CHUNK; omega
          refine Or.inr ⟨t ++ [c], ?_, ?_, ?_, ?_, ha⟩
          · simp only [hcur, le_refl, if_true, List.take_length]
          · simp [hcur]
          · simp only [List.length_append, List.length_singleton]; omega
          · simp only [hw]; unfold CHUNK at hmul ⊢; omega
        · exact absurd e (by simp)
      · simp only [ha, if_false] at e
        exact absurd e (by simp)
    · simp only [hg, if_false, ht] at e
      split at e
      · rename_i hlt2
        simp only [Option.some.injEq] at e
        rw [← e]
        refine Or.inr ⟨t ++ [c], ?_, ?_, ?_, hmul, hmax⟩
        · simp only [hcur, le_refl, if_true, List.take_length]
        · simp [hcur]
        · simp only [List.length_append, List.length_singleton]; omega
      · exact absurd e (by simp)

theorem regular_clear {sb : STRBUF} (h : sb.Regular) : (strbuf_clear sb).Regular := by
  unfold strbuf_clear
  rcases h with ⟨h1, h2, h3⟩ | ⟨t, ht, hcur, hlt, hmul, hmax⟩
  · simp only [h1, ne_eq, not_true_eq_false, if_false]
    exact Or.inl ⟨h1, h2, h3⟩
  · have h0 : sb.len ≠ 0 := by omega
    simp only [h0, ne_eq, not_false_eq_true, if_true]
    exact Or.inr ⟨[], by simp [ht], rfl, by simp only [List.length_nil]; omega, hmul, hmax⟩

theorem regular_dispose {sb : STRBUF} (_h : sb.Regular) : (strbuf_dispose sb).Regular := by
  unfold strbuf_dispose
  split
  · exact Or.inl ⟨rfl, rfl, rfl⟩
  · exact _h

theorem regular_unquote {sb sb1 : STRBUF} (h : sb.Regular)
    (e : strbuf_unquote sb = some sb1) : sb1.Regular := by
  unfold strbuf_unquote at e
  split at e
  · rcases h with ⟨h1, h2, h3⟩ | ⟨t, ht, hcur, hlt, hmul, hmax⟩
    · rw [h3] at e; exact absurd e (by simp)
    · rw [ht] at e
      simp only at e
      split at e
      · exact absurd e (by simp)
      · split at e
        · split at e
          · exact absurd e (by simp)
          · simp only [Option.some.injEq] at e
            rw [← e]
            refine Or.inr ⟨_, rfl, ?_, ?_, hmul, hmax⟩
            · simp only [List.length_take, List.length_drop]; omega
            · simp only [List.length_take, List.length_drop]; omega
        · simp only [Option.some.injEq] at e
          rw [← e]
          exact Or.inr ⟨t, ht, hcur, hlt, hmul, hmax⟩
  · simp only [Option.some.injEq] at e
    rw [← e]; exact h

theorem regular_trim {sb sb1 : STRBUF} (h : sb.Regular)
    (e : strbuf_trim sb = some sb1) : sb1.Regular := by
  unfold strbuf_trim at e
  split at e
  · rcases h with ⟨h1, h2, h3⟩ | ⟨t, ht, hcur, hlt, hmul, hmax⟩
    · rw [h3] at e; exact absurd e (by simp)
    · rw [ht] at e
      simp only at e
      split at e
      · exact absurd e (by simp)
      · split at e
        · exact absurd e (by simp)
        · simp only [Option.some.injEq] at e
          rw [← e]
          have h1 : ((t.reverse.dropWhile isspace).reverse).length ≤ t.length := by
            rw [List.length_reverse]
            have := (List.dropWhile_sublist (p := isspace) (l := t.reverse)).length_le
            simpa using this
          refine Or.inr ⟨_, rfl, ?_, ?_, hmul, hmax⟩
          · simp only [List.length_drop]
          · simp only [List.length_drop]; omega
  · simp only [Option.some.injEq] at e
    rw [← e]; exact h

theorem reachable_regular {sb : STRBUF} (h : sb.Reachable) : sb.Regular := by
  induction h with
  | init => exact regular_init
  | dispose _ ih => exact regular_dispose ih
  | clear _ ih => exact regular_clear ih
  | unquote _ e ih => exact regular_unquote ih e
  | trim _ e ih => exact regular_trim ih e
  | add s _ e ih => exact regular_add s ih e
  | nadd s len _ _ e ih => exact regular_nadd s len ih e
  | addc c _ _ e ih => exact regular_addc c ih e

/-! ## strbuf.c: trimming and unquoting -/

theorem drop_takeWhile (p : Char → Bool) (l : CStr) :
    l.drop (l.takeWhile p).length = l.dropWhile p := by
  induction l with
  | nil => rfl
  | cons a l ih =>
    by_cases h : p a = true
    · simp [List.takeWhile_cons, List.dropWhile_cons, h, ih]
    · simp [List.takeWhile_cons, List.dropWhile_cons, h]

theorem dropWhile_of_head (p : Char → Bool) (l : CStr)
    (h : ∀ c, l.head? = some c → p c = false) : l.dropWhile p = l := by
  cases l with
  | nil => rfl
  | cons a l => simp [List.dropWhile_cons, h a rfl]

theorem rtrim_cons (p : Char → Bool) (a : Char) (l : CStr) :
    ((a :: l).reverse.dropWhile p).reverse =
      if (l.reverse.dropWhile p) = [] ∧ p a = true then []
      else a :: (l.reverse.dropWhile p).reverse := by
  rw [List.reverse_cons, List.dropWhile_append]
  by_cases h1 : l.reverse.dropWhile p = []
  · by_cases h2 : p a = true
    · simp [h1, h2, List.dropWhile_cons]
    · simp [h1, h2, List.dropWhile_cons]
  · have : (l.reverse.dropWhile p).isEmpty = false := by
      cases h : l.reverse.dropWhile p with
      | nil => exact absurd h h1
      | cons _ _ => rfl
    simp [h1, this]

theorem trim_comm (p : Char → Bool) (t : CStr) :
    ((t.reverse.dropWhile p).reverse).dropWhile p =
      ((t.dropWhile p).reverse.dropWhile p).reverse := by
  induction t with
  | nil => rfl
  | cons a l ih =>
    rw [rtrim_cons]
    by_cases h2 : p a = true
    · by_cases h1 : l.reverse.dropWhile p = []
      · have hall : ∀ x ∈ l, p x = true := by
          have := List.dropWhile_eq_nil_iff.1 h1
          intro x hx
          exact this x (List.mem_reverse.2 hx)
        have hl : l.dropWhile p = [] := List.dropWhile_eq_nil_iff.2 hall
        simp [h1, h2, List.dropWhile_cons, hl]
      · simp only [h1, h2, false_and, if_false, List.dropWhile_cons, if_true]
        exact ih
    · have hn : ¬ (l.reverse.dropWhile p = [] ∧ p a = true) := fun h => h2 h.2
      rw [if_neg hn, List.dropWhile_cons, if_neg h2, List.dropWhile_cons, if_neg h2, rtrim_cons,
        if_neg hn]

theorem trim_both_spec (t : CStr) :
    ∃ pre suf, t = pre ++ trim_both t ++ suf ∧
      (∀ c ∈ pre, isspace c = true) ∧ (∀ c ∈ suf, isspace c = true) ∧
      (∀ c, (trim_both t).head? = some c → isspace c = false) ∧
      (∀ c, (trim_both t).getLast? = some c → isspace c = false) := by
  refine ⟨t.takeWhile isspace, ((t.dropWhile isspace).reverse.takeWhile isspace).reverse,
    ?_, ?_, ?_, ?_, ?_⟩
  · have e1 : trim_both t ++ ((t.dropWhile isspace).reverse.takeWhile isspace).reverse =
        t.dropWhile isspace := by
      unfold trim_both
      rw [← List.reverse_append, List.takeWhile_append_dropWhile, List.reverse_reverse]
    rw [List.append_assoc, e1, List.takeWhile_append_dropWhile]
  · intro c hc
    exact (List.mem_takeWhile_imp hc)
  · intro c hc
    exact (List.mem_takeWhile_imp (List.mem_reverse.1 hc))
  · intro c hc
    have hu := List.head?_dropWhile_not isspace t
    have e1 : trim_both t ++ ((t.dropWhile isspace).reverse.takeWhile isspace).reverse =
        t.dropWhile isspace := by
      unfold trim_both
      rw [← List.reverse_append, List.takeWhile_append_dropWhile, List.reverse_reverse]
    cases hr : trim_both t with
    | nil => rw [hr] at hc; simp at hc
    | cons a r =>
      rw [hr] at hc e1
      simp only [List.head?_cons, Option.some.injEq] at hc
      rw [← e1] at hu
      simp only [List.cons_append, List.head?_cons] at hu
      rw [← hc]; exact hu
  · intro c hc
    unfold trim_both at hc
    rw [List.getLast?_reverse] at hc
    have hu := List.head?_dropWhile_not isspace (t.dropWhile isspace).reverse
    rw [hc] at hu
    exact hu

theorem trim_both_idem (t : CStr) : trim_both (trim_both t) = trim_both t := by
  obtain ⟨_, _, _, _, _, h1, h2⟩ := trim_both_spec t
  generalize trim_both t = r at h1 h2
  unfold trim_both
  rw [dropWhile_of_head isspace r h1, dropWhile_of_head isspace r.reverse
    (by rw [List.head?_reverse]; exact h2), List.reverse_reverse]

theorem strbuf_trim_stored (sb : STRBUF) (t : CStr) (ht : sb.s = some t)
    (hcur : sb.curlen = t.length) (hlen : sb.len ≠ 0) (hb : t.length < 2 ^ 31) :
    strbuf_trim sb =
      some { sb with curlen := (trim_both t).length, s := some (trim_both t) } := by
  by_cases h0 : t = []
  · subst h0
    have : sb.curlen = 0 := hcur
    unfold strbuf_trim
    rw [if_neg (by simp [this])]
    cases sb
    simp only at ht hcur
    simp [ht, hcur, trim_both]
  · have hne : sb.curlen ≠ 0 := by
      rw [hcur]; exact fun h => h0 (List.length_eq_zero.1 h)
    have hle : ((t.reverse.dropWhile isspace).reverse).length ≤ t.length := by
      rw [List.length_reverse]
      have := (List.dropWhile_sublist (p := isspace) (l := t.reverse)).length_le
      simpa using this
    have hint : ¬ ((((t.reverse.dropWhile isspace).reverse).takeWhile isspace).length ≠ 0 ∧
        (((t.reverse.dropWhile isspace).reverse).length : Int) > INT_MAX) := by
      unfold INT_MAX; omega
    have hres : ((t.reverse.dropWhile isspace).reverse).drop
        (((t.reverse.dropWhile isspace).reverse).takeWhile isspace).length = trim_both t := by
      rw [drop_takeWhile, trim_comm]; rfl
    unfold strbuf_trim
    rw [if_pos ⟨hlen, hne⟩]
    simp only [ht]
    rw [if_neg (not_not.2 hcur), if_neg hint, hres, ← List.length_drop, hres]

/-- C23: for every reachable buffer whose content `t` has fewer than `2 ^ 31`
bytes, `strbuf_trim` returns, the content becomes `t` without its longest
whitespace prefix and its longest whitespace suffix (`t` is what was removed in
front, the new content, what was removed behind; the new content neither starts
nor ends with whitespace, and is empty when `t` is all whitespace), `curlen`
becomes its length, and a second call changes nothing. -/
theorem strbuf_trim_both_ends (sb : STRBUF) (h : sb.Reachable)
    (hb : sb.content.length < 2 ^ 31) :
    ∃ sb1, strbuf_trim sb = some sb1 ∧ sb1.content = trim_both sb.content ∧
      sb1.curlen = (trim_both sb.content).length ∧ sb1.len = sb.len ∧
      (∃ pre suf, sb.content = pre ++ sb1.content ++ suf ∧
        (∀ c ∈ pre, isspace c = true) ∧ (∀ c ∈ suf, isspace c = true)) ∧
      (∀ c, sb1.content.head? = some c → isspace c = false) ∧
      (∀ c, sb1.content.getLast? = some c → isspace c = false) ∧
      ((∀ c ∈ sb.content, isspace c = true) → sb1.content = []) ∧
      strbuf_trim sb1 = some sb1 := by
  obtain ⟨pre, suf, hs1, hs2, hs3, hs4, hs5⟩ := trim_both_spec sb.content
  have hall : (∀ c ∈ sb.content, isspace c = true) → trim_both sb.content = [] := by
    intro hall
    unfold trim_both
    rw [List.dropWhile_eq_nil_iff.2 hall]
    rfl
  rcases reachable_regular h with ⟨h1, h2, h3⟩ | ⟨t, ht, hcur, hlt, hmul, hmax⟩
  · have hc : sb.content = [] := by simp [STRBUF.content, h3]
    have e : strbuf_trim sb = some sb := by simp [strbuf_trim, h1]
    have ht : trim_both sb.content = [] := by rw [hc]; rfl
    rw [ht] at hs1 hs4 hs5
    refine ⟨sb, e, by rw [ht, hc], by rw [ht, h2]; rfl, rfl, ⟨pre, suf, ?_, hs2, hs3⟩,
      by rw [hc]; exact hs4, by rw [hc]; exact hs5, fun _ => hc, e⟩
    rw [hc] at hs1 ⊢; exact hs1
  · have hc : sb.content = t := by simp [STRBUF.content, ht]
    rw [hc] at hb hs1 hs4 hs5 hall ⊢
    have hlen : sb.len ≠ 0 := by omega
    have hle : (trim_both t).length ≤ t.length := by
      have := congrArg List.length hs1
      simp only [List.length_append] at this
      omega
    have e1 := strbuf_trim_stored sb t ht hcur hlen hb
    have e2 := strbuf_trim_stored
      { sb with curlen := (trim_both t).length, s := some (trim_both t) } (trim_both t) rfl rfl
      hlen (by omega)
    rw [trim_both_idem] at e2
    exact ⟨_, e1, rfl, rfl, rfl, ⟨pre, suf, hs1, hs2, hs3⟩, hs4, hs5, hall, e2⟩

theorem strbuf_trim_both_ends_witness :
    ∃ sb1, strbuf_trim { len := 256, curlen := 6, s := some " a b\t\n".toList } = some sb1 ∧
      sb1.content = trim_both " a b\t\n".toList := by
  have hr : STRBUF.Reachable { len := 256, curlen := 6, s := some " a b\t\n".toList } :=
    STRBUF.Reachable.add " a b\t\n".toList STRBUF.Reachable.init (by decide)
  obtain ⟨sb1, e1, c1, _⟩ := strbuf_trim_both_ends _ hr (by decide)
  exact ⟨sb1, e1, c1⟩

theorem strbuf_unquote_stored (sb : STRBUF) (t : CStr) (ht : sb.s = some t)
    (hcur : sb.curlen = t.length) (hlen : sb.len ≠ 0) (hb : t.length ≤ 2 ^ 31) :
    strbuf_unquote sb =
      some { sb with curlen := (unquote_text t).length, s := some (unquote_text t) } := by
  have hsame : some sb = some { sb with curlen := t.length, s := some t } := by
    cases sb
    simp only at ht hcur
    simp [ht, hcur]
  unfold strbuf_unquote unquote_text
  by_cases h1 : sb.curlen > 1
  · rw [if_pos ⟨hlen, h1⟩]
    simp only [ht]
    rw [if_neg (not_not.2 hcur)]
    have h2 : 2 ≤ t.length := by omega
    by_cases hq : (t.head? = some '\'' ∨ t.head? = some '"') ∧ t.getLast? = t.head?
    · have hint : ¬ (((sb.curlen - 1 : Nat) : Int) > INT_MAX) := by unfold INT_MAX; omega
      rw [if_pos hq, if_neg hint, if_pos ⟨h2, hq⟩]
      have e : (t.drop 1).take (sb.curlen - 2) = (t.drop 1).dropLast := by
        rw [List.dropLast_eq_take, List.length_drop, hcur]
        congr 1
      rw [e]
      have e2 : sb.curlen - 2 = ((t.drop 1).dropLast).length := by
        rw [List.length_dropLast, List.length_drop, hcur]; omega
      rw [e2]
    · have : ¬ (2 ≤ t.length ∧ (t.head? = some '\'' ∨ t.head? = some '"') ∧
          t.getLast? = t.head?) := fun h => hq h.2
      rw [if_neg hq, if_neg this]
      exact hsame
  · have h2 : ¬ (2 ≤ t.length) := by omega
    have : ¬ (2 ≤ t.length ∧ (t.head? = some '\'' ∨ t.head? = some '"') ∧
        t.getLast? = t.head?) := fun h => h2 h.1
    rw [if_neg (fun h => h1 h.2), if_neg this]
    exact hsame

/-- C22: for every reachable buffer whose content `t` has at most `2 ^ 31` bytes,
`strbuf_unquote` returns and the content becomes `t` without its first and last
characters when `t` has at least two characters, the first is `'` or `"` and the
last equals the first, and stays `t` otherwise; `curlen` is the new length.  One
pair is removed per call: `"hi"` in double quotes gives `hi`, a doubly quoted text
keeps its inner pair, a lone quote stays. -/
theorem strbuf_unquote_one_pair (sb : STRBUF) (h : sb.Reachable)
    (hb : sb.content.length ≤ 2 ^ 31) :
    (∃ sb1, strbuf_unquote sb = some sb1 ∧ sb1.content = unquote_text sb.content ∧
      sb1.curlen = (unquote_text sb.content).length ∧ sb1.len = sb.len) ∧
    unquote_text sb.content =
      (if 2 ≤ sb.content.length ∧ (sb.content.head? = some '\'' ∨ sb.content.head? = some '"') ∧
          sb.content.getLast? = sb.content.head?
       then (sb.content.drop 1).dropLast else sb.content) ∧
    unquote_text "\"hi\"".toList = "hi".toList ∧
    unquote_text "\"\"hi\"\"".toList = "\"hi\"".toList ∧
    unquote_text "\"".toList = "\"".toList ∧
    unquote_text "\"hi".toList = "\"hi".toList ∧
    unquote_text "\"hi\x27".toList = "\"hi\x27".toList := by
  refine ⟨?_, rfl, by decide, by decide, by decide, by decide, by decide⟩
  rcases reachable_regular h with ⟨h1, h2, h3⟩ | ⟨t, ht, hcur, hlt, hmul, hmax⟩
  · have hc : sb.content = [] := by simp [STRBUF.content, h3]
    rw [hc]
    exact ⟨sb, by simp [strbuf_unquote, h1], by rw [hc]; rfl, by rw [h2]; rfl, rfl⟩
  · have hc : sb.content = t := by simp [STRBUF.content, ht]
    rw [hc] at hb ⊢
    exact ⟨_, strbuf_unquote_stored sb t ht hcur (by omega) hb, rfl, rfl, rfl⟩

theorem strbuf_unquote_one_pair_witness :
    ∃ sb1, strbuf_unquote { len := 256, curlen := 4, s := some "\"hi\"".toList } = some sb1 ∧
      sb1.content = unquote_text "\"hi\"".toList :=
  have hr : STRBUF.Reachable { len := 256, curlen := 4, s := some "\"hi\"".toList } :=
    STRBUF.Reachable.add "\"hi\"".toList STRBUF.Reachable.init (by decide)
  match (strbuf_unquote_one_pair _ hr (by decide)).1 with
  | ⟨sb1, e1, c1, _⟩ => ⟨sb1, e1, c1⟩

/-! ## strbuf.c: the three appends -/

theorem strbuf_add_regular (sb : STRBUF) (s : CStr) (h : sb.Regular)
    (hb : sb.content.length + s.length + 257 ≤ 2 ^ 31) :
    ∃ sb1, strbuf_add sb s = some sb1 ∧ sb1.s = some (sb.content ++ s) ∧
      sb1.curlen = sb.content.length + s.length ∧ sb1.len % CHUNK = 0 ∧
      sb1.curlen < sb1.len ∧
      sb1.len = (if sb.len = 0 ∨ round_up (sb.curlen + s.length + 1) > sb.len
                 then round_up (sb.curlen + s.length + 1) else sb.len) := by
  have hru := round_up_ge (sb.curlen + s.length + 1)
  rcases h with ⟨h1, h2, h3⟩ | ⟨t, ht, hcur, hlt, hmul, hmax⟩
  · have hc : sb.content = [] := by simp [STRBUF.content, h3]
    rw [hc] at hb ⊢
    simp only [List.length_nil, Nat.zero_add] at hb
    have hm : (sb.curlen + s.length + 1) % SIZE_MOD = sb.curlen + s.length + 1 :=
      Nat.mod_eq_of_lt (by unfold SIZE_MOD; omega)
    have hA : round_up (sb.curlen + s.length + 1) ≤ ALLOC_MAX ∧
        s.length + 1 ≤ round_up (sb.curlen + s.length + 1) := by
      unfold ALLOC_MAX; omega
    unfold strbuf_add
    rw [hm, round_required_small _ (by omega)]
    simp only [h1, if_true, hA, and_self, true_or]
    exact ⟨_, rfl, by simp, by simp, by unfold CHUNK; exact hru.2.2, by dsimp only; omega, rfl⟩
  · have hc : sb.content = t := by simp [STRBUF.content, ht]
    have h0 : sb.len ≠ 0 := by omega
    rw [hc] at hb ⊢
    have hm : (sb.curlen + s.length + 1) % SIZE_MOD = sb.curlen + s.length + 1 :=
      Nat.mod_eq_of_lt (by unfold SIZE_MOD; omega)
    unfold strbuf_add
    rw [hm, round_required_small _ (by omega)]
    simp only [h0, if_false, ht, false_or]
    by_cases hg : round_up (sb.curlen + s.length + 1) > sb.len
    · have hA : round_up (sb.curlen + s.length + 1) ≤ ALLOC_MAX ∧
          t.length + s.length + 1 ≤ round_up (sb.curlen + s.length + 1) := by
        unfold ALLOC_MAX; omega
      simp only [hg, if_true, hA, and_self]
      exact ⟨_, rfl, rfl, by simp, by unfold CHUNK; exact hru.2.2,
        by simp only [List.length_append]; omega, rfl⟩
    · have hA : t.length + s.length + 1 ≤ sb.len := by omega
      simp only [hg, if_false, hA, if_true]
      exact ⟨_, rfl, rfl, by simp, hmul, by simp only [List.length_append]; omega, rfl⟩

/-- C24: for every reachable buffer, the fresh one included, with content `t`, and
every string `s` with `|t| + |s| + 257` at most `2 ^ 31`, `strbuf_add` returns, the
content is `t ++ s`, `curlen` is `|t| + |s|`, and the capacity `len` is a multiple
of 256 greater than `curlen`: the old one, or `curlen + 1` rounded up when the
buffer was fresh or too small. -/
theorem strbuf_add_appends (sb : STRBUF) (s : CStr) (h : sb.Reachable)
    (hb : sb.content.length + s.length + 257 ≤ 2 ^ 31) :
    ∃ sb1, strbuf_add sb s = some sb1 ∧ sb1.s = some (sb.content ++ s) ∧
      sb1.curlen = sb.content.length + s.length ∧ sb1.len % 256 = 0 ∧ sb1.curlen < sb1.len ∧
      sb1.len = (if sb.len = 0 ∨ round_up (sb.curlen + s.length + 1) > sb.len
                 then round_up (sb.curlen + s.length + 1) else sb.len) ∧
      sb1.Reachable := by
  obtain ⟨sb1, e, a1, a2, a3, a4, a5⟩ := strbuf_add_regular sb s (reachable_regular h) hb
  exact ⟨sb1, e, a1, a2, a3, a4, a5, STRBUF.Reachable.add s h e⟩

theorem strbuf_add_appends_witness :
    ∃ sb1, strbuf_add strbuf_init "abc".toList = some sb1 ∧
      sb1.s = some ([] ++ "abc".toList) ∧ sb1.curlen = 3 ∧ sb1.len % 256 = 0 ∧
      sb1.curlen < sb1.len :=
  match strbuf_add_appends strbuf_init "abc".toList STRBUF.Reachable.init (by decide) with
  | ⟨sb1, e, a1, a2, a3, a4, _⟩ => ⟨sb1, e, a1, a2, a3, a4⟩

/-- C26 fails on the code: on a fresh buffer `len` is 0, `len - 1` is `SIZE_MAX` in
`size_t` arithmetic, the test `curlen >= len - 1` is false, no storage is obtained
and the store `sb->s[sb->curlen] = c` goes through the `NULL` pointer; the same
holds after `strbuf_dispose`.  On a reachable buffer that has storage the claim
holds: the content becomes `t ++ [c]`, `curlen` grows by one, and a chunk of 256
bytes is added when `curlen + 1` reaches the capacity. -/
theorem strbuf_addc_fresh_buffer (sb : STRBUF) (c : Char) (h : sb.Reachable)
    (hb : sb.content.length + 257 ≤ 2 ^ 31) :
    strbuf_addc strbuf_init c = none ∧
    (sb.len = 0 → strbuf_addc sb c = none) ∧
    strbuf_addc (strbuf_dispose sb) c = none ∧
    (sb.len ≠ 0 → ∃ sb1, strbuf_addc sb c = some sb1 ∧ sb1.s = some (sb.content ++ [c]) ∧
      sb1.curlen = sb.curlen + 1 ∧
      sb1.len = (if sb.curlen + 1 ≥ sb.len then sb.len + CHUNK else sb.len)) := by
  have fresh : ∀ b : STRBUF, b.Regular → b.len = 0 → strbuf_addc b c = none := by
    intro b hreg h0
    rcases hreg with ⟨h1, h2, h3⟩ | ⟨t, ht, hcur, hlt, hmul, hmax⟩
    · have : ¬ (b.curlen ≥ SIZE_MOD - 1) := by rw [h2]; unfold SIZE_MOD; omega
      unfold strbuf_addc
      simp only [h1, if_true, this, if_false, h3]
    · omega
  refine ⟨fresh _ regular_init rfl, fresh sb (reachable_regular h), ?_, fun h0 => ?_⟩
  · apply fresh _ (regular_dispose (reachable_regular h))
    unfold strbuf_dispose
    split
    · rfl
    · rename_i hz; simpa using hz
  · rcases reachable_regular h with ⟨h1, h2, h3⟩ | ⟨t, ht, hcur, hlt, hmul, hmax⟩
    · exact absurd h1 h0
    · have hc : sb.content = t := by simp [STRBUF.content, ht]
      rw [hc] at hb ⊢
      have hw : (sb.len + CHUNK) % SIZE_MOD = sb.len + CHUNK := by
        unfold ALLOC_MAX at hmax; unfold SIZE_MOD CHUNK; omega
      unfold strbuf_addc
      rw [hw, if_neg h0, if_neg h0]
      by_cases hg : sb.curlen ≥ sb.len - 1
      · have hA : sb.len + CHUNK ≤ ALLOC_MAX := by
          unfold ALLOC_MAX CHUNK at *
          have : sb.len ≤ t.length + 1 := by omega
          omega
        have hB : sb.curlen + 1 < sb.len + CHUNK := by unfold CHUNK; omega
        have hC : sb.curlen + 1 ≥ sb.len := by omega
        rw [if_pos hg, if_pos hA]
        simp only [ht]
        rw [if_pos hB, if_pos (by omega), if_pos hC, hcur, List.take_length]
        exact ⟨_, rfl, rfl, rfl, rfl⟩
      · have hB : sb.curlen + 1 < sb.len := by omega
        have hC : ¬ (sb.curlen + 1 ≥ sb.len) := by omega
        rw [if_neg hg]
        simp only [ht]
        rw [if_pos hB, if_pos (by omega), if_neg hC, hcur, List.take_length]
        exact ⟨_, rfl, rfl, rfl, rfl⟩

theorem strbuf_addc_fresh_buffer_witness :
    strbuf_addc strbuf_init 'x' = none ∧
    ∃ sb1, strbuf_addc { len := 256, curlen := 3, s := some "abc".toList } 'x' = some sb1 ∧
      sb1.s = some ("abc".toList ++ ['x']) ∧ sb1.curlen = 4 ∧ sb1.len = 256 :=
  have hr : STRBUF.Reachable { len := 256, curlen := 3, s := some "abc".toList } :=
    STRBUF.Reachable.add "abc".toList STRBUF.Reachable.init (by decide)
  ⟨(strbuf_addc_fresh_buffer strbuf_init 'x' STRBUF.Reachable.init (by decide)).1,
   (strbuf_addc_fresh_buffer _ 'x' hr (by decide)).2.2.2 (by decide)⟩

theorem strbuf_nadd_content {sb sb1 : STRBUF} (s : CStr) (n : Nat) (h : sb.Regular)
    (e : strbuf_nadd sb s n = some sb1) :
    sb1.s = some (sb.content ++ s.take n) ∧ sb1.curlen = (sb.content ++ s.take n).length := by
  unfold strbuf_nadd at e
  split at e
  · exact absurd e (by simp)
  · split at e
    · rename_i h0
      rcases h with ⟨h1, h2, h3⟩ | ⟨t, ht, hcur, hlt, hmul, hmax⟩
      · have hc : sb.content = [] := by simp [STRBUF.content, h3]
        split at e
        · simp only [Option.some.injEq] at e
          rw [← e, hc]
          exact ⟨rfl, rfl⟩
        · exact absurd e (by simp)
      · omega
    · rename_i h0
      rcases h with ⟨h1, h2, h3⟩ | ⟨t, ht, hcur, hlt, hmul, hmax⟩
      · exact absurd h1 h0
      · have hc : sb.content = t := by simp [STRBUF.content, ht]
        have key : (t ++ s.take (sb.curlen + n)).take (sb.curlen + n) = t ++ s.take n := by
          rw [hcur, List.take_append, List.take_take]
          congr 1
          congr 1
          omega
        rw [ht] at e
        rename_i required _
        by_cases hg : required > sb.len
        · simp only [hg, if_true, true_implies] at e
          split at e
          · simp only [Option.some.injEq] at e
            rw [← e, hc, key]
            exact ⟨rfl, rfl⟩
          · exact absurd e (by simp)
        · simp only [hg, if_false, false_implies, true_and] at e
          split at e
          · simp only [Option.some.injEq] at e
            rw [← e, hc, key]
            exact ⟨rfl, rfl⟩
          · exact absurd e (by simp)

theorem strbuf_nadd_fits (sb : STRBUF) (s : CStr) (n : Nat) (h : sb.Regular)
    (hb : sb.content.length + n + 257 ≤ 2 ^ 31) (hfit : sb.len = 0 ∨ s.length ≤ n) :
    ∃ sb1, strbuf_nadd sb s n = some sb1 := by
  have hru := round_up_ge (sb.curlen + n + 1)
  rcases h with ⟨h1, h2, h3⟩ | ⟨t, ht, hcur, hlt, hmul, hmax⟩
  · have hc : sb.content = [] := by simp [STRBUF.content, h3]
    rw [hc] at hb
    simp only [List.length_nil, Nat.zero_add] at hb
    have hm : (sb.curlen + n + 1) % SIZE_MOD = sb.curlen + n + 1 :=
      Nat.mod_eq_of_lt (by unfold SIZE_MOD; omega)
    have hA : round_up (sb.curlen + n + 1) ≤ ALLOC_MAX ∧
        n + 1 ≤ round_up (sb.curlen + n + 1) := by
      unfold ALLOC_MAX; omega
    unfold strbuf_nadd
    rw [hm, round_required_small _ (by omega)]
    simp only [h1, if_true, hA, and_self]
    exact ⟨_, rfl⟩
  · have hc : sb.content = t := by simp [STRBUF.content, ht]
    have h0 : sb.len ≠ 0 := by omega
    have hsn : s.length ≤ n := by
      rcases hfit with h | h
      · exact absurd h h0
      · exact h
    rw [hc] at hb
    have hm : (sb.curlen + n + 1) % SIZE_MOD = sb.curlen + n + 1 :=
      Nat.mod_eq_of_lt (by unfold SIZE_MOD; omega)
    have hl : (s.take (sb.curlen + n)).length ≤ s.length := by
      rw [List.length_take]; exact Nat.min_le_right _ _
    unfold strbuf_nadd
    rw [hm, round_required_small _ (by omega)]
    simp only [h0, if_false, ht]
    by_cases hg : round_up (sb.curlen + n + 1) > sb.len
    · have hA : round_up (sb.curlen + n + 1) ≤ ALLOC_MAX := by unfold ALLOC_MAX; omega
      have hB : t.length + (s.take (sb.curlen + n)).length + 1 ≤ round_up (sb.curlen + n + 1) ∧
          sb.curlen + n + 1 ≤ round_up (sb.curlen + n + 1) := by omega
      simp only [hg, if_true, true_implies, hA, hB, and_self]
      exact ⟨_, rfl⟩
    · have hB : t.length + (s.take (sb.curlen + n)).length + 1 ≤ sb.len ∧
          sb.curlen + n + 1 ≤ sb.len := by omega
      simp only [hg, if_false, false_implies, true_and, hB, and_self, if_true]
      exact ⟨_, rfl⟩

/-- C25 fails on the code: `strncat` is called with the bound `sb->curlen + len`
instead of `len`, so on a buffer that already holds text it appends up to
`curlen + len` bytes of `s` before line 144 cuts the string back.  With 200 bytes
stored in a capacity of 256, `s` of 250 bytes and `len = 50`, the capacity ensured
stays 256 while `strncat` writes the bytes 200 to 450.  When every write stays
inside the storage (always so on a fresh buffer, or when `s` has at most `len`
bytes) the content does become `t` followed by the first `min(len, |s|)` bytes of
`s`. -/
theorem strbuf_nadd_writes_past_storage (sb : STRBUF) (s : CStr) (n : Nat)
    (h : sb.Reachable) (hb : sb.content.length + n + 257 ≤ 2 ^ 31) :
    (∀ sb1, strbuf_nadd sb s n = some sb1 →
      sb1.s = some (sb.content ++ s.take (min n s.length)) ∧
      sb1.curlen = sb.content.length + min n s.length) ∧
    (sb.len = 0 ∨ s.length ≤ n → ∃ sb1, strbuf_nadd sb s n = some sb1) ∧
    strbuf_add strbuf_init (List.replicate 200 'a') =
      some { len := 256, curlen := 200, s := some (List.replicate 200 'a') } ∧
    round_required ((200 + 50 + 1) % SIZE_MOD) = some 256 ∧
    strbuf_nadd { len := 256, curlen := 200, s := some (List.replicate 200 'a') }
      (List.replicate 250 'b') 50 = none ∧
    strbuf_nadd { len := 256, curlen := 200, s := some (List.replicate 200 'a') }
      (List.replicate 55 'b') 50 =
      some { len := 256, curlen := 250,
             s := some (List.replicate 200 'a' ++ List.replicate 50 'b') } := by
  refine ⟨fun sb1 e => ?_, strbuf_nadd_fits sb s n (reachable_regular h) hb,
    by decide!, by decide!, by decide!, by decide!⟩
  obtain ⟨a1, a2⟩ := strbuf_nadd_content s n (reachable_regular h) e
  have e2 : s.take (min n s.length) = s.take n := by
    rw [List.take_eq_take]
    omega
  rw [e2, a1, a2, List.length_append, List.length_take]
  exact ⟨rfl, rfl⟩

theorem strbuf_nadd_writes_past_storage_witness :
    ∃ sb1, strbuf_nadd strbuf_init "abcdef".toList 3 = some sb1 :=
  (strbuf_nadd_writes_past_storage strbuf_init "abcdef".toList 3 STRBUF.Reachable.init
    (by decide)).2.1 (Or.inl rfl)

/-! ## The escaping is compositional and injective -/

theorem decode_entity_escape (c : Char) (r : CStr) :
    decode_entity (html_entity c ++ r) = some (c, (html_entity c).length) := by
  unfold html_entity
  split_ifs with h1 h2 h3 h4 h5
  · subst h1; simp [decode_entity]
  · subst h2; simp [decode_entity]
  · subst h3; simp [decode_entity]
  · subst h4; simp [decode_entity]
  · subst h5; simp [decode_entity]
  · have : ¬ ('&' = c) := fun e => h5 e.symm
    simp [decode_entity, this]

theorem unescape_loop_escape (s : CStr) (fuel : Nat) (h : s.length ≤ fuel) :
    Unescape_loop fuel (Escape s) = s := by
  induction s generalizing fuel with
  | nil =>
    cases fuel with
    | zero => rfl
    | succ f => simp [Unescape_loop, Escape, decode_entity]
  | cons c p ih =>
    cases fuel with
    | zero => simp at h
    | succ f =>
      simp only [List.length_cons, Nat.add_le_add_iff_right] at h
      simp only [Escape, Unescape_loop, decode_entity_escape, List.drop_left]
      rw [ih f h]

theorem escape_length_ge (s : CStr) : s.length ≤ (Escape s).length := by
  induction s with
  | nil => simp [Escape]
  | cons c p ih =>
    have : 1 ≤ (html_entity c).length := by
      unfold html_entity
      split_ifs <;> simp
    simp only [Escape, List.length_append, List.length_cons]
    omega

theorem unescape_escape (s : CStr) : Unescape (Escape s) = s :=
  unescape_loop_escape s _ (escape_length_ge s)

theorem html_safe_stradd_loop_append (sp : STRBUF) (a b : CStr) :
    html_safe_stradd_loop sp (a ++ b) =
      (html_safe_stradd_loop sp a).bind (fun sp1 => html_safe_stradd_loop sp1 b) := by
  induction a generalizing sp with
  | nil => rfl
  | cons c p ih =>
    simp only [List.cons_append, html_safe_stradd_loop]
    cases (if c = '<' then strbuf_add sp "&lt;".toList
      else if c = '>' then strbuf_add sp "&gt;".toList
      else if c = '"' then strbuf_add sp "&quot;".toList
      else if c = '#' then strbuf_add sp "&#35;".toList
      else if c = '&' then strbuf_add sp "&amp;".toList
      else strbuf_addc sp c) with
    | none => rfl
    | some sp1 => exact ih sp1

/-- C30: the escaping of `html_safe_stradd` distributes over concatenation, the
decoder `Unescape` recovers `s` from `Escape s`, and so two strings with the same
escaping are equal; on an allocated buffer with room below the `int` range, one
call on `a ++ b` leaves what a call on `a` followed by a call on `b` leaves. -/
theorem escape_injective_compositional (a b s1 s2 : CStr) (sp : STRBUF) (hsp : sp.Ok)
    (h0 : sp.len ≠ 0)
    (hb : sp.content.length + (Escape (a ++ b)).length + 257 ≤ 2 ^ 31) :
    Escape (a ++ b) = Escape a ++ Escape b ∧
    Unescape (Escape s1) = s1 ∧
    (Escape s1 = Escape s2 → s1 = s2) ∧
    (∃ sp1 sp2, html_safe_stradd sp (some a) = some sp1 ∧
      html_safe_stradd sp1 (some b) = some sp2 ∧
      html_safe_stradd sp (some (a ++ b)) = some sp2 ∧
      sp2.content = sp.content ++ Escape a ++ Escape b) := by
  refine ⟨escape_append a b, unescape_escape s1, fun h => ?_, ?_⟩
  · rw [← unescape_escape s1, ← unescape_escape s2, h]
  · rw [escape_append, List.length_append] at hb
    obtain ⟨sp1, e1, ok1, n1, c1⟩ := html_safe_stradd_ok (some a) hsp h0
      (by show sp.content.length + (Escape a).length + 257 ≤ 2 ^ 31; omega)
    obtain ⟨sp2, e2, ok2, n2, c2⟩ := html_safe_stradd_ok (some b) ok1 n1
      (by show sp1.content.length + (Escape b).length + 257 ≤ 2 ^ 31
          rw [c1]
          show (sp.content ++ Escape a).length + _ + 257 ≤ 2 ^ 31
          rw [List.length_append]; omega)
    refine ⟨sp1, sp2, e1, e2, ?_, by rw [c2, c1]; rfl⟩
    have e1' : html_safe_stradd_loop sp a = some sp1 := e1
    show html_safe_stradd_loop sp (a ++ b) = some sp2
    rw [html_safe_stradd_loop_append, e1']
    exact e2

theorem escape_injective_compositional_witness :
    Escape ("a<".toList ++ "&b".toList) = Escape "a<".toList ++ Escape "&b".toList ∧
    Unescape (Escape "<a>&\"#&lt;".toList) = "<a>&\"#&lt;".toList :=
  have hok : STRBUF.Ok { len := 256, curlen := 1, s := some ['x'] } :=
    ⟨by norm_num, Or.inr ⟨['x'], rfl, rfl, by decide⟩⟩
  ⟨(escape_injective_compositional "a<".toList "&b".toList "<a>&\"#&lt;".toList []
      { len := 256, curlen := 1, s := some ['x'] } hok (by decide) (by decide)).1,
   (escape_injective_compositional "a<".toList "&b".toList "<a>&\"#&lt;".toList []
      { len := 256, curlen := 1, s := some ['x'] } hok (by decide) (by decide)).2.1⟩

/-! ## The scan of the code markers -/

/-- C21 fails on the code: after a closer the scan resumes 7 bytes further
(line 637), one more than the 6 bytes of `</pre>`, so an opener that follows a
closer directly is not seen.  On the line `</pre><pre>` the last code marker is an
opener and the flag is left at 0, whatever it was; with one byte between the two
markers it is 1.  A closer at the very end of the text (no newline after it)
makes the scan resume past the terminator.  On lines without a closer the flag
is 1 when the line has an opener and unchanged otherwise. -/
theorem closer_skips_adjacent_opener (ic : Bool) (p : CStr)
    (h : strcasestr p END_CODE = none) :
    scan_code ic p = some (if (strcasestr p START_CODE).isSome then true else ic) ∧
    scan_code false "</pre><pre>\n".toList = some false ∧
    scan_code true "</pre><pre>\n".toList = some false ∧
    scan_code false "</pre> <pre>\n".toList = some true ∧
    scan_code false "a</PRE>b\n".toList = some false ∧
    scan_code true "a<Pre>b\n".toList = some true ∧
    scan_code true "<pre>x</pre>\n".toList = some false ∧
    scan_code false "x</pre>".toList = none := by
  refine ⟨?_, by decide!, by decide!, by decide!, by decide!, by decide!, by decide!,
    by decide!⟩
  cases hl : p.length + 1 with
  | zero => omega
  | succ f => simp [scan_code, hl, scan_end_code, h]

theorem closer_skips_adjacent_opener_witness :
    scan_code true "plain text\n".toList = some true ∧
    scan_code false "see <pre>\n".toList = some true :=
  ⟨(closer_skips_adjacent_opener true "plain text\n".toList (by decide!)).1,
   (closer_skips_adjacent_opener false "see <pre>\n".toList (by decide!)).1⟩

/-! ## The first line of a document without question numbers -/

theorem detect_qformat_none (q : NUM_FMT_T) (p : CStr)
    (hno : ¬ ∃ c d rest, p = c :: d :: rest ∧ is_first_label c = true ∧
      (d = '.' ∨ d = ')' ∨ d = '-')) :
    detect_qformat q p = ({ q with style := FMT_NONE }, p) := by
  unfold detect_qformat
  split
  · rename_i c d rest
    by_cases hc : is_first_label c = true
    · by_cases hd : d = '.' ∨ d = ')' ∨ d = '-'
      · exact absurd ⟨c, d, rest, rfl, hc, hd⟩ hno
      · simp [hc, hd]
    · simp [hc]
  · rfl

/-- C27, as stated, fails: a first line that starts with `<block>` bears no
question label, the format is locked to `FMT_NONE` and the state becomes
`STATE_QUESTION`, but the question text is the line without the marker, which
opens a block region. -/
theorem block_marker_not_kept :
    (process_lines ['d'] (PF.start (GLOBALS.start false false) 0)
        (fgets_lines LINE_LEN "<block>What is it?\n".toList [])).map
      (fun r => match r with
        | STEP.next st => (st.state, st.g.G_qformat.style, st.in_block, st.question.s)
        | STEP.returned g => (STATE_NONE, g.G_qformat.style, false, none))
      = some (STATE_QUESTION, FMT_NONE, true, some "What is it?\n".toList) ∧
    skip_spaces "<block>What is it?\n".toList = "<block>What is it?\n".toList := by
  refine ⟨by decide!, by decide!⟩

/-- C27, amended: in `STATE_NONE` with the question format unknown and no region
open, a non-blank line that, once its leading whitespace is skipped, does not
start with one of `A a 1 i I` followed by `.`, `)` or `-`, locks the style to
`FMT_NONE` (the separator stays), moves to `STATE_QUESTION`, adds one to the
counter and appends to the question text the line without its leading
whitespace, or, when that starts with `<block>`, what follows the marker, a
block region being opened.  A label followed by whitespace is not accepted. -/
theorem unnumbered_first_line (ident : CStr) (st : PF) (line : CStr) (ic : Bool)
    (hstate : st.state = STATE_NONE) (hfmt : st.g.G_qformat.style = FMT_UNKNOWN)
    (hcode : st.in_code = false) (hblk : st.in_block = false)
    (hnb : (skip_spaces line).length ≠ 0)
    (hno : ¬ ∃ c d rest, skip_spaces line = c :: d :: rest ∧ is_first_label c = true ∧
      (d = '.' ∨ d = ')' ∨ d = '-'))
    (hic : scan_code false (skip_spaces line) = some ic)
    (hq : st.question.Ok)
    (hsz : st.question.content.length + line.length + 257 ≤ 2 ^ 31)
    (hqn : st.qnum + 1 ≤ INT_MAX) :
    process_line ident st line =
      some (STEP.next { st with
        g := { st.g with G_qformat := { st.g.G_qformat with style := FMT_NONE } },
        state := STATE_QUESTION, in_code := ic, after_empty_line := false,
        in_block := strncasecmp_eq (skip_spaces line) "<block>".toList 7,
        qnum := st.qnum + 1,
        question := st.question.app
          (if strncasecmp_eq (skip_spaces line) "<block>".toList 7
           then (skip_spaces line).drop 7 else skip_spaces line),
        answer_known := false, correct := false, maybe_correct := false }) := by
  have hlen : (if strncasecmp_eq (skip_spaces line) "<block>".toList 7 = true
      then (skip_spaces line).drop 7 else skip_spaces line).length ≤ line.length := by
    have := skip_spaces_length line
    split
    · simp only [List.length_drop]; omega
    · exact this
  have hq2 : ¬ (st.qnum + 1 > INT_MAX) := by omega
  unfold process_line
  simp only [hcode, hblk, Bool.or_self, Bool.false_eq_true, if_false, hnb, ne_eq,
    not_false_eq_true, if_true, hic, Option.some_bind, hstate]
  unfold case_STATE_NONE
  simp only [hfmt, if_true, detect_qformat_none _ _ hno]
  unfold begin_question
  simp only [hq2, if_false, strbuf_add_app _ hq (by omega : st.question.content.length +
    (if strncasecmp_eq (skip_spaces line) "<block>".toList 7 = true
      then (skip_spaces line).drop 7 else skip_spaces line).length + 257 ≤ 2 ^ 31),
    Option.map_some', hblk, Bool.or_false]

theorem unnumbered_first_line_witness :
    process_line ['d'] (PF.start (GLOBALS.start false false) 0) "  A blah\n".toList =
      some (STEP.next { PF.start (GLOBALS.start false false) 0 with
        g := { GLOBALS.start false false with G_qformat := { style := FMT_NONE, sep := '.' } },
        state := STATE_QUESTION, after_empty_line := false, qnum := 1,
        question := strbuf_init.app "A blah\n".toList }) :=
  unnumbered_first_line ['d'] (PF.start (GLOBALS.start false false) 0) "  A blah\n".toList false
    rfl rfl rfl rfl (by decide)
    (by
      rintro ⟨c, d, rest, h, hc, hd⟩
      have h2 : skip_spaces "  A blah\n".toList = 'A' :: ' ' :: "blah\n".toList := by decide
      rw [h2] at h
      simp only [List.cons.injEq] at h
      obtain ⟨_, h3, _⟩ := h
      subst h3
      revert hd
      decide)
    (by decide!) strbuf_init_ok (by decide) (by decide)

/-! ## The separator of the first choice -/

theorem nochoice_step (ident : CStr) (st : PF) (rest : CStr) (c d : Char) (ic : Bool)
    (hsp : skip_spaces (c :: d :: rest) = c :: d :: rest)
    (hns : (c :: d :: rest).head? ≠ some '*')
    (hic : scan_code st.in_code (c :: d :: rest) = some ic)
    (hst : st.state = STATE_QUESTION) (hfc : st.g.G_first_choice = [])
    (hno : is_first_choice (c :: d :: rest) = false)
    (star : Bool)
    (hblk : strcasestr (if star then '*' :: c :: d :: rest else c :: d :: rest)
      "</block>".toList = none)
    (hq : st.question.Ok)
    (hsz : st.question.content.length + (c :: d :: rest).length + 258 ≤ 2 ^ 31) :
    process_line ident st (if star then '*' :: c :: d :: rest else c :: d :: rest) =
      some (STEP.next { st with
        in_code := ic, after_empty_line := false, maybe_correct := false,
        question := st.question.app
          (if star then '*' :: c :: d :: rest else c :: d :: rest) }) := by
  obtain ⟨h1, hlen, h3, h4, h5⟩ :=
    star_line_forms st (c :: d :: rest) ic (by simp) hsp hns hic star
  have hadd := strbuf_add_app (if star then '*' :: c :: d :: rest else c :: d :: rest) hq (by
    cases star
    · simp only [Bool.false_eq_true, if_false]; omega
    · simp only [if_true, List.length_cons] at hsz ⊢; omega)
  have hemp : (if star then '*' :: c :: d :: rest else c :: d :: rest).isEmpty = false := by
    cases star <;> rfl
  unfold process_line
  simp only [h1, ite_self, hlen, ne_eq, not_false_eq_true, if_true, h3, Option.some_bind, hst]
  unfold case_STATE_QUESTION
  simp only [h4, decide_eq_true_eq, hfc, List.length_nil, ne_eq, not_true_eq_false,
    decide_False, Bool.and_false, Bool.false_and, Bool.false_eq_true, if_false, decide_True,
    Bool.or_true, Bool.true_and]
  rw [h5, hno]
  simp only [Bool.false_eq_true, if_false]
  unfold still_question
  simp only [hblk, hemp, Bool.false_eq_true, if_false, hadd, Option.map_some']

/-- C28: in `STATE_QUESTION`, when the detection of the first choice runs
(`G_first_choice` empty), for a line that starts, after an optional `*`, with one
of `A a 1 i I` followed by the character `d`: when `d` is `.`, `)` or `-` the line
is the first choice, for all five characters; when `d` is whitespace it is the
first choice exactly for `1` and `i`.  A line taken as the first choice moves to
`STATE_CHOICE` with the style of the character and the separator `d` as read; a
line not taken (no `</block>` in it) is appended whole to the question text and
the state stays `STATE_QUESTION`. -/
theorem first_choice_separator (ident : CStr) (st : PF) (c d : Char) (rest nc : CStr)
    (ic : Bool) (star : Bool)
    (hc : is_first_label c = true)
    (hst : st.state = STATE_QUESTION) (hfc : st.g.G_first_choice = [])
    (hic : scan_code st.in_code (c :: d :: rest) = some ic)
    (hq : st.question.Ok) (hch : st.choice.Ok)
    (hsz : st.question.content.length + (c :: d :: rest).length + 258 ≤ 2 ^ 31) :
    (d = '.' ∨ d = ')' ∨ d = '-' → is_first_choice (c :: d :: rest) = true) ∧
    (isspace d = true → (is_first_choice (c :: d :: rest) = true ↔ (c = '1' ∨ c = 'i'))) ∧
    (is_first_choice (c :: d :: rest) = true →
      next_label 1 st.next_choice { style := style_of c st.g.G_cformat.style, sep := d }
        = some nc →
      process_line ident st (if star then '*' :: c :: d :: rest else c :: d :: rest) =
        some (STEP.next { st with
          after_empty_line := false, in_code := false, in_block := false,
          choice_num := 1, correct := star, answer_known := star || st.answer_known,
          maybe_correct := false,
          choice := (strbuf_clear st.choice).app (skip_spaces rest),
          g := { st.g with
                 G_cformat := { style := style_of c st.g.G_cformat.style, sep := d } },
          state := STATE_CHOICE, curr_choice := [c, d], next_choice := nc })) ∧
    (is_first_choice (c :: d :: rest) = false →
      strcasestr (if star then '*' :: c :: d :: rest else c :: d :: rest)
        "</block>".toList = none →
      process_line ident st (if star then '*' :: c :: d :: rest else c :: d :: rest) =
        some (STEP.next { st with
          in_code := ic, after_empty_line := false, maybe_correct := false,
          question := st.question.app
            (if star then '*' :: c :: d :: rest else c :: d :: rest) })) := by
  have hcs : isspace c = false ∧ c ≠ '*' := by
    simp only [is_first_label, Bool.or_eq_true, decide_eq_true_eq] at hc
    rcases hc with (((h | h) | h) | h) | h <;> subst h <;> exact ⟨by decide, by decide⟩
  have hsp : skip_spaces (c :: d :: rest) = c :: d :: rest := skip_spaces_cons _ _ hcs.1
  have hns : (c :: d :: rest).head? ≠ some '*' := by simp [hcs.2]
  refine ⟨fun hd => ?_, fun hd => ?_, fun hfirst hnext => ?_, fun hno hblk => ?_⟩
  · simp only [is_first_choice, hc, Bool.true_and, Bool.or_eq_true, decide_eq_true_eq]
    rcases hd with h | h | h
    · exact Or.inl (Or.inl (Or.inl h))
    · exact Or.inl (Or.inl (Or.inr h))
    · exact Or.inl (Or.inr h)
  · have hd1 : d ≠ '.' ∧ d ≠ ')' ∧ d ≠ '-' := by
      refine ⟨?_, ?_, ?_⟩ <;> (intro e; subst e; revert hd; decide)
    simp only [is_first_label, Bool.or_eq_true, decide_eq_true_eq] at hc
    simp only [is_first_choice, is_first_label, hd, hd1.1, hd1.2.1, hd1.2.2, Bool.true_and,
      Bool.or_eq_true, Bool.and_eq_true, decide_eq_true_eq, decide_False, Bool.false_or,
      Bool.or_false, bne_iff_ne, ne_eq, Bool.not_eq_true', decide_eq_false_iff_not]
    rcases hc with (((h | h) | h) | h) | h <;> subst h <;> decide
  · exact first_choice_step ident st nc rest c d ic hsp hns hic hch (by omega) hst hfc
      hfirst hnext star
  · exact nochoice_step ident st rest c d ic hsp hns hic hst hfc hno star hblk hq hsz

theorem first_choice_separator_witness :
    is_first_choice "1 one\n".toList = true ∧
    is_first_choice "A one\n".toList = false ∧
    process_line ['d']
        { PF.start (GLOBALS.start false false) 0 with
            state := STATE_QUESTION, question := strbuf_init.app "Q\n".toList }
        "A one\n".toList =
      some (STEP.next
        { PF.start (GLOBALS.start false false) 0 with
            state := STATE_QUESTION, after_empty_line := false,
            question := (strbuf_init.app "Q\n".toList).app "A one\n".toList }) :=
  ⟨((first_choice_separator ['d']
      { PF.start (GLOBALS.start false false) 0 with
          state := STATE_QUESTION, question := strbuf_init.app "Q\n".toList }
      '1' ' ' "one\n".toList [] false false (by decide) rfl rfl (by decide!)
      (ok_app _ strbuf_init_ok (by decide)) strbuf_init_ok (by decide)).2.1 (by decide)).2
      (Or.inl rfl),
   by decide,
   (first_choice_separator ['d']
      { PF.start (GLOBALS.start false false) 0 with
          state := STATE_QUESTION, question := strbuf_init.app "Q\n".toList }
      'A' ' ' "one\n".toList [] false false (by decide) rfl rfl (by decide!)
      (ok_app _ strbuf_init_ok (by decide)) strbuf_init_ok (by decide)).2.2.2 (by decide)
      (by decide!)⟩

/-! ## The choices of an item, line by line -/

theorem process_lines_append (ident : CStr) (l1 l2 : List CStr) (st st1 : PF)
    (h : process_lines ident st l1 = some (STEP.next st1)) :
    process_lines ident st (l1 ++ l2) = process_lines ident st1 l2 := by
  induction l1 generalizing st with
  | nil =>
    simp only [process_lines, Option.some.injEq, STEP.next.injEq] at h
    rw [h]; rfl
  | cons a l1 ih =>
    simp only [List.cons_append, process_lines] at h ⊢
    cases hp : process_line ident st a with
    | none => rw [hp] at h; simp at h
    | some r =>
      cases r with
      | returned g => rw [hp] at h; simp at h
      | next st2 =>
        rw [hp] at h
        simp only at h ⊢
        exact ih st2 h

theorem first_free_append (recorded free : List CHOICE_T)
    (hrec : ∀ ch ∈ recorded, ch.id.isSome) (hfree : ∀ ch ∈ free, ch.id = none) :
    first_free (recorded ++ free) = recorded.length := by
  induction recorded with
  | nil =>
    cases free with
    | nil => rfl
    | cons f fs => simp [first_free, hfree f (List.mem_cons_self _ _)]
  | cons a r ih =>
    have ha := hrec a (List.mem_cons_self _ _)
    show first_free (a :: (r ++ free)) = _
    simp only [first_free, ha, if_true, List.length_cons,
      ih (fun ch hch => hrec ch (List.mem_cons_of_mem _ hch))]

theorem modify_at (f : CHOICE_T → CHOICE_T) (l1 : List CHOICE_T) (a : CHOICE_T)
    (l2 : List CHOICE_T) : (l1 ++ a :: l2).modify f l1.length = l1 ++ f a :: l2 := by
  induction l1 with
  | nil => rfl
  | cons x l1 ih =>
    rw [List.cons_append, List.length_cons, List.modify_succ_cons, ih]
    rfl

theorem add_choice_next (recorded free : List CHOICE_T) (id text : CStr) (c : Bool)
    (hrec : ∀ ch ∈ recorded, ch.id.isSome) (hfree : ∀ ch ∈ free, ch.id = none)
    (hid : trimstr2 id ≠ []) (hshort : (recorded ++ free).length + 5 ≤ 32767) :
    ∃ free1, add_choice (recorded ++ free) (recorded ++ free).length id (some text) c =
        some (recorded ++ [{ id := some (trimstr2 id), correct := c,
                             text := some (trimstr text) }] ++ free1,
              (recorded ++ [({ id := some (trimstr2 id), correct := c,
                               text := some (trimstr text) } : CHOICE_T)] ++ free1).length) ∧
      (∀ ch ∈ free1, ch.id = none) ∧
      (recorded ++ [({ id := some (trimstr2 id), correct := c,
                       text := some (trimstr text) } : CHOICE_T)] ++ free1).length
        ≤ (recorded ++ free).length + 5 := by
  have hl : (trimstr2 id).length ≠ 0 := fun h => hid (List.length_eq_zero.1 h)
  have hff := first_free_append recorded free hrec hfree
  have hrep : ∀ n, ∀ ch ∈ List.replicate n empty_slot, ch.id = none := by
    intro n ch hch
    rw [List.eq_of_mem_replicate hch]; rfl
  unfold add_choice
  simp only [gt_iff_lt, lt_self_iff_false, if_false, List.take_length, hff, hl, ne_eq,
    not_false_eq_true, if_true]
  cases free with
  | nil =>
    simp only [List.append_nil] at hshort hff ⊢
    cases recorded with
    | nil =>
      refine ⟨List.replicate 4 empty_slot, ?_, hrep 4, by simp⟩
      simp [CHOICE_ALLOC, List.replicate, List.modify]
    | cons a r =>
      have hg : (a :: r).length + CHOICE_ALLOC ≤ 32767 := by unfold CHOICE_ALLOC; omega
      refine ⟨List.replicate 4 empty_slot, ?_, hrep 4, by simp⟩
      simp only [List.isEmpty_cons, Bool.false_eq_true, if_false, if_true, hg,
        Option.map_some', Option.some.injEq, Prod.mk.injEq]
      constructor
      · have e : (a :: r) ++ List.replicate CHOICE_ALLOC empty_slot =
            (a :: r) ++ empty_slot :: List.replicate 4 empty_slot := rfl
        rw [e, modify_at]
        simp [List.append_assoc]
      · simp [CHOICE_ALLOC]
  | cons f fs =>
    have hne : (recorded ++ f :: fs).isEmpty = false := by
      cases recorded <;> rfl
    have hi : ¬ (recorded.length = (recorded ++ f :: fs).length) := by
      simp only [List.length_append, List.length_cons]; omega
    refine ⟨fs, ?_, fun ch hch => hfree ch (List.mem_cons_of_mem _ hch), by simp⟩
    simp only [hne, Bool.false_eq_true, if_false, hi, Option.map_some', Option.some.injEq,
      Prod.mk.injEq]
    constructor
    · rw [modify_at]
      simp [List.append_assoc]
    · simp

theorem skip_spaces_free (l : CStr) (h : '<' ∉ l) : '<' ∉ skip_spaces l := by
  induction l with
  | nil => simpa [skip_spaces] using h
  | cons c r ih =>
    simp only [List.mem_cons, not_or] at h
    unfold skip_spaces
    split
    · exact ih h.2
    · simp only [List.mem_cons, not_or]; exact h

theorem same_choice_step (ident : CStr) (st : PF) (l : CStr)
    (hst : st.state = STATE_CHOICE) (hcode : st.in_code = false) (hblk : st.in_block = false)
    (hl : continues_choice st.next_choice l) (hch : st.choice.Ok)
    (hsz : st.choice.content.length + l.length + 257 ≤ 2 ^ 31) :
    process_line ident st l =
      some (STEP.next { st with after_empty_line := false, maybe_correct := false,
                                choice := st.choice.app (skip_spaces l) }) := by
  obtain ⟨hnb, hfree, hno, hna⟩ := hl
  have hic := scan_code_free false (skip_spaces l) (skip_spaces_free l hfree)
  have hadd := strbuf_add_app (skip_spaces l) hch (by
    have := skip_spaces_length l; omega)
  unfold process_line
  simp only [hcode, hblk, Bool.or_self, Bool.false_eq_true, if_false, hnb, ne_eq,
    not_false_eq_true, if_true, hic, Option.some_bind, hst]
  unfold case_STATE_CHOICE
  unfold unstar at hno
  simp only [decide_eq_true_eq, hno, Bool.false_eq_true, if_false, hna, hadd, Option.map_some']

theorem continuation_run (ident : CStr) (more : List CStr) (st : PF) (txt : CStr)
    (hst : st.state = STATE_CHOICE) (hcode : st.in_code = false) (hblk : st.in_block = false)
    (hael : st.after_empty_line = false) (hmc : st.maybe_correct = false)
    (hch : st.choice.Ok) (hs : st.choice.s = some txt)
    (hl : ∀ l ∈ more, continues_choice st.next_choice l)
    (hsz : txt.length + (more.map List.length).sum + 257 ≤ 2 ^ 31) :
    ∃ chbuf : STRBUF, chbuf.Ok ∧ chbuf.s = some (txt ++ (more.map skip_spaces).join) ∧
      process_lines ident st more = some (STEP.next { st with choice := chbuf }) := by
  induction more generalizing st txt with
  | nil =>
    refine ⟨st.choice, hch, by simpa using hs, ?_⟩
    simp only [process_lines]
  | cons l more ih =>
    have hc : st.choice.content = txt := by simp [STRBUF.content, hs]
    simp only [List.map_cons, List.sum_cons] at hsz
    have h1 := same_choice_step ident st l hst hcode hblk (hl l (List.mem_cons_self _ _)) hch
      (by rw [hc]; omega)
    have hok : (st.choice.app (skip_spaces l)).Ok := ok_app _ hch (by
      have := skip_spaces_length l
      rw [hc]; omega)
    obtain ⟨chbuf, ok, hs1, hrun⟩ := ih
      { st with after_empty_line := false, maybe_correct := false,
                choice := st.choice.app (skip_spaces l) }
      (txt ++ skip_spaces l) hst hcode hblk rfl rfl hok
      (by show some (st.choice.content ++ skip_spaces l) = _; rw [hc])
      (fun x hx => hl x (List.mem_cons_of_mem _ hx))
      (by have := skip_spaces_length l
          simp only [List.length_append]; omega)
    refine ⟨chbuf, ok, by simpa [List.append_assoc] using hs1, ?_⟩
    simp only [process_lines, h1]
    rw [hrun]
    cases st
    simp only at hael hmc ⊢
    simp [hael, hmc]

theorem strncmp_label_line (next first : CStr) :
    strncmp_eq (next ++ first) next next.length = true := by
  simp [strncmp_eq]

theorem choices_run (ident : CStr) (bs : List CHOICE_LINES) :
    ∀ (st : PF) (more : List CStr) (recorded free : List CHOICE_T) (txt : CStr),
    choice_phase st recorded free txt →
    choices_follow st.g.G_cformat st.choice_num st.next_choice more bs →
    txt.length + (more.map List.length).sum + 257 ≤ 2 ^ 31 →
    (∀ b ∈ bs, b.size + 257 ≤ 2 ^ 31) →
    (recorded ++ free).length + 5 * (bs.length + 1) ≤ 32767 →
    st.choice_num + bs.length + 1 ≤ INT_MAX →
    ∃ (st1 : PF) (free1 : List CHOICE_T),
      process_lines ident st (more ++ (bs.map CHOICE_LINES.lines).join) =
        some (STEP.next st1) ∧
      st1.state = STATE_CHOICE ∧ st1.in_code = false ∧ st1.in_block = false ∧
      st1.g = st.g ∧ st1.question = st.question ∧ st1.xml = st.xml ∧ st1.qnum = st.qnum ∧
      st1.answer_known = (st.answer_known || bs.any (fun b => b.star)) ∧
      st1.choice.s.isSome = true ∧
      closing_choices st1 =
        some (recorded ++
            (({ id := some (trimstr2 st.curr_choice), correct := st.correct,
                text := some (trimstr (txt ++ (more.map skip_spaces).join)) } : CHOICE_T)
              :: bs.map CHOICE_LINES.record) ++ free1,
          (recorded ++
            (({ id := some (trimstr2 st.curr_choice), correct := st.correct,
                text := some (trimstr (txt ++ (more.map skip_spaces).join)) } : CHOICE_T)
              :: bs.map CHOICE_LINES.record) ++ free1).length) ∧
      (∀ ch ∈ free1, ch.id = none) ∧
      (recorded ++
            (({ id := some (trimstr2 st.curr_choice), correct := st.correct,
                text := some (trimstr (txt ++ (more.map skip_spaces).join)) } : CHOICE_T)
              :: bs.map CHOICE_LINES.record) ++ free1).length
        ≤ (recorded ++ free).length + 5 * (bs.length + 1) := by
  induction bs with
  | nil =>
    intro st more recorded free txt hph hfol hsz _ hshort _
    obtain ⟨hst, hcode, hblk, hael, hmc, hch, hs, harr, hcnt, hrec, hfree, hid⟩ := hph
    obtain ⟨chbuf, ok, hs1, hrun⟩ := continuation_run ident more st txt hst hcode hblk hael hmc
      hch hs hfol hsz
    obtain ⟨free1, hadd, hfree1, hlen1⟩ := add_choice_next recorded free st.curr_choice
      (txt ++ (more.map skip_spaces).join) st.correct hrec hfree hid (by omega)
    refine ⟨{ st with choice := chbuf }, free1, ?_, hst, hcode, hblk, rfl, rfl, rfl, rfl,
      by simp, by simp [hs1], ?_, hfree1, by simpa using hlen1⟩
    · simpa using hrun
    · unfold closing_choices
      rw [if_pos (by show st.state ≠ STATE_ANSWER; rw [hst]; decide)]
      show add_choice st.choices st.choice_cnt st.curr_choice chbuf.s st.correct = _
      rw [harr, hcnt, hs1, hadd]
      simp
  | cons b bs ih =>
    intro st more recorded free txt hph hfol hsz hbs hshort hnum
    obtain ⟨hst, hcode, hblk, hael, hmc, hch, hs, harr, hcnt, hrec, hfree, hid⟩ := hph
    obtain ⟨hmore, hlab, ⟨⟨h, t, hht, hsp, hns⟩, hlfree, hltrim⟩, hffree, next1, hnext, hrest⟩ :=
      hfol
    simp only [List.length_cons] at hshort hnum
    obtain ⟨chbuf, ok, hs1, hrun⟩ := continuation_run ident more st txt hst hcode hblk hael hmc
      hch hs hmore hsz
    obtain ⟨free1, hadd, hfree1, hlen1⟩ := add_choice_next recorded free st.curr_choice
      (txt ++ (more.map skip_spaces).join) st.correct hrec hfree hid (by omega)
    have hbsz := hbs b (List.mem_cons_self _ _)
    unfold CHOICE_LINES.size at hbsz
    have hbody : st.next_choice ++ b.first ≠ [] := by rw [hht]; simp
    have hbsp : skip_spaces (st.next_choice ++ b.first) = st.next_choice ++ b.first := by
      rw [hht]; exact skip_spaces_cons _ _ hsp
    have hbns : (st.next_choice ++ b.first).head? ≠ some '*' := by
      rw [hht]; simp [hns]
    have hbfree : '<' ∉ st.next_choice ++ b.first := by
      simp only [List.mem_append, not_or]; exact ⟨hlfree, hffree⟩
    have hstep := next_choice_step ident { st with choice := chbuf } (st.next_choice ++ b.first)
      next1 false _ _ hbody hbsp hbns
      (by show scan_code st.in_code _ = _; rw [hcode]; exact scan_code_free _ _ hbfree)
      hmc ok (by simp only [List.length_append]; rw [← hlab]; omega) hst
      (strncmp_label_line _ _)
      (by show add_choice st.choices st.choice_cnt st.curr_choice chbuf.s st.correct = _
          rw [harr, hcnt, hs1]; exact hadd)
      (by show st.choice_num + 1 ≤ INT_MAX; omega) hnext b.star
    have hdrop : skip_spaces ((st.next_choice ++ b.first).drop st.next_choice.length) =
        skip_spaces b.first := by rw [List.drop_left]
    have hclr := strbuf_clear_ok ok
    have hok2 : ((strbuf_clear chbuf).app (skip_spaces b.first)).Ok := ok_app _ hclr.1 (by
      have := skip_spaces_length b.first
      rw [hclr.2]; simp only [List.length_nil]; omega)
    obtain ⟨st1, free2, hrun2, a1, a2, a3, a4, a5, a6, a7, a8, a9, a10, a11, a12⟩ := ih
      { st with
        choice := (strbuf_clear chbuf).app (skip_spaces b.first),
        choices := recorded ++ [{ id := some (trimstr2 st.curr_choice), correct := st.correct,
                                  text := some (trimstr (txt ++ (more.map skip_spaces).join)) }]
                    ++ free1,
        choice_cnt := (recorded ++ [({ id := some (trimstr2 st.curr_choice),
                                       correct := st.correct,
                                       text := some (trimstr (txt ++ (more.map skip_spaces).join))
                                     } : CHOICE_T)] ++ free1).length,
        in_code := false, after_empty_line := false,
        curr_choice := st.next_choice, choice_num := st.choice_num + 1,
        correct := b.star, answer_known := b.star || st.answer_known,
        maybe_correct := false, next_choice := next1 }
      b.more
      (recorded ++ [{ id := some (trimstr2 st.curr_choice), correct := st.correct,
                      text := some (trimstr (txt ++ (more.map skip_spaces).join)) }])
      free1 (skip_spaces b.first)
      ⟨hst, rfl, hblk, rfl, rfl, hok2,
        by show some ((strbuf_clear chbuf).content ++ skip_spaces b.first) = _
           rw [hclr.2]; rfl,
        rfl, rfl,
        by intro ch hch
           rcases List.mem_append.1 hch with h1 | h1
           · exact hrec ch h1
           · rw [List.mem_singleton.1 h1]; rfl,
        hfree1, by show trimstr2 st.next_choice ≠ []; exact hltrim⟩
      hrest
      (by have := skip_spaces_length b.first; omega)
      (fun x hx => hbs x (List.mem_cons_of_mem _ hx))
      (by omega)
      (by show st.choice_num + 1 + (bs.length : Int) + 1 ≤ INT_MAX; push_cast at hnum; omega)
    refine ⟨st1, free2, ?_, a1, a2, a3, a4, a5, a6, a7, ?_, a9, ?_, a11, ?_⟩
    · have e1 : more ++ ((b :: bs).map CHOICE_LINES.lines).join =
          more ++ ([if b.star then '*' :: (st.next_choice ++ b.first)
                    else st.next_choice ++ b.first] ++
            (b.more ++ (bs.map CHOICE_LINES.lines).join)) := by
        simp [CHOICE_LINES.lines, hlab]
      rw [e1, process_lines_append ident more _ st _ hrun,
        process_lines_append ident [_] _ _ _ (by
          simp only [process_lines]
          rw [hstep])]
      rw [← hrun2]
      simp only [hdrop, hcnt, harr]
    · rw [a8]
      simp only [List.any_cons]
      cases b.star <;> cases st.answer_known <;> simp
    · rw [a10]
      simp [CHOICE_LINES.record, CHOICE_LINES.body, hlab, List.append_assoc]
    · have h12 := a12
      simp only [List.length_append, List.length_cons, List.length_nil, List.length_map]
        at h12 hlen1 ⊢
      omega

theorem first_label_trimmed (c d : Char) (rest : CStr)
    (h : is_first_choice (c :: d :: rest) = true) : trimstr2 [c, d] = [c] := by
  simp only [is_first_choice, is_first_label, Bool.and_eq_true, Bool.or_eq_true,
    decide_eq_true_eq] at h
  obtain ⟨hc, hd⟩ := h
  have hd2 : (isspace d || ispunct d) = true := by
    rcases hd with ((h1 | h1) | h1) | h1
    · subst h1; decide
    · subst h1; decide
    · subst h1; decide
    · simp [h1.1.1.1]
  have hc2 : (isspace c || ispunct c) = false := by
    rcases hc with (((h1 | h1) | h1) | h1) | h1 <;> subst h1 <;> decide
  simp [trimstr2, List.dropWhile, hd2, hc2]

theorem question_type_free (L U : List CHOICE_T) (hL : ∀ ch ∈ L, ch.id.isSome)
    (hU : ∀ ch ∈ U, ch.id = none) (hs : (L ++ U).length ≤ 32767) :
    question_type (L ++ U) (L ++ U).length = question_type L L.length := by
  have hs2 : L.length ≤ 32767 := by simp only [List.length_append] at hs; omega
  rw [question_type_eq _ _ hs, question_type_eq _ _ hs2, List.take_length, List.take_length,
    correct_count_append L U hL hU]
  have := correct_count_append L [] hL (by simp)
  rw [List.append_nil] at this
  rw [this]

theorem item_text_free (qnum : Int) (t : Option CStr) (ident : CStr) (L U : List CHOICE_T)
    (hL : ∀ ch ∈ L, ch.id.isSome) (hU : ∀ ch ∈ U, ch.id = none) (hs : L.length ≤ 32767) :
    item_text qnum (question_type L L.length) t (L ++ U) ident =
      item_text qnum (question_type L L.length) t L ident := by
  have hcc := correct_count_append L [] hL (by simp)
  rw [List.append_nil] at hcc
  unfold item_text
  rw [labels_text_append _ L U hU]
  congr 2
  unfold condition_text
  rw [question_type_eq _ _ hs, List.take_length, hcc]
  by_cases h1 : L.countP (fun ch => ch.correct) = 1
  · simp only [h1, if_true]
    have hpos : 0 < L.countP (fun ch => ch.correct) := by omega
    obtain ⟨ch, hch, hcor⟩ := List.countP_pos.1 hpos
    cases hf : L.find? (fun c => c.correct) with
    | none =>
      have := List.find?_eq_none.1 hf ch hch
      simp [hcor] at this
    | some a =>
      have e1 := qti_1_2_first_append L U hL a hf
      have e2 := qti_1_2_first_append L [] hL a hf
      rw [List.append_nil] at e2
      rw [e1, e2]
  · have hne : ¬ (QTYPE_MULTCHOICE = QTYPE_MULTANSW) := by decide
    simp only [h1, if_false, hne]
    have e1 := multi_text_append (fmt_d qnum) L U hL hU
    have e2 := multi_text_append (fmt_d qnum) L [] hL (by simp)
    rw [List.append_nil] at e2
    rw [e1, e2]

theorem records_labelled (bs : List CHOICE_LINES) :
    ∀ ch ∈ bs.map CHOICE_LINES.record, ch.id.isSome = true := by
  intro ch hch
  obtain ⟨b, _, rfl⟩ := List.mem_map.1 hch
  rfl


/-- C29, as stated, fails: with the upper-letter choices the label rendered after
`Z.` is `[.`, which is all punctuation.  In the document below 27 choice lines
start with the first label and the labels rendered after it; the 27th is taken as
a new choice (its label is in `curr_choice` and its text in the choice buffer, not
in the text of choice `Z`), but its label is cut to the empty string, so in the
array handed to `process_question` at the blank line the slot that holds its text
has no id: 26 slots have one, and `qti_1_2` writes a response label only for a
slot with an id. -/
theorem empty_label_choice_dropped :
    next_fmt 26 "Z.".toList { style := FMT_ULETTER, sep := '.' } = some (some "[.".toList) ∧
    trimstr2 "[.".toList = [] ∧
    (process_lines ['d'] (PF.start (GLOBALS.start false false) 0)
        (fgets_lines LINE_LEN
          ("1. Q\nA. a\nB. b\nC. c\nD. d\nE. e\nF. f\nG. g\nH. h\nI. i\nJ. j\nK. k\nL. l\n" ++
           "M. m\nN. n\nO. o\nP. p\nQ. q\nR. r\nS. s\nT. t\nU. u\nV. v\nW. w\nX. x\nY. y\n" ++
           "*Z. z\n[. last\n").toList [])).map
      (fun r => match r with
        | STEP.next st => (st.state, st.curr_choice, st.choice.s)
        | STEP.returned _ => (STATE_NONE, [], none))
      = some (STATE_CHOICE, "[.".toList, some "last\n".toList) ∧
    ((process_lines ['d'] (PF.start (GLOBALS.start false false) 0)
        (fgets_lines LINE_LEN
          ("1. Q\nA. a\nB. b\nC. c\nD. d\nE. e\nF. f\nG. g\nH. h\nI. i\nJ. j\nK. k\nL. l\n" ++
           "M. m\nN. n\nO. o\nP. p\nQ. q\nR. r\nS. s\nT. t\nU. u\nV. v\nW. w\nX. x\nY. y\n" ++
           "*Z. z\n[. last\n").toList [])).bind
      (fun r => match r with
        | STEP.next st => (closing_choices st).map (fun a => a.1.map (fun ch => ch.id))
        | STEP.returned _ => none))
      = some (("ABCDEFGHIJKLMNOPQRSTUVWXYZ".toList.map (fun x => some [x])) ++
          [none, none, none, none]) ∧
    ((process_lines ['d'] (PF.start (GLOBALS.start false false) 0)
        (fgets_lines LINE_LEN
          ("1. Q\nA. a\nB. b\nC. c\nD. d\nE. e\nF. f\nG. g\nH. h\nI. i\nJ. j\nK. k\nL. l\n" ++
           "M. m\nN. n\nO. o\nP. p\nQ. q\nR. r\nS. s\nT. t\nU. u\nV. v\nW. w\nX. x\nY. y\n" ++
           "*Z. z\n[. last\n").toList [])).bind
      (fun r => match r with
        | STEP.next st => (closing_choices st).map (fun a => (a.1.map (fun ch => ch.text)).drop 25)
        | STEP.returned _ => none))
      = some [some ['z'], some "last".toList, none, none, none] ∧
    labels_text ['1'] [{ id := none, correct := false, text := some "last".toList }] = [] := by
  refine ⟨by decide, by decide, by decide!, by decide!, by decide!, rfl⟩

/-- C29, amended: after a question, let the choices of the item be given by their
lines: the first starts, after an optional `*`, with a first-choice pattern, each
further one with the label `next_fmt` has written for it, every label keeps at
least one character once its trailing punctuation and whitespace are cut, the
other lines continue the current choice, no line holds a `<`, and one line bears
the `*` (or the answers are known or not asked for).  Then the blank line that
follows emits one item whose choices are exactly these, in line order: the label
is the line's label without its trailing punctuation and whitespace, the flag is
the `*`, and the text is the rest of the label line and the following lines, each
without its leading whitespace, in order, with the trailing whitespace cut. -/
theorem choices_recorded_in_order (ident : CStr) (st : PF) (c d : Char) (b0 : CHOICE_LINES)
    (bs : List CHOICE_LINES) (blank nc : CStr)
    (hst : st.state = STATE_QUESTION) (hfc : st.g.G_first_choice = [])
    (hlab0 : b0.label = [c, d]) (hfirst : is_first_choice (c :: d :: b0.first) = true)
    (hfree0 : '<' ∉ b0.first)
    (hnext : next_label 1 st.next_choice
      { style := style_of c st.g.G_cformat.style, sep := d } = some nc)
    (hfol : choices_follow { style := style_of c st.g.G_cformat.style, sep := d } 1 nc
      b0.more bs)
    (harr : ∀ ch ∈ st.choices, ch.id = none) (hcnt : st.choice_cnt = st.choices.length)
    (hshort : st.choices.length + 5 * (bs.length + 1) ≤ 32767)
    (hans : b0.star = true ∨ bs.any (fun b => b.star) = true ∨ st.g.G_no_answers = true ∨
      st.answer_known = true)
    (hblank : skip_spaces blank = [])
    (hch : st.choice.Ok) (hxml : st.xml.Ok)
    (hsz : ∀ b ∈ b0 :: bs, b.size + 257 ≤ 2 ^ 31)
    (henc : ((encoded_question st.question.s).getD []).length + 257 ≤ 2 ^ 31)
    (hfit : (item_text st.qnum
        (question_type ((b0 :: bs).map CHOICE_LINES.record) (bs.length + 1))
        (encoded_question st.question.s) ((b0 :: bs).map CHOICE_LINES.record) ident).length +
          st.xml.content.length + 257 ≤ 2 ^ 31) :
    ∃ stF, process_lines ident st (((b0 :: bs).map CHOICE_LINES.lines).join ++ [blank]) =
        some (STEP.next stF) ∧
      stF.state = STATE_NONE ∧
      stF.xml = st.xml.app (item_text st.qnum
        (question_type ((b0 :: bs).map CHOICE_LINES.record) (bs.length + 1))
        (encoded_question st.question.s) ((b0 :: bs).map CHOICE_LINES.record) ident) ∧
      ((b0 :: bs).map CHOICE_LINES.record).length = bs.length + 1 ∧
      labels_text (fmt_d st.qnum) ((b0 :: bs).map CHOICE_LINES.record) =
        ((b0 :: bs).map (fun b =>
          response_label (fmt_d st.qnum) (trimstr2 b.label) (some (trimstr b.body)))).join := by
  have hcs : isspace c = false ∧ c ≠ '*' := by
    have h := hfirst
    simp only [is_first_choice, is_first_label, Bool.and_eq_true, Bool.or_eq_true,
      decide_eq_true_eq] at h
    rcases h.1 with (((h1 | h1) | h1) | h1) | h1 <;> subst h1 <;> exact ⟨by decide, by decide⟩
  have hsp : skip_spaces (c :: d :: b0.first) = c :: d :: b0.first := skip_spaces_cons _ _ hcs.1
  have hns : (c :: d :: b0.first).head? ≠ some '*' := by simp [hcs.2]
  have hcd : '<' ∉ [c, d] := by
    have h := hfirst
    simp only [is_first_choice, is_first_label, Bool.and_eq_true, Bool.or_eq_true,
      decide_eq_true_eq] at h
    obtain ⟨h1, h2⟩ := h
    have hc1 : c ≠ '<' := by
      rcases h1 with (((h1 | h1) | h1) | h1) | h1 <;> subst h1 <;> decide
    have hd1 : d ≠ '<' := by
      rcases h2 with ((h2 | h2) | h2) | h2
      · subst h2; decide
      · subst h2; decide
      · subst h2; decide
      · intro e; subst e
        have : isspace '<' = false := by decide
        rw [this] at h2; simp at h2
    simp [hc1.symm, hd1.symm]
  have hbfree : '<' ∉ c :: d :: b0.first := by
    simp only [List.mem_cons, not_or] at hcd ⊢
    exact ⟨hcd.1, hcd.2.1, hfree0⟩
  have hb0 := hsz b0 (List.mem_cons_self _ _)
  unfold CHOICE_LINES.size at hb0
  rw [hlab0] at hb0
  simp only [List.length_cons, List.length_nil] at hb0
  have hstep := first_choice_step ident st nc b0.first c d st.in_code hsp hns
    (scan_code_free _ _ hbfree) hch (by simp only [List.length_cons]; omega) hst hfc hfirst
    hnext b0.star
  have hclr := strbuf_clear_ok hch
  have hok1 : ((strbuf_clear st.choice).app (skip_spaces b0.first)).Ok := ok_app _ hclr.1 (by
    have := skip_spaces_length b0.first
    rw [hclr.2]; simp only [List.length_nil]; omega)
  obtain ⟨st2, free1, hrun, a1, a2, a3, a4, a5, a6, a7, a8, a9, a10, a11, a12⟩ :=
    choices_run ident bs
      { st with
        after_empty_line := false, in_code := false, in_block := false,
        choice_num := 1, correct := b0.star, answer_known := b0.star || st.answer_known,
        maybe_correct := false,
        choice := (strbuf_clear st.choice).app (skip_spaces b0.first),
        g := { st.g with
               G_cformat := { style := style_of c st.g.G_cformat.style, sep := d } },
        state := STATE_CHOICE, curr_choice := [c, d], next_choice := nc }
      b0.more [] st.choices (skip_spaces b0.first)
      ⟨rfl, rfl, rfl, rfl, rfl, hok1,
        by show some ((strbuf_clear st.choice).content ++ skip_spaces b0.first) = _
           rw [hclr.2]; rfl,
        rfl, hcnt, by simp, harr,
        by show trimstr2 [c, d] ≠ []
           rw [first_label_trimmed c d _ hfirst]; simp⟩
      hfol
      (by have := skip_spaces_length b0.first; omega)
      (fun x hx => hsz x (List.mem_cons_of_mem _ hx))
      (by simpa using hshort)
      (by show (1 : Int) + (bs.length : Int) + 1 ≤ INT_MAX
          unfold INT_MAX; omega)
  have hrecs : ((⟨some (trimstr2 [c, d]), b0.star,
        some (trimstr (skip_spaces b0.first ++ (b0.more.map skip_spaces).join))⟩ : CHOICE_T)
        :: bs.map CHOICE_LINES.record) = (b0 :: bs).map CHOICE_LINES.record := by
    simp [CHOICE_LINES.record, CHOICE_LINES.body, hlab0]
  have hrl := records_labelled (b0 :: bs)
  have hlen : ((b0 :: bs).map CHOICE_LINES.record).length = bs.length + 1 := by simp
  have a10' : closing_choices st2 =
      some ((b0 :: bs).map CHOICE_LINES.record ++ free1,
        ((b0 :: bs).map CHOICE_LINES.record ++ free1).length) := by
    rw [a10]
    show some ([] ++ _ ++ free1, ([] ++ _ ++ free1).length) = _
    rw [List.nil_append, hrecs]
  have a12' : ((b0 :: bs).map CHOICE_LINES.record ++ free1).length ≤ 32767 := by
    have h12 := a12
    simp only [List.nil_append, List.length_append, List.length_cons, List.length_map]
      at h12 ⊢
    omega
  have hqt : question_type ((b0 :: bs).map CHOICE_LINES.record ++ free1)
      ((b0 :: bs).map CHOICE_LINES.record ++ free1).length =
      question_type ((b0 :: bs).map CHOICE_LINES.record) (bs.length + 1) := by
    rw [question_type_free _ _ hrl a11 a12', hlen]
  have hit : item_text st2.qnum
      (question_type ((b0 :: bs).map CHOICE_LINES.record ++ free1)
        ((b0 :: bs).map CHOICE_LINES.record ++ free1).length)
      (encoded_question st2.question.s)
      (((b0 :: bs).map CHOICE_LINES.record ++ free1).take
        ((b0 :: bs).map CHOICE_LINES.record ++ free1).length) ident =
      item_text st.qnum (question_type ((b0 :: bs).map CHOICE_LINES.record) (bs.length + 1))
        (encoded_question st.question.s) ((b0 :: bs).map CHOICE_LINES.record) ident := by
    rw [hqt, List.take_length, a7, a5]
    show item_text st.qnum _ (encoded_question st.question.s) _ ident = _
    rw [← hlen]
    exact item_text_free _ _ _ _ _ hrl a11 (by omega)
  have hyes : closes_item st2 := by
    right
    refine ⟨a1, ?_⟩
    rw [a8, a4]
    show ((b0.star || st.answer_known) || bs.any (fun b => b.star)) = true ∨
      st.g.G_no_answers = true
    rcases hans with h | h | h | h
    · left; simp [h]
    · left; simp [h]
    · right; exact h
    · left; simp [h]
  have hclose := closing_step ident st2 blank _ _ hblank a2 a3 hyes a10' rfl
    (by rw [a6]; exact hxml) (by rw [a5]; exact henc)
    (by rw [hit, a6]; exact hfit)
  rw [hit, a6] at hclose
  have hclose2 : ∃ stF, process_line ident st2 blank = some (STEP.next stF) ∧
      stF.state = STATE_NONE ∧
      stF.xml = st.xml.app (item_text st.qnum
        (question_type ((b0 :: bs).map CHOICE_LINES.record) (bs.length + 1))
        (encoded_question st.question.s) ((b0 :: bs).map CHOICE_LINES.record) ident) :=
    ⟨_, hclose, rfl, rfl⟩
  obtain ⟨stF, hcl, hs1, hs2⟩ := hclose2
  refine ⟨stF, ?_, hs1, hs2, hlen, ?_⟩
  · have e1 : ((b0 :: bs).map CHOICE_LINES.lines).join ++ [blank] =
        [if b0.star then '*' :: c :: d :: b0.first else c :: d :: b0.first] ++
          ((b0.more ++ (bs.map CHOICE_LINES.lines).join) ++ [blank]) := by
      simp [CHOICE_LINES.lines, hlab0]
    rw [e1, process_lines_append ident [_] _ st _ (by simp only [process_lines]; rw [hstep]),
      process_lines_append ident _ [blank] _ st2 hrun]
    simp only [process_lines, hcl]
  · rw [labels_text_options, List.filterMap_map]
    congr 1
    induction (b0 :: bs) with
    | nil => rfl
    | cons b r ih => simp [CHOICE_LINES.record, ih]

theorem choices_recorded_in_order_witness :
    ∃ stF, process_lines ['d'] (doc_state1 ['Q'])
        ["A. first\n".toList, "  more\n".toList, "*B. second\n".toList, "\n".toList] =
        some (STEP.next stF) ∧
      stF.state = STATE_NONE ∧
      stF.xml = strbuf_init.app (item_text 1 QTYPE_MULTCHOICE (some " Q\n".toList)
        [{ id := some ['A'], correct := false, text := some "first\nmore".toList },
         { id := some ['B'], correct := true, text := some "second".toList }] ['d']) :=
  match choices_recorded_in_order ['d'] (doc_state1 ['Q']) 'A' '.'
      { label := "A.".toList, star := false, first := " first\n".toList,
        more := ["  more\n".toList] }
      [{ label := "B.".toList, star := true, first := " second\n".toList, more := [] }]
      "\n".toList "B.".toList rfl rfl rfl (by decide) (by decide) (by decide)
      ⟨fun l hl => by
          rw [List.mem_singleton.1 hl]
          show _ ∧ _ ∧ _ ∧ _
          decide,
        rfl, ⟨⟨'B', ['.'], rfl, by decide, by decide⟩, by decide, by decide⟩, by decide,
        ⟨"C.".toList, by decide, fun l hl => absurd hl (List.not_mem_nil l)⟩⟩
      (fun ch hch => absurd hch (List.not_mem_nil ch)) rfl (by decide)
      (Or.inr (Or.inl rfl)) (by decide) strbuf_init_ok strbuf_init_ok
      (fun b hb => by
        simp only [List.mem_cons, List.mem_singleton, List.not_mem_nil, or_false] at hb
        rcases hb with rfl | rfl <;> decide)
      (by decide!) (by decide!) with
  | ⟨stF, h1, h2, h3, _⟩ => ⟨stF, h1, h2, by rw [h3]; decide!⟩

/-! ## The idents of the response and of its conditions -/

theorem append_singleton_eq_cons (x : CStr) (a b : Char) (h : x ++ [a] = b :: x) : a = b := by
  induction x generalizing b with
  | nil => simpa using h
  | cons c x ih =>
    simp only [List.cons_append, List.cons.injEq] at h
    obtain ⟨rfl, h2⟩ := h
    exact ih _ h2

theorem respident_single_ne (numstr : CStr) :
    respident_single numstr ≠ response_lid_ident numstr := by
  intro h
  have := congrArg List.length h
  simp [respident_single, response_lid_ident] at this

theorem respident_multi_ne (numstr id : CStr) :
    respident_multi numstr id ≠ response_lid_ident numstr := by
  intro h
  have h1 : 'r' :: (numstr ++ '_' :: id) = 'r' :: 'q' :: numstr := by
    simpa [respident_multi, response_lid_ident] using h
  simp only [List.cons.injEq, true_and] at h1
  have hl := congrArg List.length h1
  simp only [List.length_append, List.length_cons] at hl
  have hid : id = [] := List.length_eq_zero.1 (by omega)
  subst hid
  exact absurd (append_singleton_eq_cons _ _ _ h1) (by decide)

theorem item_open_response_lid (numstr : CStr) (qtype : Nat) (qtext : Option CStr)
    (ident : CStr) :
    item_open numstr qtype qtext ident =
      "<item title=\"Question ".toList ++ numstr ++ "\" ident=\"txt2qti_".toList ++ ident ++
        "_q".toList ++ numstr ++ "\">\n <presentation>\n  <material>\n".toList ++
        "   <mattext texttype=\"text/html\">\n    ".toList ++ escape_opt qtext ++
        "   </mattext>\n  </material>\n".toList ++
        "  <response_lid ident=\"".toList ++ response_lid_ident numstr ++ "\"".toList ++
        (if QTYPE_MULTCHOICE = qtype then " rcardinality=\"Single\">\n".toList
         else " rcardinality=\"Multiple\">\n".toList) ++
        "   <render_choice shuffle=\"No\">\n".toList := by
  simp only [item_open, concat_all, response_lid_ident, List.append_assoc, List.append_nil]
  rfl

theorem varequal_single_respident (numstr id : CStr) :
    varequal_single numstr id =
      "    <varequal respident=\"".toList ++ respident_single numstr ++ "\">q".toList ++ numstr ++
        "_".toList ++ id ++ "</varequal>\n".toList := by
  simp [varequal_single, concat_all, respident_single]

theorem cond_line_respident (numstr : CStr) (ch : CHOICE_T) :
    cond_line numstr ch =
      if ch.correct then
        "     <varequal respident=\"".toList ++ respident_multi numstr (ch.id.getD []) ++
          "\">q".toList ++ numstr ++ "_".toList ++ ch.id.getD [] ++ "</varequal>\n".toList
      else
        "     <not>\n      <varequal respident=\"".toList ++
          respident_multi numstr (ch.id.getD []) ++ "\">q".toList ++ numstr ++ "_".toList ++
          ch.id.getD [] ++ "</varequal>\n     </not>\n".toList := by
  cases hc : ch.correct <;>
    simp [cond_line, hc, varequal_pos, varequal_neg, concat_all, respident_multi]

/-- C31 fails on the code: in the fragment `qti_1_2` returns for
`process_question`, the `<response_lid>` is declared with the ident `rq<index>`
(lines 327-328), but the `respident` written in the condition block is
`r<index>` for an item with one correct choice (lines 367-368) and
`r<index>_<label>` for every condition of the `<and>` block (lines 383-386 and
394-397); neither is ever equal to `rq<index>`.  `L` are the labelled choices,
`U` the free slots after them. -/
theorem respident_differs_from_response_lid (qnum : Int) (qtext : Option CStr)
    (qchoices : List CHOICE_T) (qchoicecnt : Nat) (ident : CStr) (L U : List CHOICE_T)
    (hcnt : qchoicecnt ≤ qchoices.length) (hshort : qchoicecnt ≤ 32767)
    (hLU : qchoices.take qchoicecnt = L ++ U)
    (hL : ∀ ch ∈ L, ch.id.isSome) (hU : ∀ ch ∈ U, ch.id = none)
    (hb : (item_text qnum (if L.countP (fun ch => ch.correct) = 1 then QTYPE_MULTCHOICE
        else QTYPE_MULTANSW) qtext (L ++ U) ident).length + 257 ≤ 2 ^ 31) :
    ∃ conds,
      process_question qnum qtext qchoices qchoicecnt ident =
        qti_1_2 qnum (if L.countP (fun ch => ch.correct) = 1 then QTYPE_MULTCHOICE
          else QTYPE_MULTANSW) qtext qchoices qchoicecnt ident ∧
      qti_1_2 qnum (if L.countP (fun ch => ch.correct) = 1 then QTYPE_MULTCHOICE
          else QTYPE_MULTANSW) qtext qchoices qchoicecnt ident =
        some (some ("<item title=\"Question ".toList ++ fmt_d qnum ++
          "\" ident=\"txt2qti_".toList ++ ident ++ "_q".toList ++ fmt_d qnum ++
          "\">\n <presentation>\n  <material>\n".toList ++
          "   <mattext texttype=\"text/html\">\n    ".toList ++ escape_opt qtext ++
          "   </mattext>\n  </material>\n".toList ++
          "  <response_lid ident=\"".toList ++ response_lid_ident (fmt_d qnum) ++ "\"".toList ++
          (if L.countP (fun ch => ch.correct) = 1 then " rcardinality=\"Single\">\n".toList
           else " rcardinality=\"Multiple\">\n".toList) ++
          "   <render_choice shuffle=\"No\">\n".toList ++
          labels_text (fmt_d qnum) L ++ item_middle ++ conds ++ item_close)) ∧
      (L.countP (fun ch => ch.correct) = 1 → ∃ ch id,
        L.find? (fun c => c.correct) = some ch ∧ ch.id = some id ∧
        conds = "    <varequal respident=\"".toList ++ respident_single (fmt_d qnum) ++
          "\">q".toList ++ fmt_d qnum ++ "_".toList ++ id ++ "</varequal>\n".toList) ∧
      (L.countP (fun ch => ch.correct) ≠ 1 →
        conds = "    <and>\n".toList ++ concat_all (L.map (fun ch =>
          if ch.correct then
            "     <varequal respident=\"".toList ++ respident_multi (fmt_d qnum) (ch.id.getD []) ++
              "\">q".toList ++ fmt_d qnum ++ "_".toList ++ ch.id.getD [] ++
              "</varequal>\n".toList
          else
            "     <not>\n      <varequal respident=\"".toList ++
              respident_multi (fmt_d qnum) (ch.id.getD []) ++ "\">q".toList ++ fmt_d qnum ++
              "_".toList ++ ch.id.getD [] ++ "</varequal>\n     </not>\n".toList)) ++
          "    </and>\n".toList) ∧
      respident_single (fmt_d qnum) ≠ response_lid_ident (fmt_d qnum) ∧
      ∀ id, respident_multi (fmt_d qnum) id ≠ response_lid_ident (fmt_d qnum) := by
  have hcc : correct_count (qchoices.take qchoicecnt) = L.countP (fun ch => ch.correct) := by
    rw [hLU, correct_count_append L U hL hU]
  have hpq := qti_1_2_eq qnum (if L.countP (fun ch => ch.correct) = 1 then QTYPE_MULTCHOICE
    else QTYPE_MULTANSW) qtext qchoices qchoicecnt ident hcnt (by rw [hLU]; exact hb)
  rw [hLU] at hpq
  refine ⟨condition_text (fmt_d qnum) (if L.countP (fun ch => ch.correct) = 1
    then QTYPE_MULTCHOICE else QTYPE_MULTANSW) (L ++ U), ?_, ?_, ?_, ?_,
    respident_single_ne _, fun id => respident_multi_ne _ id⟩
  · unfold process_question
    rw [if_neg (by omega), question_type_eq _ _ hshort, hcc]
  · rw [hpq]
    simp only [item_text, item_open_response_lid, labels_text_append _ L U hU]
    by_cases h1 : L.countP (fun ch => ch.correct) = 1
    · simp only [h1, if_true]
    · have hq : ¬ (QTYPE_MULTCHOICE = QTYPE_MULTANSW) := by decide
      simp only [h1, if_false, hq]
  · intro h1
    have hsome : (L.find? (fun c => c.correct)).isSome := by
      rw [List.find?_isSome]
      have : 0 < L.countP (fun ch => ch.correct) := by omega
      obtain ⟨x, hx, hx2⟩ := List.countP_pos.1 this
      exact ⟨x, hx, hx2⟩
    obtain ⟨ch, hch⟩ := Option.isSome_iff_exists.1 hsome
    obtain ⟨id, hid⟩ := Option.isSome_iff_exists.1 (hL ch (List.mem_of_find?_eq_some hch))
    refine ⟨ch, id, hch, hid, ?_⟩
    simp only [h1, if_true, condition_text, qti_1_2_first_append L U hL ch hch, hid,
      varequal_single_respident]
  · intro h1
    have hq : ¬ (QTYPE_MULTCHOICE = QTYPE_MULTANSW) := by decide
    simp only [h1, if_false, condition_text, hq, multi_text_append _ L U hL hU]
    have e : cond_line (fmt_d qnum) = (fun ch =>
        if ch.correct then
          "     <varequal respident=\"".toList ++ respident_multi (fmt_d qnum) (ch.id.getD []) ++
            "\">q".toList ++ fmt_d qnum ++ "_".toList ++ ch.id.getD [] ++
            "</varequal>\n".toList
        else
          "     <not>\n      <varequal respident=\"".toList ++
            respident_multi (fmt_d qnum) (ch.id.getD []) ++ "\">q".toList ++ fmt_d qnum ++
            "_".toList ++ ch.id.getD [] ++ "</varequal>\n     </not>\n".toList) := by
      funext ch
      exact cond_line_respident _ ch
    rw [e]

theorem respident_differs_from_response_lid_witness :
    ∃ conds,
      process_question 1 (some [' ', 'Q', '\n'])
        [⟨some ['A'], false, some ['x']⟩, ⟨some ['B'], true, some ['y']⟩,
         ⟨none, false, none⟩, ⟨none, false, none⟩, ⟨none, false, none⟩] 5 ['d'] =
        some (some ("<item title=\"Question 1\" ident=\"txt2qti_d_q1\">\n".toList ++
          " <presentation>\n  <material>\n   <mattext texttype=\"text/html\">\n".toList ++
          "     Q\n   </mattext>\n  </material>\n".toList ++
          "  <response_lid ident=\"rq1\" rcardinality=\"Single\">\n".toList ++
          "   <render_choice shuffle=\"No\">\n".toList ++
          "    <response_label ident=\"q1_A\">\n".toList ++
          "     <material><mattext texttype=\"text/plain\">x</mattext></material>\n".toList ++
          "    </response_label>\n".toList ++
          "    <response_label ident=\"q1_B\">\n".toList ++
          "     <material><mattext texttype=\"text/plain\">y</mattext></material>\n".toList ++
          "    </response_label>\n".toList ++ item_middle ++ conds ++ item_close)) ∧
      conds = "    <varequal respident=\"r1\">q1_B</varequal>\n".toList ∧
      respident_single (fmt_d 1) = "r1".toList ∧ response_lid_ident (fmt_d 1) = "rq1".toList := by
  obtain ⟨conds, h0, h1, h2, _, _, _⟩ := respident_differs_from_response_lid 1
    (some [' ', 'Q', '\n'])
    [⟨some ['A'], false, some ['x']⟩, ⟨some ['B'], true, some ['y']⟩,
     ⟨none, false, none⟩, ⟨none, false, none⟩, ⟨none, false, none⟩] 5 ['d']
    [⟨some ['A'], false, some ['x']⟩, ⟨some ['B'], true, some ['y']⟩]
    [⟨none, false, none⟩, ⟨none, false, none⟩, ⟨none, false, none⟩]
    (by decide) (by decide) (by decide) (by decide) (by decide) (by decide!)
  obtain ⟨ch, id, hf, hid, hc⟩ := h2 (by decide)
  have hch : ch = ⟨some ['B'], true, some ['y']⟩ := by
    simp only [List.find?_cons, Bool.false_eq_true] at hf
    simpa using hf.symm
  subst hch
  have hB : id = ['B'] := by simpa using hid.symm
  subst hB
  refine ⟨conds, ?_, ?_, by decide, by decide⟩
  · rw [h0, h1]
    have e : ("<item title=\"Question ".toList ++ fmt_d 1 ++
          "\" ident=\"txt2qti_".toList ++ ['d'] ++ "_q".toList ++ fmt_d 1 ++
          "\">\n <presentation>\n  <material>\n".toList ++
          "   <mattext texttype=\"text/html\">\n    ".toList ++ escape_opt (some [' ', 'Q', '\n']) ++
          "   </mattext>\n  </material>\n".toList ++
          "  <response_lid ident=\"".toList ++ response_lid_ident (fmt_d 1) ++ "\"".toList ++
          (if List.countP (fun ch => ch.correct)
              [(⟨some ['A'], false, some ['x']⟩ : CHOICE_T), ⟨some ['B'], true, some ['y']⟩] = 1
           then " rcardinality=\"Single\">\n".toList
           else " rcardinality=\"Multiple\">\n".toList) ++
          "   <render_choice shuffle=\"No\">\n".toList ++
          labels_text (fmt_d 1) [⟨some ['A'], false, some ['x']⟩, ⟨some ['B'], true, some ['y']⟩]) =
        ("<item title=\"Question 1\" ident=\"txt2qti_d_q1\">\n".toList ++
          " <presentation>\n  <material>\n   <mattext texttype=\"text/html\">\n".toList ++
          "     Q\n   </mattext>\n  </material>\n".toList ++
          "  <response_lid ident=\"rq1\" rcardinality=\"Single\">\n".toList ++
          "   <render_choice shuffle=\"No\">\n".toList ++
          "    <response_label ident=\"q1_A\">\n".toList ++
          "     <material><mattext texttype=\"text/plain\">x</mattext></material>\n".toList ++
          "    </response_label>\n".toList ++
          "    <response_label ident=\"q1_B\">\n".toList ++
          "     <material><mattext texttype=\"text/plain\">y</mattext></material>\n".toList ++
          "    </response_label>\n".toList) := by decide!
    rw [e]
  · rw [hc]
    decide

/-! ## A question line when the numbering is locked -/

theorem toDigitsCore_length (k : Nat) : ∀ (fuel n : Nat) (ds : List Char), n < 10 ^ (k + 1) →
    (Nat.toDigitsCore 10 fuel n ds).length ≤ k + 1 + ds.length := by
  induction k with
  | zero =>
    intro fuel n ds hn
    cases fuel with
    | zero => simp [Nat.toDigitsCore]
    | succ f =>
      have h0 : n / 10 = 0 := by omega
      unfold Nat.toDigitsCore
      simp only [h0, if_true, List.length_cons]
      omega
  | succ k ih =>
    intro fuel n ds hn
    cases fuel with
    | zero => simp only [Nat.toDigitsCore]; omega
    | succ f =>
      unfold Nat.toDigitsCore
      simp only
      split
      · simp only [List.length_cons]; omega
      · have h2 : n / 10 < 10 ^ (k + 1) := by
          rw [Nat.div_lt_iff_lt_mul (by decide)]
          rw [pow_succ] at hn
          exact hn
        have := ih f (n / 10) ((n % 10).digitChar :: ds) h2
        simp only [List.length_cons] at this
        omega

theorem c_str_length (bs : List Char) : (c_str bs).length ≤ bs.length := by
  unfold c_str
  exact (List.takeWhile_prefix _).length_le

theorem roman_entry_length (n : Nat) (hn : n < 20) :
    ∃ r, G_roman.get? n = some r ∧ r.length ≤ 5 := by
  interval_cases n <;> exact ⟨_, rfl, by decide⟩

/-- With a numbering style locked, `next_fmt` never returns `NULL`. -/
theorem next_fmt_locked (num : Int) (next : CStr) (f : NUM_FMT_T)
    (h1 : f.style ≠ FMT_UNKNOWN) (h2 : f.style ≠ FMT_NONE) :
    next_fmt num next f ≠ some none := by
  unfold next_fmt
  cases hs : f.style with
  | FMT_NONE => exact absurd hs h2
  | FMT_UNKNOWN => exact absurd hs h1
  | FMT_NUMERICAL => simp only; split <;> simp
  | FMT_ULETTER => simp only; split <;> simp
  | FMT_LLETTER => simp only; split <;> simp
  | FMT_UROMAN =>
    simp only
    split
    · split
      · simp
      · simp
    · simp
  | FMT_LROMAN =>
    simp only
    split
    · split
      · simp
      · simp
    · simp

/-- With a numbering style locked and a counter of at most eight digits, the
label `next_fmt` writes fits the array of `CHOICE_ID_LEN` bytes. -/
theorem next_fmt_locked_fits (num : Int) (next : CStr) (f : NUM_FMT_T)
    (h1 : f.style ≠ FMT_UNKNOWN) (h2 : f.style ≠ FMT_NONE)
    (h0 : 0 ≤ num) (hn : num + 1 < 10 ^ 8) (hlen : next.length < CHOICE_ID_LEN) :
    ∃ b, next_fmt num next f = some (some b) ∧ b.length < CHOICE_ID_LEN := by
  unfold next_fmt
  cases hs : f.style with
  | FMT_NONE => exact absurd hs h2
  | FMT_UNKNOWN => exact absurd hs h1
  | FMT_NUMERICAL =>
    simp only
    have hi : num + 1 ≤ INT_MAX := by unfold INT_MAX; omega
    rw [if_pos hi]
    refine ⟨_, rfl, ?_⟩
    have hc := c_str_length (fmt_d (num + 1) ++ [f.sep])
    have hd : (fmt_d (num + 1)).length ≤ 8 := by
      unfold fmt_d
      rw [if_neg (by omega)]
      have := toDigitsCore_length 7 ((num + 1).toNat + 1) (num + 1).toNat [] (by omega)
      simpa [Nat.toDigits] using this
    simp only [List.length_append, List.length_singleton] at hc
    unfold CHOICE_ID_LEN
    omega
  | FMT_ULETTER =>
    simp only
    have hi : 65 + num ≤ INT_MAX := by unfold INT_MAX; omega
    rw [if_pos hi]
    refine ⟨_, rfl, ?_⟩
    have hc := c_str_length [fmt_c (65 + num), f.sep]
    simp only [List.length_cons, List.length_nil] at hc
    unfold CHOICE_ID_LEN
    omega
  | FMT_LLETTER =>
    simp only
    have hi : 97 + num ≤ INT_MAX := by unfold INT_MAX; omega
    rw [if_pos hi]
    refine ⟨_, rfl, ?_⟩
    have hc := c_str_length [fmt_c (97 + num), f.sep]
    simp only [List.length_cons, List.length_nil] at hc
    unfold CHOICE_ID_LEN
    omega
  | FMT_UROMAN =>
    simp only
    by_cases hm : num < MAX_ROMAN
    · rw [if_pos hm, if_pos h0]
      obtain ⟨r, hr, hrl⟩ := roman_entry_length num.toNat (by unfold MAX_ROMAN at hm; omega)
      rw [hr]
      refine ⟨_, rfl, ?_⟩
      have hc := c_str_length (r ++ [f.sep])
      simp only [List.length_append, List.length_singleton] at hc
      unfold CHOICE_ID_LEN
      omega
    · rw [if_neg hm]
      exact ⟨next, rfl, hlen⟩
  | FMT_LROMAN =>
    simp only
    by_cases hm : num < MAX_ROMAN
    · rw [if_pos hm, if_pos h0]
      obtain ⟨r, hr, hrl⟩ := roman_entry_length num.toNat (by unfold MAX_ROMAN at hm; omega)
      rw [hr]
      refine ⟨_, rfl, ?_⟩
      have hc := c_str_length (r.map tolower ++ [f.sep])
      simp only [List.length_append, List.length_singleton, List.length_map] at hc
      unfold CHOICE_ID_LEN
      omega
    · rw [if_neg hm]
      exact ⟨next, rfl, hlen⟩

theorem begin_question_next (st : PF) (p : CStr) (g : GLOBALS) :
    begin_question st p ≠ some (STEP.returned g) := by
  unfold begin_question
  simp only
  split
  · simp
  · intro h
    simp only [Option.map_eq_some'] at h
    obtain ⟨q, _, h⟩ := h
    exact absurd h (by simp)

theorem case_STATE_NONE_next (st : PF) (p : CStr) (g : GLOBALS) :
    case_STATE_NONE st p ≠ some (STEP.returned g) := by
  unfold case_STATE_NONE
  split
  · exact begin_question_next _ _ _
  · rename_i hu
    split
    · rename_i hn
      split
      · simp
      · have hnn := next_fmt_locked (st.qnum + 1) st.next_question st.g.G_qformat hu hn
        split
        · simp
        · rename_i e; exact absurd e hnn
        · split
          · exact begin_question_next _ _ _
          · simp
    · exact begin_question_next _ _ _

/-- No line makes `process_file` take its early return. -/
theorem process_line_next (ident : CStr) (st : PF) (line : CStr) (g : GLOBALS) :
    process_line ident st line ≠ some (STEP.returned g) := by
  intro h
  unfold process_line at h
  simp only at h
  split at h
  · simp only [Option.bind_eq_some] at h
    obtain ⟨ic, _, h⟩ := h
    split at h
    · exact case_STATE_NONE_next _ _ _ h
    · simp only [Option.map_eq_some'] at h
      obtain ⟨st1, _, h⟩ := h
      exact absurd h (by simp)
    · simp only [Option.map_eq_some'] at h
      obtain ⟨st1, _, h⟩ := h
      exact absurd h (by simp)
    · exact absurd h (by simp)
  · simp only [Option.map_eq_some'] at h
    obtain ⟨st1, _, h⟩ := h
    exact absurd h (by simp)

theorem process_lines_next (ident : CStr) (lines : List CStr) (st : PF) (g : GLOBALS) :
    process_lines ident st lines ≠ some (STEP.returned g) := by
  induction lines generalizing st with
  | nil => simp [process_lines]
  | cons line rest ih =>
    unfold process_lines
    split
    · simp
    · rename_i g1 hl
      exact absurd hl (process_line_next _ _ _ _)
    · exact ih _

/-- C32, as stated, fails: with the numbering locked by the first question, the
question line `<block>2. R` is not appended whole: the marker is dropped, the
question text is `2. R` and a block region is open. -/
theorem locked_block_marker_dropped :
    (process_lines ['d'] (PF.start (GLOBALS.start false false) 0)
        (fgets_lines LINE_LEN "1. Q\nA. x\n*B. y\n\n<block>2. R\n".toList [])).map
      (fun r => match r with
        | STEP.next st => (st.state, st.g.G_qformat.style, st.in_block, st.question.s)
        | STEP.returned g => (STATE_NONE, g.G_qformat.style, false, none))
      = some (STATE_QUESTION, FMT_NUMERICAL, true, some "2. R\n".toList) ∧
    fgets_lines LINE_LEN "1. Q\nA. x\n*B. y\n\n<block>2. R\n".toList [] =
      ["1. Q\n".toList, "A. x\n".toList, "*B. y\n".toList, "\n".toList,
       "<block>2. R\n".toList] := by
  refine ⟨by decide!, by decide!⟩

/-- C32, amended: with a numbering style locked and no region open, a non-blank
line read in `STATE_NONE` moves to `STATE_QUESTION`, adds one to the counter and
appends to the question text the line without its leading whitespace, label
included, whatever the line starts with; only a leading `<block>` is dropped, a
block region being opened.  `next_fmt` is called for the label after the next,
which lands in `next_question`, and its result is not `NULL`; no line, and so no
run of lines, makes `process_file` take its early return.  On the line where the
style is detected the label and its separator are not part of the text. -/
theorem locked_question_line_keeps_label (ident : CStr) (st : PF) (line : CStr) (ic : Bool)
    (hstate : st.state = STATE_NONE) (hf1 : st.g.G_qformat.style ≠ FMT_UNKNOWN)
    (hf2 : st.g.G_qformat.style ≠ FMT_NONE)
    (hcode : st.in_code = false) (hblk : st.in_block = false)
    (hnb : (skip_spaces line).length ≠ 0)
    (hic : scan_code false (skip_spaces line) = some ic)
    (hq : st.question.Ok) (hsz : st.question.content.length + line.length + 257 ≤ 2 ^ 31)
    (hq0 : 0 ≤ st.qnum) (hqn : st.qnum + 2 < 10 ^ 8)
    (hnq : st.next_question.length < CHOICE_ID_LEN) :
    (∃ b, next_fmt (st.qnum + 1) st.next_question st.g.G_qformat = some (some b) ∧
      process_line ident st line =
        some (STEP.next { st with
          next_question := b,
          state := STATE_QUESTION, in_code := ic, after_empty_line := false,
          in_block := strncasecmp_eq (skip_spaces line) "<block>".toList 7,
          qnum := st.qnum + 1,
          question := st.question.app
            (if strncasecmp_eq (skip_spaces line) "<block>".toList 7
             then (skip_spaces line).drop 7 else skip_spaces line),
          answer_known := false, correct := false, maybe_correct := false })) ∧
    (∀ (st0 : PF) (l : CStr) (g : GLOBALS), process_line ident st0 l ≠ some (STEP.returned g)) ∧
    (∀ (st0 : PF) (ls : List CStr) (g : GLOBALS),
      process_lines ident st0 ls ≠ some (STEP.returned g)) ∧
    (∀ (st0 : PF) (c d : Char) (rest : CStr) (ic0 : Bool),
      st0.state = STATE_NONE → st0.g.G_qformat.style = FMT_UNKNOWN →
      st0.in_code = false → st0.in_block = false →
      is_first_label c = true → (d = '.' ∨ d = ')' ∨ d = '-') →
      scan_code false (c :: d :: rest) = some ic0 → st0.question.Ok →
      st0.question.content.length + rest.length + 257 ≤ 2 ^ 31 → st0.qnum + 1 ≤ INT_MAX →
      ∃ st1, process_line ident st0 (c :: d :: rest) = some (STEP.next st1) ∧
        st1.question = st0.question.app
          (if strncasecmp_eq rest "<block>".toList 7 then rest.drop 7 else rest)) := by
  refine ⟨?_, fun st0 l g => process_line_next ident st0 l g,
    fun st0 ls g => process_lines_next ident ls st0 g, ?_⟩
  · obtain ⟨b, hb, hbl⟩ := next_fmt_locked_fits (st.qnum + 1) st.next_question st.g.G_qformat
      hf1 hf2 (by omega) (by omega) hnq
    refine ⟨b, hb, ?_⟩
    have hsk : skip_spaces (skip_spaces line) = skip_spaces line := by
      cases hl : skip_spaces line with
      | nil => rfl
      | cons c r =>
        have : isspace c = false := by
          by_contra hc
          have hc2 : isspace c = true := by simpa using hc
          have key : ∀ l : CStr, ∀ c r, skip_spaces l = c :: r → isspace c = false := by
            intro l
            induction l with
            | nil => intro c r h; simp [skip_spaces] at h
            | cons a l ih =>
              intro c r h
              unfold skip_spaces at h
              split at h
              · exact ih c r h
              · rename_i ha
                simp only [List.cons.injEq] at h
                rw [← h.1]; simpa using ha
          rw [key line c r hl] at hc2
          exact absurd hc2 (by simp)
        exact skip_spaces_cons _ _ this
    have hne : skip_spaces line ≠ [] := fun e => hnb (by rw [e]; rfl)
    have hle := skip_spaces_length line
    have hlen : (if strncasecmp_eq (skip_spaces line) "<block>".toList 7 = true
        then (skip_spaces line).drop 7 else skip_spaces line).length ≤ line.length := by
      split
      · simp only [List.length_drop]; omega
      · exact hle
    have hq2 : ¬ (st.qnum + 1 > INT_MAX) := by unfold INT_MAX; omega
    unfold process_line
    simp only [hcode, hblk, Bool.or_self, Bool.false_eq_true, if_false, hnb, ne_eq,
      not_false_eq_true, if_true, hic, Option.some_bind, hstate]
    unfold case_STATE_NONE
    simp only [hf1, if_false, hf2, ne_eq, not_false_eq_true, if_true, hq2, hb, hbl]
    unfold begin_question
    simp only [hq2, if_false, strbuf_add_app _ hq (by omega : st.question.content.length +
      (if strncasecmp_eq (skip_spaces line) "<block>".toList 7 = true
        then (skip_spaces line).drop 7 else skip_spaces line).length + 257 ≤ 2 ^ 31),
      Option.map_some', hblk, Bool.or_false]
  · intro st0 c d rest ic0 a1 a2 a3 a4 a5 a6 a7 a8 a9 a10
    exact ⟨_, none_detect_step ident st0 rest c d ic0 a1 a2 a3 a4 a5 a6 a7 a8 a9 a10, rfl⟩

theorem locked_question_line_keeps_label_witness :
    ∃ b, next_fmt (1 + 1) [] { style := FMT_NUMERICAL, sep := '.' } = some (some b) ∧
      process_line ['d'] (doc_state5 ['Q'] ['x'] ['y'] ['z'] ['d']) "  7. R\n".toList =
        some (STEP.next { doc_state5 ['Q'] ['x'] ['y'] ['z'] ['d'] with
          next_question := b,
          state := STATE_QUESTION, in_code := false, after_empty_line := false,
          in_block := false,
          qnum := 1 + 1,
          question := (doc_state5 ['Q'] ['x'] ['y'] ['z'] ['d']).question.app "7. R\n".toList,
          answer_known := false, correct := false, maybe_correct := false }) :=
  (locked_question_line_keeps_label ['d'] (doc_state5 ['Q'] ['x'] ['y'] ['z'] ['d'])
    "  7. R\n".toList false rfl (by decide) (by decide) rfl rfl (by decide) (by decide!)
    (doc_question5_ok ['Q'] ['x'] ['y'] ['z'] ['d'] (by unfold plain_text; decide)).1
    (by decide) (by decide) (by decide) (by decide)).1

/-! ## What a call that returns has written -/

theorem content_of_s {sb : STRBUF} {t : CStr} (h : sb.s = some t) : sb.content = t := by
  simp [STRBUF.content, h]

theorem strbuf_add_result {sb sb1 : STRBUF} (s : CStr) (h : sb.Regular)
    (e : strbuf_add sb s = some sb1) : sb1.s = some (sb.content ++ s) := by
  unfold strbuf_add at e
  split at e
  · exact absurd e (by simp)
  · by_cases h0 : sb.len = 0
    · rw [if_pos h0] at e
      split at e
      · simp only [Option.some.injEq] at e
        rw [← e]
        rcases h with ⟨_, _, h3⟩ | ⟨t, _, _, hlt, _⟩
        · simp [STRBUF.content, h3]
        · omega
      · exact absurd e (by simp)
    · rw [if_neg h0] at e
      split at e
      · exact absurd e (by simp)
      · rename_i t ht
        rw [content_of_s ht]
        split at e
        · split at e
          · simp only [Option.some.injEq] at e
            rw [← e]
          · exact absurd e (by simp)
        · split at e
          · simp only [Option.some.injEq] at e
            rw [← e]
          · exact absurd e (by simp)

theorem strbuf_addc_result {sb sb1 : STRBUF} (c : Char) (h : sb.Regular)
    (e : strbuf_addc sb c = some sb1) : sb1.s = some (sb.content ++ [c]) := by
  rcases h with ⟨h1, h2, h3⟩ | ⟨t, ht, hcur, hlt, hmul, hmax⟩
  · exfalso
    unfold strbuf_addc at e
    have : ¬ (sb.curlen ≥ SIZE_MOD - 1) := by rw [h2]; unfold SIZE_MOD; omega
    simp only [h1, if_true, this, if_false, h3] at e
    exact absurd e (by simp)
  · have h0 : sb.len ≠ 0 := by omega
    rw [content_of_s ht]
    unfold strbuf_addc at e
    simp only [if_neg h0] at e
    by_cases hg : sb.curlen ≥ sb.len - 1
    · simp only [hg, if_true] at e
      by_cases ha : (sb.len + CHUNK) % SIZE_MOD ≤ ALLOC_MAX
      · simp only [ha, if_true, ht] at e
        split at e
        · simp only [Option.some.injEq] at e
          rw [← e]
          simp only [hcur, le_refl, if_true, List.take_length]
        · exact absurd e (by simp)
      · simp only [ha, if_false] at e
        exact absurd e (by simp)
    · simp only [hg, if_false, ht] at e
      split at e
      · simp only [Option.some.injEq] at e
        rw [← e]
        simp only [hcur, le_refl, if_true, List.take_length]
      · exact absurd e (by simp)

theorem strbuf_adds_result (xs : List CStr) : ∀ {sb sb1 : STRBUF}, sb.Regular →
    strbuf_adds sb xs = some sb1 →
    sb1.Regular ∧ sb1.content = sb.content ++ concat_all xs ∧
      (xs ≠ [] → sb1.s = some (sb.content ++ concat_all xs)) := by
  induction xs with
  | nil =>
    intro sb sb1 h e
    simp only [strbuf_adds, Option.some.injEq] at e
    subst e
    exact ⟨h, by simp [concat_all], fun hne => absurd rfl hne⟩
  | cons x xs ih =>
    intro sb sb1 h e
    simp only [strbuf_adds, Option.bind_eq_some] at e
    obtain ⟨sb2, e1, e2⟩ := e
    have r2 := regular_add x h e1
    have c2 := strbuf_add_result x h e1
    obtain ⟨r1, c1, s1⟩ := ih r2 e2
    rw [content_of_s c2] at c1 s1
    refine ⟨r1, by rw [c1]; simp [concat_all], fun _ => ?_⟩
    cases xs with
    | nil =>
      simp only [strbuf_adds, Option.some.injEq] at e2
      subst e2
      rw [c2]; simp [concat_all]
    | cons y ys =>
      rw [s1 (by simp)]; simp [concat_all]

theorem html_safe_stradd_loop_result (s : CStr) : ∀ {sp sp1 : STRBUF}, sp.Regular →
    html_safe_stradd_loop sp s = some sp1 →
    sp1.Regular ∧ sp1.content = sp.content ++ Escape s := by
  induction s with
  | nil =>
    intro sp sp1 h e
    simp only [html_safe_stradd_loop, Option.some.injEq] at e
    subst e
    exact ⟨h, by simp [Escape]⟩
  | cons c p ih =>
    intro sp sp1 h e
    simp only [html_safe_stradd_loop, Option.bind_eq_some] at e
    obtain ⟨sp2, e1, e2⟩ := e
    have key : sp2.Regular ∧ sp2.s = some (sp.content ++ html_entity c) := by
      unfold html_entity
      by_cases h1 : c = '<'
      · rw [if_pos h1] at e1 ⊢
        exact ⟨regular_add _ h e1, strbuf_add_result _ h e1⟩
      · rw [if_neg h1] at e1 ⊢
        by_cases h2 : c = '>'
        · rw [if_pos h2] at e1 ⊢
          exact ⟨regular_add _ h e1, strbuf_add_result _ h e1⟩
        · rw [if_neg h2] at e1 ⊢
          by_cases h3 : c = '"'
          · rw [if_pos h3] at e1 ⊢
            exact ⟨regular_add _ h e1, strbuf_add_result _ h e1⟩
          · rw [if_neg h3] at e1 ⊢
            by_cases h4 : c = '#'
            · rw [if_pos h4] at e1 ⊢
              exact ⟨regular_add _ h e1, strbuf_add_result _ h e1⟩
            · rw [if_neg h4] at e1 ⊢
              by_cases h5 : c = '&'
              · rw [if_pos h5] at e1 ⊢
                exact ⟨regular_add _ h e1, strbuf_add_result _ h e1⟩
              · rw [if_neg h5] at e1 ⊢
                exact ⟨regular_addc _ h e1, strbuf_addc_result _ h e1⟩
    obtain ⟨r1, c1⟩ := ih key.1 e2
    rw [content_of_s key.2] at c1
    exact ⟨r1, by rw [c1]; simp [Escape]⟩

theorem html_safe_stradd_result (t : Option CStr) {sp sp1 : STRBUF} (h : sp.Regular)
    (e : html_safe_stradd sp t = some sp1) :
    sp1.Regular ∧ sp1.content = sp.content ++ escape_opt t := by
  cases t with
  | none =>
    simp only [html_safe_stradd, Option.some.injEq] at e
    subst e
    exact ⟨h, by simp [escape_opt]⟩
  | some s => exact html_safe_stradd_loop_result s h e

theorem qti_1_2_labels_result (numstr : CStr) (L : List CHOICE_T) : ∀ {s s1 : STRBUF},
    s.Regular → qti_1_2_labels numstr s L = some s1 →
    s1.Regular ∧ s1.content = s.content ++ labels_text numstr L := by
  induction L with
  | nil =>
    intro s s1 h e
    simp only [qti_1_2_labels, Option.some.injEq] at e
    subst e
    exact ⟨h, by simp [labels_text]⟩
  | cons ch rest ih =>
    intro s s1 h e
    unfold qti_1_2_labels at e
    cases hid : ch.id with
    | none =>
      simp only [hid] at e
      obtain ⟨r1, c1⟩ := ih h e
      exact ⟨r1, by rw [c1]; simp [labels_text, hid]⟩
    | some id =>
      simp only [hid, Option.bind_eq_some] at e
      obtain ⟨a, ea, b, eb, c, ec, e4⟩ := e
      obtain ⟨ra, ca, _⟩ := strbuf_adds_result _ h ea
      obtain ⟨rb, cb⟩ := html_safe_stradd_result _ ra eb
      obtain ⟨rc, cc, _⟩ := strbuf_adds_result _ rb ec
      obtain ⟨r1, c1⟩ := ih rc e4
      refine ⟨r1, ?_⟩
      rw [c1, cc, cb, ca]
      simp only [labels_text, hid, response_label, List.append_assoc]

theorem qti_1_2_multi_result (numstr : CStr) (L : List CHOICE_T) : ∀ {s s1 : STRBUF},
    s.Regular → qti_1_2_multi numstr s L = some s1 →
    s1.Regular ∧ s1.content = s.content ++ multi_text numstr L := by
  induction L with
  | nil =>
    intro s s1 h e
    simp only [qti_1_2_multi, Option.some.injEq] at e
    subst e
    exact ⟨h, by simp [multi_text]⟩
  | cons ch rest ih =>
    intro s s1 h e
    unfold qti_1_2_multi at e
    cases hid : ch.id with
    | none =>
      simp only [hid, Option.some.injEq] at e
      subst e
      exact ⟨h, by simp [multi_text, hid]⟩
    | some id =>
      simp only [hid, Option.bind_eq_some] at e
      obtain ⟨a, ea, e2⟩ := e
      have ka : a.Regular ∧ a.content = s.content ++
          (if !ch.correct then varequal_neg numstr id else varequal_pos numstr id) := by
        cases hc : ch.correct with
        | false =>
          simp only [hc, Bool.not_false, if_true] at ea ⊢
          obtain ⟨ra, ca, _⟩ := strbuf_adds_result _ h ea
          exact ⟨ra, by rw [ca]; rfl⟩
        | true =>
          simp only [hc, Bool.not_true, Bool.false_eq_true, if_false] at ea ⊢
          obtain ⟨ra, ca, _⟩ := strbuf_adds_result _ h ea
          exact ⟨ra, by rw [ca]; rfl⟩
      obtain ⟨r1, c1⟩ := ih ka.1 e2
      refine ⟨r1, ?_⟩
      rw [c1, ka.2]
      simp only [multi_text, hid, List.append_assoc]

theorem qti_1_2_condition_result (numstr : CStr) (qtype : Nat) (L : List CHOICE_T)
    {s s1 : STRBUF} (h : s.Regular) (e : qti_1_2_condition numstr qtype s L = some s1) :
    s1.Regular ∧ s1.content = s.content ++ condition_text numstr qtype L := by
  unfold qti_1_2_condition at e
  unfold condition_text
  by_cases hq : QTYPE_MULTCHOICE = qtype
  · rw [if_pos hq] at e ⊢
    unfold qti_1_2_single at e
    cases hf : qti_1_2_first L with
    | none =>
      simp only [hf, Option.some.injEq] at e
      subst e
      exact ⟨h, by simp⟩
    | some ch =>
      cases hid : ch.id with
      | none =>
        simp only [hf, hid, Option.some.injEq] at e
        subst e
        exact ⟨h, by simp [hid]⟩
      | some id =>
        simp only [hf, hid] at e ⊢
        obtain ⟨r1, c1, _⟩ := strbuf_adds_result _ h e
        exact ⟨r1, by rw [c1]; rfl⟩
  · rw [if_neg hq] at e ⊢
    simp only [Option.bind_eq_some] at e
    obtain ⟨a, ea, b, eb, ec⟩ := e
    have ra := regular_add _ h ea
    have ca := content_of_s (strbuf_add_result _ h ea)
    obtain ⟨rb, cb⟩ := qti_1_2_multi_result numstr L ra eb
    have r1 := regular_add _ rb ec
    have c1 := content_of_s (strbuf_add_result _ rb ec)
    exact ⟨r1, by rw [c1, cb, ca]; simp only [List.append_assoc]⟩

/-- Whenever `qti_1_2` returns, its result is the item text. -/
theorem qti_1_2_result (qnum : Int) (qtype : Nat) (qtext : Option CStr) (qchoices : List CHOICE_T)
    (qchoicecnt : Nat) (ident : CStr) (r : Option CStr)
    (e : qti_1_2 qnum qtype qtext qchoices qchoicecnt ident = some r) :
    r = some (item_text qnum qtype qtext (qchoices.take qchoicecnt) ident) := by
  unfold qti_1_2 at e
  split at e
  · exact absurd e (by simp)
  · simp only [Option.bind_eq_some, Option.some.injEq] at e
    obtain ⟨s1, e1, s2, e2, s3, e3, s4, e4, s5, e5, s6, e6, s7, e7, rfl⟩ := e
    obtain ⟨r1, c1, _⟩ := strbuf_adds_result _ regular_init e1
    obtain ⟨r2, c2⟩ := html_safe_stradd_result _ r1 e2
    obtain ⟨r3, c3, _⟩ := strbuf_adds_result _ r2 e3
    obtain ⟨r4, c4⟩ := qti_1_2_labels_result _ _ r3 e4
    obtain ⟨r5, c5, _⟩ := strbuf_adds_result _ r4 e5
    obtain ⟨r6, c6⟩ := qti_1_2_condition_result _ _ _ r5 e6
    obtain ⟨_, _, c7⟩ := strbuf_adds_result _ r6 e7
    rw [c7 (by simp), c6, c5, c4, c3, c2, c1]
    simp only [content_init, List.nil_append, item_text, item_open, item_middle, item_close,
      List.append_assoc]

theorem process_question_result (qnum : Int) (qtext : Option CStr) (qchoices : List CHOICE_T)
    (qchoicecnt : Nat) (ident : CStr) (r : Option CStr)
    (e : process_question qnum qtext qchoices qchoicecnt ident = some r) :
    r = some (item_text qnum (question_type qchoices qchoicecnt) qtext
      (qchoices.take qchoicecnt) ident) := by
  unfold process_question at e
  split at e
  · exact absurd e (by simp)
  · exact qti_1_2_result _ _ _ _ _ _ _ e

theorem stored_content {sb : STRBUF} (hs : sb.s.isSome) : sb.s = some sb.content := by
  obtain ⟨t, ht⟩ := Option.isSome_iff_exists.1 hs
  rw [content_of_s ht, ht]

theorem encode_question_loop_result (fuel : Nat) : ∀ (p1 : CStr) {m m1 : STRBUF}, m.Regular →
    encode_question_loop fuel m p1 = some m1 →
    m1.Regular ∧ m1.content = m.content ++ encode_text fuel p1 ∧
      (m.s.isSome → m1.s.isSome) ∧ (fuel ≠ 0 → p1 ≠ [] → m1.s.isSome) := by
  induction fuel with
  | zero =>
    intro p1 m m1 h e
    simp only [encode_question_loop, Option.some.injEq] at e
    subst e
    exact ⟨h, by simp [encode_text], fun hs => hs, fun h0 => absurd rfl h0⟩
  | succ fuel ih =>
    intro p1 m m1 h e
    unfold encode_question_loop at e
    unfold encode_text
    by_cases hp : p1.isEmpty = true
    · rw [if_pos hp] at e ⊢
      simp only [Option.some.injEq] at e
      subst e
      refine ⟨h, by simp, fun hs => hs, fun _ hne => ?_⟩
      exact absurd (List.isEmpty_iff.1 hp) hne
    · rw [if_neg hp] at e ⊢
      cases hk : strstr p1 START_CODE with
      | none =>
        simp only [hk] at e ⊢
        have c1 := strbuf_add_result _ h e
        exact ⟨regular_add _ h e, content_of_s c1, fun _ => by rw [c1]; rfl,
          fun _ _ => by rw [c1]; rfl⟩
      | some k =>
        simp only [hk, Option.bind_eq_some] at e ⊢
        obtain ⟨a, ea, e2⟩ := e
        obtain ⟨ra, ca, sa⟩ := strbuf_adds_result _ h ea
        have sa := sa (by simp)
        cases hj : strstr (p1.drop (k + START_CODE.length)) END_CODE with
        | none =>
          simp only [hj, Option.bind_eq_some] at e2 ⊢
          obtain ⟨b, eb, ec⟩ := e2
          obtain ⟨rb, cb⟩ := html_safe_stradd_result _ ra eb
          have c1 := strbuf_add_result _ rb ec
          refine ⟨regular_add _ rb ec, ?_, fun _ => by rw [c1]; rfl, fun _ _ => by rw [c1]; rfl⟩
          rw [content_of_s c1, cb, ca]
          simp only [concat_all, escape_opt, List.append_assoc, List.append_nil]
        | some j =>
          simp only [hj, Option.bind_eq_some] at e2 ⊢
          obtain ⟨b, eb, c, ec, e3⟩ := e2
          obtain ⟨rb, cb⟩ := html_safe_stradd_result _ ra eb
          have rc := regular_add _ rb ec
          have cc := strbuf_add_result _ rb ec
          obtain ⟨r1, c1, s1, _⟩ := ih _ rc e3
          have hs1 : m1.s.isSome := s1 (by rw [cc]; rfl)
          refine ⟨r1, ?_, fun _ => hs1, fun _ _ => hs1⟩
          rw [c1, content_of_s cc, cb, ca]
          simp only [concat_all, escape_opt, List.append_assoc, List.append_nil]

/-- Whenever `encode_question` returns, its result is the encoded text. -/
theorem encode_question_result (q r : Option CStr) (e : encode_question q = some r) :
    r = encoded_question q := by
  cases q with
  | none =>
    simp only [encode_question, Option.some.injEq] at e
    rw [← e]; rfl
  | some q =>
    simp only [encode_question, Option.map_eq_some'] at e
    obtain ⟨m, em, rfl⟩ := e
    obtain ⟨r1, c1, _, s1⟩ := encode_question_loop_result _ q regular_init em
    unfold encoded_question
    by_cases hq : q.isEmpty = true
    · simp only [hq, if_true]
      have hq2 : q = [] := List.isEmpty_iff.1 hq
      subst hq2
      simp only [List.length_nil, Nat.zero_add, encode_question_loop, List.isEmpty_nil, if_true,
        Option.some.injEq] at em
      rw [← em]; rfl
    · simp only [hq, Bool.false_eq_true, if_false]
      have hs := s1 (by omega) (fun hn => hq (by rw [hn]; rfl))
      rw [stored_content hs, c1]
      simp

/-! ## Fragments are written on closing blank lines only -/

theorem begin_question_xml (st st1 : PF) (p : CStr)
    (h : begin_question st p = some (STEP.next st1)) : st1.xml = st.xml := by
  unfold begin_question at h
  simp only at h
  split at h
  · exact absurd h (by simp)
  · simp only [Option.map_eq_some', STEP.next.injEq] at h
    obtain ⟨q, _, rfl⟩ := h
    rfl

theorem case_STATE_NONE_xml (st st1 : PF) (p : CStr)
    (h : case_STATE_NONE st p = some (STEP.next st1)) : st1.xml = st.xml := by
  unfold case_STATE_NONE at h
  split at h
  · have e := begin_question_xml _ _ _ h; exact e
  · split at h
    · split at h
      · exact absurd h (by simp)
      · split at h
        · exact absurd h (by simp)
        · exact absurd h (by simp)
        · split at h
          · have e := begin_question_xml _ _ _ h; exact e
          · exact absurd h (by simp)
    · have e := begin_question_xml _ _ _ h; exact e

theorem first_choice_text_xml (st st1 : PF) (mc : Bool) (p : CStr)
    (h : first_choice_text st mc p = some st1) : st1.xml = st.xml := by
  unfold first_choice_text at h
  simp only [Option.map_eq_some'] at h
  obtain ⟨ch, _, rfl⟩ := h
  rfl

theorem still_question_xml (st st1 : PF) (p : CStr)
    (h : still_question st p = some st1) : st1.xml = st.xml := by
  unfold still_question at h
  split at h
  · simp only [Option.bind_eq_some, Option.map_eq_some'] at h
    obtain ⟨q1, _, q2, _, rfl⟩ := h
    rfl
  · simp only [Option.map_eq_some'] at h
    obtain ⟨q1, _, rfl⟩ := h
    rfl

theorem case_STATE_QUESTION_xml (st st1 : PF) (p : CStr)
    (h : case_STATE_QUESTION st p = some st1) : st1.xml = st.xml := by
  unfold case_STATE_QUESTION at h
  simp only at h
  split at h <;>
  · split at h
    · simp only [Option.bind_eq_some] at h
      obtain ⟨nc, _, h⟩ := h
      have e := first_choice_text_xml _ _ _ _ h; exact e
    · split at h
      · split at h
        · simp only [Option.bind_eq_some] at h
          obtain ⟨nc, _, h⟩ := h
          have e := first_choice_text_xml _ _ _ _ h; exact e
        · exact absurd h (by simp)
      · have e := still_question_xml _ _ _ h; exact e

theorem next_choice_line_xml (st st1 : PF) (mc : Bool) (s : CStr)
    (h : next_choice_line st mc s = some st1) : st1.xml = st.xml := by
  unfold next_choice_line at h
  split at h
  · exact absurd h (by simp)
  · simp only [Option.bind_eq_some, Option.map_eq_some'] at h
    obtain ⟨a, _, nc, _, ch, _, rfl⟩ := h
    rfl

theorem answer_line_xml (st st1 : PF) (p : CStr)
    (h : answer_line st p = some st1) : st1.xml = st.xml := by
  unfold answer_line at h
  simp only [Option.bind_eq_some] at h
  obtain ⟨a, _, h⟩ := h
  split at h
  · exact absurd h (by simp)
  · simp only [Option.some.injEq] at h
    rw [← h]

theorem case_STATE_CHOICE_xml (st st1 : PF) (p : CStr)
    (h : case_STATE_CHOICE st p = some st1) : st1.xml = st.xml := by
  unfold case_STATE_CHOICE at h
  simp only at h
  split at h <;>
  · split at h
    · have e := next_choice_line_xml _ _ _ _ h; exact e
    · split at h
      · have e := answer_line_xml _ _ _ h; exact e
      · simp only [Option.map_eq_some'] at h
        obtain ⟨ch, _, rfl⟩ := h
        rfl

theorem closing_blank_iff (st : PF) (line : CStr) :
    closing_blank st line = true ↔
      (skip_spaces line).length = 0 ∧ st.in_code = false ∧ st.in_block = false ∧ closes_item st := by
  unfold closing_blank closes_item
  cases st.in_code <;> cases st.in_block <;> simp [and_assoc]

/-- A blank line: the fragment is appended when the closing condition holds, and
`xml` is left alone otherwise. -/
theorem empty_line_xml (ident : CStr) (st st1 : PF) (line : CStr) (hx : st.xml.Regular)
    (hbl : (skip_spaces line).length = 0)
    (h : empty_line ident st = some st1) :
    st1.xml.Regular ∧
    (closing_blank st line = true → (closing_choices st).isSome ∧
        st1.xml.s = some (st.xml.content ++ closing_fragment ident st)) ∧
    (closing_blank st line = false → st1.xml = st.xml) := by
  have hiff := closing_blank_iff st line
  unfold closes_item at hiff
  unfold empty_line at h
  by_cases hr : (!st.in_code && !st.in_block) = true
  · rw [if_pos hr] at h
    have hr2 : st.in_code = false ∧ st.in_block = false := by
      revert hr; cases st.in_code <;> cases st.in_block <;> simp
    by_cases hc : st.state = STATE_ANSWER ∨
        (st.state = STATE_CHOICE ∧ (st.answer_known = true ∨ st.g.G_no_answers = true))
    · rw [if_pos hc] at h
      have hcb : closing_blank st line = true := hiff.2 ⟨hbl, hr2.1, hr2.2, hc⟩
      simp only [Option.bind_eq_some, Option.map_eq_some'] at h
      obtain ⟨a, ha, eq, heq, q, hq, xml, hxml, arr2, _, rfl⟩ := h
      obtain ⟨arr, cnt⟩ := a
      have hcc : closing_choices st = some (arr, cnt) := by unfold closing_choices; exact ha
      have e1 := encode_question_result _ _ heq
      have e2 := process_question_result _ _ _ _ _ _ hq
      subst e1
      subst e2
      simp only at hxml
      refine ⟨regular_add _ hx hxml, fun _ => ⟨by rw [hcc]; rfl, ?_⟩,
        fun hf => by rw [hcb] at hf; exact absurd hf (by simp)⟩
      show xml.s = _
      rw [strbuf_add_result _ hx hxml]
      unfold closing_fragment
      rw [hcc]
    · rw [if_neg hc] at h
      simp only [Option.some.injEq] at h
      subst h
      have hcb : ¬ closing_blank st line = true := fun ht => hc (hiff.1 ht).2.2.2
      exact ⟨hx, fun ht => absurd ht hcb, fun _ => rfl⟩
  · rw [if_neg hr] at h
    simp only [Option.map_eq_some'] at h
    obtain ⟨q, _, rfl⟩ := h
    have hcb : ¬ closing_blank st line = true := by
      intro ht
      obtain ⟨_, a, b, _⟩ := hiff.1 ht
      exact hr (by rw [a, b]; rfl)
    exact ⟨hx, fun ht => absurd ht hcb, fun _ => rfl⟩

/-- One line: `xml` changes on a closing blank line only. -/
theorem process_line_xml (ident : CStr) (st st1 : PF) (line : CStr) (hx : st.xml.Regular)
    (h : process_line ident st line = some (STEP.next st1)) :
    st1.xml.Regular ∧
    (closing_blank st line = true → (closing_choices st).isSome ∧
        st1.xml.s = some (st.xml.content ++ closing_fragment ident st)) ∧
    (closing_blank st line = false → st1.xml = st.xml) := by
  unfold process_line at h
  simp only at h
  by_cases hl : (skip_spaces line).length ≠ 0
  · rw [if_pos hl] at h
    have hcb : ¬ closing_blank st line = true := fun ht => hl ((closing_blank_iff st line).1 ht).1
    have hxml : st1.xml = st.xml := by
      simp only [Option.bind_eq_some] at h
      obtain ⟨ic, _, h⟩ := h
      split at h
      · have e := case_STATE_NONE_xml _ _ _ h; exact e
      · simp only [Option.map_eq_some', STEP.next.injEq] at h
        obtain ⟨st2, h, rfl⟩ := h
        have e := case_STATE_QUESTION_xml _ _ _ h; exact e
      · simp only [Option.map_eq_some', STEP.next.injEq] at h
        obtain ⟨st2, h, rfl⟩ := h
        have e := case_STATE_CHOICE_xml _ _ _ h; exact e
      · simp only [Option.some.injEq, STEP.next.injEq] at h
        rw [← h]
    exact ⟨by rw [hxml]; exact hx, fun ht => absurd ht hcb, fun _ => hxml⟩
  · rw [if_neg hl] at h
    simp only [Option.map_eq_some', STEP.next.injEq] at h
    obtain ⟨st2, h, rfl⟩ := h
    exact empty_line_xml ident st st2 line hx (by omega) h

/-- A run of lines: `xml` receives one fragment per closing blank line, in order,
and nothing else. -/
theorem process_lines_xml (ident : CStr) (lines : List CStr) : ∀ (st st1 : PF), st.xml.Regular →
    process_lines ident st lines = some (STEP.next st1) →
    st1.xml.Regular ∧
    st1.xml.content = st.xml.content ++
      ((closing_states ident st lines).map (closing_fragment ident)).join ∧
    (closing_states ident st lines = [] → st1.xml = st.xml) ∧
    (closing_states ident st lines ≠ [] → st1.xml.s.isSome) ∧
    (∀ s ∈ closing_states ident st lines, (closing_choices s).isSome) := by
  induction lines with
  | nil =>
    intro st st1 hx h
    simp only [process_lines, Option.some.injEq, STEP.next.injEq] at h
    subst h
    exact ⟨hx, by simp [closing_states], fun _ => rfl, fun hne => absurd rfl hne,
      fun s hs => by simp [closing_states] at hs⟩
  | cons line rest ih =>
    intro st st1 hx h
    unfold process_lines at h
    cases hp : process_line ident st line with
    | none => rw [hp] at h; exact absurd h (by simp)
    | some r =>
      cases r with
      | returned g => rw [hp] at h; exact absurd h (by simp)
      | next st2 =>
        rw [hp] at h
        simp only at h
        obtain ⟨r2, pt, pf⟩ := process_line_xml ident st st2 line hx hp
        obtain ⟨r1, c1, n1, s1, a1⟩ := ih st2 st1 r2 h
        have hcs : closing_states ident st (line :: rest) =
            (if closing_blank st line then [st] else []) ++ closing_states ident st2 rest := by
          simp only [closing_states, hp]
        rw [hcs]
        cases hcb : closing_blank st line with
        | true =>
          obtain ⟨hch, hs2⟩ := pt hcb
          have hc2 := content_of_s hs2
          simp only [if_true, List.singleton_append, List.map_cons, List.join_cons]
          refine ⟨r1, by rw [c1, hc2, List.append_assoc], fun hn => absurd hn (by simp),
            fun _ => ?_, ?_⟩
          · by_cases hrest : closing_states ident st2 rest = []
            · rw [n1 hrest, hs2]; rfl
            · exact s1 hrest
          · intro s hs
            rcases List.mem_cons.1 hs with e | e
            · rw [e]; exact hch
            · exact a1 s e
        | false =>
          have hx2 := pf hcb
          simp only [Bool.false_eq_true, if_false, List.nil_append]
          refine ⟨r1, by rw [c1, hx2], fun hn => by rw [n1 hn, hx2], s1, a1⟩

theorem closing_states_nonblank (ident : CStr) (lines : List CStr) : ∀ (st : PF),
    (∀ l ∈ lines, (skip_spaces l).length ≠ 0) → closing_states ident st lines = [] := by
  induction lines with
  | nil => intro st _; rfl
  | cons line rest ih =>
    intro st hl
    have h1 : closing_blank st line = false := by
      cases hcb : closing_blank st line with
      | false => rfl
      | true =>
        exact absurd ((closing_blank_iff st line).1 hcb).1 (hl line (List.mem_cons_self _ _))
    have h2 : ∀ st2, closing_states ident st2 rest = [] :=
      fun st2 => ih st2 (fun l hm => hl l (List.mem_cons_of_mem _ hm))
    unfold closing_states
    rw [h1]
    simp only [Bool.false_eq_true, if_false, List.nil_append]
    split
    · exact h2 _
    · rfl

theorem closing_states_closing (ident : CStr) (lines : List CStr) : ∀ (st s : PF),
    s ∈ closing_states ident st lines → ∃ l ∈ lines, closing_blank s l = true := by
  induction lines with
  | nil => intro st s hs; simp [closing_states] at hs
  | cons line rest ih =>
    intro st s hs
    unfold closing_states at hs
    rcases List.mem_append.1 hs with h1 | h2
    · by_cases hcb : closing_blank st line = true
      · rw [if_pos hcb] at h1
        have e := List.mem_singleton.1 h1
        subst e
        exact ⟨line, List.mem_cons_self _ _, hcb⟩
      · rw [if_neg hcb] at h1
        simp at h1
    · split at h2
      · obtain ⟨l, hl, h⟩ := ih _ s h2
        exact ⟨l, List.mem_cons_of_mem _ hl, h⟩
      · simp at h2

theorem process_lines_split (ident : CStr) (l1 l2 : List CStr) : ∀ (st st2 : PF),
    process_lines ident st (l1 ++ l2) = some (STEP.next st2) →
    ∃ st1, process_lines ident st l1 = some (STEP.next st1) ∧
      process_lines ident st1 l2 = some (STEP.next st2) := by
  induction l1 with
  | nil => intro st st2 h; exact ⟨st, rfl, h⟩
  | cons a l1 ih =>
    intro st st2 h
    simp only [List.cons_append, process_lines] at h ⊢
    cases hp : process_line ident st a with
    | none => rw [hp] at h; exact absurd h (by simp)
    | some r =>
      cases r with
      | returned g => rw [hp] at h; exact absurd h (by simp)
      | next st3 =>
        rw [hp] at h
        simp only at h ⊢
        exact ih st3 st2 h

theorem closing_fragment_item (ident : CStr) (s : PF) (h : (closing_choices s).isSome) :
    "<item title=\"Question ".toList <+: closing_fragment ident s ∧
      "</item>\n".toList <:+ closing_fragment ident s := by
  obtain ⟨a, ha⟩ := Option.isSome_iff_exists.1 h
  obtain ⟨arr, cnt⟩ := a
  unfold closing_fragment
  rw [ha]
  constructor
  · simp only [item_text, item_open, concat_all, List.append_assoc]
    exact List.prefix_append _ _
  · have h1 : "</item>\n".toList <:+ item_close := by decide
    unfold item_text
    exact List.IsSuffix.trans h1 (List.suffix_append _ _)

/-- C33: the text `process_file` returns is the concatenation of one fragment per
closing blank line (a blank line read with no region open in `STATE_ANSWER`, or in
`STATE_CHOICE` with an answer known or answers not asked for), in the order of
the lines; each fragment is one `<item ...> ... </item>` element; the result is
`NULL` exactly when there is no closing blank line.  The lines after the last
blank line add nothing, whatever the state they leave: an item that is complete
at the end of the input without a blank line after it is not emitted. -/
theorem fragments_on_closing_blank_lines (ident : CStr) (g : GLOBALS) (file : CStr) (q : Int)
    (r : PF_RESULT) (h : process_file g file q ident = some r) :
    (∃ frags : List CStr,
      frags = (closing_states ident (PF.start g q) (fgets_lines LINE_LEN file [])).map
        (closing_fragment ident) ∧
      r.xml.getD [] = frags.join ∧
      frags.length = (closing_states ident (PF.start g q) (fgets_lines LINE_LEN file [])).length ∧
      (∀ f ∈ frags, "<item title=\"Question ".toList <+: f ∧ "</item>\n".toList <:+ f) ∧
      (frags = [] ↔ r.xml = none)) ∧
    (∀ s ∈ closing_states ident (PF.start g q) (fgets_lines LINE_LEN file []),
      s.in_code = false ∧ s.in_block = false ∧ closes_item s) ∧
    (∀ pre post, fgets_lines LINE_LEN file [] = pre ++ post →
      (∀ l ∈ post, (skip_spaces l).length ≠ 0) →
      ∃ st1, process_lines ident (PF.start g q) pre = some (STEP.next st1) ∧
        r.xml = st1.xml.s) := by
  unfold process_file at h
  cases hp : process_lines ident (PF.start g q) (fgets_lines LINE_LEN file []) with
  | none => rw [hp] at h; exact absurd h (by simp)
  | some res =>
    cases res with
    | returned g1 => exact absurd hp (process_lines_next _ _ _ _)
    | next st =>
      rw [hp] at h
      simp only [Option.some.injEq] at h
      subst h
      obtain ⟨r1, c1, n1, s1, a1⟩ := process_lines_xml ident _ _ _ regular_init hp
      refine ⟨⟨_, rfl, ?_, by simp, ?_, ?_⟩, ?_, ?_⟩
      · show st.xml.content = _
        rw [c1]; rfl
      · intro f hf
        obtain ⟨s, hs, rfl⟩ := List.mem_map.1 hf
        exact closing_fragment_item ident s (a1 s hs)
      · constructor
        · intro he
          have he2 : closing_states ident (PF.start g q) (fgets_lines LINE_LEN file []) = [] :=
            List.map_eq_nil_iff.1 he
          show st.xml.s = none
          rw [n1 he2]; rfl
        · intro hn
          by_contra hne
          have hne2 : closing_states ident (PF.start g q) (fgets_lines LINE_LEN file []) ≠ [] :=
            fun e => hne (by rw [e]; rfl)
          have := s1 hne2
          have hn2 : st.xml.s = none := hn
          rw [hn2] at this
          exact absurd this (by simp)
      · intro s hs
        obtain ⟨l, _, hl⟩ := closing_states_closing ident _ _ s hs
        exact ((closing_blank_iff s l).1 hl).2
      · intro pre post hsplit hpost
        rw [hsplit] at hp
        obtain ⟨st1, h1, h2⟩ := process_lines_split ident pre post _ _ hp
        have rr := (process_lines_xml ident pre _ _ regular_init h1).1
        obtain ⟨_, _, n2, _, _⟩ := process_lines_xml ident post st1 st rr h2
        refine ⟨st1, h1, ?_⟩
        show st.xml.s = st1.xml.s
        rw [n2 (closing_states_nonblank ident post st1 hpost)]

theorem fragments_on_closing_blank_lines_witness :
    (process_file (GLOBALS.start false false) "1. Q\nA. x\n*B. y\n".toList 0 ['d'] =
        some { g := { GLOBALS.start false false with
                        G_qformat := { style := FMT_NUMERICAL, sep := '.' },
                        G_cformat := { style := FMT_ULETTER, sep := '.' } },
               qnump := 0, xml := none } ∧
      (process_lines ['d'] (PF.start (GLOBALS.start false false) 0)
          (fgets_lines LINE_LEN "1. Q\nA. x\n*B. y\n".toList [])).map
        (fun r => match r with
          | STEP.next st => (st.state, st.answer_known, st.in_code || st.in_block)
          | STEP.returned _ => (STATE_NONE, false, false))
        = some (STATE_CHOICE, true, false) ∧
      closing_states ['d'] (PF.start (GLOBALS.start false false) 0)
        (fgets_lines LINE_LEN "1. Q\nA. x\n*B. y\n".toList []) = []) ∧
    (∃ (r : PF_RESULT) (frags : List CStr),
      process_file (GLOBALS.start false false) "1. Q\nA. x\n*B. y\n\n".toList 0 ['d'] = some r ∧
      r.xml.getD [] = frags.join ∧ frags.length = 1 ∧
      ∀ f ∈ frags, "<item title=\"Question ".toList <+: f ∧ "</item>\n".toList <:+ f) := by
  have h0 : process_file (GLOBALS.start false false) "1. Q\nA. x\n*B. y\n".toList 0 ['d'] =
      some { g := { GLOBALS.start false false with
                      G_qformat := { style := FMT_NUMERICAL, sep := '.' },
                      G_cformat := { style := FMT_ULETTER, sep := '.' } },
             qnump := 0, xml := none } := by decide!
  obtain ⟨⟨frags0, e0, _, _, _, i0⟩, _, _⟩ :=
    fragments_on_closing_blank_lines ['d'] (GLOBALS.start false false)
      "1. Q\nA. x\n*B. y\n".toList 0 _ h0
  have hs : (process_file (GLOBALS.start false false) "1. Q\nA. x\n*B. y\n\n".toList 0
      ['d']).isSome = true := by decide!
  obtain ⟨r, hr⟩ := Option.isSome_iff_exists.1 hs
  obtain ⟨⟨frags, _, e1, l1, f1, _⟩, _, _⟩ :=
    fragments_on_closing_blank_lines ['d'] (GLOBALS.start false false)
      "1. Q\nA. x\n*B. y\n\n".toList 0 r hr
  have hl : (closing_states ['d'] (PF.start (GLOBALS.start false false) 0)
      (fgets_lines LINE_LEN "1. Q\nA. x\n*B. y\n\n".toList [])).length = 1 := by decide!
  refine ⟨⟨h0, by decide!, ?_⟩, r, frags, hr, e1, by rw [l1, hl], f1⟩
  have hf : frags0 = [] := i0.2 rfl
  rw [e0] at hf
  exact List.map_eq_nil_iff.1 hf
end Txt2qti
